import Mathlib

/-! SoSPD (sum-of-submodular primal-dual) orchestrator: embedding and properties.

The embedding follows `3rdparty/sospd/include/litiv/3rdparty/sospd/sospd.hpp`.

Conventions of the embedding.

* `ValueType` (`REAL`) and `IndexType` are template parameters of the source; they are
  embedded as mathematical integers (`Int`) and naturals (`Nat`), so no overflow is modelled.
  `/` and `%` on `REAL` are the C++ truncating operators, `Int.tdiv` and `Int.tmod`, and an
  index that meets a `REAL` in an expression (`energy / k`, `int(i) < remainder`) is taken
  as a signed integer of the same value.
* Stored labels are naturals; only the raw output of a proposal callback is an `Int`, which
  `InitialFusionLabeling` clamps.
* A `std::vector` is embedded as a total map from the index to the value; the flat layouts
  `i * m_num_labels + l` of the source are kept.  Accesses outside a vector are undefined in
  the source and are not modelled: the theorems carry the well-formedness facts (labels below
  `numLabels`, clique nodes below `numVars`) that keep every index in range.
* Loops are folds over `List.range`, in the order of the source.
* A failing `ASSERT` and a division by a zero clique size end the run with a `Fault`.
-/

namespace sospd

/-! ## Failures -/

/-- Modelled from the spec: the `ASSERT` macro, whose definition is not among the sources.
Section 7 of the specification makes every violated precondition or invariant fatal, so an
`ASSERT` whose condition is false ends the run.  These are the ways in which a run of the
orchestrator aborts, one per assertion of the source, plus the division by a zero clique
size. -/
inductive Fault where
  /-- Raised by `ASSERT(k < I(32))`. -/
  | cliqueTooLarge
  /-- Raised by `ASSERT(energy >= 0)` in `InitialDual`. -/
  | negativeEnergy
  /-- Raised by `ASSERT(ibfs_cliques.size() == m_energy->cliques().size())`. -/
  | cliqueCountMismatch
  /-- Raised by `ASSERT(k == ibfs_c.Size())`. -/
  | cliqueSizeMismatch
  /-- Raised by `ASSERT(energy_table.size() == max_assgn)`. -/
  | tableSizeMismatch
  /-- Raised by `ASSERT(energy_table[0] == 0)` in `PreEditDual`. -/
  | notTight
  /-- Raised by `ASSERT(correction <= 0)` in `PostEditDual`. -/
  | positiveCorrection
  /-- Raised by `energy / k` or `correction / k` with `k == 0`. -/
  | divisionByZero
  /-- Raised by `ASSERT(false)` in `DualFit`, which is not implemented. -/
  | unimplemented
  /-- Raised by `ASSERT(k == 3)` in `LowerBound`. -/
  | cliqueNotTriple
  /-- Raised by `ASSERT(dualSum == energy)` in `LowerBound`. -/
  | dualSumMismatch
  deriving DecidableEq

/-! ## Energy model (consumed interface) -/

/-- Modelled from the spec: a clique of the energy model (`multilabel-energy.hpp` is not
among the sources; section 6 gives the interface): `nodes()`, whose length is `size()`, and
`energy(buf)`, which reads the first `size()` labels of the buffer it is given. -/
structure Clique where
  nodes : List Nat
  energy : List Nat → Int

instance : Inhabited Clique := ⟨⟨[], fun _ => 0⟩⟩

/-- Translation of `c.size()`. -/
def Clique.size (c : Clique) : Nat := c.nodes.length

/-- Modelled from the spec: the multilabel energy of section 6, `numVars()`, `numLabels()`,
`unary(i, l)` and `cliques()`, together with `std::numeric_limits<REAL>::max()` of its
value type. -/
structure MLE where
  numVars : Nat
  numLabels : Nat
  unary : Nat → Nat → Int
  cliques : List Clique
  realMax : Int

/-- Well-formedness of an energy model: there is at least one label, every clique node is a
variable of the model, and no unary cost exceeds the largest value of `REAL`. -/
def MLE.WF (e : MLE) : Prop :=
  1 ≤ e.numLabels ∧ (∀ c ∈ e.cliques, ∀ v ∈ c.nodes, v < e.numVars) ∧
    ∀ i < e.numVars, ∀ l < e.numLabels, e.unary i l ≤ e.realMax

/-- Modelled from the spec: the total energy of a labeling (`MLE::ComputeEnergy`, not among
the sources), the sum of the unary costs plus all clique energies. -/
def MLE.ComputeEnergy (e : MLE) (labels : Nat → Nat) : Int :=
  ((List.range e.numVars).map (fun i => e.unary i (labels i))).sum +
    (e.cliques.map (fun c => c.energy (c.nodes.map labels))).sum

/-! ## Flow oracle (consumed interface) -/

/-- Modelled from the spec: a clique of the flow graph (`submodular-ibfs.hpp` is not among
the sources; section 6 gives the interface): its nodes, its bitmask-indexed energy table (a
vector of `tableSize` entries) and its flow potentials `AlphaCi()`. -/
structure IBFSClique where
  nodes : List Nat
  tableSize : Nat
  energyTable : Nat → Int
  alphaCi : List Int

instance : Inhabited IBFSClique := ⟨⟨[], 0, fun _ => 0, []⟩⟩

/-- Modelled from the spec: the flow object as the orchestrator sees it through the
interface of section 6: nodes, cliques, `Params().fixedVars`, the unary terms added since
the last `ClearUnaries`, the constant term, and the binary labels that `GetLabel` returns. -/
structure Flow where
  numNodes : Nat
  cliques : List IBFSClique
  fixedVars : List Bool
  unaries : List (Nat × Int × Int)
  constantTerm : Int
  label : Nat → Int

/-- A default-constructed flow object. -/
def Flow.empty : Flow := ⟨0, [], [], [], 0, fun _ => 0⟩

/-- Translation of `crf.AddNode(n)`. -/
def Flow.AddNode (crf : Flow) (n : Nat) : Flow := { crf with numNodes := crf.numNodes + n }

/-- Translation of `crf.AddClique(nodes, table)` for a table of `size` entries. -/
def Flow.AddClique (crf : Flow) (nodes : List Nat) (size : Nat) (table : Nat → Int) : Flow :=
  { crf with cliques := crf.cliques ++ [⟨nodes, size, table, List.replicate nodes.length 0⟩] }

/-- Translation of `crf.ClearUnaries()`. -/
def Flow.ClearUnaries (crf : Flow) : Flow := { crf with unaries := [] }

/-- Translation of `crf.AddConstantTerm(delta)`. -/
def Flow.AddConstantTerm (crf : Flow) (delta : Int) : Flow :=
  { crf with constantTerm := crf.constantTerm + delta }

/-- Translation of `crf.AddUnaryTerm(i, E0, E1)`. -/
def Flow.AddUnaryTerm (crf : Flow) (i : Nat) (E0 E1 : Int) : Flow :=
  { crf with unaries := crf.unaries ++ [(i, E0, E1)] }

/-- Write access to `EnergyTable()` of the clique `clique_index` of the flow graph: the
table is replaced. -/
def Flow.setEnergyTable (crf : Flow) (clique_index : Nat) (table : Nat → Int) : Flow :=
  let ibfs_c := crf.cliques.getD clique_index default
  { crf with cliques := crf.cliques.set clique_index { ibfs_c with energyTable := table } }

/-- What `crf.Solve()` leaves for the orchestrator to read: a binary label per variable and
a flow-potential vector per clique. -/
structure FlowResult where
  label : Nat → Int
  alphaCi : Nat → List Int

/-- The flow oracle: the result it computes from the flow object it is run on. -/
abbrev FlowOracle := Flow → FlowResult

/-- Gives every clique of a list its potentials, counting clique indices from `i`. -/
def setAlphaCi (r : FlowResult) : List IBFSClique → Nat → List IBFSClique
  | [], _ => []
  | c :: cs, i => { c with alphaCi := r.alphaCi i } :: setAlphaCi r cs (i + 1)

/-- Translation of `crf.Solve()`: the oracle's result is stored in the flow object. -/
def Flow.Solve (oracle : FlowOracle) (crf : Flow) : Flow :=
  let r := oracle crf
  { crf with label := r.label, cliques := setAlphaCi r crf.cliques 0 }

/-- The assignment bitmask of a clique under a binary labeling: bit `p` is set when the
clique's `p`-th node has binary label 1. -/
def cliqueMask (x : Nat → Bool) : List Nat → Nat
  | [] => 0
  | v :: vs => (if x v then 1 else 0) + 2 * cliqueMask x vs

/-- Modelled from the spec: the objective of the binary problem held by a flow object, the
sum of the unary terms (cost `E0` for binary label 0, `E1` for 1), of the constant term and
of each clique's energy-table entry at the clique's bitmask. -/
def Flow.ComputeEnergy (crf : Flow) (x : Nat → Bool) : Int :=
  (crf.unaries.map (fun t => if x t.1 then t.2.2 else t.2.1)).sum + crf.constantTerm +
    (crf.cliques.map (fun c => c.energyTable (cliqueMask x c.nodes))).sum

/-- A binary labeling is a minimum cut of the binary problem of a flow object. -/
def Flow.IsMinCut (crf : Flow) (x : Nat → Bool) : Prop :=
  ∀ y : Nat → Bool, crf.ComputeEnergy x ≤ crf.ComputeEnergy y

/-! ## Orchestrator state -/

/-- The proposal strategy `m_pc`: the two shipped ones, or a custom callback receiving the
iteration number, the current labeling and the proposal vector, and returning the proposal
vector it wrote. -/
inductive ProposalCallback where
  | heightAlpha
  | alpha
  | custom (f : Nat → (Nat → Nat) → (Nat → Int) → (Nat → Int))

/-- The members of `SoSPD`. -/
structure SoSPD where
  m_energy : MLE
  m_ibfs : Flow
  m_num_labels : Nat
  m_labels : Nat → Nat
  m_fusion_labels : Nat → Nat
  m_node_clique_list : Nat → List (Nat × Nat)
  m_dual : Nat → Nat → Int
  m_heights : Nat → Int
  m_expansion_submodular : Bool
  m_lower_bound : Bool
  m_iter : Nat
  m_pc : ProposalCallback

/-- Translation of the constructor `SoSPD(const MLE* energy)`. -/
def SoSPD.new (energy : MLE) : SoSPD where
  m_energy := energy
  m_ibfs := Flow.empty
  m_num_labels := energy.numLabels
  m_labels := fun _ => 0
  m_fusion_labels := fun _ => 0
  m_node_clique_list := fun _ => []
  m_dual := fun _ _ => 0
  m_heights := fun _ => 0
  m_expansion_submodular := false
  m_lower_bound := false
  m_iter := 0
  m_pc := ProposalCallback.heightAlpha

/-- Translation of `SetAlphaExpansion()`. -/
def SoSPD.SetAlphaExpansion (s : SoSPD) : SoSPD := { s with m_pc := ProposalCallback.alpha }

/-- Translation of `SetHeightAlphaExpansion()`. -/
def SoSPD.SetHeightAlphaExpansion (s : SoSPD) : SoSPD :=
  { s with m_pc := ProposalCallback.heightAlpha }

/-- Translation of `SetProposalCallback(pc)`. -/
def SoSPD.SetProposalCallback (s : SoSPD) (pc : ProposalCallback) : SoSPD :=
  { s with m_pc := pc }

/-- Translation of `Height(i, l)`, read access: `m_heights[i*m_num_labels+l]`. -/
def SoSPD.Height (s : SoSPD) (i l : Nat) : Int := s.m_heights (i * s.m_num_labels + l)

/-- Translation of `dualVariable(alpha, i, l)`, read access:
`m_dual[alpha][i*m_num_labels+l]`. -/
def SoSPD.dualVariable (s : SoSPD) (alpha i l : Nat) : Int :=
  s.m_dual alpha (i * s.m_num_labels + l)

/-- Translation of `GetLabel(i)`. -/
def SoSPD.GetLabel (s : SoSPD) (i : Nat) : Int := (s.m_labels i : Int)

/-- Runs a loop body once per clique, in order, with the clique index counted from `i`;
the first fault ends the loop. -/
def forCliques {σ : Type} (step : Nat → Clique → σ → Except Fault σ) :
    List Clique → Nat → σ → Except Fault σ
  | [], _, s => .ok s
  | c :: cs, i, s =>
    match step i c s with
    | .ok s' => forCliques step cs (i + 1) s'
    | .error f => .error f

/-- Runs a loop body that cannot fail once per clique, in order, with the clique index
counted from `i`. -/
def eachClique {σ : Type} (step : Nat → Clique → σ → σ) : List Clique → Nat → σ → σ
  | [], _, s => s
  | c :: cs, i, s => eachClique step cs (i + 1) (step i c s)

/-! ## Initialization -/

/-- The inner loop of `InitialLabeling` for variable `i`: the pair is `best_cost` and the
labeling. -/
def InitialLabeling_var (e : MLE) (numLabels : Nat) (i : Nat) (labels : Nat → Nat) :
    Int × (Nat → Nat) :=
  (List.range numLabels).foldl
    (fun st l => if e.unary i l < st.1 then (e.unary i l, Function.update st.2 i l) else st)
    (e.realMax, labels)

/-- Translation of `InitialLabeling`. -/
def InitialLabeling (s : SoSPD) : SoSPD :=
  let labels := (List.range s.m_energy.numVars).foldl
    (fun labels i => (InitialLabeling_var s.m_energy s.m_num_labels i labels).2) s.m_labels
  { s with m_labels := labels }

/-- The share written by `InitialDual` for member position `i`: `avg`, plus one when
`int(i) < remainder`. -/
def initialShare (energy : Int) (k i : Nat) : Int :=
  let avg := Int.tdiv energy k
  let remainder := Int.tmod energy k
  if (i : Int) < remainder then avg + 1 else avg

/-- The member loop of `InitialDual` for clique `ci`: the pair is the clique's dual table
`lambda_a` and `m_heights`. -/
def InitialDual_members (s : SoSPD) (c : Clique) (energy : Int)
    (init : (Nat → Int) × (Nat → Int)) : (Nat → Int) × (Nat → Int) :=
  (List.range c.size).foldl
    (fun st i =>
      let l := s.m_labels (c.nodes.getD i 0)
      let lambda_ail := initialShare energy c.size i
      let hidx := c.nodes.getD i 0 * s.m_num_labels + l
      (Function.update st.1 (i * s.m_num_labels + l) lambda_ail,
       Function.update st.2 hidx (st.2 hidx + lambda_ail)))
    init

/-- The body of the clique loop of `InitialDual`. -/
def InitialDual_clique (ci : Nat) (c : Clique) (s : SoSPD) : Except Fault SoSPD :=
  let k := c.size
  if ¬ k < 32 then .error .cliqueTooLarge else
  let labelBuf := c.nodes.map s.m_labels
  let energy := c.energy labelBuf
  if ¬ 0 ≤ energy then .error .negativeEnergy else
  if k = 0 then .error .divisionByZero else
  let r := InitialDual_members s c energy (fun _ => 0, s.m_heights)
  .ok { s with m_dual := Function.update s.m_dual ci r.1, m_heights := r.2 }

/-- The heights written at the start of `InitialDual`: `Height(i, l) = unary(i, l)`. -/
def initialHeights (e : MLE) (numLabels : Nat) : Nat → Int :=
  (List.range e.numVars).foldl
    (fun h i => (List.range numLabels).foldl
      (fun h l => Function.update h (i * numLabels + l) (e.unary i l)) h)
    (fun _ => 0)

/-- Translation of `InitialDual`. -/
def InitialDual (s : SoSPD) : Except Fault SoSPD :=
  let heights := initialHeights s.m_energy s.m_num_labels
  forCliques InitialDual_clique s.m_energy.cliques 0
    { s with m_heights := heights, m_dual := fun _ _ => 0 }

/-- The body of the clique loop of `InitialNodeCliqueList`. -/
def InitialNodeCliqueList_clique (clique_index : Nat) (c : Clique)
    (ncl : Nat → List (Nat × Nat)) : Nat → List (Nat × Nat) :=
  (List.range c.size).foldl
    (fun ncl i => Function.update ncl (c.nodes.getD i 0)
      (ncl (c.nodes.getD i 0) ++ [(clique_index, i)]))
    ncl

/-- Translation of `InitialNodeCliqueList`. -/
def InitialNodeCliqueList (s : SoSPD) : SoSPD :=
  let ncl := eachClique InitialNodeCliqueList_clique s.m_energy.cliques 0 (fun _ => [])
  { s with m_node_clique_list := ncl }

/-- The body of the clique loop of `SetupGraph`. -/
def SetupGraph_clique (_ci : Nat) (c : Clique) (crf : Flow) : Except Fault Flow :=
  let k := c.size
  if ¬ k < 32 then .error .cliqueTooLarge else
  let max_assgn := 1 <<< k
  .ok (crf.AddClique c.nodes max_assgn (fun _ => 0))

/-- Translation of `SetupGraph`. -/
def SetupGraph (s : SoSPD) : Except Fault SoSPD :=
  let crf := s.m_ibfs.AddNode s.m_energy.numVars
  match forCliques SetupGraph_clique s.m_energy.cliques 0 crf with
  | .ok crf => .ok { s with m_ibfs := crf }
  | .error f => .error f

/-! ## Residual energy construction -/

/-- Counts the trailing zero bits of the low `fuel` bits of `x`. -/
def ctzAux : Nat → Nat → Nat
  | 0, _ => 0
  | fuel + 1, x => if x % 2 = 1 then 0 else ctzAux fuel (x / 2) + 1

/-- Translation of `__builtin_ctz` on a 32-bit word (its value at 0 is undefined in the
source; here it is 32). -/
def builtin_ctz (x : Nat) : Nat := ctzAux 32 x

/-- The Gray code of the loop counter: `a ^ (a >> 1)`. -/
def grayCode (a : Nat) : Nat := a ^^^ (a >>> 1)

/-- The variables of the Gray-code loop of `PreEditDual`. -/
structure GrayState where
  last_gray : Nat
  label_buf : List Nat
  energy_table : Nat → Int

/-- The body of the Gray-code loop of `PreEditDual` for the counter value `a`. -/
def grayStep (c : Clique) (current_labels fusion_labels : List Nat) (a : Nat)
    (st : GrayState) : GrayState :=
  let gray := grayCode a
  let diff := gray ^^^ st.last_gray
  let changed_idx := builtin_ctz diff
  let label_buf :=
    if diff &&& gray ≠ 0 then st.label_buf.set changed_idx (fusion_labels.getD changed_idx 0)
    else st.label_buf.set changed_idx (current_labels.getD changed_idx 0)
  { last_gray := gray, label_buf := label_buf,
    energy_table := Function.update st.energy_table gray (c.energy label_buf) }

/-- The block "Compute costs of all fusion assignments" of `PreEditDual`: the state after
the loop has run for `a = 1, ..., steps`. -/
def grayLoop (c : Clique) (current_labels fusion_labels : List Nat) (energy_table : Nat → Int)
    (steps : Nat) : GrayState :=
  (List.range steps).foldl
    (fun st j => grayStep c current_labels fusion_labels (j + 1) st)
    { last_gray := 0, label_buf := current_labels,
      energy_table := Function.update energy_table 0 (c.energy current_labels) }

/-- The indices of the table entries written by the block "Compute costs of all fusion
assignments", in the order of the writes: entry 0 before the loop, then entry `gray` in the
round of `a`, for `a = 1, ..., steps`.  Each write stores the result of one call of
`c.energy`. -/
def grayWrites (steps : Nat) : List Nat :=
  0 :: (List.range steps).map (fun j => grayCode (j + 1))

/-- The energy table after the block "Compute costs of all fusion assignments" of
`PreEditDual`, where the loop runs for `a = 1, ..., max_assgn - 1`. -/
def grayTable (c : Clique) (current_labels fusion_labels : List Nat)
    (energy_table : Nat → Int) : Nat → Int :=
  (grayLoop c current_labels fusion_labels energy_table ((1 <<< c.size) - 1)).energy_table

/-- The label tuple selected by a bitmask: member `i` takes its fused label when bit `i` of
the mask is set and its current label otherwise. -/
def mixedLabels (current_labels fusion_labels : List Nat) (mask : Nat) : List Nat :=
  (List.range current_labels.length).map
    (fun i => if mask.testBit i then fusion_labels.getD i 0 else current_labels.getD i 0)

/-- The brute-force table of a clique: the energy of the label tuple selected by each mask
below `2^k`, and the given table elsewhere. -/
def bruteForceTable (c : Clique) (current_labels fusion_labels : List Nat)
    (energy_table : Nat → Int) : Nat → Int :=
  fun m => if m < 2 ^ c.size then c.energy (mixedLabels current_labels fusion_labels m)
    else energy_table m

/-- The linear function subtracted from the table entry of a mask: over the `k` members,
`psi1` where the bit is set and `psi2` where it is clear. -/
def linearTerm (k : Nat) (psi1 psi2 : List Int) (mask : Nat) : Int :=
  ((List.range k).map (fun i => if mask.testBit i then psi1.getD i 0 else psi2.getD i 0)).sum

/-- Modelled from the spec: `SubtractLinear` (a helper of the sospd library that is not
among the sources).  Section 4.3, step 4: subtract from every table entry the dual
contributions associated with the fused labels (`psi1`) for bits set to 1 and the current
labels (`psi2`) for bits set to 0. -/
def SubtractLinear (k : Nat) (f : Nat → Int) (psi1 psi2 : List Int) : Nat → Int :=
  fun m => if m < 2 ^ k then f m - linearTerm k psi1 psi2 m else f m

/-- The residual table that `PreEditDual` computes for clique `clique_index`, from the
table the flow graph held before. -/
def residualTable (s : SoSPD) (clique_index : Nat) (c : Clique) (energy_table : Nat → Int) :
    Nat → Int :=
  let k := c.size
  let lambda_a := s.m_dual clique_index
  let current_labels := c.nodes.map s.m_labels
  let fusion_labels := c.nodes.map s.m_fusion_labels
  let current_lambda := (List.range k).map
    (fun i => lambda_a (i * s.m_num_labels + current_labels.getD i 0))
  let fusion_lambda := (List.range k).map
    (fun i => lambda_a (i * s.m_num_labels + fusion_labels.getD i 0))
  SubtractLinear k (grayTable c current_labels fusion_labels energy_table)
    fusion_lambda current_lambda

/-- The body of the clique loop of `PreEditDual`. -/
def PreEditDual_clique (s : SoSPD) (clique_index : Nat) (c : Clique) (crf : Flow) :
    Except Fault Flow :=
  let k := c.size
  if ¬ k < 32 then .error .cliqueTooLarge else
  let ibfs_c := crf.cliques.getD clique_index default
  if ¬ k = ibfs_c.nodes.length then .error .cliqueSizeMismatch else
  let max_assgn := 1 <<< k
  if ¬ ibfs_c.tableSize = max_assgn then .error .tableSizeMismatch else
  let energy_table := residualTable s clique_index c ibfs_c.energyTable
  if ¬ energy_table 0 = 0 then .error .notTight else
  .ok (crf.setEnergyTable clique_index energy_table)

/-- Translation of `fixedVars.resize(n)` on a vector of flags: the first `n` entries are
kept and the vector is padded with `false` up to length `n`. -/
def resizeFlags (fixedVars : List Bool) (n : Nat) : List Bool :=
  fixedVars.take n ++ List.replicate (n - fixedVars.length) false

/-- The first statements of `PreEditDual`: `fixedVars.resize(m_labels.size())` followed by
the loop `fixedVars[i] = (m_labels[i] == m_fusion_labels[i])` over the variables (the
vector `m_labels` has `numVars` entries from the constructor on). -/
def fixedVarsOf (s : SoSPD) : List Bool :=
  (List.range s.m_energy.numVars).foldl
    (fun fixedVars i => fixedVars.set i (decide (s.m_labels i = s.m_fusion_labels i)))
    (resizeFlags s.m_ibfs.fixedVars s.m_energy.numVars)

/-- Translation of `PreEditDual(m_ibfs)`. -/
def PreEditDual (s : SoSPD) : Except Fault SoSPD :=
  let crf := { s.m_ibfs with fixedVars := fixedVarsOf s }
  if ¬ crf.cliques.length = s.m_energy.cliques.length then .error .cliqueCountMismatch else
  match forCliques (PreEditDual_clique s) s.m_energy.cliques 0 crf with
  | .ok crf => .ok { s with m_ibfs := crf }
  | .error f => .error f

/-! ## Heights -/

/-- Translation of `ComputeHeight(i, x)`. -/
def ComputeHeight (s : SoSPD) (i x : Nat) : Int :=
  (s.m_node_clique_list i).foldl (fun ret p => ret + s.dualVariable p.1 p.2 x)
    (s.m_energy.unary i x)

/-- Translation of `ComputeHeightDiff(i, l1, l2)`. -/
def ComputeHeightDiff (s : SoSPD) (i l1 l2 : Nat) : Int :=
  (s.m_node_clique_list i).foldl
    (fun ret p => ret + (s.dualVariable p.1 p.2 l1 - s.dualVariable p.1 p.2 l2))
    (s.m_energy.unary i l1 - s.m_energy.unary i l2)

/-! ## Primal-dual update -/

/-- Translation of `SetupAlphaEnergy(crf)`. -/
def SetupAlphaEnergy (s : SoSPD) (crf : Flow) : Flow :=
  let crf := crf.ClearUnaries
  let crf := crf.AddConstantTerm (-crf.constantTerm)
  (List.range s.m_energy.numVars).foldl
    (fun crf i =>
      let height_diff := ComputeHeightDiff s i (s.m_labels i) (s.m_fusion_labels i)
      if height_diff > 0 then crf.AddUnaryTerm i height_diff 0
      else crf.AddUnaryTerm i 0 (-height_diff))
    crf

/-- The label loop of `UpdatePrimalDual`: the pair is `ret` and `m_labels`. -/
def UpdatePrimalDual_labels (s : SoSPD) (crf : Flow) : Bool × (Nat → Nat) :=
  (List.range s.m_energy.numVars).foldl
    (fun st i =>
      if crf.label i = 1 then
        let alpha := s.m_fusion_labels i
        ((if st.2 i ≠ alpha then true else st.1), Function.update st.2 i alpha)
      else st)
    (false, s.m_labels)

/-- The body of the clique loop of `UpdatePrimalDual`: the pair is `m_dual` and
`m_heights`. -/
def UpdatePrimalDual_clique (s : SoSPD) (crf : Flow) (i : Nat) (c : Clique)
    (st : (Nat → Nat → Int) × (Nat → Int)) : (Nat → Nat → Int) × (Nat → Int) :=
  let phiCi := (crf.cliques.getD i default).alphaCi
  (List.range phiCi.length).foldl
    (fun st j =>
      let l := s.m_fusion_labels (c.nodes.getD j 0)
      let didx := j * s.m_num_labels + l
      let hidx := c.nodes.getD j 0 * s.m_num_labels + l
      (Function.update st.1 i (Function.update (st.1 i) didx (st.1 i didx + phiCi.getD j 0)),
       Function.update st.2 hidx (st.2 hidx + phiCi.getD j 0)))
    st

/-- Translation of `UpdatePrimalDual(m_ibfs)`; the second component is the returned flag. -/
def UpdatePrimalDual (oracle : FlowOracle) (s : SoSPD) : SoSPD × Bool :=
  let crf := (SetupAlphaEnergy s s.m_ibfs).Solve oracle
  let r := UpdatePrimalDual_labels s crf
  let d := eachClique (UpdatePrimalDual_clique s crf) s.m_energy.cliques 0
    (s.m_dual, s.m_heights)
  ({ s with m_ibfs := crf, m_labels := r.2, m_dual := d.1, m_heights := d.2 }, r.1)

/-- The flow-potential vector `AlphaCi()` of clique `i` that `UpdatePrimalDual` reads after
`crf.Solve()`. -/
def flowPotentials (oracle : FlowOracle) (s : SoSPD) (i : Nat) : List Int :=
  (((SetupAlphaEnergy s s.m_ibfs).Solve oracle).cliques.getD i default).alphaCi

/-! ## Dual repair -/

/-- The values of `avg` and `remainder` in `PostEditDual` when the member loop starts,
after the adjustment of a negative remainder. -/
def postAvgRemainder (correction : Int) (k : Nat) : Int × Int :=
  let avg := Int.tdiv correction k
  let remainder := Int.tmod correction k
  if remainder < 0 then (avg - 1, remainder + k) else (avg, remainder)

/-- The amount that the member loop of `PostEditDual` adds to the dual variable of member
position `i`: `avg`, plus one when `int(i) < remainder`. -/
def postIncrement (correction : Int) (k i : Nat) : Int :=
  let ar := postAvgRemainder correction k
  if (i : Int) < ar.2 then ar.1 + 1 else ar.1

/-- The value of `lambdaSum` in `PostEditDual` for clique `clique_index`. -/
def lambdaSum (s : SoSPD) (clique_index : Nat) (c : Clique) : Int :=
  ((List.range c.size).map
    (fun i => s.dualVariable clique_index i (s.m_labels (c.nodes.getD i 0)))).sum

/-- The value of `correction` in `PostEditDual` for clique `clique_index`. -/
def correction (s : SoSPD) (clique_index : Nat) (c : Clique) : Int :=
  c.energy (c.nodes.map s.m_labels) - lambdaSum s clique_index c

/-- The member loop of `PostEditDual` for clique `clique_index`: the pair is the clique's
dual table and `m_heights`. -/
def PostEditDual_members (s : SoSPD) (c : Clique) (corr : Int)
    (init : (Nat → Int) × (Nat → Int)) : (Nat → Int) × (Nat → Int) :=
  (List.range c.size).foldl
    (fun st i =>
      let l := s.m_labels (c.nodes.getD i 0)
      let didx := i * s.m_num_labels + l
      let hidx := c.nodes.getD i 0 * s.m_num_labels + l
      let heights := Function.update st.2 hidx (st.2 hidx - st.1 didx)
      let lambda_ail := st.1 didx + postIncrement corr c.size i
      (Function.update st.1 didx lambda_ail,
       Function.update heights hidx (heights hidx + lambda_ail)))
    init

/-- The body of the clique loop of `PostEditDual`. -/
def PostEditDual_clique (clique_index : Nat) (c : Clique) (s : SoSPD) : Except Fault SoSPD :=
  let k := c.size
  if ¬ k < 32 then .error .cliqueTooLarge else
  let corr := correction s clique_index c
  if ¬ corr ≤ 0 then .error .positiveCorrection else
  if k = 0 then .error .divisionByZero else
  let r := PostEditDual_members s c corr (s.m_dual clique_index, s.m_heights)
  .ok { s with m_dual := Function.update s.m_dual clique_index r.1, m_heights := r.2 }

/-- Translation of `PostEditDual`. -/
def PostEditDual (s : SoSPD) : Except Fault SoSPD :=
  forCliques PostEditDual_clique s.m_energy.cliques 0 s

/-- Translation of `DualFit`. -/
def DualFit (_s : SoSPD) : Except Fault SoSPD := .error .unimplemented

/-! ## Lower bound -/

/-- Runs a loop body once per element of a list, in order; the first fault ends the loop. -/
def forEachE {ι σ : Type} (step : ι → σ → Except Fault σ) : List ι → σ → Except Fault σ
  | [], s => .ok s
  | x :: xs, s =>
    match step x s with
    | .ok s' => forEachE step xs s'
    | .error f => .error f

/-- The body of the innermost loop of `LowerBound` for the label triple `buf`: the pair is
the dual table of the clique and `m_heights`.  A triple of non-zero energy only updates
`max_ratio`, a `double`, which is not part of the pair. -/
def LowerBound_triple (s : SoSPD) (c : Clique) (buf : List Nat)
    (st : (Nat → Int) × (Nat → Int)) : Except Fault ((Nat → Int) × (Nat → Int)) :=
  let energy := c.energy buf
  let dualSum := st.1 (0 * s.m_num_labels + buf.getD 0 0)
    + st.1 (1 * s.m_num_labels + buf.getD 1 0)
    + st.1 (2 * s.m_num_labels + buf.getD 2 0)
  if energy = 0 then
    match (List.range 3).find? (fun i => decide (buf.getD i 0 ≠ s.m_labels (c.nodes.getD i 0))) with
    | some i =>
      let didx := i * s.m_num_labels + buf.getD i 0
      let hidx := c.nodes.getD i 0 * s.m_num_labels + buf.getD i 0
      .ok (Function.update st.1 didx (st.1 didx - (dualSum - energy)),
        Function.update st.2 hidx (st.2 hidx - (dualSum - energy)))
    | none => if ¬ dualSum = energy then .error .dualSumMismatch else .ok st
  else .ok st

/-- The three nested label loops of `LowerBound` for one clique. -/
def LowerBound_labels (s : SoSPD) (c : Clique) (st : (Nat → Int) × (Nat → Int)) :
    Except Fault ((Nat → Int) × (Nat → Int)) :=
  forEachE (fun b0 st =>
    forEachE (fun b1 st =>
      forEachE (fun b2 st => LowerBound_triple s c [b0, b1, b2] st)
        (List.range s.m_num_labels) st)
      (List.range s.m_num_labels) st)
    (List.range s.m_num_labels) st

/-- The body of the clique loop of `LowerBound`. -/
def LowerBound_clique (clique_index : Nat) (c : Clique) (s : SoSPD) : Except Fault SoSPD :=
  let k := c.size
  if ¬ k = 3 then .error .cliqueNotTriple else
  match LowerBound_labels s c (s.m_dual clique_index, s.m_heights) with
  | .error f => .error f
  | .ok r => .ok { s with m_dual := Function.update s.m_dual clique_index r.1, m_heights := r.2 }

/-- The value of `dual_objective` at the end of `LowerBound`: the sum over the variables of
the least height. -/
def LowerBound_dual_objective (s : SoSPD) : Int :=
  (List.range s.m_energy.numVars).foldl
    (fun dual_objective i =>
      dual_objective + (List.range s.m_num_labels).foldl
        (fun min_height l => min min_height (s.Height i l)) s.m_energy.realMax)
    0

/-- Translation of `LowerBound` as far as it acts on the orchestrator: the clique loop with
its two assertions and its writes to the dual variables and heights.  The returned value
`dual_objective / max_ratio` and the variable `max_ratio` are of type `double` and are not
modelled; `LowerBound_dual_objective` is the integer `dual_objective`. -/
def LowerBound (s : SoSPD) : Except Fault SoSPD :=
  forCliques LowerBound_clique s.m_energy.cliques 0 s

/-! ## Proposals -/

/-- Writes `v` to the entries `0, ..., n - 1` of a vector. -/
def fillRange (n : Nat) (v : Nat) (f : Nat → Nat) : Nat → Nat :=
  (List.range n).foldl (fun f i => Function.update f i v) f

/-- The value of `s_capacity` in `HeightAlphaProposal` for label `l`. -/
def s_capacity (s : SoSPD) (l : Nat) : Int :=
  (List.range s.m_energy.numVars).foldl
    (fun cap i =>
      let diff := s.Height i (s.m_labels i) - s.Height i l
      if diff > 0 then cap + diff else cap)
    0

/-- The label loop of `HeightAlphaProposal`: the pair is `max_s_capacity` and `alpha`. -/
def bestHeightAlpha (s : SoSPD) : Int × Nat :=
  (List.range s.m_num_labels).foldl
    (fun st l => if s_capacity s l > st.1 then (s_capacity s l, l) else st)
    (0, 0)

/-- Translation of `HeightAlphaProposal`. -/
def HeightAlphaProposal (s : SoSPD) : SoSPD :=
  let alpha := (bestHeightAlpha s).2
  { s with m_fusion_labels := fillRange s.m_energy.numVars alpha s.m_fusion_labels }

/-- Translation of `AlphaProposal`. -/
def AlphaProposal (s : SoSPD) : SoSPD :=
  let alpha := s.m_iter % s.m_num_labels
  { s with m_fusion_labels := fillRange s.m_energy.numVars alpha s.m_fusion_labels }

/-- The proposal vector after the call `m_pc(m_iter, m_labels, m_fusion_labels)`. -/
def proposal (s : SoSPD) : Nat → Int :=
  match s.m_pc with
  | .heightAlpha => fun i => ((HeightAlphaProposal s).m_fusion_labels i : Int)
  | .alpha => fun i => ((AlphaProposal s).m_fusion_labels i : Int)
  | .custom f => f s.m_iter s.m_labels (fun i => (s.m_fusion_labels i : Int))

/-- The two clamping statements of `InitialFusionLabeling` on one proposed label. -/
def clampLabel (numLabels : Nat) (l : Int) : Int :=
  let l := if l < 0 then 0 else l
  if l ≥ numLabels then (numLabels : Int) - 1 else l

/-- Translation of `InitialFusionLabeling`; the second component is the returned flag. -/
def InitialFusionLabeling (s : SoSPD) : SoSPD × Bool :=
  let proposed := proposal s
  let r := (List.range s.m_energy.numVars).foldl
    (fun (st : Bool × (Nat → Nat)) i =>
      let l := (clampLabel s.m_num_labels (proposed i)).toNat
      ((if s.m_labels i ≠ l then true else st.1), Function.update st.2 i l))
    (false, s.m_fusion_labels)
  ({ s with m_fusion_labels := r.2 }, r.1)

/-! ## Outer loop -/

/-- The block of `Solve` that runs when `m_iter == 0`. -/
def Solve_init (s : SoSPD) : Except Fault SoSPD :=
  if s.m_iter = 0 then
    match SetupGraph s with
    | .error f => .error f
    | .ok s1 =>
      match InitialDual (InitialLabeling s1) with
      | .error f => .error f
      | .ok s2 => .ok (InitialNodeCliqueList s2)
  else .ok s

/-- The part of the loop body of `Solve` after the `break`: `PreEditDual`,
`UpdatePrimalDual` (whose returned flag is not used), `PostEditDual`, `m_iter++`. -/
def Solve_iteration (oracle : FlowOracle) (s : SoSPD) : Except Fault SoSPD :=
  match PreEditDual s with
  | .error f => .error f
  | .ok s1 =>
    match PostEditDual (UpdatePrimalDual oracle s1).1 with
    | .error f => .error f
    | .ok s2 => .ok { s2 with m_iter := s2.m_iter + 1 }

/-- The `while` loop of `Solve`.  The first argument is `niters - this_iter`; the second
component of the result is the final value of `this_iter`.  The flag `labelChanged` is true
whenever the loop condition is evaluated, because the loop is left by `break` as soon as
`InitialFusionLabeling` returns false. -/
def Solve_loop (oracle : FlowOracle) : Nat → SoSPD → Except Fault (SoSPD × Nat)
  | 0, s => .ok (s, 0)
  | budget + 1, s =>
    let r := InitialFusionLabeling s
    if ¬ r.2 then .ok (r.1, 0) else
    match Solve_iteration oracle r.1 with
    | .error f => .error f
    | .ok s1 =>
      match Solve_loop oracle budget s1 with
      | .error f => .error f
      | .ok (s2, this_iter) => .ok (s2, this_iter + 1)

/-- Translation of `Solve(niters)`, returning the state and the number of completed
iterations of this call. -/
def SolveCount (oracle : FlowOracle) (niters : Nat) (s : SoSPD) : Except Fault (SoSPD × Nat) :=
  match Solve_init s with
  | .error f => .error f
  | .ok s1 => Solve_loop oracle niters s1

/-- Translation of `Solve(niters)`. -/
def Solve (oracle : FlowOracle) (niters : Nat) (s : SoSPD) : Except Fault SoSPD :=
  match SolveCount oracle niters s with
  | .error f => .error f
  | .ok r => .ok r.1

/-- Two successive calls on one orchestrator: `Solve(a)` and, when it returns, `Solve(b)`. -/
def SolveThen (oracle : FlowOracle) (a b : Nat) (s : SoSPD) : Except Fault SoSPD :=
  match Solve oracle a s with
  | .error f => .error f
  | .ok s1 => Solve oracle b s1

/-- The tightness invariant for clique `clique_index`: the dual variables of the members
at their current labels sum to the clique's energy at the current labeling. -/
def Tight (s : SoSPD) (clique_index : Nat) (c : Clique) : Prop :=
  ((List.range c.size).map
    (fun i => s.dualVariable clique_index i (s.m_labels (c.nodes.getD i 0)))).sum
    = c.energy (c.nodes.map s.m_labels)

/-- The current label of every variable is a label of the model. -/
def LabelsInRange (s : SoSPD) : Prop :=
  ∀ i < s.m_energy.numVars, s.m_labels i < s.m_num_labels

/-- A state is valid: its energy model is well formed, `m_num_labels` is the model's number
of labels (as the constructors set it), and the current labels are in range. -/
def SoSPD.Valid (s : SoSPD) : Prop :=
  s.m_energy.WF ∧ s.m_num_labels = s.m_energy.numLabels ∧ LabelsInRange s

/-- The node-clique list is the one `InitialNodeCliqueList` builds, and every clique of the
flow graph has the nodes of the clique of the energy model with the same index, as
`SetupGraph` adds them. -/
def SoSPD.Consistent (s : SoSPD) : Prop :=
  s.m_energy.WF ∧
    s.m_node_clique_list =
      eachClique InitialNodeCliqueList_clique s.m_energy.cliques 0 (fun _ => []) ∧
    ∀ ci c, s.m_energy.cliques[ci]? = some c →
      (s.m_ibfs.cliques.getD ci default).nodes = c.nodes

/-- The binary labeling read off a flow result: variable `i` switches when
`GetLabel(i) == 1`. -/
def binaryLabels (r : FlowResult) : Nat → Bool := fun i => decide (r.label i = 1)

/-- The labeling obtained from the current one when the variables with binary label 1 take
their fused label. -/
def fusedLabels (s : SoSPD) (x : Nat → Bool) : Nat → Nat :=
  fun i => if x i then s.m_fusion_labels i else s.m_labels i

/-! ## `AutoBuffer` (cxx.hpp) -/

/-- The debug assertions of `AutoBuffer::push_back`. -/
inductive BufferFault where
  /-- Raised by `lvDbgAssert(m_nUsedBufferSize<=m_nBufferSize)`. -/
  | usedAboveCapacity
  /-- Raised by `lvDbgAssert(m_nBufferSize>m_nUsedBufferSize+1)`. -/
  | capacityNotAboveSizePlusOne
  deriving DecidableEq

/-- The members of `lv::AutoBuffer<TVal, nStaticSize, nByteAlign>`, with the template
parameter `nStaticSize` (the length of `m_aStaticBuffer`) kept as a field.  A slot of a
buffer holds `none` while nothing has been written to it; `m_aDynamicBuffer` is `none` when
the pointer is null; `m_pBufferPtr_dynamic` tells whether `m_pBufferPtr` is
`m_aDynamicBuffer.get()` (true) or `m_aStaticBuffer.data()` (false).  Sizes are unbounded
naturals (`size_t` without wrap-around). -/
structure AutoBuffer (TVal : Type) where
  nStaticSize : Nat
  m_aStaticBuffer : Nat → Option TVal
  m_aDynamicBuffer : Option (Nat → Option TVal)
  m_pBufferPtr_dynamic : Bool
  m_nBufferSize : Nat
  m_nUsedBufferSize : Nat

/-- Translation of the constructor `AutoBuffer(size_type nReqSize)`. -/
def AutoBuffer.new (TVal : Type) (nStaticSize nReqSize : Nat) : AutoBuffer TVal :=
  if nReqSize ≤ nStaticSize then
    ⟨nStaticSize, fun _ => none, none, false, nStaticSize, nReqSize⟩
  else
    ⟨nStaticSize, fun _ => none, some (fun _ => none), true, nReqSize, nReqSize⟩

/-- The array that `m_pBufferPtr` points to. -/
def AutoBuffer.m_pBufferPtr {TVal : Type} (b : AutoBuffer TVal) : Nat → Option TVal :=
  if b.m_pBufferPtr_dynamic then b.m_aDynamicBuffer.getD (fun _ => none)
  else b.m_aStaticBuffer

/-- Translation of `operator[]`, read access: `m_pBufferPtr[nPosIdx]`. -/
def AutoBuffer.get {TVal : Type} (b : AutoBuffer TVal) (nPosIdx : Nat) : Option TVal :=
  b.m_pBufferPtr nPosIdx

/-- Translation of `size()`. -/
def AutoBuffer.size {TVal : Type} (b : AutoBuffer TVal) : Nat := b.m_nUsedBufferSize

/-- Translation of `capacity()`. -/
def AutoBuffer.capacity {TVal : Type} (b : AutoBuffer TVal) : Nat := b.m_nBufferSize

/-- Translation of `is_static()`. -/
def AutoBuffer.is_static {TVal : Type} (b : AutoBuffer TVal) : Bool := !b.m_pBufferPtr_dynamic

/-- Translation of `reserve(nReqSize)`: a larger request allocates a new dynamic buffer and
copies the `m_nUsedBufferSize` elements in use to it. -/
def AutoBuffer.reserve {TVal : Type} (b : AutoBuffer TVal) (nReqSize : Nat) : AutoBuffer TVal :=
  if nReqSize < b.m_nBufferSize then b
  else if nReqSize > b.m_nBufferSize then
    let aNewBuffer : Nat → Option TVal :=
      fun i => if i < b.m_nUsedBufferSize then b.m_pBufferPtr i else none
    { b with
      m_aDynamicBuffer := some aNewBuffer
      m_pBufferPtr_dynamic := true
      m_nBufferSize := nReqSize }
  else b

/-- The assignment `m_pBufferPtr[i] = o`. -/
def AutoBuffer.store {TVal : Type} (b : AutoBuffer TVal) (i : Nat) (o : TVal) :
    AutoBuffer TVal :=
  if b.m_pBufferPtr_dynamic then
    { b with m_aDynamicBuffer := some (Function.update b.m_pBufferPtr i (some o)) }
  else
    { b with m_aStaticBuffer := Function.update b.m_aStaticBuffer i (some o) }

/-- Translation of `push_back(const value_type& o)`.  The macro `lvDbgAssert` is not among
the sources; `dbg` tells whether the debug assertions are compiled in, and a failed
assertion then ends the call. -/
def AutoBuffer.push_back {TVal : Type} (dbg : Bool) (b : AutoBuffer TVal) (o : TVal) :
    Except BufferFault (AutoBuffer TVal) :=
  if dbg = true ∧ ¬ b.m_nUsedBufferSize ≤ b.m_nBufferSize then .error .usedAboveCapacity else
  if b.m_nUsedBufferSize = b.m_nBufferSize then
    let b1 := b.reserve (b.m_nBufferSize * 2)
    if dbg = true ∧ ¬ b1.m_nBufferSize > b1.m_nUsedBufferSize + 1 then
      .error .capacityNotAboveSizePlusOne
    else
      .ok { b1.store b1.m_nUsedBufferSize o with m_nUsedBufferSize := b1.m_nUsedBufferSize + 1 }
  else
    .ok { b.store b.m_nUsedBufferSize o with m_nUsedBufferSize := b.m_nUsedBufferSize + 1 }

/-- The debug assertion that ended a call, if one did. -/
def bufferFaultOf {σ : Type} (r : Except BufferFault σ) : Option BufferFault :=
  match r with
  | .ok _ => none
  | .error f => some f

/-- Reads a value off the result of a call that returned. -/
def observeBuffer {σ α : Type} (r : Except BufferFault σ) (f : σ → α) : Option α :=
  match r with
  | .ok s => some (f s)
  | .error _ => none

/-- Height consistency: every stored height `Height(i, l)` of a variable `i` and label `l` of
the model is the value that `ComputeHeight(i, l)` recomputes from the unary cost and the
node-clique list. -/
def HeightsConsistent (s : SoSPD) : Prop :=
  ∀ i < s.m_energy.numVars, ∀ l < s.m_num_labels, s.Height i l = ComputeHeight s i l

/-- The node-clique list is the one that `InitialNodeCliqueList` builds. -/
def NodeCliqueListBuilt (s : SoSPD) : Prop :=
  s.m_node_clique_list =
    eachClique InitialNodeCliqueList_clique s.m_energy.cliques 0 (fun _ => [])

/-- The pairs (clique index, member position) of the cliques `cs`, with clique indices
counted from `i0`, whose node is `v`: by increasing clique index and, within a clique, by
increasing position. -/
def adjacencyOf : List Clique → Nat → Nat → List (Nat × Nat)
  | [], _, _ => []
  | c :: cs, i0, v =>
    ((List.range c.size).filter (fun p => decide (c.nodes.getD p 0 = v))).map
      (fun p => (i0, p)) ++ adjacencyOf cs (i0 + 1) v

/-- The sum, over all pairs (clique, member position) of the energy model whose node is
`v`, of the dual variable of that pair at label `l`. -/
def dualSumAt (e : MLE) (nl : Nat) (dual : Nat → Nat → Int) (v l : Nat) : Int :=
  ((List.range e.cliques.length).map (fun q =>
    ((List.range (e.cliques.getD q default).size).map (fun j =>
      if (e.cliques.getD q default).nodes.getD j 0 = v then dual q (j * nl + l) else 0)).sum)).sum

/-- The heights are the unary costs plus the dual variables of the member positions of the
variable, summed over the cliques of the energy model. -/
def HeightsMatch (e : MLE) (nl : Nat) (dual : Nat → Nat → Int) (heights : Nat → Int) : Prop :=
  ∀ v < e.numVars, ∀ l < nl, heights (v * nl + l) = e.unary v l + dualSumAt e nl dual v l

/-- The label `L` that `InitialLabeling` leaves at variable `i` when the label was `old`
before: `old` when no unary cost of `i` is below the largest value of `REAL`, and otherwise
the first label of least unary cost. -/
def InitialLabelOf (e : MLE) (numLabels i old L : Nat) : Prop :=
  ((∀ l < numLabels, ¬ e.unary i l < e.realMax) ∧ L = old) ∨
    (L < numLabels ∧ e.unary i L < e.realMax ∧ (∀ l < numLabels, e.unary i L ≤ e.unary i l) ∧
      ∀ l < L, e.unary i L < e.unary i l)

/-! ## Example inputs -/

/-- A clique on the variables 0 and 1 that costs 0 when their labels agree and `C` when
they differ. -/
def pottsClique (C : Int) : Clique :=
  ⟨[0, 1], fun buf => if buf.getD 0 0 = buf.getD 1 0 then 0 else C⟩

/-- Two variables, two labels, one clique of cost 10 on disagreement; variable 0 prefers
label 0 (unary costs 0 and 100) and variable 1 prefers label 1 (unary costs 1 and 0). -/
def exampleEnergy : MLE :=
  ⟨2, 2, fun i l => if i = 0 then (if l = 0 then 0 else 100) else (if l = 0 then 1 else 0),
    [pottsClique 10], 1000⟩

/-- The state reached on `exampleEnergy` when, after initialization (labels `(0, 1)`,
shares `5` and `5`), variable 1 has switched to the proposed label 0 with zero flow
potentials: the labels are `(0, 0)`, the clique's energy is 0, and its dual table still
holds 5 at (member 0, label 0) and at (member 1, label 1). -/
def exampleDriftState : SoSPD :=
  { SoSPD.new exampleEnergy with
    m_dual := fun ci j => if ci = 0 ∧ (j = 0 ∨ j = 3) then 5 else 0
    m_heights := fun j => if j = 0 then 5 else if j = 1 then 100 else if j = 2 then 1 else
      if j = 3 then 5 else 0
    m_node_clique_list := fun v => if v = 0 then [(0, 0)] else if v = 1 then [(0, 1)] else [] }

/-- A flow result on `exampleEnergy`: variable 1 takes binary label 1 (switch), variable 0
stays, and all flow potentials are 0. -/
def exampleOracle : FlowOracle :=
  fun _ => ⟨fun i => if i = 1 then 1 else 0, fun _ => [0, 0]⟩

/-- As `exampleEnergy`, but each variable strongly prefers its own label: the unary costs
are 0 and 100 for variable 0, and 100 and 0 for variable 1.  The labeling `(0, 1)` has the
least total energy, 10. -/
def exampleEnergy2 : MLE :=
  ⟨2, 2, fun i l => if i = 0 then (if l = 0 then 0 else 100) else (if l = 0 then 100 else 0),
    [pottsClique 10], 1000⟩

/-- A flow result in which no variable switches and all flow potentials are 0. -/
def stayOracle : FlowOracle := fun _ => ⟨fun _ => 0, fun _ => [0, 0]⟩

/-- An orchestrator on `exampleEnergy` set to cyclic alpha-expansion whose iteration
counter is 5. -/
def exampleAlphaState : SoSPD :=
  { (SoSPD.new exampleEnergy).SetAlphaExpansion with m_iter := 5 }

/-- An orchestrator on `exampleEnergy` with a custom proposal callback that proposes the
out-of-range labels `-3` for variable 0 and `7` for every other variable. -/
def exampleCustomState : SoSPD :=
  (SoSPD.new exampleEnergy).SetProposalCallback
    (ProposalCallback.custom (fun _ _ _ i => if i = 0 then -3 else 7))

/-- As `exampleEnergy`, but both variables prefer label 0 (unary costs 0 and 100): after
the initialization the labeling is `(0, 0)` and the height-alpha proposal is label 0. -/
def exampleEnergy3 : MLE :=
  ⟨2, 2, fun _ l => if l = 0 then 0 else 100, [pottsClique 10], 1000⟩

/-- A clique on the variables `0, ..., k - 1` whose energy is 0 at every labeling. -/
def wideClique (k : Nat) : Clique := ⟨List.range k, fun _ => 0⟩

/-- An energy model with `k` variables, two labels, unary costs 0 and the one clique
`wideClique k`. -/
def wideEnergy (k : Nat) : MLE := ⟨k, 2, fun _ _ => 0, [wideClique k], 1000⟩

/-- The result of a successful run, and the given state when the run failed. -/
def okOr {σ : Type} (r : Except Fault σ) (d : σ) : σ :=
  match r with
  | .ok s => s
  | .error _ => d

/-- The state of a fresh orchestrator on `exampleEnergy` after the initialization block of
`Solve`. -/
def exampleInitState : SoSPD :=
  okOr (Solve_init (SoSPD.new exampleEnergy)) (SoSPD.new exampleEnergy)

/-- The state `exampleInitState` after `InitialFusionLabeling` (the proposal is label 0 for
both variables). -/
def exampleProposedState : SoSPD := (InitialFusionLabeling exampleInitState).1

/-- The state of a fresh orchestrator on `exampleEnergy2` after the initialization block of
`Solve` and the first `InitialFusionLabeling` (labels `(0, 1)`, proposal `(0, 0)`). -/
def exampleStayState : SoSPD :=
  (InitialFusionLabeling
    (okOr (Solve_init (SoSPD.new exampleEnergy2)) (SoSPD.new exampleEnergy2))).1

/-- Reads a value off the result of a successful run. -/
def observe {σ α : Type} (r : Except Fault σ) (f : σ → α) : Option α :=
  match r with
  | .ok s => some (f s)
  | .error _ => none

/-- A flow result on `exampleEnergy`: variable 1 switches, and the flow potentials of every
clique are 2 and 3. -/
def examplePhiOracle : FlowOracle :=
  fun _ => ⟨fun i => if i = 1 then 1 else 0, fun _ => [2, 3]⟩

/-- As `exampleEnergy`, but the clique costs `-10` when the two labels differ: its energy at
the initial labeling `(0, 1)` is negative. -/
def exampleNegEnergy : MLE :=
  ⟨2, 2, fun i l => if i = 0 then (if l = 0 then 0 else 100) else (if l = 0 then 1 else 0),
    [pottsClique (-10)], 1000⟩

/-- Two variables that both prefer label 1 (unary costs 5 and 0) and one clique that costs 0
when the labels agree and `-1` when they differ: the clique's energy is 0 at the initial
labeling `(1, 1)` and negative at `(0, 1)` and `(1, 0)`. -/
def exampleNegEnergy2 : MLE :=
  ⟨2, 2, fun _ l => if l = 1 then 0 else 5, [pottsClique (-1)], 1000⟩

/-- A flow result in which variable 0 switches and all flow potentials are 0. -/
def switchZeroOracle : FlowOracle :=
  fun _ => ⟨fun i => if i = 0 then 1 else 0, fun _ => [0, 0]⟩

/-- A state on `exampleEnergy` with the labeling `(0, 1)` and all dual variables 0: the
clique's energy is 10 and its dual variables sum to 0. -/
def examplePositiveState : SoSPD :=
  { SoSPD.new exampleEnergy with m_labels := fun i => if i = 1 then 1 else 0 }

/-- A clique on the variables 0, 1 and 2 that costs 0 when the three labels agree and 6
otherwise. -/
def tripleClique : Clique :=
  ⟨[0, 1, 2], fun buf =>
    if buf.getD 0 0 = buf.getD 1 0 ∧ buf.getD 1 0 = buf.getD 2 0 then 0 else 6⟩

/-- Three variables, two labels, unary costs 0, and the one clique `tripleClique`. -/
def tripleEnergy : MLE := ⟨3, 2, fun _ _ => 0, [tripleClique], 1000⟩

/-- The state of a fresh orchestrator on `tripleEnergy` after the initialization block of
`Solve`. -/
def tripleInitState : SoSPD :=
  okOr (Solve_init (SoSPD.new tripleEnergy)) (SoSPD.new tripleEnergy)

/-- The energy of the convergence scenario: two variables, two labels, unary costs `u`, and
one clique on both variables that costs 0 when their labels agree and `C` otherwise. -/
def scenarioEnergy (u : Nat → Nat → Int) (C : Int) (realMax : Int) : MLE :=
  ⟨2, 2, u, [pottsClique C], realMax⟩

/-- The scenario energy with unary costs `(0, 7)` for variable 0 and `(20, 0)` for variable 1
and `C = 10`: the total energies of the labelings `(0, 1)`, `(0, 0)`, `(1, 1)` and `(1, 0)`
are 10, 20, 7 and 37, so the least total energy, 7, is attained at `(1, 1)` only. -/
def exampleEnergy4 : MLE :=
  scenarioEnergy
    (fun i l => if i = 0 then (if l = 0 then 0 else 7) else (if l = 0 then 20 else 0)) 10 1000

/-- A clique on the variables 0, 1 and 2 that costs 0 when the three labels agree and 8
otherwise. -/
def shareClique : Clique :=
  ⟨[0, 1, 2], fun buf =>
    if buf.getD 0 0 = buf.getD 1 0 ∧ buf.getD 1 0 = buf.getD 2 0 then 0 else 8⟩

/-- Three variables, two labels and the one clique `shareClique`; variables 0 and 2 prefer
label 0 and variable 1 prefers label 1 (unary costs 0 and 5), so the initial labeling is
`(0, 1, 0)` and the clique's energy there is 8: with 3 members the average share is 2 and the
remainder is 2. -/
def exampleShareEnergy : MLE :=
  ⟨3, 2, fun i l => if i = 1 then (if l = 0 then 5 else 0) else (if l = 0 then 0 else 5),
    [shareClique], 1000⟩

/-- The binary labeling that gives variable 0 the first component and every other variable
the second. -/
def pairLabeling (p : Bool × Bool) : Nat → Bool := fun i => if i = 0 then p.1 else p.2

/-- The first of the binary labelings `(0, 0)`, `(1, 0)`, `(0, 1)`, `(1, 1)` of two variables
at which the objective of a flow object is least. -/
def bruteBest2 (crf : Flow) : Bool × Bool :=
  [(true, false), (false, true), (true, true)].foldl
    (fun (b p : Bool × Bool) =>
      if crf.ComputeEnergy (pairLabeling p) < crf.ComputeEnergy (pairLabeling b) then p else b)
    (false, false)

/-- An exact flow result for binary problems on two variables, found by enumeration: the
labels are those of `bruteBest2`, and all flow potentials are 0. -/
def bruteOracle2 : FlowOracle :=
  fun crf => ⟨fun i => if pairLabeling (bruteBest2 crf) i then 1 else 0, fun _ => [0, 0]⟩

/-- A state of a run on the energy model `e` with proposal strategy `pc`: the node-clique
list and the flow graph are those built by the initialization, and the current labels are
labels of the model. -/
def RunState (e : MLE) (pc : ProposalCallback) (t : SoSPD) : Prop :=
  t.Consistent ∧ t.m_energy = e ∧ t.m_num_labels = e.numLabels ∧ t.m_pc = pc ∧
    LabelsInRange t

/-- An energy model with one variable, two labels, unary costs 0 and one clique without
members (`size() == 0`) whose energy is 0. -/
def emptyCliqueEnergy : MLE := ⟨1, 2, fun _ _ => 0, [wideClique 0], 1000⟩

/-- A fresh orchestrator on `tripleEnergy` (all labels 0) whose dual tables hold 4 at the
entry (member 0, label 1) and 0 elsewhere: the entries at the current labels sum to the
clique's energy 0, and the zero-energy triple `(1, 1, 1)` has dual sum 4. -/
def tripleShiftedState : SoSPD :=
  { SoSPD.new tripleEnergy with m_dual := fun _ j => if j = 1 then 4 else 0 }

/-- The assertion that ended a run, if one did. -/
def faultOf {σ : Type} (r : Except Fault σ) : Option Fault :=
  match r with
  | .ok _ => none
  | .error f => some f

/-! # Properties -/

/-! ## Arithmetic of the average-and-remainder distribution -/

theorem tmod_neg_left (a b : Int) : (-a).tmod b = -(a.tmod b) := by
  rw [Int.tmod_def, Int.tmod_def, Int.neg_tdiv]
  ring

theorem tmod_bounds_of_nonpos (a : Int) (k : Nat) (hk : 1 ≤ k) (ha : a ≤ 0) :
    -(k : Int) < a.tmod k ∧ a.tmod k ≤ 0 := by
  have h1 := Int.tmod_nonneg (k : Int) (show 0 ≤ -a by omega)
  have h2 := Int.tmod_lt_of_pos (-a) (show (0 : Int) < k by omega)
  rw [tmod_neg_left] at h1 h2
  omega

theorem sum_shares_aux (a r : Int) (hr : 0 ≤ r) (n : Nat) :
    ((List.range n).map (fun i : Nat => if (i : Int) < r then a + 1 else a)).sum
      = n * a + min (n : Int) r := by
  induction n with
  | zero => simp [hr]
  | succ n ih =>
    rw [List.sum_range_succ, ih]
    push_cast
    split_ifs with h
    · rw [min_eq_left (by omega), min_eq_left (by omega)]; ring
    · rw [min_eq_right (by omega), min_eq_right (by omega)]; ring

theorem sum_shares (a r : Int) (k : Nat) (hr : 0 ≤ r) (hk : r ≤ k) :
    ((List.range k).map (fun i : Nat => if (i : Int) < r then a + 1 else a)).sum
      = k * a + r := by
  rw [sum_shares_aux a r hr k, min_eq_right hk]

theorem postAvgRemainder_spec (correction : Int) (k : Nat) (hk : 1 ≤ k) (hc : correction ≤ 0) :
    0 ≤ (postAvgRemainder correction k).2 ∧ (postAvgRemainder correction k).2 < k ∧
      k * (postAvgRemainder correction k).1 + (postAvgRemainder correction k).2 = correction := by
  have hb := tmod_bounds_of_nonpos correction k hk hc
  have hd := Int.tmod_add_tdiv correction k
  unfold postAvgRemainder
  simp only []
  split_ifs with h
  · refine ⟨by simp only []; omega, by simp only []; omega, ?_⟩
    simp only []
    linarith [mul_sub (k : Int) (correction.tdiv k) 1]
  · refine ⟨by simp only []; omega, by simp only []; omega, ?_⟩
    simp only []
    linarith

theorem sum_postIncrement (correction : Int) (k : Nat) (hk : 1 ≤ k) (hc : correction ≤ 0) :
    ((List.range k).map (fun i => postIncrement correction k i)).sum = correction := by
  obtain ⟨h0, h1, h2⟩ := postAvgRemainder_spec correction k hk hc
  unfold postIncrement
  simp only []
  rw [sum_shares _ _ k h0 (le_of_lt h1)]
  exact h2

/-- C9. For every correction `<= 0` and clique size `k >= 1`, the values of `avg` and
`remainder` with which the member loop of `PostEditDual` runs (truncating division and
remainder, then `avg -= 1; remainder += k` when the remainder is negative) satisfy
`0 <= remainder < k`, and the `k` per-member increments (`avg + 1` for positions
`i < remainder`, `avg` otherwise), which are the amounts the loop adds, sum exactly to the
correction. -/
theorem C9_remainder_distribution_exact (correction : Int) (k : Nat)
    (hk : 1 ≤ k) (hc : correction ≤ 0) :
    0 ≤ (postAvgRemainder correction k).2 ∧ (postAvgRemainder correction k).2 < k ∧
      ((List.range k).map (fun i : Nat =>
        if (i : Int) < (postAvgRemainder correction k).2
          then (postAvgRemainder correction k).1 + 1
          else (postAvgRemainder correction k).1)).sum = correction ∧
      ((List.range k).map (postIncrement correction k)).sum = correction := by
  obtain ⟨h0, h1, _⟩ := postAvgRemainder_spec correction k hk hc
  exact ⟨h0, h1, sum_postIncrement correction k hk hc, sum_postIncrement correction k hk hc⟩

theorem C9_remainder_distribution_exact_witness :
    (1 ≤ 2 ∧ (-5 : Int) ≤ 0) ∧
    0 ≤ (postAvgRemainder (-5) 2).2 ∧ (postAvgRemainder (-5) 2).2 < (2 : Nat) ∧
      ((List.range 2).map (fun i : Nat =>
        if (i : Int) < (postAvgRemainder (-5) 2).2
          then (postAvgRemainder (-5) 2).1 + 1
          else (postAvgRemainder (-5) 2).1)).sum = -5 ∧
      ((List.range 2).map (postIncrement (-5) 2)).sum = -5 :=
  ⟨⟨by decide, by decide⟩, C9_remainder_distribution_exact (-5) 2 (by decide) (by decide)⟩

/-! ## Loops that write one table entry per round -/

theorem foldl_fst_eq {α β ι : Type} (step : α × β → ι → α × β) (step1 : α → ι → α)
    (h : ∀ st i, (step st i).1 = step1 st.1 i) (l : List ι) (st : α × β) :
    (l.foldl step st).1 = l.foldl step1 st.1 := by
  induction l generalizing st with
  | nil => rfl
  | cons x xs ih => simp only [List.foldl_cons]; rw [ih, h]

theorem foldl_modify_other {α : Type} (idx : Nat → Nat) (w : Nat → α → α) (f : Nat → α)
    (n j : Nat) (hj : ∀ i < n, idx i ≠ j) :
    (List.range n).foldl (fun g i => Function.update g (idx i) (w i (g (idx i)))) f j = f j := by
  induction n with
  | zero => rfl
  | succ n ih =>
    rw [List.range_succ, List.foldl_append]
    simp only [List.foldl_cons, List.foldl_nil]
    rw [Function.update_noteq (Ne.symm (hj n (Nat.lt_succ_self n)))]
    exact ih (fun i hi => hj i (Nat.lt_succ_of_lt hi))

theorem foldl_modify_at {α : Type} (idx : Nat → Nat) (w : Nat → α → α) (f : Nat → α)
    (n i : Nat) (hi : i < n) (hinj : ∀ i' < n, i' ≠ i → idx i' ≠ idx i) :
    (List.range n).foldl (fun g i => Function.update g (idx i) (w i (g (idx i)))) f (idx i)
      = w i (f (idx i)) := by
  induction n with
  | zero => omega
  | succ n ih =>
    rw [List.range_succ, List.foldl_append]
    simp only [List.foldl_cons, List.foldl_nil]
    by_cases h : i = n
    · subst h
      rw [Function.update_same]
      rw [foldl_modify_other idx w f i (idx i)
        (fun i' hi' => hinj i' (Nat.lt_succ_of_lt hi') (Nat.ne_of_lt hi'))]
    · have hlt : i < n := by omega
      rw [Function.update_noteq (Ne.symm (hinj n (Nat.lt_succ_self n) (Ne.symm h)))]
      exact ih hlt (fun i' hi' hne => hinj i' (Nat.lt_succ_of_lt hi') hne)

theorem flat_index_inj (nl i i' l l' : Nat) (hl : l < nl) (hl' : l' < nl)
    (h : i * nl + l = i' * nl + l') : i = i' := by
  have h1 : (i * nl + l) / nl = i := by
    rw [Nat.add_comm, Nat.add_mul_div_right _ _ (by omega), Nat.div_eq_of_lt hl, Nat.zero_add]
  have h2 : (i' * nl + l') / nl = i' := by
    rw [Nat.add_comm, Nat.add_mul_div_right _ _ (by omega), Nat.div_eq_of_lt hl', Nat.zero_add]
  rw [← h1, ← h2, h]

/-! ## `InitialDual` -/

theorem InitialDual_members_fst (s : SoSPD) (c : Clique) (energy : Int)
    (init : (Nat → Int) × (Nat → Int)) :
    (InitialDual_members s c energy init).1 =
      (List.range c.size).foldl
        (fun g i => Function.update g (i * s.m_num_labels + s.m_labels (c.nodes.getD i 0))
          ((fun i (_ : Int) => initialShare energy c.size i) i
            (g (i * s.m_num_labels + s.m_labels (c.nodes.getD i 0))))) init.1 := by
  unfold InitialDual_members
  exact foldl_fst_eq _ _ (fun _ _ => rfl) _ _

theorem getD_mem_of_lt (l : List Nat) (i : Nat) (h : i < l.length) : l.getD i 0 ∈ l := by
  rw [List.getD_eq_getElem l 0 h]
  exact List.getElem_mem h

theorem member_index_ne (s : SoSPD) (c : Clique)
    (hl : ∀ v ∈ c.nodes, s.m_labels v < s.m_num_labels) (i i' : Nat)
    (hi : i < c.size) (hi' : i' < c.size) (hne : i' ≠ i) :
    i' * s.m_num_labels + s.m_labels (c.nodes.getD i' 0)
      ≠ i * s.m_num_labels + s.m_labels (c.nodes.getD i 0) := by
  intro h
  exact hne (flat_index_inj _ _ _ _ _
    (hl _ (getD_mem_of_lt _ _ hi')) (hl _ (getD_mem_of_lt _ _ hi)) h)

theorem InitialDual_members_at (s : SoSPD) (c : Clique) (energy : Int)
    (init : (Nat → Int) × (Nat → Int))
    (hl : ∀ v ∈ c.nodes, s.m_labels v < s.m_num_labels) (i : Nat) (hi : i < c.size) :
    (InitialDual_members s c energy init).1
        (i * s.m_num_labels + s.m_labels (c.nodes.getD i 0))
      = initialShare energy c.size i := by
  rw [InitialDual_members_fst]
  exact foldl_modify_at (fun i => i * s.m_num_labels + s.m_labels (c.nodes.getD i 0))
    (fun i _ => initialShare energy c.size i) init.1 c.size i hi
    (fun i' hi' hne => member_index_ne s c hl i i' hi hi' hne)

theorem InitialDual_members_other (s : SoSPD) (c : Clique) (energy : Int)
    (init : (Nat → Int) × (Nat → Int)) (j : Nat)
    (hj : ∀ i < c.size, i * s.m_num_labels + s.m_labels (c.nodes.getD i 0) ≠ j) :
    (InitialDual_members s c energy init).1 j = init.1 j := by
  rw [InitialDual_members_fst]
  exact foldl_modify_other (fun i => i * s.m_num_labels + s.m_labels (c.nodes.getD i 0))
    (fun i _ => initialShare energy c.size i) init.1 c.size j hj

theorem InitialDual_clique_ok (ci : Nat) (c : Clique) (s : SoSPD)
    (h1 : 1 ≤ c.size) (h2 : c.size < 32) (he : 0 ≤ c.energy (c.nodes.map s.m_labels)) :
    InitialDual_clique ci c s = .ok
      { s with
        m_dual := Function.update s.m_dual ci
          (InitialDual_members s c (c.energy (c.nodes.map s.m_labels))
            (fun _ => 0, s.m_heights)).1,
        m_heights := (InitialDual_members s c (c.energy (c.nodes.map s.m_labels))
            (fun _ => 0, s.m_heights)).2 } := by
  unfold InitialDual_clique
  have h3 : ¬ c.size = 0 := by omega
  simp [h2, he, h3]

theorem InitialDual_loop (cs : List Clique) (i0 : Nat) (s : SoSPD)
    (h : ∀ c ∈ cs, 1 ≤ c.size ∧ c.size < 32 ∧ 0 ≤ c.energy (c.nodes.map s.m_labels))
    (hl : ∀ c ∈ cs, ∀ v ∈ c.nodes, s.m_labels v < s.m_num_labels) :
    ∃ s', forCliques InitialDual_clique cs i0 s = .ok s' ∧ s'.m_labels = s.m_labels ∧
      s'.m_num_labels = s.m_num_labels ∧ s'.m_energy = s.m_energy ∧
      (∀ j < i0, s'.m_dual j = s.m_dual j) ∧
      ∀ p c, cs[p]? = some c →
        (∀ i < c.size, s'.m_dual (i0 + p) (i * s.m_num_labels + s.m_labels (c.nodes.getD i 0))
          = initialShare (c.energy (c.nodes.map s.m_labels)) c.size i) ∧
        (∀ j, (∀ i < c.size, i * s.m_num_labels + s.m_labels (c.nodes.getD i 0) ≠ j) →
          s'.m_dual (i0 + p) j = 0) := by
  induction cs generalizing i0 s with
  | nil => exact ⟨s, rfl, rfl, rfl, rfl, fun _ _ => rfl, fun p c hp => by simp at hp⟩
  | cons c cs ih =>
    obtain ⟨h1, h2, he⟩ := h c (List.mem_cons_self _ _)
    have hstep := InitialDual_clique_ok i0 c s h1 h2 he
    obtain ⟨s', hs', hlab, hnl, hen, hframe, hpost⟩ := ih (i0 + 1)
      { s with
        m_dual := Function.update s.m_dual i0
          (InitialDual_members s c (c.energy (c.nodes.map s.m_labels))
            (fun _ => 0, s.m_heights)).1,
        m_heights := (InitialDual_members s c (c.energy (c.nodes.map s.m_labels))
            (fun _ => 0, s.m_heights)).2 }
      (fun c' hc' => h c' (List.mem_cons_of_mem _ hc'))
      (fun c' hc' => hl c' (List.mem_cons_of_mem _ hc'))
    refine ⟨s', ?_, hlab, hnl, hen, ?_, ?_⟩
    · simp only [forCliques, hstep]; exact hs'
    · intro j hj
      rw [hframe j (by omega)]
      exact Function.update_noteq (by omega) _ _
    · intro p c' hp
      cases p with
      | zero =>
        simp only [List.getElem?_cons_zero, Option.some.injEq] at hp
        subst hp
        rw [Nat.add_zero, hframe i0 (by omega)]
        simp only [Function.update_same]
        exact ⟨fun i hi => InitialDual_members_at s c _ _ (hl c (List.mem_cons_self _ _)) i hi,
          fun j hj => InitialDual_members_other s c _ _ j hj⟩
      | succ p =>
        simp only [List.getElem?_cons_succ] at hp
        have := hpost p c' hp
        rw [show i0 + (p + 1) = i0 + 1 + p by omega]
        exact this

theorem foldl_invariant {α β : Type} (P : β → Prop) (f : β → α → β) (l : List α)
    (h : ∀ b a, a ∈ l → P b → P (f b a)) (b0 : β) (h0 : P b0) : P (l.foldl f b0) := by
  induction l generalizing b0 with
  | nil => exact h0
  | cons x xs ih =>
    simp only [List.foldl_cons]
    exact ih (fun b a ha hb => h b a (List.mem_cons_of_mem _ ha) hb) _
      (h b0 x (List.mem_cons_self _ _) h0)

theorem InitialLabeling_var_lt (e : MLE) (nl i j : Nat) (labels : Nat → Nat)
    (h : labels j < nl) : (InitialLabeling_var e nl i labels).2 j < nl := by
  unfold InitialLabeling_var
  refine foldl_invariant (fun st : Int × (Nat → Nat) => st.2 j < nl) _ _ ?_ _ h
  intro st l hl hst
  simp only [List.mem_range] at hl
  split_ifs
  · simp only [Function.update_apply]
    split_ifs
    · exact hl
    · exact hst
  · exact hst

theorem InitialLabeling_lt (s : SoSPD) (j : Nat) (h : s.m_labels j < s.m_num_labels) :
    (InitialLabeling s).m_labels j < s.m_num_labels := by
  unfold InitialLabeling
  simp only []
  exact foldl_invariant (fun labels : Nat → Nat => labels j < s.m_num_labels) _ _
    (fun labels i _ hlab => InitialLabeling_var_lt s.m_energy s.m_num_labels i j labels hlab)
    _ h

theorem sum_initialShare (energy : Int) (k : Nat) (hk : 1 ≤ k) (he : 0 ≤ energy) :
    ((List.range k).map (fun i => initialShare energy k i)).sum = energy := by
  unfold initialShare
  simp only []
  rw [sum_shares _ _ k (Int.tmod_nonneg _ he)
    (le_of_lt (Int.tmod_lt_of_pos _ (by omega)))]
  exact Int.tdiv_add_tmod energy k

theorem initialShare_eq (energy : Int) (k i : Nat) (he : 0 ≤ energy) :
    initialShare energy k i = if (i : Int) < energy % k then energy / k + 1 else energy / k := by
  unfold initialShare
  simp only []
  rw [Int.tdiv_eq_ediv he (Int.ofNat_zero_le k), Int.tmod_eq_emod he (Int.ofNat_zero_le k)]

theorem mem_of_getElem?_eq {α : Type} {l : List α} {i : Nat} {a : α} (h : l[i]? = some a) :
    a ∈ l := by
  obtain ⟨hi, rfl⟩ := List.getElem?_eq_some.mp h
  exact List.getElem_mem hi

theorem Valid_node_label_lt {s : SoSPD} (hv : s.Valid) {c : Clique}
    (hc : c ∈ s.m_energy.cliques) {v : Nat} (hvn : v ∈ c.nodes) :
    s.m_labels v < s.m_num_labels :=
  hv.2.2 v (hv.1.2.1 c hc v hvn)

theorem Valid_InitialLabeling {s : SoSPD} (hv : s.Valid) : (InitialLabeling s).Valid :=
  ⟨hv.1, hv.2.1, fun i hi => InitialLabeling_lt s i (hv.2.2 i hi)⟩

theorem InitialDual_spec (s : SoSPD) (hv : s.Valid)
    (hk : ∀ c ∈ s.m_energy.cliques, 1 ≤ c.size ∧ c.size < 32)
    (he : ∀ c ∈ s.m_energy.cliques, 0 ≤ c.energy (c.nodes.map s.m_labels)) :
    ∃ s', InitialDual s = .ok s' ∧ s'.m_labels = s.m_labels ∧
      s'.m_num_labels = s.m_num_labels ∧ s'.m_energy = s.m_energy ∧
      ∀ ci c, s.m_energy.cliques[ci]? = some c →
        (∀ i < c.size, s'.m_dual ci (i * s.m_num_labels + s.m_labels (c.nodes.getD i 0))
          = initialShare (c.energy (c.nodes.map s.m_labels)) c.size i) ∧
        (∀ j, (∀ i < c.size, i * s.m_num_labels + s.m_labels (c.nodes.getD i 0) ≠ j) →
          s'.m_dual ci j = 0) := by
  obtain ⟨s', hs', hlab, hnl, hen, _, hpost⟩ := InitialDual_loop s.m_energy.cliques 0
    { s with m_heights := initialHeights s.m_energy s.m_num_labels, m_dual := fun _ _ => 0 }
    (fun c hc => ⟨(hk c hc).1, (hk c hc).2, he c hc⟩)
    (fun c hc v hvn => Valid_node_label_lt hv hc hvn)
  refine ⟨s', hs', hlab, hnl, hen, fun ci c hc => ?_⟩
  have := hpost ci c hc
  rw [Nat.zero_add] at this
  exact this

theorem Tight_of_shares (s' : SoSPD) (ci : Nat) (c : Clique) (energy : Int)
    (hen : c.energy (c.nodes.map s'.m_labels) = energy) (incr : Nat → Int)
    (hsum : ((List.range c.size).map incr).sum = energy)
    (h : ∀ i < c.size, s'.m_dual ci (i * s'.m_num_labels + s'.m_labels (c.nodes.getD i 0))
      = incr i) : Tight s' ci c := by
  unfold Tight SoSPD.dualVariable
  rw [hen, ← hsum]
  congr 1
  exact List.map_congr_left (fun i hi => h i (List.mem_range.mp hi))

/-- C1. Tightness after initialization: on a valid state whose cliques all have a size `k`
with `1 <= k < 32` and a non-negative energy at the initial labeling, `InitialLabeling`
followed by `InitialDual` succeeds, and afterwards, for every clique, the dual variables of
the members at their current labels sum exactly to the clique's energy at the current
labeling. -/
theorem C1_tight_after_InitialDual (s : SoSPD) (hv : s.Valid)
    (hk : ∀ c ∈ s.m_energy.cliques, 1 ≤ c.size ∧ c.size < 32)
    (he : ∀ c ∈ s.m_energy.cliques,
      0 ≤ c.energy (c.nodes.map (InitialLabeling s).m_labels)) :
    ∃ s', InitialDual (InitialLabeling s) = .ok s' ∧
      ∀ ci c, s.m_energy.cliques[ci]? = some c → Tight s' ci c := by
  obtain ⟨s', hs', hlab, hnl, _, hpost⟩ :=
    InitialDual_spec (InitialLabeling s) (Valid_InitialLabeling hv) hk he
  refine ⟨s', hs', fun ci c hc => ?_⟩
  have hmem : c ∈ s.m_energy.cliques := mem_of_getElem?_eq hc
  refine Tight_of_shares s' ci c _ (by rw [hlab]) _
    (sum_initialShare _ c.size (hk c hmem).1 (he c hmem)) ?_
  intro i hi
  rw [hlab, hnl]
  exact (hpost ci c hc).1 i hi

/-- C10. Initial share formula: when `InitialDual` runs on a valid state whose cliques all
have a size `k` with `1 <= k < 32` and an energy `e >= 0` at the current (initial) labeling,
it succeeds, and afterwards, for every clique and member position `i`, the dual variable at
the member's current label is `floor(e / k) + 1` if `i < e mod k` and `floor(e / k)`
otherwise, and the dual variable of that member at every other label is 0. -/
theorem C10_initial_share_formula (s : SoSPD) (hv : s.Valid)
    (hk : ∀ c ∈ s.m_energy.cliques, 1 ≤ c.size ∧ c.size < 32)
    (he : ∀ c ∈ s.m_energy.cliques, 0 ≤ c.energy (c.nodes.map s.m_labels)) :
    ∃ s', InitialDual s = .ok s' ∧ s'.m_labels = s.m_labels ∧
      ∀ ci c, s.m_energy.cliques[ci]? = some c → ∀ i < c.size,
        s'.dualVariable ci i (s'.m_labels (c.nodes.getD i 0)) =
          (if (i : Int) < c.energy (c.nodes.map s'.m_labels) % c.size
            then c.energy (c.nodes.map s'.m_labels) / (c.size : Int) + 1
            else c.energy (c.nodes.map s'.m_labels) / (c.size : Int)) ∧
        ∀ l < s'.m_num_labels, l ≠ s'.m_labels (c.nodes.getD i 0) →
          s'.dualVariable ci i l = 0 := by
  obtain ⟨s', hs', hlab, hnl, _, hpost⟩ := InitialDual_spec s hv hk he
  refine ⟨s', hs', hlab, fun ci c hc i hi => ?_⟩
  have hmem : c ∈ s.m_energy.cliques := mem_of_getElem?_eq hc
  unfold SoSPD.dualVariable
  rw [hlab, hnl]
  refine ⟨?_, fun l hl hne => ?_⟩
  · rw [(hpost ci c hc).1 i hi]
    exact initialShare_eq _ _ _ (he c hmem)
  · refine (hpost ci c hc).2 _ (fun i' hi' heq => ?_)
    have hlt := Valid_node_label_lt hv hmem (getD_mem_of_lt c.nodes i' hi')
    have hii : i' = i := flat_index_inj _ _ _ _ _ hlt hl heq
    subst hii
    exact hne (Nat.add_left_cancel heq).symm

theorem exampleEnergy_WF : exampleEnergy.WF := by
  refine ⟨by decide, ?_, ?_⟩
  · intro c hc v hv
    simp only [exampleEnergy, List.mem_singleton] at hc
    subst hc
    simp only [pottsClique, List.mem_cons, List.mem_singleton] at hv
    rcases hv with rfl | rfl | hv
    · decide
    · decide
    · simp at hv
  · decide

theorem exampleEnergy_new_Valid : (SoSPD.new exampleEnergy).Valid :=
  ⟨exampleEnergy_WF, rfl, fun _ _ => Nat.zero_lt_two⟩

theorem C1_tight_after_InitialDual_witness :
    (SoSPD.new exampleEnergy).Valid ∧
    (∀ c ∈ (SoSPD.new exampleEnergy).m_energy.cliques, 1 ≤ c.size ∧ c.size < 32) ∧
    (∀ c ∈ (SoSPD.new exampleEnergy).m_energy.cliques,
      0 ≤ c.energy (c.nodes.map (InitialLabeling (SoSPD.new exampleEnergy)).m_labels)) ∧
    ∃ s', InitialDual (InitialLabeling (SoSPD.new exampleEnergy)) = .ok s' ∧
      ∀ ci c, (SoSPD.new exampleEnergy).m_energy.cliques[ci]? = some c → Tight s' ci c :=
  have hk : ∀ c ∈ (SoSPD.new exampleEnergy).m_energy.cliques, 1 ≤ c.size ∧ c.size < 32 := by
    intro c hc
    simp only [SoSPD.new, exampleEnergy, List.mem_singleton] at hc
    subst hc
    decide
  have he : ∀ c ∈ (SoSPD.new exampleEnergy).m_energy.cliques,
      0 ≤ c.energy (c.nodes.map (InitialLabeling (SoSPD.new exampleEnergy)).m_labels) := by
    intro c hc
    simp only [SoSPD.new, exampleEnergy, List.mem_singleton] at hc
    subst hc
    decide
  ⟨exampleEnergy_new_Valid, hk, he,
    C1_tight_after_InitialDual (SoSPD.new exampleEnergy) exampleEnergy_new_Valid hk he⟩

theorem exampleShareEnergy_WF : exampleShareEnergy.WF := by
  refine ⟨by decide, ?_, ?_⟩
  · intro c hc v hv
    simp only [exampleShareEnergy, List.mem_singleton] at hc
    subst hc
    simp only [shareClique, List.mem_cons, List.mem_singleton] at hv
    rcases hv with rfl | rfl | rfl | hv
    · decide
    · decide
    · decide
    · simp at hv
  · decide

theorem C10_initial_share_formula_witness :
    (InitialLabeling (SoSPD.new exampleShareEnergy)).Valid ∧
    (∀ c ∈ (InitialLabeling (SoSPD.new exampleShareEnergy)).m_energy.cliques,
      1 ≤ c.size ∧ c.size < 32) ∧
    (∀ c ∈ (InitialLabeling (SoSPD.new exampleShareEnergy)).m_energy.cliques,
      0 ≤ c.energy (c.nodes.map (InitialLabeling (SoSPD.new exampleShareEnergy)).m_labels)) ∧
    ((InitialLabeling (SoSPD.new exampleShareEnergy)).m_labels 0,
      (InitialLabeling (SoSPD.new exampleShareEnergy)).m_labels 1,
      (InitialLabeling (SoSPD.new exampleShareEnergy)).m_labels 2,
      shareClique.energy
        (shareClique.nodes.map (InitialLabeling (SoSPD.new exampleShareEnergy)).m_labels))
      = (0, 1, 0, 8) ∧
    observe (InitialDual (InitialLabeling (SoSPD.new exampleShareEnergy)))
      (fun s' => ((s'.dualVariable 0 0 0, s'.dualVariable 0 1 1, s'.dualVariable 0 2 0),
        (s'.dualVariable 0 0 1, s'.dualVariable 0 1 0, s'.dualVariable 0 2 1)))
      = some ((3, 3, 2), (0, 0, 0)) ∧
    ∃ s', InitialDual (InitialLabeling (SoSPD.new exampleShareEnergy)) = .ok s' ∧
      s'.m_labels = (InitialLabeling (SoSPD.new exampleShareEnergy)).m_labels ∧
      ∀ ci c, (InitialLabeling (SoSPD.new exampleShareEnergy)).m_energy.cliques[ci]? = some c →
        ∀ i < c.size,
        s'.dualVariable ci i (s'.m_labels (c.nodes.getD i 0)) =
          (if (i : Int) < c.energy (c.nodes.map s'.m_labels) % c.size
            then c.energy (c.nodes.map s'.m_labels) / (c.size : Int) + 1
            else c.energy (c.nodes.map s'.m_labels) / (c.size : Int)) ∧
        ∀ l < s'.m_num_labels, l ≠ s'.m_labels (c.nodes.getD i 0) →
          s'.dualVariable ci i l = 0 :=
  have hv : (InitialLabeling (SoSPD.new exampleShareEnergy)).Valid :=
    Valid_InitialLabeling ⟨exampleShareEnergy_WF, rfl, fun _ _ => Nat.zero_lt_two⟩
  have hk : ∀ c ∈ (InitialLabeling (SoSPD.new exampleShareEnergy)).m_energy.cliques,
      1 ≤ c.size ∧ c.size < 32 := by
    intro c hc
    simp only [InitialLabeling, SoSPD.new, exampleShareEnergy, List.mem_singleton] at hc
    subst hc
    decide
  have he : ∀ c ∈ (InitialLabeling (SoSPD.new exampleShareEnergy)).m_energy.cliques,
      0 ≤ c.energy
        (c.nodes.map (InitialLabeling (SoSPD.new exampleShareEnergy)).m_labels) := by
    intro c hc
    simp only [InitialLabeling, SoSPD.new, exampleShareEnergy, List.mem_singleton] at hc
    subst hc
    decide
  ⟨hv, hk, he, by decide, by decide,
    C10_initial_share_formula (InitialLabeling (SoSPD.new exampleShareEnergy)) hv hk he⟩

/-! ## `PostEditDual` -/

theorem PostEditDual_members_fst (s : SoSPD) (c : Clique) (corr : Int)
    (init : (Nat → Int) × (Nat → Int)) :
    (PostEditDual_members s c corr init).1 =
      (List.range c.size).foldl
        (fun g i => Function.update g (i * s.m_num_labels + s.m_labels (c.nodes.getD i 0))
          ((fun i (x : Int) => x + postIncrement corr c.size i) i
            (g (i * s.m_num_labels + s.m_labels (c.nodes.getD i 0))))) init.1 := by
  unfold PostEditDual_members
  exact foldl_fst_eq _ _ (fun _ _ => rfl) _ _

theorem PostEditDual_members_at (s : SoSPD) (c : Clique) (corr : Int)
    (init : (Nat → Int) × (Nat → Int))
    (hl : ∀ v ∈ c.nodes, s.m_labels v < s.m_num_labels) (i : Nat) (hi : i < c.size) :
    (PostEditDual_members s c corr init).1
        (i * s.m_num_labels + s.m_labels (c.nodes.getD i 0))
      = init.1 (i * s.m_num_labels + s.m_labels (c.nodes.getD i 0))
        + postIncrement corr c.size i := by
  rw [PostEditDual_members_fst]
  exact foldl_modify_at (fun i => i * s.m_num_labels + s.m_labels (c.nodes.getD i 0))
    (fun i x => x + postIncrement corr c.size i) init.1 c.size i hi
    (fun i' hi' hne => member_index_ne s c hl i i' hi hi' hne)

theorem PostEditDual_members_other (s : SoSPD) (c : Clique) (corr : Int)
    (init : (Nat → Int) × (Nat → Int)) (j : Nat)
    (hj : ∀ i < c.size, i * s.m_num_labels + s.m_labels (c.nodes.getD i 0) ≠ j) :
    (PostEditDual_members s c corr init).1 j = init.1 j := by
  rw [PostEditDual_members_fst]
  exact foldl_modify_other (fun i => i * s.m_num_labels + s.m_labels (c.nodes.getD i 0))
    (fun i x => x + postIncrement corr c.size i) init.1 c.size j hj

theorem PostEditDual_clique_ok (ci : Nat) (c : Clique) (s : SoSPD)
    (h1 : 1 ≤ c.size) (h2 : c.size < 32) (hc : correction s ci c ≤ 0) :
    PostEditDual_clique ci c s = .ok
      { s with
        m_dual := Function.update s.m_dual ci
          (PostEditDual_members s c (correction s ci c) (s.m_dual ci, s.m_heights)).1,
        m_heights :=
          (PostEditDual_members s c (correction s ci c) (s.m_dual ci, s.m_heights)).2 } := by
  unfold PostEditDual_clique
  have h3 : ¬ c.size = 0 := by omega
  simp [h2, hc, h3]

theorem correction_congr (s s' : SoSPD) (ci : Nat) (c : Clique)
    (hlab : s'.m_labels = s.m_labels) (hnl : s'.m_num_labels = s.m_num_labels)
    (hd : s'.m_dual ci = s.m_dual ci) : correction s' ci c = correction s ci c := by
  unfold correction lambdaSum SoSPD.dualVariable
  rw [hlab, hnl, hd]

theorem PostEditDual_loop (cs : List Clique) (i0 : Nat) (s : SoSPD)
    (hk : ∀ c ∈ cs, 1 ≤ c.size ∧ c.size < 32)
    (hc : ∀ p c, cs[p]? = some c → correction s (i0 + p) c ≤ 0)
    (hl : ∀ c ∈ cs, ∀ v ∈ c.nodes, s.m_labels v < s.m_num_labels) :
    ∃ s', forCliques PostEditDual_clique cs i0 s = .ok s' ∧ s'.m_labels = s.m_labels ∧
      s'.m_num_labels = s.m_num_labels ∧ s'.m_energy = s.m_energy ∧
      (∀ j < i0, s'.m_dual j = s.m_dual j) ∧
      ∀ p c, cs[p]? = some c →
        (∀ i < c.size, s'.m_dual (i0 + p) (i * s.m_num_labels + s.m_labels (c.nodes.getD i 0))
          = s.m_dual (i0 + p) (i * s.m_num_labels + s.m_labels (c.nodes.getD i 0))
            + postIncrement (correction s (i0 + p) c) c.size i) ∧
        (∀ j, (∀ i < c.size, i * s.m_num_labels + s.m_labels (c.nodes.getD i 0) ≠ j) →
          s'.m_dual (i0 + p) j = s.m_dual (i0 + p) j) := by
  induction cs generalizing i0 s with
  | nil => exact ⟨s, rfl, rfl, rfl, rfl, fun _ _ => rfl, fun p c hp => by simp at hp⟩
  | cons c cs ih =>
    obtain ⟨h1, h2⟩ := hk c (List.mem_cons_self _ _)
    have hc0 : correction s i0 c ≤ 0 := hc 0 c (by simp)
    have hstep := PostEditDual_clique_ok i0 c s h1 h2 hc0
    have hcorr : ∀ (p : Nat) (c' : Clique), correction
        { s with
          m_dual := Function.update s.m_dual i0
            (PostEditDual_members s c (correction s i0 c) (s.m_dual i0, s.m_heights)).1,
          m_heights :=
            (PostEditDual_members s c (correction s i0 c) (s.m_dual i0, s.m_heights)).2 }
        (i0 + 1 + p) c' = correction s (i0 + 1 + p) c' := fun p c' =>
      correction_congr s _ _ c' rfl rfl (Function.update_noteq (by omega) _ _)
    obtain ⟨s', hs', hlab, hnl, hen, hframe, hpost⟩ := ih (i0 + 1)
      { s with
        m_dual := Function.update s.m_dual i0
          (PostEditDual_members s c (correction s i0 c) (s.m_dual i0, s.m_heights)).1,
        m_heights :=
          (PostEditDual_members s c (correction s i0 c) (s.m_dual i0, s.m_heights)).2 }
      (fun c' hc' => hk c' (List.mem_cons_of_mem _ hc'))
      (fun p c' hp => by
        rw [hcorr p c']
        have := hc (p + 1) c' (by simpa using hp)
        rwa [show i0 + (p + 1) = i0 + 1 + p by omega] at this)
      (fun c' hc' => hl c' (List.mem_cons_of_mem _ hc'))
    refine ⟨s', ?_, hlab, hnl, hen, ?_, ?_⟩
    · simp only [forCliques, hstep]; exact hs'
    · intro j hj
      rw [hframe j (by omega)]
      exact Function.update_noteq (by omega) _ _
    · intro p c' hp
      cases p with
      | zero =>
        simp only [List.getElem?_cons_zero, Option.some.injEq] at hp
        subst hp
        rw [Nat.add_zero, hframe i0 (by omega)]
        simp only [Function.update_same]
        exact ⟨fun i hi => PostEditDual_members_at s c _ _ (hl c (List.mem_cons_self _ _)) i hi,
          fun j hj => PostEditDual_members_other s c _ _ j hj⟩
      | succ p =>
        simp only [List.getElem?_cons_succ] at hp
        have := hpost p c' hp
        rw [hcorr p c'] at this
        rw [show i0 + (p + 1) = i0 + 1 + p by omega]
        simp only [] at this
        have hne : i0 + 1 + p ≠ i0 := by omega
        rw [Function.update_noteq hne] at this
        exact this

theorem PostEditDual_spec (s : SoSPD) (hv : s.Valid)
    (hk : ∀ c ∈ s.m_energy.cliques, 1 ≤ c.size ∧ c.size < 32)
    (hc : ∀ ci c, s.m_energy.cliques[ci]? = some c → correction s ci c ≤ 0) :
    ∃ s', PostEditDual s = .ok s' ∧ s'.m_labels = s.m_labels ∧
      s'.m_num_labels = s.m_num_labels ∧ s'.m_energy = s.m_energy ∧
      ∀ ci c, s.m_energy.cliques[ci]? = some c →
        (∀ i < c.size, s'.m_dual ci (i * s.m_num_labels + s.m_labels (c.nodes.getD i 0))
          = s.m_dual ci (i * s.m_num_labels + s.m_labels (c.nodes.getD i 0))
            + postIncrement (correction s ci c) c.size i) ∧
        (∀ j, (∀ i < c.size, i * s.m_num_labels + s.m_labels (c.nodes.getD i 0) ≠ j) →
          s'.m_dual ci j = s.m_dual ci j) := by
  obtain ⟨s', hs', hlab, hnl, hen, _, hpost⟩ := PostEditDual_loop s.m_energy.cliques 0 s hk
    (fun p c hp => by rw [Nat.zero_add]; exact hc p c hp)
    (fun c hc' v hvn => Valid_node_label_lt hv hc' hvn)
  refine ⟨s', hs', hlab, hnl, hen, fun ci c hc' => ?_⟩
  have := hpost ci c hc'
  rw [Nat.zero_add] at this
  exact this

/-- C2. Tightness after repair: on a valid state (current labels in range) whose cliques all
have a size `k` with `1 <= k < 32` and a correction
`energy(current tuple) - sum_i dual(clique, i, currentLabel(node_i)) <= 0`, `PostEditDual`
succeeds, and afterwards, for every clique, the dual variables of the members at their
current labels sum exactly to the clique's energy at the current labeling. -/
theorem C2_tight_after_PostEditDual (s : SoSPD) (hv : s.Valid)
    (hk : ∀ c ∈ s.m_energy.cliques, 1 ≤ c.size ∧ c.size < 32)
    (hc : ∀ ci c, s.m_energy.cliques[ci]? = some c → correction s ci c ≤ 0) :
    ∃ s', PostEditDual s = .ok s' ∧
      ∀ ci c, s.m_energy.cliques[ci]? = some c → Tight s' ci c := by
  obtain ⟨s', hs', hlab, hnl, _, hpost⟩ := PostEditDual_spec s hv hk hc
  refine ⟨s', hs', fun ci c hc' => ?_⟩
  have hmem : c ∈ s.m_energy.cliques := mem_of_getElem?_eq hc'
  refine Tight_of_shares s' ci c _ (by rw [hlab])
    (fun i => s.m_dual ci (i * s.m_num_labels + s.m_labels (c.nodes.getD i 0))
      + postIncrement (correction s ci c) c.size i) ?_ ?_
  · rw [List.sum_map_add, sum_postIncrement _ _ (hk c hmem).1 (hc ci c hc')]
    unfold correction lambdaSum SoSPD.dualVariable
    ring
  · intro i hi
    rw [hlab, hnl]
    exact (hpost ci c hc').1 i hi

theorem exampleDriftState_Valid : exampleDriftState.Valid :=
  ⟨exampleEnergy_WF, rfl, fun _ _ => Nat.zero_lt_two⟩

theorem exampleEnergy_sizes :
    ∀ c ∈ exampleEnergy.cliques, 1 ≤ c.size ∧ c.size < 32 := by
  intro c hc
  simp only [exampleEnergy, List.mem_singleton] at hc
  subst hc
  decide

theorem exampleEnergy_clique_at {ci : Nat} {c : Clique}
    (h : exampleEnergy.cliques[ci]? = some c) : ci = 0 ∧ c = pottsClique 10 := by
  cases ci with
  | zero =>
    simp only [exampleEnergy, List.getElem?_cons_zero, Option.some.injEq] at h
    exact ⟨rfl, h.symm⟩
  | succ n => simp [exampleEnergy] at h

theorem exampleDriftState_correction :
    ∀ ci c, exampleDriftState.m_energy.cliques[ci]? = some c →
      correction exampleDriftState ci c ≤ 0 := by
  intro ci c h
  obtain ⟨rfl, rfl⟩ := exampleEnergy_clique_at h
  decide

theorem C2_tight_after_PostEditDual_witness :
    exampleDriftState.Valid ∧
    (∀ c ∈ exampleDriftState.m_energy.cliques, 1 ≤ c.size ∧ c.size < 32) ∧
    (∀ ci c, exampleDriftState.m_energy.cliques[ci]? = some c →
      correction exampleDriftState ci c ≤ 0) ∧
    ∃ s', PostEditDual exampleDriftState = .ok s' ∧
      ∀ ci c, exampleDriftState.m_energy.cliques[ci]? = some c → Tight s' ci c :=
  ⟨exampleDriftState_Valid, exampleEnergy_sizes, exampleDriftState_correction,
    C2_tight_after_PostEditDual exampleDriftState exampleDriftState_Valid
      exampleEnergy_sizes exampleDriftState_correction⟩

/-! ## Sign of the dual variables -/

theorem initialShare_nonneg (energy : Int) (k i : Nat) (he : 0 ≤ energy) :
    0 ≤ initialShare energy k i := by
  have h := Int.tdiv_nonneg he (Int.ofNat_zero_le k)
  unfold initialShare
  simp only []
  split_ifs <;> omega

theorem postIncrement_nonpos (corr : Int) (k i : Nat) (hk : 1 ≤ k) (hc : corr ≤ 0) :
    postIncrement corr k i ≤ 0 := by
  obtain ⟨h0, h1, h2⟩ := postAvgRemainder_spec corr k hk hc
  have hkpos : (0 : Int) < k := by omega
  unfold postIncrement
  simp only []
  split_ifs with h
  · by_contra hcon
    have hpos : 0 ≤ (postAvgRemainder corr k).1 := by omega
    have := mul_nonneg (le_of_lt hkpos) hpos
    omega
  · by_contra hcon
    have hpos : 0 < (postAvgRemainder corr k).1 := by omega
    have := mul_pos hkpos hpos
    omega

/-- C8 (amended). Every dual variable is `>= 0` after `InitialDual`.  `PostEditDual`, on a
valid state whose cliques have a correction `<= 0`, adds to each member's dual variable at
its current label the non-positive increment `avg` or `avg + 1` and leaves the member's
dual variables at the other labels unchanged; so the variable at the current label is
`>= 0` afterwards exactly when its previous value was at least the amount taken off. -/
theorem C8_dual_sign_after_updates (s : SoSPD) (hv : s.Valid)
    (hk : ∀ c ∈ s.m_energy.cliques, 1 ≤ c.size ∧ c.size < 32) :
    ((∀ c ∈ s.m_energy.cliques, 0 ≤ c.energy (c.nodes.map s.m_labels)) →
      ∃ s', InitialDual s = .ok s' ∧
        ∀ ci c, s.m_energy.cliques[ci]? = some c → ∀ i < c.size, ∀ l < s'.m_num_labels,
          0 ≤ s'.dualVariable ci i l) ∧
    ((∀ ci c, s.m_energy.cliques[ci]? = some c → correction s ci c ≤ 0) →
      ∃ s', PostEditDual s = .ok s' ∧
        ∀ ci c, s.m_energy.cliques[ci]? = some c → ∀ i < c.size,
          postIncrement (correction s ci c) c.size i ≤ 0 ∧
          s'.dualVariable ci i (s.m_labels (c.nodes.getD i 0)) =
            s.dualVariable ci i (s.m_labels (c.nodes.getD i 0))
              + postIncrement (correction s ci c) c.size i ∧
          (0 ≤ s'.dualVariable ci i (s.m_labels (c.nodes.getD i 0)) ↔
            -postIncrement (correction s ci c) c.size i
              ≤ s.dualVariable ci i (s.m_labels (c.nodes.getD i 0))) ∧
          ∀ l < s'.m_num_labels, l ≠ s.m_labels (c.nodes.getD i 0) →
            s'.dualVariable ci i l = s.dualVariable ci i l) := by
  constructor
  · intro he
    obtain ⟨s', hs', _, hnl, _, hpost⟩ := InitialDual_spec s hv hk he
    refine ⟨s', hs', fun ci c hc i hi l hl => ?_⟩
    have hmem : c ∈ s.m_energy.cliques := mem_of_getElem?_eq hc
    unfold SoSPD.dualVariable
    rw [hnl] at hl ⊢
    by_cases hcur : l = s.m_labels (c.nodes.getD i 0)
    · subst hcur
      rw [(hpost ci c hc).1 i hi]
      exact initialShare_nonneg _ _ _ (he c hmem)
    · rw [(hpost ci c hc).2 _ (fun i' hi' heq => ?_)]
      have hlt := Valid_node_label_lt hv hmem (getD_mem_of_lt c.nodes i' hi')
      have hii : i' = i := flat_index_inj _ _ _ _ _ hlt hl heq
      subst hii
      exact hcur (Nat.add_left_cancel heq).symm
  · intro hc
    obtain ⟨s', hs', _, hnl, _, hpost⟩ := PostEditDual_spec s hv hk hc
    refine ⟨s', hs', fun ci c hc' i hi => ?_⟩
    have hmem : c ∈ s.m_energy.cliques := mem_of_getElem?_eq hc'
    have hincr := postIncrement_nonpos (correction s ci c) c.size i (hk c hmem).1 (hc ci c hc')
    have hat : s'.dualVariable ci i (s.m_labels (c.nodes.getD i 0)) =
        s.dualVariable ci i (s.m_labels (c.nodes.getD i 0))
          + postIncrement (correction s ci c) c.size i := by
      unfold SoSPD.dualVariable
      rw [hnl]
      exact (hpost ci c hc').1 i hi
    refine ⟨hincr, hat, by rw [hat]; omega, fun l hl hne => ?_⟩
    unfold SoSPD.dualVariable
    rw [hnl] at hl ⊢
    refine (hpost ci c hc').2 _ (fun i' hi' heq => ?_)
    have hlt := Valid_node_label_lt hv hmem (getD_mem_of_lt c.nodes i' hi')
    have hii : i' = i := flat_index_inj _ _ _ _ _ hlt hl heq
    subst hii
    exact hne (Nat.add_left_cancel heq).symm

theorem C8_dual_sign_after_updates_witness :
    exampleDriftState.Valid ∧
    (∀ c ∈ exampleDriftState.m_energy.cliques, 1 ≤ c.size ∧ c.size < 32) ∧
    (∀ c ∈ exampleDriftState.m_energy.cliques,
      0 ≤ c.energy (c.nodes.map exampleDriftState.m_labels)) ∧
    (∀ ci c, exampleDriftState.m_energy.cliques[ci]? = some c →
      correction exampleDriftState ci c ≤ 0) ∧
    (∃ s', InitialDual exampleDriftState = .ok s' ∧
        ∀ ci c, exampleDriftState.m_energy.cliques[ci]? = some c → ∀ i < c.size,
          ∀ l < s'.m_num_labels, 0 ≤ s'.dualVariable ci i l) ∧
    (∃ s', PostEditDual exampleDriftState = .ok s' ∧
        ∀ ci c, exampleDriftState.m_energy.cliques[ci]? = some c → ∀ i < c.size,
          postIncrement (correction exampleDriftState ci c) c.size i ≤ 0 ∧
          s'.dualVariable ci i (exampleDriftState.m_labels (c.nodes.getD i 0)) =
            exampleDriftState.dualVariable ci i (exampleDriftState.m_labels (c.nodes.getD i 0))
              + postIncrement (correction exampleDriftState ci c) c.size i ∧
          (0 ≤ s'.dualVariable ci i (exampleDriftState.m_labels (c.nodes.getD i 0)) ↔
            -postIncrement (correction exampleDriftState ci c) c.size i
              ≤ exampleDriftState.dualVariable ci i
                (exampleDriftState.m_labels (c.nodes.getD i 0))) ∧
          ∀ l < s'.m_num_labels, l ≠ exampleDriftState.m_labels (c.nodes.getD i 0) →
            s'.dualVariable ci i l = exampleDriftState.dualVariable ci i l) :=
  have he : ∀ c ∈ exampleDriftState.m_energy.cliques,
      0 ≤ c.energy (c.nodes.map exampleDriftState.m_labels) := by
    intro c hc
    simp only [exampleDriftState, SoSPD.new, exampleEnergy, List.mem_singleton] at hc
    subst hc
    decide
  ⟨exampleDriftState_Valid, exampleEnergy_sizes, he, exampleDriftState_correction,
    (C8_dual_sign_after_updates exampleDriftState exampleDriftState_Valid
      exampleEnergy_sizes).1 he,
    (C8_dual_sign_after_updates exampleDriftState exampleDriftState_Valid
      exampleEnergy_sizes).2 exampleDriftState_correction⟩

/-- C8, counterexample. On `exampleEnergy`, one iteration of `Solve` from a fresh
orchestrator, with the flow result `exampleOracle`, ends with the dual variable of clique 0,
member 1, label 0 equal to `-3`.  The state of that run before the repair has the labels and
the dual table of `exampleDriftState`: all its dual variables are `>= 0` and its correction
is `-5 <= 0`, and `PostEditDual` alone produces the negative dual variable from it. -/
theorem C8_dual_negative_after_PostEditDual :
    observe (Solve exampleOracle 1 (SoSPD.new exampleEnergy))
        (fun s => s.dualVariable 0 1 0) = some (-3) ∧
      observe (PreEditDual exampleProposedState)
        (fun s1 => ((List.range 2).map (UpdatePrimalDual exampleOracle s1).1.m_labels,
          (List.range 4).map ((UpdatePrimalDual exampleOracle s1).1.m_dual 0)))
        = some ((List.range 2).map exampleDriftState.m_labels,
          (List.range 4).map (exampleDriftState.m_dual 0)) ∧
      (∀ i < 2, ∀ l < 2, 0 ≤ exampleDriftState.dualVariable 0 i l) ∧
      correction exampleDriftState 0 (pottsClique 10) = -5 ∧
      observe (PostEditDual exampleDriftState) (fun s => s.dualVariable 0 1 0) = some (-3) := by
  refine ⟨by decide!, by decide!, by decide, by decide, by decide⟩

/-! ## The Gray-code enumeration of `PreEditDual` -/

theorem testBit_grayCode (a i : Nat) :
    (grayCode a).testBit i = (a.testBit i ^^ a.testBit (i + 1)) := by
  unfold grayCode
  rw [Nat.testBit_xor, Nat.testBit_shiftRight, Nat.add_comm 1 i]

theorem grayCode_lt (k a : Nat) (h : a < 2 ^ k) : grayCode a < 2 ^ k := by
  unfold grayCode
  refine Nat.xor_lt_two_pow h (lt_of_le_of_lt ?_ h)
  rw [Nat.shiftRight_eq_div_pow]
  exact Nat.div_le_self _ _

theorem testBit_double_add_zero (q : Nat) (b : Bool) :
    (2 * q + b.toNat).testBit 0 = b := by
  rw [Nat.testBit_zero]
  cases b <;> simp [Nat.add_mod]

theorem testBit_double_add_succ (q : Nat) (b : Bool) (i : Nat) :
    (2 * q + b.toNat).testBit (i + 1) = q.testBit i := by
  rw [Nat.testBit_succ]
  congr 1
  cases b <;> simp only [Bool.toNat_false, Bool.toNat_true] <;> omega

theorem xor_pred_testBit (a : Nat) (ha : 1 ≤ a) :
    ∃ j, 2 ^ j ≤ a ∧ ∀ i, (a ^^^ (a - 1)).testBit i = decide (i ≤ j) := by
  induction a using Nat.strong_induction_on with
  | _ a ih =>
    rcases Nat.even_or_odd' a with ⟨q, hq | hq⟩
    · -- a = 2 * q, q ≥ 1
      have hq1 : 1 ≤ q := by omega
      obtain ⟨j, hj, hbits⟩ := ih q (by omega) hq1
      refine ⟨j + 1, by rw [pow_succ]; omega, fun i => ?_⟩
      have ea : a = 2 * q + (false).toNat := by simp [hq]
      have ep : a - 1 = 2 * (q - 1) + (true).toNat := by simp; omega
      rw [Nat.testBit_xor]
      cases i with
      | zero =>
        rw [ep]
        conv_lhs => rw [ea]
        rw [testBit_double_add_zero, testBit_double_add_zero]
        simp
      | succ i =>
        rw [ep]
        conv_lhs => rw [ea]
        rw [testBit_double_add_succ, testBit_double_add_succ, ← Nat.testBit_xor, hbits i]
        simp
    · -- a = 2 * q + 1
      refine ⟨0, by omega, fun i => ?_⟩
      have ea : a = 2 * q + (true).toNat := by simp [hq]
      have ep : a - 1 = 2 * q + (false).toNat := by simp; omega
      rw [Nat.testBit_xor]
      cases i with
      | zero =>
        rw [ep]
        conv_lhs => rw [ea]
        rw [testBit_double_add_zero, testBit_double_add_zero]
        simp
      | succ i =>
        rw [ep]
        conv_lhs => rw [ea]
        rw [testBit_double_add_succ, testBit_double_add_succ]
        simp

theorem bool_xor_swap (p q r t : Bool) : ((p ^^ r) ^^ (q ^^ t)) = ((p ^^ q) ^^ (r ^^ t)) := by
  cases p <;> cases q <;> cases r <;> cases t <;> rfl

theorem grayCode_xor_pred (k a : Nat) (ha : 1 ≤ a) (hk : a < 2 ^ k) :
    ∃ j, j < k ∧ grayCode a ^^^ grayCode (a - 1) = 2 ^ j := by
  obtain ⟨j, hj, hbits⟩ := xor_pred_testBit a ha
  refine ⟨j, (Nat.pow_lt_pow_iff_right (by decide)).mp (lt_of_le_of_lt hj hk), ?_⟩
  apply Nat.eq_of_testBit_eq
  intro i
  have h1 := hbits i
  have h2 := hbits (i + 1)
  rw [Nat.testBit_xor] at h1 h2
  rw [Nat.testBit_xor, testBit_grayCode, testBit_grayCode, bool_xor_swap, h1, h2,
    Nat.testBit_two_pow]
  by_cases c1 : i ≤ j <;> by_cases c2 : i + 1 ≤ j <;> by_cases c3 : j = i <;>
    simp [c1, c2, c3] <;> omega

theorem ctzAux_two_pow (fuel j : Nat) (h : j < fuel) : ctzAux fuel (2 ^ j) = j := by
  induction fuel generalizing j with
  | zero => omega
  | succ fuel ih =>
    cases j with
    | zero => simp [ctzAux]
    | succ j =>
      have h2 : 2 ^ (j + 1) % 2 = 0 := by rw [pow_succ]; omega
      have h3 : 2 ^ (j + 1) / 2 = 2 ^ j := by rw [pow_succ]; omega
      simp only [ctzAux, h2, h3]
      rw [ih j (by omega)]
      simp

theorem builtin_ctz_two_pow (j : Nat) (h : j < 32) : builtin_ctz (2 ^ j) = j :=
  ctzAux_two_pow 32 j h

theorem two_pow_and_ne_zero (j g : Nat) : (2 ^ j &&& g ≠ 0) ↔ g.testBit j = true := by
  rw [Nat.two_pow_and]
  cases g.testBit j <;> simp

theorem grayCode_surj (k m : Nat) (h : m < 2 ^ k) : ∃ a, a < 2 ^ k ∧ grayCode a = m := by
  induction k generalizing m with
  | zero => exact ⟨0, by simp, by simp at h; subst h; rfl⟩
  | succ k ih =>
    obtain ⟨q, hq, hgq⟩ := ih (m / 2) (by rw [pow_succ] at h; omega)
    refine ⟨2 * q + (m.testBit 0 ^^ q.testBit 0).toNat, ?_, ?_⟩
    · have : (m.testBit 0 ^^ q.testBit 0).toNat ≤ 1 := Bool.toNat_le _
      rw [pow_succ]; omega
    · apply Nat.eq_of_testBit_eq
      intro i
      rw [testBit_grayCode]
      cases i with
      | zero =>
        rw [testBit_double_add_zero, testBit_double_add_succ]
        cases m.testBit 0 <;> cases q.testBit 0 <;> rfl
      | succ i =>
        rw [testBit_double_add_succ, testBit_double_add_succ, ← testBit_grayCode, hgq,
          Nat.testBit_div_two]

theorem mixedLabels_length (cur fus : List Nat) (m : Nat) :
    (mixedLabels cur fus m).length = cur.length := by
  simp [mixedLabels]

theorem mixedLabels_zero (cur fus : List Nat) : mixedLabels cur fus 0 = cur := by
  apply List.ext_getElem
  · simp [mixedLabels]
  · intro n h1 h2
    simp [mixedLabels, List.getElem?_eq_getElem h2]

theorem mixedLabels_flip (cur fus : List Nat) (g g' j : Nat) (hx : g' ^^^ g = 2 ^ j) :
    (mixedLabels cur fus g).set j (if g'.testBit j then fus.getD j 0 else cur.getD j 0)
      = mixedLabels cur fus g' := by
  have hbit : ∀ p, (g'.testBit p ^^ g.testBit p) = decide (j = p) := fun p => by
    rw [← Nat.testBit_xor, hx, Nat.testBit_two_pow]
  apply List.ext_getElem
  · simp [mixedLabels]
  · intro n h1 h2
    rw [List.getElem_set]
    have hn : n < cur.length := by simpa [mixedLabels] using h2
    by_cases hjn : j = n
    · subst hjn
      simp [mixedLabels]
    · have hsame : g'.testBit n = g.testBit n := by
        have := hbit n
        simp only [hjn, decide_False] at this
        cases h1' : g'.testBit n <;> cases h2' : g.testBit n <;> simp_all
      simp [mixedLabels, hjn, hsame]

theorem grayStep_spec (c : Clique) (cur fus : List Nat) (k a : Nat) (st : GrayState)
    (hk : k < 32) (hcur : cur.length = k) (ha : 1 ≤ a) (hlt : a < 2 ^ k)
    (hlast : st.last_gray = grayCode (a - 1))
    (hbuf : st.label_buf = mixedLabels cur fus (grayCode (a - 1))) :
    grayStep c cur fus a st =
      { last_gray := grayCode a, label_buf := mixedLabels cur fus (grayCode a),
        energy_table := Function.update st.energy_table (grayCode a)
          (c.energy (mixedLabels cur fus (grayCode a))) } := by
  obtain ⟨j, hj, hdiff⟩ := grayCode_xor_pred k a ha hlt
  have hbufeq : (if (grayCode a ^^^ st.last_gray) &&& grayCode a ≠ 0
        then st.label_buf.set (builtin_ctz (grayCode a ^^^ st.last_gray))
          (fus.getD (builtin_ctz (grayCode a ^^^ st.last_gray)) 0)
        else st.label_buf.set (builtin_ctz (grayCode a ^^^ st.last_gray))
          (cur.getD (builtin_ctz (grayCode a ^^^ st.last_gray)) 0))
      = mixedLabels cur fus (grayCode a) := by
    rw [hlast, hdiff, builtin_ctz_two_pow j (by omega), hbuf,
      ← mixedLabels_flip cur fus (grayCode (a - 1)) (grayCode a) j hdiff]
    by_cases hb : (grayCode a).testBit j = true
    · rw [if_pos ((two_pow_and_ne_zero j _).mpr hb), if_pos hb]
    · rw [if_neg (fun h => hb ((two_pow_and_ne_zero j _).mp h)), if_neg hb]
  unfold grayStep
  simp only []
  rw [hbufeq]

theorem grayLoop_spec (c : Clique) (cur fus : List Nat) (table : Nat → Int) (k n : Nat)
    (hk : k < 32) (hcur : cur.length = k) (hn : n < 2 ^ k) :
    (grayLoop c cur fus table n).last_gray = grayCode n ∧
    (grayLoop c cur fus table n).label_buf = mixedLabels cur fus (grayCode n) ∧
    (∀ a ≤ n, (grayLoop c cur fus table n).energy_table (grayCode a)
      = c.energy (mixedLabels cur fus (grayCode a))) ∧
    (∀ m, (∀ a ≤ n, grayCode a ≠ m) →
      (grayLoop c cur fus table n).energy_table m = table m) := by
  induction n with
  | zero =>
    refine ⟨rfl, (mixedLabels_zero cur fus).symm, fun a ha => ?_, fun m hm => ?_⟩
    · have : a = 0 := by omega
      subst this
      show Function.update table 0 (c.energy cur) (grayCode 0) = _
      rw [show grayCode 0 = 0 from rfl, Function.update_same, mixedLabels_zero]
    · show Function.update table 0 (c.energy cur) m = _
      exact Function.update_noteq (Ne.symm (hm 0 (le_refl 0))) _ _
  | succ n ih =>
    obtain ⟨h1, h2, h3, h4⟩ := ih (by omega)
    have hloop : grayLoop c cur fus table (n + 1)
        = grayStep c cur fus (n + 1) (grayLoop c cur fus table n) := by
      unfold grayLoop
      rw [List.range_succ, List.foldl_append]
      rfl
    rw [hloop, grayStep_spec c cur fus k (n + 1) _ hk hcur (by omega) hn h1 h2]
    refine ⟨rfl, rfl, fun a ha => ?_, fun m hm => ?_⟩
    · simp only []
      by_cases heq : grayCode a = grayCode (n + 1)
      · rw [heq, Function.update_same]
      · rw [Function.update_noteq heq]
        by_cases han : a = n + 1
        · exact absurd (by rw [han]) heq
        · exact h3 a (by omega)
    · simp only []
      rw [Function.update_noteq (Ne.symm (hm (n + 1) (le_refl _)))]
      exact h4 m (fun a ha => hm a (by omega))

theorem grayTable_spec (c : Clique) (cur fus : List Nat) (table : Nat → Int)
    (hk : c.size < 32) (hcur : cur.length = c.size) (m : Nat) :
    grayTable c cur fus table m =
      if m < 2 ^ c.size then c.energy (mixedLabels cur fus m) else table m := by
  have hpos : 0 < 2 ^ c.size := Nat.two_pow_pos c.size
  obtain ⟨_, _, h3, h4⟩ := grayLoop_spec c cur fus table c.size (2 ^ c.size - 1) hk hcur
    (by omega)
  unfold grayTable
  rw [Nat.one_shiftLeft]
  split_ifs with hm
  · obtain ⟨a, ha, hga⟩ := grayCode_surj c.size m hm
    rw [← hga]
    exact h3 a (by omega)
  · refine h4 m (fun a ha heq => hm ?_)
    rw [← heq]
    exact grayCode_lt c.size a (by omega)

/-- C3. Gray-code equivalence: for every clique of size `k < 32` and every pair of current
and fused label vectors of the clique's members, the table that `PreEditDual` fills by the
Gray-code loop with incremental updates of the label buffer (before the linear subtraction)
is the brute-force table: at every mask `m < 2^k` it holds the energy of the tuple whose
member `i` has the fused label if bit `i` of `m` is set and the current label otherwise. -/
theorem C3_gray_table_eq_bruteForce (c : Clique) (current_labels fusion_labels : List Nat)
    (energy_table : Nat → Int) (hk : c.size < 32)
    (hcur : current_labels.length = c.size) (hfus : fusion_labels.length = c.size) :
    grayTable c current_labels fusion_labels energy_table
        = bruteForceTable c current_labels fusion_labels energy_table ∧
      ∀ m < 2 ^ c.size, grayTable c current_labels fusion_labels energy_table m
        = c.energy ((List.range c.size).map (fun i =>
            if m.testBit i then fusion_labels.getD i 0 else current_labels.getD i 0)) := by
  have _ := hfus
  refine ⟨funext (fun m => ?_), fun m hm => ?_⟩
  · rw [grayTable_spec c _ _ _ hk hcur]
    rfl
  · rw [grayTable_spec c _ _ _ hk hcur, if_pos hm]
    unfold mixedLabels
    rw [hcur]

/-! ## `PreEditDual` -/

theorem getD_map_of_lt {α : Type} (f : α → Nat) (l : List α) (d : α) (i : Nat)
    (h : i < l.length) : (l.map f).getD i 0 = f (l.getD i d) := by
  rw [List.getD_eq_getElem _ _ (by simpa using h), List.getD_eq_getElem _ _ h,
    List.getElem_map]

theorem getD_map_range_of_lt (f : Nat → Int) (k i : Nat) (h : i < k) :
    ((List.range k).map f).getD i 0 = f i := by
  rw [List.getD_eq_getElem _ _ (by simpa using h), List.getElem_map, List.getElem_range]

theorem sum_map_ite_split (l : List Nat) (b : Nat → Bool) (x y : Nat → Int) :
    (l.map (fun i => if b i then x i else y i)).sum
      = (l.map (fun i => if b i then x i else 0)).sum
        + (l.map (fun i => if b i then 0 else y i)).sum := by
  rw [← List.sum_map_add]
  congr 1
  apply List.map_congr_left
  intro i _
  by_cases hb : b i = true
  · rw [if_pos hb, if_pos hb, if_pos hb, add_zero]
  · rw [if_neg hb, if_neg hb, if_neg hb, zero_add]

theorem residualTable_apply (s : SoSPD) (ci : Nat) (c : Clique) (table : Nat → Int)
    (hk : c.size < 32) (S : Nat) (hS : S < 2 ^ c.size) :
    residualTable s ci c table S =
      c.energy (mixedLabels (c.nodes.map s.m_labels) (c.nodes.map s.m_fusion_labels) S)
        - ((List.range c.size).map (fun i => if S.testBit i
            then s.dualVariable ci i (s.m_fusion_labels (c.nodes.getD i 0)) else 0)).sum
        - ((List.range c.size).map (fun i => if S.testBit i then 0
            else s.dualVariable ci i (s.m_labels (c.nodes.getD i 0)))).sum := by
  unfold residualTable SubtractLinear linearTerm
  rw [if_pos hS, grayTable_spec c _ _ _ hk (by simp [Clique.size]), if_pos hS, sub_sub,
    ← sum_map_ite_split]
  congr 2
  apply List.map_congr_left
  intro i hi
  have hi' : i < c.size := List.mem_range.mp hi
  rw [getD_map_range_of_lt _ _ _ hi', getD_map_range_of_lt _ _ _ hi',
    getD_map_of_lt _ _ 0 _ hi', getD_map_of_lt _ _ 0 _ hi']
  rfl

theorem PreEditDual_clique_ok (s : SoSPD) (ci : Nat) (c : Clique) (crf crf' : Flow)
    (h : PreEditDual_clique s ci c crf = .ok crf') :
    c.size < 32 ∧
      residualTable s ci c (crf.cliques.getD ci default).energyTable 0 = 0 ∧
      crf' = crf.setEnergyTable ci
        (residualTable s ci c (crf.cliques.getD ci default).energyTable) := by
  unfold PreEditDual_clique at h
  simp only [] at h
  split_ifs at h with h1 h2 h3 h4
  · simp only [Except.ok.injEq] at h
    exact ⟨by omega, by omega, h.symm⟩

theorem getD_set_self (l : List IBFSClique) (i : Nat) (x : IBFSClique) (h : i < l.length) :
    (l.set i x).getD i default = x := by
  rw [List.getD_eq_getElem _ _ (by simpa using h), List.getElem_set]
  simp

theorem getD_set_ne (l : List IBFSClique) (i j : Nat) (x : IBFSClique) (h : i ≠ j) :
    (l.set i x).getD j default = l.getD j default := by
  simp [List.getD_eq_getElem?_getD, List.getElem?_set, h]

theorem PreEditDual_loop (s : SoSPD) (cs : List Clique) (i0 : Nat) (crf crf' : Flow)
    (h : forCliques (PreEditDual_clique s) cs i0 crf = .ok crf')
    (hlen : i0 + cs.length ≤ crf.cliques.length) :
    crf'.cliques.length = crf.cliques.length ∧
      (∀ j < i0, crf'.cliques.getD j default = crf.cliques.getD j default) ∧
      ∀ p c, cs[p]? = some c → c.size < 32 ∧
        (crf'.cliques.getD (i0 + p) default).energyTable =
          residualTable s (i0 + p) c (crf.cliques.getD (i0 + p) default).energyTable := by
  induction cs generalizing i0 crf with
  | nil =>
    simp only [forCliques, Except.ok.injEq] at h
    subst h
    exact ⟨rfl, fun _ _ => rfl, fun p c hp => by simp at hp⟩
  | cons c cs ih =>
    simp only [forCliques] at h
    cases hstep : PreEditDual_clique s i0 c crf with
    | error f => rw [hstep] at h; simp at h
    | ok crf1 =>
      rw [hstep] at h
      simp only [] at h
      obtain ⟨hk, _, hcrf1⟩ := PreEditDual_clique_ok s i0 c crf crf1 hstep
      have hlen1 : crf1.cliques.length = crf.cliques.length := by
        rw [hcrf1]; simp [Flow.setEnergyTable]
      simp only [List.length_cons] at hlen
      obtain ⟨hl, hframe, hpost⟩ := ih (i0 + 1) crf1 h (by omega)
      refine ⟨by omega, fun j hj => ?_, fun p c' hp => ?_⟩
      · rw [hframe j (by omega), hcrf1]
        exact getD_set_ne _ _ _ _ (by omega)
      · cases p with
        | zero =>
          simp only [List.getElem?_cons_zero, Option.some.injEq] at hp
          subst hp
          refine ⟨hk, ?_⟩
          rw [Nat.add_zero, hframe i0 (by omega), hcrf1]
          unfold Flow.setEnergyTable
          simp only []
          rw [getD_set_self _ _ _ (by omega)]
        | succ p =>
          simp only [List.getElem?_cons_succ] at hp
          obtain ⟨hk', htab⟩ := hpost p c' hp
          refine ⟨hk', ?_⟩
          rw [show i0 + (p + 1) = i0 + 1 + p by omega, htab, hcrf1]
          unfold Flow.setEnergyTable
          simp only []
          rw [getD_set_ne _ _ _ _ (by omega)]

theorem PreEditDual_spec (s s' : SoSPD) (h : PreEditDual s = .ok s') :
    s'.m_labels = s.m_labels ∧ s'.m_fusion_labels = s.m_fusion_labels ∧
      s'.m_dual = s.m_dual ∧ s'.m_heights = s.m_heights ∧
      s'.m_num_labels = s.m_num_labels ∧ s'.m_energy = s.m_energy ∧
      s'.m_node_clique_list = s.m_node_clique_list ∧ s'.m_iter = s.m_iter ∧
      s'.m_pc = s.m_pc ∧
      s'.m_ibfs.cliques.length = s.m_energy.cliques.length ∧
      ∀ ci c, s.m_energy.cliques[ci]? = some c → c.size < 32 ∧
        (s'.m_ibfs.cliques.getD ci default).energyTable =
          residualTable s ci c (s.m_ibfs.cliques.getD ci default).energyTable := by
  unfold PreEditDual at h
  simp only [] at h
  split_ifs at h with hcount
  cases hloop : forCliques (PreEditDual_clique s) s.m_energy.cliques 0
      { s.m_ibfs with fixedVars := fixedVarsOf s } with
  | error f => rw [hloop] at h; simp at h
  | ok crf' =>
    rw [hloop] at h
    simp only [Except.ok.injEq] at h
    subst h
    have hcount' : s.m_ibfs.cliques.length = s.m_energy.cliques.length := by
      simpa using hcount
    obtain ⟨hl, _, hpost⟩ := PreEditDual_loop s _ 0 _ crf' hloop
      (by simp only []; omega)
    refine ⟨rfl, rfl, rfl, rfl, rfl, rfl, rfl, rfl, rfl, by rw [hl]; exact hcount',
      fun ci c hc => ?_⟩
    have := hpost ci c hc
    rw [Nat.zero_add] at this
    exact this

/-- C4. Residual table: when `PreEditDual` succeeds, then for every clique and every mask
`S < 2^k` the clique's energy-table entry at `S` equals `g(S)`, the clique energy of the
mixed label tuple selected by `S`, minus the sum over the members `i` with bit `i` set in
`S` of `dual(clique, i, fusedLabel_i)`, minus the sum over the members `i` with bit `i`
clear in `S` of `dual(clique, i, currentLabel_i)`; labels and dual variables are those of
the state, which `PreEditDual` does not change. -/
theorem C4_residual_table (s s' : SoSPD) (h : PreEditDual s = .ok s') :
    s'.m_labels = s.m_labels ∧ s'.m_fusion_labels = s.m_fusion_labels ∧
      s'.m_dual = s.m_dual ∧
      ∀ ci c, s.m_energy.cliques[ci]? = some c → ∀ S < 2 ^ c.size,
        (s'.m_ibfs.cliques.getD ci default).energyTable S =
          c.energy (mixedLabels (c.nodes.map s.m_labels) (c.nodes.map s.m_fusion_labels) S)
            - ((List.range c.size).map (fun i => if S.testBit i
                then s.dualVariable ci i (s.m_fusion_labels (c.nodes.getD i 0)) else 0)).sum
            - ((List.range c.size).map (fun i => if S.testBit i then 0
                else s.dualVariable ci i (s.m_labels (c.nodes.getD i 0)))).sum := by
  obtain ⟨h1, h2, h3, _, _, _, _, _, _, _, hpost⟩ := PreEditDual_spec s s' h
  refine ⟨h1, h2, h3, fun ci c hc S hS => ?_⟩
  obtain ⟨hk, htab⟩ := hpost ci c hc
  rw [htab]
  exact residualTable_apply s ci c _ hk S hS

theorem C3_gray_table_eq_bruteForce_witness :
    ((pottsClique 10).size < 32 ∧ [0, 1].length = (pottsClique 10).size ∧
      [0, 0].length = (pottsClique 10).size) ∧
    (grayTable (pottsClique 10) [0, 1] [0, 0] (fun _ => 0)
        = bruteForceTable (pottsClique 10) [0, 1] [0, 0] (fun _ => 0) ∧
      ∀ m < 2 ^ (pottsClique 10).size, grayTable (pottsClique 10) [0, 1] [0, 0] (fun _ => 0) m
        = (pottsClique 10).energy ((List.range (pottsClique 10).size).map (fun i =>
            if m.testBit i then [0, 0].getD i 0 else [0, 1].getD i 0))) :=
  ⟨⟨by decide, rfl, rfl⟩,
    C3_gray_table_eq_bruteForce (pottsClique 10) [0, 1] [0, 0] (fun _ => 0) (by decide) rfl rfl⟩

theorem C4_residual_table_witness :
    ∃ s', PreEditDual exampleProposedState = .ok s' ∧
      s'.m_labels = exampleProposedState.m_labels ∧
      s'.m_fusion_labels = exampleProposedState.m_fusion_labels ∧
      s'.m_dual = exampleProposedState.m_dual ∧
      ∀ ci c, exampleProposedState.m_energy.cliques[ci]? = some c → ∀ S < 2 ^ c.size,
        (s'.m_ibfs.cliques.getD ci default).energyTable S =
          c.energy (mixedLabels (c.nodes.map exampleProposedState.m_labels)
              (c.nodes.map exampleProposedState.m_fusion_labels) S)
            - ((List.range c.size).map (fun i => if S.testBit i
                then exampleProposedState.dualVariable ci i
                  (exampleProposedState.m_fusion_labels (c.nodes.getD i 0)) else 0)).sum
            - ((List.range c.size).map (fun i => if S.testBit i then 0
                else exampleProposedState.dualVariable ci i
                  (exampleProposedState.m_labels (c.nodes.getD i 0)))).sum :=
  ⟨okOr (PreEditDual exampleProposedState) exampleProposedState, rfl,
    C4_residual_table exampleProposedState _ rfl⟩

/-! ## The outer loop -/

theorem forCliques_frame {σ α : Type} (f : σ → α) (step : Nat → Clique → σ → Except Fault σ)
    (hstep : ∀ i c s s', step i c s = .ok s' → f s' = f s) (cs : List Clique) (i : Nat)
    (s s' : σ) (h : forCliques step cs i s = .ok s') : f s' = f s := by
  induction cs generalizing i s with
  | nil =>
    simp only [forCliques, Except.ok.injEq] at h
    rw [h]
  | cons c cs ih =>
    simp only [forCliques] at h
    cases hs : step i c s with
    | error e => rw [hs] at h; simp at h
    | ok s1 =>
      rw [hs] at h
      rw [ih (i + 1) s1 h, hstep i c s s1 hs]

theorem PostEditDual_clique_frame (ci : Nat) (c : Clique) (s s' : SoSPD)
    (h : PostEditDual_clique ci c s = .ok s') :
    s'.m_iter = s.m_iter ∧ s'.m_labels = s.m_labels ∧ s'.m_fusion_labels = s.m_fusion_labels ∧
      s'.m_energy = s.m_energy ∧ s'.m_num_labels = s.m_num_labels ∧
      s'.m_node_clique_list = s.m_node_clique_list ∧ s'.m_ibfs = s.m_ibfs ∧
      s'.m_pc = s.m_pc := by
  unfold PostEditDual_clique at h
  simp only [] at h
  split_ifs at h
  simp only [Except.ok.injEq] at h
  subst h
  exact ⟨rfl, rfl, rfl, rfl, rfl, rfl, rfl, rfl⟩

theorem PostEditDual_frame (s s' : SoSPD) (h : PostEditDual s = .ok s') :
    s'.m_iter = s.m_iter ∧ s'.m_labels = s.m_labels ∧ s'.m_fusion_labels = s.m_fusion_labels ∧
      s'.m_energy = s.m_energy ∧ s'.m_num_labels = s.m_num_labels ∧
      s'.m_node_clique_list = s.m_node_clique_list ∧ s'.m_ibfs = s.m_ibfs ∧
      s'.m_pc = s.m_pc := by
  unfold PostEditDual at h
  exact ⟨forCliques_frame (fun s => s.m_iter) _
      (fun i c s s' h => (PostEditDual_clique_frame i c s s' h).1) _ _ _ _ h,
    forCliques_frame (fun s => s.m_labels) _
      (fun i c s s' h => (PostEditDual_clique_frame i c s s' h).2.1) _ _ _ _ h,
    forCliques_frame (fun s => s.m_fusion_labels) _
      (fun i c s s' h => (PostEditDual_clique_frame i c s s' h).2.2.1) _ _ _ _ h,
    forCliques_frame (fun s => s.m_energy) _
      (fun i c s s' h => (PostEditDual_clique_frame i c s s' h).2.2.2.1) _ _ _ _ h,
    forCliques_frame (fun s => s.m_num_labels) _
      (fun i c s s' h => (PostEditDual_clique_frame i c s s' h).2.2.2.2.1) _ _ _ _ h,
    forCliques_frame (fun s => s.m_node_clique_list) _
      (fun i c s s' h => (PostEditDual_clique_frame i c s s' h).2.2.2.2.2.1) _ _ _ _ h,
    forCliques_frame (fun s => s.m_ibfs) _
      (fun i c s s' h => (PostEditDual_clique_frame i c s s' h).2.2.2.2.2.2.1) _ _ _ _ h,
    forCliques_frame (fun s => s.m_pc) _
      (fun i c s s' h => (PostEditDual_clique_frame i c s s' h).2.2.2.2.2.2.2) _ _ _ _ h⟩

theorem InitialDual_clique_frame (ci : Nat) (c : Clique) (s s' : SoSPD)
    (h : InitialDual_clique ci c s = .ok s') :
    s'.m_iter = s.m_iter ∧ s'.m_labels = s.m_labels ∧ s'.m_energy = s.m_energy ∧
      s'.m_num_labels = s.m_num_labels := by
  unfold InitialDual_clique at h
  simp only [] at h
  split_ifs at h
  simp only [Except.ok.injEq] at h
  subst h
  exact ⟨rfl, rfl, rfl, rfl⟩

theorem InitialDual_frame (s s' : SoSPD) (h : InitialDual s = .ok s') :
    s'.m_iter = s.m_iter ∧ s'.m_labels = s.m_labels ∧ s'.m_energy = s.m_energy ∧
      s'.m_num_labels = s.m_num_labels := by
  unfold InitialDual at h
  exact ⟨forCliques_frame (fun s => s.m_iter) _
      (fun i c s s' h => (InitialDual_clique_frame i c s s' h).1) _ _ _ _ h,
    forCliques_frame (fun s => s.m_labels) _
      (fun i c s s' h => (InitialDual_clique_frame i c s s' h).2.1) _ _ _ _ h,
    forCliques_frame (fun s => s.m_energy) _
      (fun i c s s' h => (InitialDual_clique_frame i c s s' h).2.2.1) _ _ _ _ h,
    forCliques_frame (fun s => s.m_num_labels) _
      (fun i c s s' h => (InitialDual_clique_frame i c s s' h).2.2.2) _ _ _ _ h⟩

theorem SetupGraph_frame (s s' : SoSPD) (h : SetupGraph s = .ok s') :
    s'.m_iter = s.m_iter ∧ s'.m_labels = s.m_labels ∧ s'.m_energy = s.m_energy ∧
      s'.m_num_labels = s.m_num_labels := by
  unfold SetupGraph at h
  simp only [] at h
  cases hl : forCliques SetupGraph_clique s.m_energy.cliques 0
      (s.m_ibfs.AddNode s.m_energy.numVars) with
  | error e => rw [hl] at h; simp at h
  | ok crf =>
    rw [hl] at h
    simp only [Except.ok.injEq] at h
    subst h
    exact ⟨rfl, rfl, rfl, rfl⟩

theorem Solve_init_frame (s s' : SoSPD) (h : Solve_init s = .ok s') :
    s'.m_iter = s.m_iter ∧ s'.m_energy = s.m_energy ∧ s'.m_num_labels = s.m_num_labels := by
  unfold Solve_init at h
  split_ifs at h with h0
  · cases hg : SetupGraph s with
    | error e => rw [hg] at h; simp at h
    | ok s1 =>
      rw [hg] at h
      simp only [] at h
      cases hd : InitialDual (InitialLabeling s1) with
      | error e => rw [hd] at h; simp at h
      | ok s2 =>
        rw [hd] at h
        simp only [Except.ok.injEq] at h
        subst h
        obtain ⟨a1, _, a3, a4⟩ := SetupGraph_frame s s1 hg
        obtain ⟨b1, _, b3, b4⟩ := InitialDual_frame _ s2 hd
        exact ⟨b1.trans a1, b3.trans a3, b4.trans a4⟩
  · simp only [Except.ok.injEq] at h
    subst h
    exact ⟨rfl, rfl, rfl⟩

theorem Solve_iteration_frame (oracle : FlowOracle) (s s' : SoSPD)
    (h : Solve_iteration oracle s = .ok s') :
    s'.m_iter = s.m_iter + 1 ∧ s'.m_energy = s.m_energy ∧
      s'.m_num_labels = s.m_num_labels ∧ s'.m_pc = s.m_pc := by
  unfold Solve_iteration at h
  cases hp : PreEditDual s with
  | error e => rw [hp] at h; simp at h
  | ok s1 =>
    rw [hp] at h
    simp only [] at h
    cases hq : PostEditDual (UpdatePrimalDual oracle s1).1 with
    | error e => rw [hq] at h; simp at h
    | ok s2 =>
      rw [hq] at h
      simp only [Except.ok.injEq] at h
      subst h
      obtain ⟨_, _, _, _, a5, a6, _, a8, a9, _⟩ := PreEditDual_spec s s1 hp
      obtain ⟨b1, _, _, b4, b5, _, _, b8⟩ := PostEditDual_frame _ s2 hq
      refine ⟨?_, ?_, ?_, ?_⟩
      · show s2.m_iter + 1 = s.m_iter + 1
        rw [b1, ← a8]; rfl
      · show s2.m_energy = s.m_energy
        rw [b4, ← a6]; rfl
      · show s2.m_num_labels = s.m_num_labels
        rw [b5, ← a5]; rfl
      · show s2.m_pc = s.m_pc
        rw [b8, ← a9]; rfl

theorem Solve_loop_count (oracle : FlowOracle) (budget : Nat) (s s' : SoSPD) (n : Nat)
    (h : Solve_loop oracle budget s = .ok (s', n)) :
    n ≤ budget ∧ s'.m_iter = s.m_iter + n := by
  induction budget generalizing s s' n with
  | zero =>
    simp only [Solve_loop, Except.ok.injEq, Prod.mk.injEq] at h
    obtain ⟨rfl, rfl⟩ := h
    exact ⟨le_refl 0, rfl⟩
  | succ budget ih =>
    simp only [Solve_loop] at h
    by_cases hflag : (InitialFusionLabeling s).2 = true
    swap
    · rw [if_pos hflag] at h
      simp only [Except.ok.injEq, Prod.mk.injEq] at h
      obtain ⟨rfl, rfl⟩ := h
      exact ⟨Nat.zero_le _, rfl⟩
    · rw [if_neg (not_not.mpr hflag)] at h
      cases hit : Solve_iteration oracle (InitialFusionLabeling s).1 with
      | error e => rw [hit] at h; simp at h
      | ok s1 =>
        rw [hit] at h
        simp only [] at h
        cases hrec : Solve_loop oracle budget s1 with
        | error e => rw [hrec] at h; simp at h
        | ok r =>
          obtain ⟨s2, m⟩ := r
          rw [hrec] at h
          simp only [Except.ok.injEq, Prod.mk.injEq] at h
          obtain ⟨rfl, rfl⟩ := h
          obtain ⟨h1, h2⟩ := ih s1 s2 m hrec
          obtain ⟨h3, _⟩ := Solve_iteration_frame oracle _ s1 hit
          refine ⟨by omega, ?_⟩
          rw [h2, h3]
          show s.m_iter + 1 + m = s.m_iter + (m + 1)
          omega

/-- C6. Iteration budget: when `Solve(niters)` returns, the number `n` of iterations it
completed (each one `PreEditDual`, `UpdatePrimalDual`, `PostEditDual`) is at most `niters`,
and the iteration counter after the call is the counter before the call plus `n`; so the
counter does not decrease, and `Solve(0)` completes no iteration. -/
theorem C6_iteration_budget (oracle : FlowOracle) (niters : Nat) (s s' : SoSPD) (n : Nat)
    (h : SolveCount oracle niters s = .ok (s', n)) :
    n ≤ niters ∧ s'.m_iter = s.m_iter + n ∧ s.m_iter ≤ s'.m_iter ∧ (niters = 0 → n = 0) ∧
      Solve oracle niters s = .ok s' := by
  have hsolve : Solve oracle niters s = .ok s' := by
    unfold Solve
    rw [h]
  unfold SolveCount at h
  cases hi : Solve_init s with
  | error e => rw [hi] at h; simp at h
  | ok s1 =>
    rw [hi] at h
    simp only [] at h
    obtain ⟨h1, h2⟩ := Solve_loop_count oracle niters s1 s' n h
    obtain ⟨h3, _⟩ := Solve_init_frame s s1 hi
    exact ⟨h1, by omega, by omega, by omega, hsolve⟩

theorem observe_eq_some {σ α : Type} {r : Except Fault σ} {f : σ → α} {a : α}
    (h : observe r f = some a) : ∃ s, r = .ok s ∧ f s = a := by
  cases r with
  | error e => simp [observe] at h
  | ok s => exact ⟨s, rfl, by simpa [observe] using h⟩

theorem C6_iteration_budget_witness :
    ∃ s', SolveCount exampleOracle 1 (SoSPD.new exampleEnergy) = .ok (s', 1) ∧
      1 ≤ 1 ∧ s'.m_iter = (SoSPD.new exampleEnergy).m_iter + 1 ∧
      (SoSPD.new exampleEnergy).m_iter ≤ s'.m_iter ∧ (1 = 0 → 1 = 0) ∧
      Solve exampleOracle 1 (SoSPD.new exampleEnergy) = .ok s' := by
  have hrun : observe (SolveCount exampleOracle 1 (SoSPD.new exampleEnergy))
      (fun r => r.2) = some 1 := by decide
  obtain ⟨⟨s', n⟩, hr, hn⟩ := observe_eq_some hrun
  simp only [] at hn
  subst hn
  exact ⟨s', hr, C6_iteration_budget exampleOracle 1 (SoSPD.new exampleEnergy) s' 1 hr⟩

theorem InitialFusionLabeling_fold_false (labels : Nat → Nat) (v : Nat → Nat)
    (init : Nat → Nat) (m : Nat) :
    ((List.range m).foldl
        (fun (st : Bool × (Nat → Nat)) i =>
          ((if labels i ≠ v i then true else st.1), Function.update st.2 i (v i)))
        (false, init)).1 = false →
      ∀ i < m, labels i = ((List.range m).foldl
        (fun (st : Bool × (Nat → Nat)) i =>
          ((if labels i ≠ v i then true else st.1), Function.update st.2 i (v i)))
        (false, init)).2 i := by
  induction m with
  | zero => intro _ i hi; omega
  | succ m ih =>
    rw [List.range_succ, List.foldl_append]
    simp only [List.foldl_cons, List.foldl_nil]
    intro hflag i hi
    by_cases hne : labels m ≠ v m
    · rw [if_pos hne] at hflag
      exact absurd hflag (by decide)
    · rw [if_neg hne] at hflag
      by_cases him : i = m
      · subst him
        rw [Function.update_same]
        exact not_not.mp hne
      · rw [Function.update_noteq him]
        exact ih hflag i (by omega)

theorem InitialFusionLabeling_false (s : SoSPD) (h : (InitialFusionLabeling s).2 = false) :
    ∀ i < s.m_energy.numVars,
      (InitialFusionLabeling s).1.m_labels i = (InitialFusionLabeling s).1.m_fusion_labels i :=
  InitialFusionLabeling_fold_false s.m_labels
    (fun i => (clampLabel s.m_num_labels (proposal s i)).toNat) s.m_fusion_labels
    s.m_energy.numVars h

theorem Solve_loop_energy (oracle : FlowOracle) (budget : Nat) (s s' : SoSPD) (n : Nat)
    (h : Solve_loop oracle budget s = .ok (s', n)) : s'.m_energy = s.m_energy := by
  induction budget generalizing s s' n with
  | zero =>
    simp only [Solve_loop, Except.ok.injEq, Prod.mk.injEq] at h
    obtain ⟨rfl, rfl⟩ := h
    rfl
  | succ budget ih =>
    simp only [Solve_loop] at h
    by_cases hflag : (InitialFusionLabeling s).2 = true
    swap
    · rw [if_pos hflag] at h
      simp only [Except.ok.injEq, Prod.mk.injEq] at h
      obtain ⟨rfl, rfl⟩ := h
      rfl
    · rw [if_neg (not_not.mpr hflag)] at h
      cases hit : Solve_iteration oracle (InitialFusionLabeling s).1 with
      | error e => rw [hit] at h; simp at h
      | ok s1 =>
        rw [hit] at h
        simp only [] at h
        cases hrec : Solve_loop oracle budget s1 with
        | error e => rw [hrec] at h; simp at h
        | ok r =>
          obtain ⟨s2, m⟩ := r
          rw [hrec] at h
          simp only [Except.ok.injEq, Prod.mk.injEq] at h
          obtain ⟨rfl, rfl⟩ := h
          rw [ih s1 s2 m hrec, (Solve_iteration_frame oracle _ s1 hit).2.1]
          rfl

theorem Solve_loop_stop (oracle : FlowOracle) (budget : Nat) (s s' : SoSPD) (n : Nat)
    (h : Solve_loop oracle budget s = .ok (s', n)) :
    n = budget ∨
      (n < budget ∧ ∀ i < s'.m_energy.numVars, s'.m_labels i = s'.m_fusion_labels i) := by
  induction budget generalizing s s' n with
  | zero =>
    simp only [Solve_loop, Except.ok.injEq, Prod.mk.injEq] at h
    obtain ⟨rfl, rfl⟩ := h
    exact Or.inl rfl
  | succ budget ih =>
    simp only [Solve_loop] at h
    by_cases hflag : (InitialFusionLabeling s).2 = true
    swap
    · rw [if_pos hflag] at h
      simp only [Except.ok.injEq, Prod.mk.injEq] at h
      obtain ⟨rfl, rfl⟩ := h
      exact Or.inr ⟨Nat.succ_pos _,
        InitialFusionLabeling_false s (Bool.eq_false_iff.mpr hflag)⟩
    · rw [if_neg (not_not.mpr hflag)] at h
      cases hit : Solve_iteration oracle (InitialFusionLabeling s).1 with
      | error e => rw [hit] at h; simp at h
      | ok s1 =>
        rw [hit] at h
        simp only [] at h
        cases hrec : Solve_loop oracle budget s1 with
        | error e => rw [hrec] at h; simp at h
        | ok r =>
          obtain ⟨s2, m⟩ := r
          rw [hrec] at h
          simp only [Except.ok.injEq, Prod.mk.injEq] at h
          obtain ⟨rfl, rfl⟩ := h
          rcases ih s1 s2 m hrec with h1 | ⟨h1, h2⟩
          · exact Or.inl (by omega)
          · exact Or.inr ⟨by omega, h2⟩

/-- C5 (amended). `Solve` returns before its iteration budget is exhausted only when
`InitialFusionLabeling` found the clamped proposal equal to the current labeling at every
variable: when `Solve(niters)` returns having completed `n` iterations, either
`n = niters`, or `n < niters` and in the final state the fusion labeling equals the current
labeling at every variable.  The flag returned by `UpdatePrimalDual` is not consulted. -/
theorem C5_early_stop_only_on_identical_proposal (oracle : FlowOracle) (niters : Nat)
    (s s' : SoSPD) (n : Nat) (h : SolveCount oracle niters s = .ok (s', n)) :
    n = niters ∨
      (n < niters ∧ ∀ i < s'.m_energy.numVars, s'.m_labels i = s'.m_fusion_labels i) := by
  unfold SolveCount at h
  cases hi : Solve_init s with
  | error e => rw [hi] at h; simp at h
  | ok s1 =>
    rw [hi] at h
    exact Solve_loop_stop oracle niters s1 s' n h

theorem C5_early_stop_only_on_identical_proposal_witness :
    ∃ s', SolveCount exampleOracle 2 (SoSPD.new exampleEnergy) = .ok (s', 1) ∧
      (1 = 2 ∨
        (1 < 2 ∧ ∀ i < s'.m_energy.numVars, s'.m_labels i = s'.m_fusion_labels i)) := by
  have hrun : observe (SolveCount exampleOracle 2 (SoSPD.new exampleEnergy))
      (fun r => r.2) = some 1 := by decide!
  obtain ⟨⟨s', n⟩, hr, hn⟩ := observe_eq_some hrun
  simp only [] at hn
  subst hn
  exact ⟨s', hr,
    C5_early_stop_only_on_identical_proposal exampleOracle 2 (SoSPD.new exampleEnergy) s' 1 hr⟩

/-- C5, counterexample. On `exampleEnergy2` with the flow result `stayOracle`: in the first
iteration of `Solve` the binary labeling returned (no variable switches) has the least
objective among the four binary labelings of the two variables, `UpdatePrimalDual` reports
no change, and the iteration completes with the labels `(0, 1)` unchanged; yet `Solve(3)`
does not return there: it completes three iterations and leaves the counter at 3. -/
theorem C5_continues_after_no_change :
    observe (PreEditDual exampleStayState)
        (fun s1 => decide (∀ b0 b1 : Bool,
          (SetupAlphaEnergy s1 s1.m_ibfs).ComputeEnergy (fun _ => false) ≤
            (SetupAlphaEnergy s1 s1.m_ibfs).ComputeEnergy
              (fun i => if i = 0 then b0 else b1))) = some true ∧
      observe (PreEditDual exampleStayState)
        (fun s1 => (UpdatePrimalDual stayOracle s1).2) = some false ∧
      (exampleStayState.m_labels 0, exampleStayState.m_labels 1) = (0, 1) ∧
      observe (Solve_iteration stayOracle exampleStayState)
        (fun s => (s.m_labels 0, s.m_labels 1)) = some (0, 1) ∧
      observe (SolveCount stayOracle 3 (SoSPD.new exampleEnergy2))
        (fun r => (r.2, r.1.m_iter)) = some (3, 3) := by
  refine ⟨by decide!, by decide!, by decide!, by decide!, by decide!⟩

/-! ## The binary problem of an iteration and the energy of the fused labeling -/

theorem foldl_add_eq_sum {α : Type} (g : α → Int) (l : List α) (a : Int) :
    l.foldl (fun ret p => ret + g p) a = a + (l.map g).sum := by
  induction l generalizing a with
  | nil => simp
  | cons x xs ih =>
    simp only [List.foldl_cons, List.map_cons, List.sum_cons]
    rw [ih]
    ring

theorem ComputeHeightDiff_eq (s : SoSPD) (i l1 l2 : Nat) :
    ComputeHeightDiff s i l1 l2 =
      (s.m_energy.unary i l1 - s.m_energy.unary i l2) +
        ((s.m_node_clique_list i).map
          (fun p => s.dualVariable p.1 p.2 l1 - s.dualVariable p.1 p.2 l2)).sum := by
  unfold ComputeHeightDiff
  exact foldl_add_eq_sum _ _ _

theorem SetupAlphaEnergy_fold (s : SoSPD) (crf : Flow) (m : Nat) :
    (List.range m).foldl
        (fun crf i =>
          if ComputeHeightDiff s i (s.m_labels i) (s.m_fusion_labels i) > 0
            then crf.AddUnaryTerm i
              (ComputeHeightDiff s i (s.m_labels i) (s.m_fusion_labels i)) 0
            else crf.AddUnaryTerm i 0
              (-ComputeHeightDiff s i (s.m_labels i) (s.m_fusion_labels i)))
        crf =
      { crf with unaries := crf.unaries ++ (List.range m).map (fun i =>
          if ComputeHeightDiff s i (s.m_labels i) (s.m_fusion_labels i) > 0
            then (i, ComputeHeightDiff s i (s.m_labels i) (s.m_fusion_labels i), 0)
            else (i, 0, -ComputeHeightDiff s i (s.m_labels i) (s.m_fusion_labels i))) } := by
  induction m with
  | zero => simp
  | succ m ih =>
    rw [List.range_succ, List.foldl_append, ih]
    simp only [List.foldl_cons, List.foldl_nil, List.map_append, List.map_cons, List.map_nil]
    split_ifs <;> simp [Flow.AddUnaryTerm]

theorem SetupAlphaEnergy_spec (s : SoSPD) (crf : Flow) :
    (SetupAlphaEnergy s crf).unaries = (List.range s.m_energy.numVars).map (fun i =>
        if ComputeHeightDiff s i (s.m_labels i) (s.m_fusion_labels i) > 0
          then (i, ComputeHeightDiff s i (s.m_labels i) (s.m_fusion_labels i), 0)
          else (i, 0, -ComputeHeightDiff s i (s.m_labels i) (s.m_fusion_labels i))) ∧
      (SetupAlphaEnergy s crf).constantTerm = 0 ∧
      (SetupAlphaEnergy s crf).cliques = crf.cliques := by
  unfold SetupAlphaEnergy
  simp only []
  rw [SetupAlphaEnergy_fold]
  simp [Flow.ClearUnaries, Flow.AddConstantTerm]

theorem UpdatePrimalDual_labels_fold (label : Nat → Int) (L F : Nat → Nat) (m : Nat) :
    ((List.range m).foldl
        (fun (st : Bool × (Nat → Nat)) i =>
          if label i = 1 then
            ((if st.2 i ≠ F i then true else st.1), Function.update st.2 i (F i))
          else st)
        (false, L)).2 = fun i => if i < m ∧ label i = 1 then F i else L i := by
  induction m with
  | zero => funext i; simp
  | succ m ih =>
    rw [List.range_succ, List.foldl_append]
    simp only [List.foldl_cons, List.foldl_nil]
    funext i
    by_cases hl : label m = 1
    · rw [if_pos hl]
      simp only []
      rw [ih]
      by_cases him : i = m
      · subst him
        simp [hl]
      · rw [Function.update_noteq him]
        by_cases hc : i < m ∧ label i = 1
        · rw [if_pos hc, if_pos ⟨by omega, hc.2⟩]
        · rw [if_neg hc, if_neg (fun h => hc ⟨by omega, h.2⟩)]
    · rw [if_neg hl, ih]
      show (if i < m ∧ label i = 1 then F i else L i) = _
      by_cases hc : i < m ∧ label i = 1
      · rw [if_pos hc, if_pos ⟨by omega, hc.2⟩]
      · rw [if_neg hc, if_neg (fun h => hc ⟨by
          rcases Nat.lt_succ_iff_lt_or_eq.mp h.1 with h1 | h1
          · exact h1
          · subst h1; exact absurd h.2 hl, h.2⟩)]

theorem UpdatePrimalDual_m_labels (oracle : FlowOracle) (s : SoSPD) (i : Nat) :
    (UpdatePrimalDual oracle s).1.m_labels i =
      if i < s.m_energy.numVars ∧ (oracle (SetupAlphaEnergy s s.m_ibfs)).label i = 1
        then s.m_fusion_labels i else s.m_labels i := by
  unfold UpdatePrimalDual UpdatePrimalDual_labels
  simp only []
  rw [UpdatePrimalDual_labels_fold]
  rfl

theorem UpdatePrimalDual_m_energy (oracle : FlowOracle) (s : SoSPD) :
    (UpdatePrimalDual oracle s).1.m_energy = s.m_energy := rfl

theorem sum_map_sub {α : Type} (l : List α) (f g : α → Int) :
    (l.map (fun i => f i - g i)).sum = (l.map f).sum - (l.map g).sum := by
  induction l with
  | nil => simp
  | cons x xs ih =>
    simp only [List.map_cons, List.sum_cons, ih]
    ring

theorem sum_map_eq_sum_range {α : Type} [Inhabited α] (l : List α) (f : α → Int) :
    (l.map f).sum = ((List.range l.length).map (fun i => f (l.getD i default))).sum := by
  have h : l = (List.range l.length).map (fun i => l.getD i default) := by
    apply List.ext_getElem
    · simp
    · intro n h1 h2
      simp [List.getElem?_eq_getElem h1]
  conv_lhs => rw [h]
  rw [List.map_map]
  rfl

theorem sum_range_shift (f : Nat → Int) (n : Nat) :
    ((List.range (n + 1)).map f).sum = f 0 + ((List.range n).map (fun q => f (q + 1))).sum := by
  rw [List.range_succ_eq_map, List.map_cons, List.sum_cons, List.map_map]
  rfl

theorem sum_range_update_add (a : Nat → Int) (b : Int) (n v : Nat) (hv : v < n) :
    ((List.range n).map (fun i => if i = v then a i + b else a i)).sum
      = ((List.range n).map a).sum + b := by
  induction n with
  | zero => omega
  | succ n ih =>
    rw [List.sum_range_succ, List.sum_range_succ]
    by_cases h : v = n
    · subst h
      rw [if_pos rfl]
      have : (List.range v).map (fun i => if i = v then a i + b else a i)
          = (List.range v).map a := by
        apply List.map_congr_left
        intro i hi
        rw [if_neg (by have := List.mem_range.mp hi; omega)]
      rw [this]
      ring
    · rw [if_neg (Ne.symm h), ih (by omega)]
      ring

/-! ### The node-clique list counts every member position once -/

theorem nodeCliqueList_push (f : Nat → Nat → Nat → Int) (n : Nat)
    (ncl : Nat → List (Nat × Nat)) (v ci j : Nat) (hv : v < n) :
    ((List.range n).map (fun i =>
        ((Function.update ncl v (ncl v ++ [(ci, j)]) i).map (fun p => f i p.1 p.2)).sum)).sum
      = ((List.range n).map (fun i => ((ncl i).map (fun p => f i p.1 p.2)).sum)).sum
        + f v ci j := by
  rw [← sum_range_update_add _ _ n v hv]
  congr 1
  apply List.map_congr_left
  intro i _
  by_cases h : i = v
  · subst h
    simp
  · rw [Function.update_noteq h, if_neg h]

theorem nodeCliqueList_clique_sum (f : Nat → Nat → Nat → Int) (n : Nat)
    (ncl : Nat → List (Nat × Nat)) (ci : Nat) (c : Clique) (hc : ∀ v ∈ c.nodes, v < n)
    (m : Nat) (hm : m ≤ c.size) :
    ((List.range n).map (fun i =>
        (((List.range m).foldl
          (fun ncl i => Function.update ncl (c.nodes.getD i 0)
            (ncl (c.nodes.getD i 0) ++ [(ci, i)])) ncl i).map
          (fun p => f i p.1 p.2)).sum)).sum
      = ((List.range n).map (fun i => ((ncl i).map (fun p => f i p.1 p.2)).sum)).sum
        + ((List.range m).map (fun j => f (c.nodes.getD j 0) ci j)).sum := by
  induction m with
  | zero => simp
  | succ m ih =>
    rw [List.range_succ, List.foldl_append]
    simp only [List.foldl_cons, List.foldl_nil]
    rw [nodeCliqueList_push f n _ _ ci m (hc _ (getD_mem_of_lt c.nodes m (by
      unfold Clique.size at hm; omega))), ih (by omega)]
    rw [List.map_append, List.sum_append]
    simp only [List.map_cons, List.map_nil, List.sum_cons, List.sum_nil]
    ring

theorem nodeCliqueList_sum (f : Nat → Nat → Nat → Int) (n : Nat) (cs : List Clique)
    (i0 : Nat) (ncl : Nat → List (Nat × Nat)) (hc : ∀ c ∈ cs, ∀ v ∈ c.nodes, v < n) :
    ((List.range n).map (fun i =>
        ((eachClique InitialNodeCliqueList_clique cs i0 ncl i).map
          (fun p => f i p.1 p.2)).sum)).sum
      = ((List.range n).map (fun i => ((ncl i).map (fun p => f i p.1 p.2)).sum)).sum
        + ((List.range cs.length).map (fun q =>
            ((List.range (cs.getD q default).size).map
              (fun j => f ((cs.getD q default).nodes.getD j 0) (i0 + q) j)).sum)).sum := by
  induction cs generalizing i0 ncl with
  | nil => simp [eachClique]
  | cons c cs ih =>
    simp only [eachClique, List.length_cons]
    rw [ih (i0 + 1) _ (fun c' hc' => hc c' (List.mem_cons_of_mem _ hc')), sum_range_shift]
    unfold InitialNodeCliqueList_clique
    rw [nodeCliqueList_clique_sum f n ncl i0 c (hc c (List.mem_cons_self _ _)) c.size
      (le_refl _)]
    simp only [List.getD_cons_zero, List.getD_cons_succ, Nat.add_zero]
    have : ∀ q, i0 + 1 + q = i0 + (q + 1) := fun q => by omega
    simp only [this]
    ring

/-! ### The bitmask of a clique under a binary labeling -/

theorem cliqueMask_lt (x : Nat → Bool) (nodes : List Nat) :
    cliqueMask x nodes < 2 ^ nodes.length := by
  induction nodes with
  | nil => simp [cliqueMask]
  | cons v vs ih =>
    simp only [cliqueMask, List.length_cons, pow_succ]
    split_ifs <;> omega

theorem cliqueMask_testBit (x : Nat → Bool) (nodes : List Nat) (j : Nat)
    (hj : j < nodes.length) : (cliqueMask x nodes).testBit j = x (nodes.getD j 0) := by
  induction nodes generalizing j with
  | nil => simp at hj
  | cons v vs ih =>
    have hform : cliqueMask x (v :: vs) = 2 * cliqueMask x vs + (x v).toNat := by
      simp only [cliqueMask]
      cases x v
      · simp
      · simp; omega
    rw [hform]
    cases j with
    | zero => rw [testBit_double_add_zero]; rfl
    | succ j =>
      rw [testBit_double_add_succ, ih j (by simpa using hj)]
      rfl

theorem mixedLabels_cliqueMask (s : SoSPD) (x : Nat → Bool) (nodes : List Nat) :
    mixedLabels (nodes.map s.m_labels) (nodes.map s.m_fusion_labels) (cliqueMask x nodes)
      = nodes.map (fusedLabels s x) := by
  apply List.ext_getElem
  · simp [mixedLabels]
  · intro n h1 h2
    have hn : n < nodes.length := by simpa using h2
    simp only [mixedLabels, List.getElem_map, List.getElem_range, fusedLabels]
    rw [cliqueMask_testBit x nodes n hn, getD_map_of_lt _ _ 0 _ hn,
      getD_map_of_lt _ _ 0 _ hn, List.getD_eq_getElem _ _ hn]

theorem setEnergyTable_nodes (crf : Flow) (ci : Nat) (t : Nat → Int) :
    (crf.setEnergyTable ci t).cliques.map (fun c => c.nodes)
      = crf.cliques.map (fun c => c.nodes) := by
  unfold Flow.setEnergyTable
  simp only []
  apply List.ext_getElem
  · simp
  · intro n h1 h2
    simp only [List.getElem_map, List.getElem_set]
    split_ifs with h
    · subst h
      have hlt : ci < crf.cliques.length := by simpa using h2
      rw [List.getD_eq_getElem _ _ hlt]
    · rfl

theorem PreEditDual_nodes (s s' : SoSPD) (h : PreEditDual s = .ok s') (ci : Nat) :
    (s'.m_ibfs.cliques.getD ci default).nodes = (s.m_ibfs.cliques.getD ci default).nodes := by
  have hmap : s'.m_ibfs.cliques.map (fun c => c.nodes)
      = s.m_ibfs.cliques.map (fun c => c.nodes) := by
    unfold PreEditDual at h
    simp only [] at h
    split_ifs at h with hcount
    cases hloop : forCliques (PreEditDual_clique s) s.m_energy.cliques 0
        { s.m_ibfs with fixedVars := fixedVarsOf s } with
    | error f => rw [hloop] at h; simp at h
    | ok crf' =>
      rw [hloop] at h
      simp only [Except.ok.injEq] at h
      subst h
      exact forCliques_frame (fun crf : Flow => crf.cliques.map (fun c => c.nodes)) _
        (fun i c crf crf1 hstep => by
          rw [(PreEditDual_clique_ok s i c crf crf1 hstep).2.2]
          exact setEnergyTable_nodes _ _ _) _ _ _ _ hloop
  have h1 := @List.getD_map _ _ s'.m_ibfs.cliques default ci (fun c : IBFSClique => c.nodes)
  have h2 := @List.getD_map _ _ s.m_ibfs.cliques default ci (fun c : IBFSClique => c.nodes)
  rw [← h1, ← h2, hmap]

theorem ComputeEnergy_congr (e : MLE) (hwf : e.WF) (l1 l2 : Nat → Nat)
    (h : ∀ i < e.numVars, l1 i = l2 i) : e.ComputeEnergy l1 = e.ComputeEnergy l2 := by
  unfold MLE.ComputeEnergy
  congr 1
  · congr 1
    apply List.map_congr_left
    intro i hi
    rw [h i (List.mem_range.mp hi)]
  · congr 1
    apply List.map_congr_left
    intro c hc
    congr 1
    apply List.map_congr_left
    intro v hv
    exact h v (hwf.2.1 c hc v hv)

theorem PreEditDual_eq (s s1 : SoSPD) (h : PreEditDual s = .ok s1) :
    s1 = { s with m_ibfs := s1.m_ibfs } := by
  unfold PreEditDual at h
  simp only [] at h
  split_ifs at h with hcount
  cases hloop : forCliques (PreEditDual_clique s) s.m_energy.cliques 0
      { s.m_ibfs with fixedVars := fixedVarsOf s } with
  | error f => rw [hloop] at h; simp at h
  | ok crf' =>
    rw [hloop] at h
    simp only [Except.ok.injEq] at h
    subst h
    rfl

theorem residual_at_mask (s : SoSPD) (ci : Nat) (c : Clique) (table : Nat → Int)
    (hk : c.size < 32) (y : Nat → Bool) :
    residualTable s ci c table (cliqueMask y c.nodes) =
      c.energy (c.nodes.map (fusedLabels s y))
        - ((List.range c.size).map (fun j => if y (c.nodes.getD j 0)
            then s.dualVariable ci j (s.m_fusion_labels (c.nodes.getD j 0)) else 0)).sum
        - ((List.range c.size).map (fun j => if y (c.nodes.getD j 0) then 0
            else s.dualVariable ci j (s.m_labels (c.nodes.getD j 0)))).sum := by
  rw [residualTable_apply s ci c table hk _ (cliqueMask_lt y c.nodes), mixedLabels_cliqueMask]
  congr 1
  · congr 2
    apply List.map_congr_left
    intro j hj
    rw [cliqueMask_testBit y c.nodes j (List.mem_range.mp hj)]
  · congr 1
    apply List.map_congr_left
    intro j hj
    rw [cliqueMask_testBit y c.nodes j (List.mem_range.mp hj)]

theorem unary_term_eq (d : Int) (b : Bool) (i : Nat) :
    (if b = true then (if d > 0 then (i, d, (0 : Int)) else (i, 0, -d)).2.2
      else (if d > 0 then (i, d, (0 : Int)) else (i, 0, -d)).2.1)
      = (if d > 0 then d else 0) - (if b = true then d else 0) := by
  by_cases hd : d > 0 <;> cases b <;> simp [hd]

theorem sum_map_zero' {α : Type} (l : List α) : (l.map (fun _ => (0 : Int))).sum = 0 := by
  induction l with
  | nil => rfl
  | cons x xs ih => simp [ih]

theorem binary_unary_part (s : SoSPD) (crf : Flow) (y : Nat → Bool) :
    ((SetupAlphaEnergy s crf).unaries.map (fun t => if y t.1 then t.2.2 else t.2.1)).sum
      = ((List.range s.m_energy.numVars).map (fun i =>
          if ComputeHeightDiff s i (s.m_labels i) (s.m_fusion_labels i) > 0
            then ComputeHeightDiff s i (s.m_labels i) (s.m_fusion_labels i) else 0)).sum
        - ((List.range s.m_energy.numVars).map (fun i => if y i
            then s.m_energy.unary i (s.m_labels i) - s.m_energy.unary i (s.m_fusion_labels i)
            else 0)).sum
        - ((List.range s.m_energy.numVars).map (fun i =>
            ((s.m_node_clique_list i).map (fun p => if y i
              then s.dualVariable p.1 p.2 (s.m_labels i)
                - s.dualVariable p.1 p.2 (s.m_fusion_labels i)
              else 0)).sum)).sum := by
  rw [(SetupAlphaEnergy_spec s crf).1, List.map_map, sub_sub, ← List.sum_map_add,
    ← sum_map_sub]
  congr 1
  apply List.map_congr_left
  intro i _
  simp only [Function.comp]
  have hite : ∀ (b : Bool) (d : Int) (i : Nat),
      (if b = true then (if d > 0 then (i, d, (0 : Int)) else (i, 0, -d)).2.2
        else (if d > 0 then (i, d, (0 : Int)) else (i, 0, -d)).2.1)
        = (if d > 0 then d else 0) - (if b = true then d else 0) := fun b d i =>
    unary_term_eq d b i
  have hfst : ∀ (d : Int), (if d > 0 then (i, d, (0 : Int)) else (i, 0, -d)).1 = i := by
    intro d; split_ifs <;> rfl
  rw [hfst, hite]
  congr 1
  rw [ComputeHeightDiff_eq]
  cases y i
  · simp [sum_map_zero']
  · simp

theorem getElem?_of_lt_length {α : Type} [Inhabited α] (l : List α) (i : Nat)
    (h : i < l.length) : l[i]? = some (l.getD i default) := by
  rw [List.getD_eq_getElem _ _ h, List.getElem?_eq_getElem h]

theorem binary_clique_part (s s1 : SoSPD) (hc : s.Consistent) (hpre : PreEditDual s = .ok s1)
    (y : Nat → Bool) :
    (s1.m_ibfs.cliques.map (fun c => c.energyTable (cliqueMask y c.nodes))).sum
      = ((List.range s.m_energy.cliques.length).map (fun ci =>
          (s.m_energy.cliques.getD ci default).energy
            ((s.m_energy.cliques.getD ci default).nodes.map (fusedLabels s y)))).sum
        - ((List.range s.m_energy.cliques.length).map (fun ci =>
            ((List.range (s.m_energy.cliques.getD ci default).size).map (fun j =>
              if y ((s.m_energy.cliques.getD ci default).nodes.getD j 0)
                then s.dualVariable ci j
                  (s.m_fusion_labels ((s.m_energy.cliques.getD ci default).nodes.getD j 0))
                else 0)).sum)).sum
        - ((List.range s.m_energy.cliques.length).map (fun ci =>
            ((List.range (s.m_energy.cliques.getD ci default).size).map (fun j =>
              if y ((s.m_energy.cliques.getD ci default).nodes.getD j 0) then 0
                else s.dualVariable ci j
                  (s.m_labels ((s.m_energy.cliques.getD ci default).nodes.getD j 0)))).sum)).sum
    := by
  obtain ⟨_, _, _, _, _, _, _, _, _, hlen, hpost⟩ := PreEditDual_spec s s1 hpre
  rw [sum_map_eq_sum_range, hlen, ← sum_map_sub, ← sum_map_sub]
  apply congrArg
  apply List.map_congr_left
  intro ci hci
  have hlt : ci < s.m_energy.cliques.length := List.mem_range.mp hci
  have hget := getElem?_of_lt_length s.m_energy.cliques ci hlt
  obtain ⟨hk, htab⟩ := hpost ci _ hget
  rw [PreEditDual_nodes s s1 hpre ci, hc.2.2 ci _ hget, htab]
  exact residual_at_mask s ci _ _ hk y

theorem binary_double_count (s : SoSPD) (hc : s.Consistent) (y : Nat → Bool) :
    ((List.range s.m_energy.numVars).map (fun i =>
        ((s.m_node_clique_list i).map (fun p => if y i
          then s.dualVariable p.1 p.2 (s.m_labels i)
            - s.dualVariable p.1 p.2 (s.m_fusion_labels i)
          else 0)).sum)).sum
      = ((List.range s.m_energy.cliques.length).map (fun ci =>
            ((List.range (s.m_energy.cliques.getD ci default).size).map (fun j =>
              if y ((s.m_energy.cliques.getD ci default).nodes.getD j 0)
                then s.dualVariable ci j
                  (s.m_labels ((s.m_energy.cliques.getD ci default).nodes.getD j 0))
                else 0)).sum)).sum
        - ((List.range s.m_energy.cliques.length).map (fun ci =>
            ((List.range (s.m_energy.cliques.getD ci default).size).map (fun j =>
              if y ((s.m_energy.cliques.getD ci default).nodes.getD j 0)
                then s.dualVariable ci j
                  (s.m_fusion_labels ((s.m_energy.cliques.getD ci default).nodes.getD j 0))
                else 0)).sum)).sum := by
  rw [hc.2.1]
  have h := nodeCliqueList_sum
    (fun i ci j => if y i then s.dualVariable ci j (s.m_labels i)
      - s.dualVariable ci j (s.m_fusion_labels i) else 0)
    s.m_energy.numVars s.m_energy.cliques 0 (fun _ => []) hc.1.2.1
  simp only [List.map_nil, List.sum_nil, sum_map_zero', Nat.zero_add, zero_add] at h
  rw [h, ← sum_map_sub]
  congr 1
  apply List.map_congr_left
  intro ci _
  rw [← sum_map_sub]
  congr 1
  apply List.map_congr_left
  intro j _
  split_ifs <;> simp

theorem binary_tight_part (s : SoSPD) (y : Nat → Bool) :
    ((List.range s.m_energy.cliques.length).map (fun ci =>
        ((List.range (s.m_energy.cliques.getD ci default).size).map (fun j =>
          if y ((s.m_energy.cliques.getD ci default).nodes.getD j 0) then 0
            else s.dualVariable ci j
              (s.m_labels ((s.m_energy.cliques.getD ci default).nodes.getD j 0)))).sum)).sum
      + ((List.range s.m_energy.cliques.length).map (fun ci =>
        ((List.range (s.m_energy.cliques.getD ci default).size).map (fun j =>
          if y ((s.m_energy.cliques.getD ci default).nodes.getD j 0)
            then s.dualVariable ci j
              (s.m_labels ((s.m_energy.cliques.getD ci default).nodes.getD j 0))
            else 0)).sum)).sum
      = ((List.range s.m_energy.cliques.length).map (fun ci =>
        ((List.range (s.m_energy.cliques.getD ci default).size).map (fun j =>
          s.dualVariable ci j
            (s.m_labels ((s.m_energy.cliques.getD ci default).nodes.getD j 0)))).sum)).sum := by
  rw [← List.sum_map_add]
  congr 1
  apply List.map_congr_left
  intro ci _
  rw [← List.sum_map_add]
  congr 1
  apply List.map_congr_left
  intro j _
  split_ifs <;> simp

theorem fused_unary_part (s : SoSPD) (y : Nat → Bool) :
    ((List.range s.m_energy.numVars).map
        (fun i => s.m_energy.unary i (fusedLabels s y i))).sum
      = ((List.range s.m_energy.numVars).map
          (fun i => s.m_energy.unary i (s.m_labels i))).sum
        - ((List.range s.m_energy.numVars).map (fun i => if y i
            then s.m_energy.unary i (s.m_labels i) - s.m_energy.unary i (s.m_fusion_labels i)
            else 0)).sum := by
  rw [← sum_map_sub]
  congr 1
  apply List.map_congr_left
  intro i _
  unfold fusedLabels
  split_ifs <;> simp

theorem binary_objective (s s1 : SoSPD) (hc : s.Consistent) (hpre : PreEditDual s = .ok s1) :
    ∃ K : Int, ∀ y : Nat → Bool,
      (SetupAlphaEnergy s1 s1.m_ibfs).ComputeEnergy y
        = K + s.m_energy.ComputeEnergy (fusedLabels s y) := by
  have hsetup : SetupAlphaEnergy s1 s1.m_ibfs = SetupAlphaEnergy s s1.m_ibfs := by
    conv_lhs => rw [PreEditDual_eq s s1 hpre]
    rfl
  refine ⟨((List.range s.m_energy.numVars).map (fun i =>
          if ComputeHeightDiff s i (s.m_labels i) (s.m_fusion_labels i) > 0
            then ComputeHeightDiff s i (s.m_labels i) (s.m_fusion_labels i) else 0)).sum
      - ((List.range s.m_energy.cliques.length).map (fun ci =>
        ((List.range (s.m_energy.cliques.getD ci default).size).map (fun j =>
          s.dualVariable ci j
            (s.m_labels ((s.m_energy.cliques.getD ci default).nodes.getD j 0)))).sum)).sum
      - ((List.range s.m_energy.numVars).map
          (fun i => s.m_energy.unary i (s.m_labels i))).sum, fun y => ?_⟩
  rw [hsetup]
  unfold Flow.ComputeEnergy MLE.ComputeEnergy
  rw [binary_unary_part, (SetupAlphaEnergy_spec s s1.m_ibfs).2.1,
    (SetupAlphaEnergy_spec s s1.m_ibfs).2.2, binary_clique_part s s1 hc hpre y,
    binary_double_count s hc y, ← binary_tight_part s y, fused_unary_part,
    sum_map_eq_sum_range s.m_energy.cliques]
  ring

theorem fusedLabels_false (s : SoSPD) : fusedLabels s (fun _ => false) = s.m_labels := by
  funext i
  simp [fusedLabels]

/-- C7. Monotonic improvement: in an iteration of `Solve` (`PreEditDual`,
`UpdatePrimalDual`, `PostEditDual`, started on a state whose node-clique list and flow graph
are those built by the initialization) in which the flow oracle returns a minimum cut of the
binary problem that `PreEditDual` and `SetupAlphaEnergy` constructed, the total energy of
the current labeling (sum of the unary costs plus all clique energies) after the iteration
is at most its value before the iteration. -/
theorem C7_monotonic_improvement (oracle : FlowOracle) (s s1 s' : SoSPD)
    (hc : s.Consistent) (hpre : PreEditDual s = .ok s1)
    (hit : Solve_iteration oracle s = .ok s')
    (hmin : (SetupAlphaEnergy s1 s1.m_ibfs).IsMinCut
      (binaryLabels (oracle (SetupAlphaEnergy s1 s1.m_ibfs)))) :
    s'.m_energy.ComputeEnergy s'.m_labels ≤ s.m_energy.ComputeEnergy s.m_labels := by
  obtain ⟨K, hK⟩ := binary_objective s s1 hc hpre
  have hle := hmin (fun _ => false)
  rw [hK, hK, fusedLabels_false] at hle
  have hle' : s.m_energy.ComputeEnergy
      (fusedLabels s (binaryLabels (oracle (SetupAlphaEnergy s1 s1.m_ibfs))))
      ≤ s.m_energy.ComputeEnergy s.m_labels := by omega
  obtain ⟨a1, a2, _, _, _, a6, _⟩ := PreEditDual_spec s s1 hpre
  unfold Solve_iteration at hit
  rw [hpre] at hit
  simp only [] at hit
  cases hq : PostEditDual (UpdatePrimalDual oracle s1).1 with
  | error e => rw [hq] at hit; simp at hit
  | ok s2 =>
    rw [hq] at hit
    simp only [Except.ok.injEq] at hit
    subst hit
    obtain ⟨_, b2, _, b4, _⟩ := PostEditDual_frame _ s2 hq
    show s2.m_energy.ComputeEnergy s2.m_labels ≤ _
    rw [b4, b2, UpdatePrimalDual_m_energy, a6]
    refine le_trans (le_of_eq ?_) hle'
    apply ComputeEnergy_congr _ hc.1
    intro i hi
    rw [UpdatePrimalDual_m_labels, a6, a1, a2]
    unfold fusedLabels binaryLabels
    by_cases hl : (oracle (SetupAlphaEnergy s1 s1.m_ibfs)).label i = 1
    · rw [if_pos ⟨hi, hl⟩]
      simp [hl]
    · rw [if_neg (fun h => hl h.2)]
      simp [hl]

/-! ### The consistency invariant holds at every iteration of `Solve` -/

theorem SetupGraph_loop (cs : List Clique) (i0 : Nat) (crf crf' : Flow)
    (h : forCliques SetupGraph_clique cs i0 crf = .ok crf') :
    crf'.cliques.map (fun c => c.nodes)
      = crf.cliques.map (fun c => c.nodes) ++ cs.map (fun c => c.nodes) := by
  induction cs generalizing i0 crf with
  | nil =>
    simp only [forCliques, Except.ok.injEq] at h
    subst h
    simp
  | cons c cs ih =>
    simp only [forCliques] at h
    cases hstep : SetupGraph_clique i0 c crf with
    | error e => rw [hstep] at h; simp at h
    | ok crf1 =>
      rw [hstep] at h
      simp only [] at h
      unfold SetupGraph_clique at hstep
      simp only [] at hstep
      split_ifs at hstep
      simp only [Except.ok.injEq] at hstep
      subst hstep
      rw [ih (i0 + 1) _ h]
      simp [Flow.AddClique]

theorem nodes_getD_of_map_eq (l : List IBFSClique) (cs : List Clique)
    (h : l.map (fun c => c.nodes) = cs.map (fun c => c.nodes)) (ci : Nat) (c : Clique)
    (hc : cs[ci]? = some c) : (l.getD ci default).nodes = c.nodes := by
  have h1 := @List.getD_map _ _ l default ci (fun c : IBFSClique => c.nodes)
  have h2 := @List.getD_map _ _ cs default ci (fun c : Clique => c.nodes)
  obtain ⟨hi, rfl⟩ := List.getElem?_eq_some.mp hc
  rw [← h1, h]
  show (cs.map (fun c => c.nodes)).getD ci (default : Clique).nodes = _
  rw [h2, List.getD_eq_getElem _ _ hi]

theorem InitialDual_m_ibfs (s s' : SoSPD) (h : InitialDual s = .ok s') :
    s'.m_ibfs = s.m_ibfs := by
  unfold InitialDual at h
  exact forCliques_frame (fun s => s.m_ibfs) _
    (fun i c s s' h => by
      unfold InitialDual_clique at h
      simp only [] at h
      split_ifs at h
      simp only [Except.ok.injEq] at h
      subst h
      rfl) _ _ _ _ h

theorem Solve_init_Consistent (s s' : SoSPD) (hwf : s.m_energy.WF) (h0 : s.m_iter = 0)
    (hg : s.m_ibfs.cliques = []) (h : Solve_init s = .ok s') : s'.Consistent := by
  unfold Solve_init at h
  rw [if_pos h0] at h
  cases hs : SetupGraph s with
  | error e => rw [hs] at h; simp at h
  | ok s1 =>
    rw [hs] at h
    simp only [] at h
    cases hd : InitialDual (InitialLabeling s1) with
    | error e => rw [hd] at h; simp at h
    | ok s2 =>
      rw [hd] at h
      simp only [Except.ok.injEq] at h
      subst h
      have hen1 : s1.m_energy = s.m_energy := (SetupGraph_frame s s1 hs).2.2.1
      have hen2 : s2.m_energy = s.m_energy :=
        ((InitialDual_frame _ s2 hd).2.2.1).trans hen1
      have hib : s2.m_ibfs = s1.m_ibfs := InitialDual_m_ibfs (InitialLabeling s1) s2 hd
      have hnodes : s1.m_ibfs.cliques.map (fun c => c.nodes)
          = s.m_energy.cliques.map (fun c => c.nodes) := by
        unfold SetupGraph at hs
        simp only [] at hs
        cases hl : forCliques SetupGraph_clique s.m_energy.cliques 0
            (s.m_ibfs.AddNode s.m_energy.numVars) with
        | error e => rw [hl] at hs; simp at hs
        | ok crf =>
          rw [hl] at hs
          simp only [Except.ok.injEq] at hs
          subst hs
          rw [SetupGraph_loop _ _ _ _ hl]
          simp [Flow.AddNode, hg]
      refine ⟨?_, ?_, ?_⟩
      · show s2.m_energy.WF
        rw [hen2]; exact hwf
      · show eachClique InitialNodeCliqueList_clique s2.m_energy.cliques 0 (fun _ => [])
          = eachClique InitialNodeCliqueList_clique s2.m_energy.cliques 0 (fun _ => [])
        rfl
      · intro ci c hc
        show (s2.m_ibfs.cliques.getD ci default).nodes = c.nodes
        have hc' : s.m_energy.cliques[ci]? = some c := by
          have : s2.m_energy.cliques[ci]? = some c := hc
          rwa [hen2] at this
        rw [hib]
        exact nodes_getD_of_map_eq _ _ hnodes ci c hc'

theorem InitialFusionLabeling_Consistent (s : SoSPD) (hc : s.Consistent) :
    (InitialFusionLabeling s).1.Consistent := hc

theorem setAlphaCi_nodes (r : FlowResult) (l : List IBFSClique) (i : Nat) :
    (setAlphaCi r l i).map (fun c => c.nodes) = l.map (fun c => c.nodes) := by
  induction l generalizing i with
  | nil => rfl
  | cons c cs ih => simp [setAlphaCi, ih]

theorem Solve_iteration_Consistent (oracle : FlowOracle) (s s' : SoSPD) (hc : s.Consistent)
    (h : Solve_iteration oracle s = .ok s') : s'.Consistent := by
  unfold Solve_iteration at h
  cases hp : PreEditDual s with
  | error e => rw [hp] at h; simp at h
  | ok s1 =>
    rw [hp] at h
    simp only [] at h
    cases hq : PostEditDual (UpdatePrimalDual oracle s1).1 with
    | error e => rw [hq] at h; simp at h
    | ok s2 =>
      rw [hq] at h
      simp only [Except.ok.injEq] at h
      subst h
      obtain ⟨_, _, _, _, _, a6, a7, _⟩ := PreEditDual_spec s s1 hp
      obtain ⟨_, _, _, b4, _, b6, b7, _⟩ := PostEditDual_frame _ s2 hq
      have hen : s2.m_energy = s.m_energy := by rw [b4, UpdatePrimalDual_m_energy, a6]
      refine ⟨?_, ?_, ?_⟩
      · show s2.m_energy.WF
        rw [hen]; exact hc.1
      · show s2.m_node_clique_list
          = eachClique InitialNodeCliqueList_clique s2.m_energy.cliques 0 (fun _ => [])
        rw [hen, b6]
        show s1.m_node_clique_list = _
        rw [a7]; exact hc.2.1
      · intro ci c hcl
        show (s2.m_ibfs.cliques.getD ci default).nodes = c.nodes
        have hcl' : s.m_energy.cliques[ci]? = some c := by
          have : s2.m_energy.cliques[ci]? = some c := hcl
          rwa [hen] at this
        rw [b7]
        have hmap : (UpdatePrimalDual oracle s1).1.m_ibfs.cliques.map (fun c => c.nodes)
            = s1.m_ibfs.cliques.map (fun c => c.nodes) := by
          show (setAlphaCi _ (SetupAlphaEnergy s1 s1.m_ibfs).cliques 0).map _ = _
          rw [setAlphaCi_nodes, (SetupAlphaEnergy_spec s1 s1.m_ibfs).2.2]
        have h1 := @List.getD_map _ _ (UpdatePrimalDual oracle s1).1.m_ibfs.cliques default ci
          (fun c : IBFSClique => c.nodes)
        have h2 := @List.getD_map _ _ s1.m_ibfs.cliques default ci
          (fun c : IBFSClique => c.nodes)
        rw [← h1, hmap, h2, PreEditDual_nodes s s1 hp ci]
        exact hc.2.2 ci c hcl'

theorem okOr_eq {σ : Type} {r : Except Fault σ} {d s : σ} (h : r = .ok s) : okOr r d = s := by
  rw [h]
  rfl

theorem exampleProposedState_Consistent : exampleProposedState.Consistent := by
  have hrun : observe (Solve_init (SoSPD.new exampleEnergy)) (fun _ => ()) = some () := by
    decide
  obtain ⟨s0, hs0, _⟩ := observe_eq_some hrun
  have h0 : exampleInitState = s0 := okOr_eq hs0
  unfold exampleProposedState
  rw [h0]
  exact InitialFusionLabeling_Consistent s0
    (Solve_init_Consistent (SoSPD.new exampleEnergy) s0 exampleEnergy_WF rfl rfl hs0)

theorem exampleProposedState_fused_energy (y : Nat → Bool) :
    (1 : Int) ≤ exampleProposedState.m_energy.ComputeEnergy
      (fusedLabels exampleProposedState y) := by
  have hen : exampleProposedState.m_energy = exampleEnergy := by
    have hrun : observe (Solve_init (SoSPD.new exampleEnergy))
        (fun s => decide (s.m_energy.numVars = 2)) = some true := by decide
    obtain ⟨s0, hs0, _⟩ := observe_eq_some hrun
    have h0 : exampleInitState = s0 := okOr_eq hs0
    unfold exampleProposedState
    rw [h0]
    exact (Solve_init_frame _ s0 hs0).2.1
  rw [ComputeEnergy_congr _ exampleProposedState_Consistent.1
    (fusedLabels exampleProposedState y)
    (fusedLabels exampleProposedState (fun i => if i = 0 then y 0 else y 1))
    (fun i hi => by
      rw [hen] at hi
      have hi2 : i < 2 := hi
      unfold fusedLabels
      rcases Nat.lt_succ_iff_lt_or_eq.mp hi2 with h | h
      · have : i = 0 := by omega
        subst this
        simp
      · subst h
        simp)]
  cases y 0 <;> cases y 1 <;> decide!

theorem C7_monotonic_improvement_witness :
    ∃ s1 s', exampleProposedState.Consistent ∧
      PreEditDual exampleProposedState = .ok s1 ∧
      Solve_iteration exampleOracle exampleProposedState = .ok s' ∧
      (SetupAlphaEnergy s1 s1.m_ibfs).IsMinCut
        (binaryLabels (exampleOracle (SetupAlphaEnergy s1 s1.m_ibfs))) ∧
      s'.m_energy.ComputeEnergy s'.m_labels
        ≤ exampleProposedState.m_energy.ComputeEnergy exampleProposedState.m_labels := by
  have hrun1 : observe (PreEditDual exampleProposedState) (fun _ => ()) = some () := by
    decide!
  have hrun2 : observe (Solve_iteration exampleOracle exampleProposedState)
      (fun _ => ()) = some () := by decide!
  obtain ⟨s1, hpre, _⟩ := observe_eq_some hrun1
  obtain ⟨s', hit, _⟩ := observe_eq_some hrun2
  have hmin : (SetupAlphaEnergy s1 s1.m_ibfs).IsMinCut
      (binaryLabels (exampleOracle (SetupAlphaEnergy s1 s1.m_ibfs))) := by
    intro y
    obtain ⟨K, hK⟩ := binary_objective exampleProposedState s1
      exampleProposedState_Consistent hpre
    rw [hK, hK]
    have h1 := exampleProposedState_fused_energy y
    have h0 : exampleProposedState.m_energy.ComputeEnergy
        (fusedLabels exampleProposedState (binaryLabels (exampleOracle Flow.empty))) = 1 := by
      decide!
    have h2 : exampleProposedState.m_energy.ComputeEnergy
        (fusedLabels exampleProposedState
          (binaryLabels (exampleOracle (SetupAlphaEnergy s1 s1.m_ibfs)))) = 1 := h0
    omega
  exact ⟨s1, s', exampleProposedState_Consistent, hpre, hit, hmin,
    C7_monotonic_improvement exampleOracle exampleProposedState s1 s'
      exampleProposedState_Consistent hpre hit hmin⟩

/-! ## Proposals -/

theorem fillRange_apply (n v : Nat) (f : Nat → Nat) (i : Nat) :
    fillRange n v f i = if i < n then v else f i := by
  unfold fillRange
  induction n with
  | zero => simp
  | succ n ih =>
    rw [List.range_succ, List.foldl_append]
    simp only [List.foldl_cons, List.foldl_nil]
    by_cases h : i = n
    · subst h
      simp
    · rw [Function.update_noteq h, ih]
      by_cases h2 : i < n
      · rw [if_pos h2, if_pos (by omega)]
      · rw [if_neg h2, if_neg (by omega)]

/-- C13. Cyclic alpha-expansion: for every iteration counter value and `numLabels >= 1`,
`AlphaProposal` sets the fusion label of every variable to `m_iter mod numLabels`, a label
of the model, and changes nothing else. -/
theorem C13_cyclic_alpha_proposal (s : SoSPD) (hnl : 1 ≤ s.m_num_labels) :
    (∀ i < s.m_energy.numVars,
      (AlphaProposal s).m_fusion_labels i = s.m_iter % s.m_num_labels ∧
      (AlphaProposal s).m_fusion_labels i < s.m_num_labels) ∧
    (AlphaProposal s).m_labels = s.m_labels ∧ (AlphaProposal s).m_dual = s.m_dual ∧
    (AlphaProposal s).m_heights = s.m_heights ∧ (AlphaProposal s).m_iter = s.m_iter := by
  refine ⟨fun i hi => ?_, rfl, rfl, rfl, rfl⟩
  have h : (AlphaProposal s).m_fusion_labels i = s.m_iter % s.m_num_labels := by
    show fillRange s.m_energy.numVars (s.m_iter % s.m_num_labels) s.m_fusion_labels i = _
    rw [fillRange_apply, if_pos hi]
  exact ⟨h, by rw [h]; exact Nat.mod_lt _ (by omega)⟩

theorem C13_cyclic_alpha_proposal_witness :
    1 ≤ exampleAlphaState.m_num_labels ∧
    ((∀ i < exampleAlphaState.m_energy.numVars,
      (AlphaProposal exampleAlphaState).m_fusion_labels i
        = exampleAlphaState.m_iter % exampleAlphaState.m_num_labels ∧
      (AlphaProposal exampleAlphaState).m_fusion_labels i < exampleAlphaState.m_num_labels) ∧
    (AlphaProposal exampleAlphaState).m_labels = exampleAlphaState.m_labels ∧
    (AlphaProposal exampleAlphaState).m_dual = exampleAlphaState.m_dual ∧
    (AlphaProposal exampleAlphaState).m_heights = exampleAlphaState.m_heights ∧
    (AlphaProposal exampleAlphaState).m_iter = exampleAlphaState.m_iter) :=
  ⟨by decide, C13_cyclic_alpha_proposal exampleAlphaState (by decide)⟩

theorem InitialFusionLabeling_fold_spec (labels : Nat → Nat) (v : Nat → Nat)
    (init : Nat → Nat) (m : Nat) :
    (∀ i, ((List.range m).foldl
        (fun (st : Bool × (Nat → Nat)) i =>
          ((if labels i ≠ v i then true else st.1), Function.update st.2 i (v i)))
        (false, init)).2 i = if i < m then v i else init i) ∧
    (((List.range m).foldl
        (fun (st : Bool × (Nat → Nat)) i =>
          ((if labels i ≠ v i then true else st.1), Function.update st.2 i (v i)))
        (false, init)).1 = true ↔ ∃ i < m, labels i ≠ v i) := by
  induction m with
  | zero => simp
  | succ m ih =>
    rw [List.range_succ, List.foldl_append]
    simp only [List.foldl_cons, List.foldl_nil]
    obtain ⟨ih1, ih2⟩ := ih
    constructor
    · intro i
      by_cases h : i = m
      · subst h
        simp
      · rw [Function.update_noteq h, ih1]
        by_cases h2 : i < m
        · rw [if_pos h2, if_pos (by omega)]
        · rw [if_neg h2, if_neg (by omega)]
    · by_cases hne : labels m ≠ v m
      · rw [if_pos hne]
        exact ⟨fun _ => ⟨m, Nat.lt_succ_self m, hne⟩, fun _ => rfl⟩
      · rw [if_neg hne, ih2]
        constructor
        · rintro ⟨i, hi, h⟩
          exact ⟨i, by omega, h⟩
        · rintro ⟨i, hi, h⟩
          have him : i ≠ m := fun e => hne (e ▸ h)
          exact ⟨i, by omega, h⟩

theorem clampLabel_range (nl : Nat) (hnl : 1 ≤ nl) (l : Int) :
    0 ≤ clampLabel nl l ∧ clampLabel nl l < nl := by
  unfold clampLabel
  simp only []
  split_ifs <;> omega

theorem clampLabel_cases (nl : Nat) (hnl : 1 ≤ nl) (l : Int) :
    (0 ≤ l → l < nl → clampLabel nl l = l) ∧ (l < 0 → clampLabel nl l = 0) ∧
      ((nl : Int) ≤ l → clampLabel nl l = (nl : Int) - 1) := by
  unfold clampLabel
  simp only []
  refine ⟨fun h1 h2 => ?_, fun h => ?_, fun h => ?_⟩ <;> split_ifs <;> omega

theorem InitialFusionLabeling_fusion (s : SoSPD) (i : Nat) :
    (InitialFusionLabeling s).1.m_fusion_labels i =
      if i < s.m_energy.numVars then (clampLabel s.m_num_labels (proposal s i)).toNat
      else s.m_fusion_labels i :=
  (InitialFusionLabeling_fold_spec s.m_labels
    (fun i => (clampLabel s.m_num_labels (proposal s i)).toNat) s.m_fusion_labels
    s.m_energy.numVars).1 i

theorem InitialFusionLabeling_flag (s : SoSPD) :
    (InitialFusionLabeling s).2 = true ↔ ∃ i < s.m_energy.numVars,
      s.m_labels i ≠ (clampLabel s.m_num_labels (proposal s i)).toNat :=
  (InitialFusionLabeling_fold_spec s.m_labels
    (fun i => (clampLabel s.m_num_labels (proposal s i)).toNat) s.m_fusion_labels
    s.m_energy.numVars).2

/-- C14. Proposal clamping: for every proposal written by the callback and
`numLabels >= 1`, after `InitialFusionLabeling` the fusion label of every variable lies in
`[0, numLabels)`; a proposed label already in range is unchanged, a negative one becomes 0
and one `>= numLabels` becomes `numLabels - 1`; and `InitialFusionLabeling` returns true if
and only if the clamped fusion label of some variable differs from its current label (which
is left as it was). -/
theorem C14_proposal_clamping (s : SoSPD) (hnl : 1 ≤ s.m_num_labels) :
    (∀ i < s.m_energy.numVars,
      (InitialFusionLabeling s).1.m_fusion_labels i < s.m_num_labels ∧
      (0 ≤ proposal s i → proposal s i < s.m_num_labels →
        ((InitialFusionLabeling s).1.m_fusion_labels i : Int) = proposal s i) ∧
      (proposal s i < 0 → (InitialFusionLabeling s).1.m_fusion_labels i = 0) ∧
      ((s.m_num_labels : Int) ≤ proposal s i →
        (InitialFusionLabeling s).1.m_fusion_labels i = s.m_num_labels - 1)) ∧
    (InitialFusionLabeling s).1.m_labels = s.m_labels ∧
    ((InitialFusionLabeling s).2 = true ↔ ∃ i < s.m_energy.numVars,
      (InitialFusionLabeling s).1.m_fusion_labels i ≠ (InitialFusionLabeling s).1.m_labels i)
    := by
  refine ⟨fun i hi => ?_, rfl, ?_⟩
  · have hr := clampLabel_range s.m_num_labels hnl (proposal s i)
    obtain ⟨c1, c2, c3⟩ := clampLabel_cases s.m_num_labels hnl (proposal s i)
    rw [InitialFusionLabeling_fusion, if_pos hi]
    refine ⟨by omega, fun h1 h2 => ?_, fun h => ?_, fun h => ?_⟩
    · rw [Int.toNat_of_nonneg hr.1, c1 h1 h2]
    · rw [c2 h]; rfl
    · rw [c3 h]; omega
  · rw [InitialFusionLabeling_flag]
    constructor
    · rintro ⟨i, hi, h⟩
      refine ⟨i, hi, ?_⟩
      rw [InitialFusionLabeling_fusion, if_pos hi]
      exact fun e => h e.symm
    · rintro ⟨i, hi, h⟩
      refine ⟨i, hi, ?_⟩
      rw [InitialFusionLabeling_fusion, if_pos hi] at h
      exact fun e => h e.symm

theorem C14_proposal_clamping_witness :
    1 ≤ exampleCustomState.m_num_labels ∧
    ((∀ i < exampleCustomState.m_energy.numVars,
      (InitialFusionLabeling exampleCustomState).1.m_fusion_labels i
        < exampleCustomState.m_num_labels ∧
      (0 ≤ proposal exampleCustomState i →
        proposal exampleCustomState i < exampleCustomState.m_num_labels →
        ((InitialFusionLabeling exampleCustomState).1.m_fusion_labels i : Int)
          = proposal exampleCustomState i) ∧
      (proposal exampleCustomState i < 0 →
        (InitialFusionLabeling exampleCustomState).1.m_fusion_labels i = 0) ∧
      ((exampleCustomState.m_num_labels : Int) ≤ proposal exampleCustomState i →
        (InitialFusionLabeling exampleCustomState).1.m_fusion_labels i
          = exampleCustomState.m_num_labels - 1)) ∧
    (InitialFusionLabeling exampleCustomState).1.m_labels = exampleCustomState.m_labels ∧
    ((InitialFusionLabeling exampleCustomState).2 = true ↔
      ∃ i < exampleCustomState.m_energy.numVars,
        (InitialFusionLabeling exampleCustomState).1.m_fusion_labels i
          ≠ (InitialFusionLabeling exampleCustomState).1.m_labels i)) :=
  ⟨by decide, C14_proposal_clamping exampleCustomState (by decide)⟩

/-! ## `InitialLabeling` -/

theorem InitialLabeling_var_spec (e : MLE) (nl i : Nat) (labels : Nat → Nat) :
    (∀ j, j ≠ i → (InitialLabeling_var e nl i labels).2 j = labels j) ∧
    (((∀ l < nl, ¬ e.unary i l < e.realMax) ∧ (InitialLabeling_var e nl i labels).2 i = labels i
        ∧ (InitialLabeling_var e nl i labels).1 = e.realMax) ∨
      ((InitialLabeling_var e nl i labels).2 i < nl ∧
        e.unary i ((InitialLabeling_var e nl i labels).2 i) < e.realMax ∧
        (InitialLabeling_var e nl i labels).1
          = e.unary i ((InitialLabeling_var e nl i labels).2 i) ∧
        (∀ l < nl, e.unary i ((InitialLabeling_var e nl i labels).2 i) ≤ e.unary i l) ∧
        ∀ l < (InitialLabeling_var e nl i labels).2 i,
          e.unary i ((InitialLabeling_var e nl i labels).2 i) < e.unary i l)) := by
  unfold InitialLabeling_var
  induction nl with
  | zero =>
    refine ⟨fun j _ => rfl, Or.inl ⟨fun l hl => by omega, rfl, rfl⟩⟩
  | succ m ih =>
    rw [List.range_succ, List.foldl_append]
    simp only [List.foldl_cons, List.foldl_nil]
    obtain ⟨ihf, ihc⟩ := ih
    by_cases hlt : e.unary i m < ((List.range m).foldl
        (fun st l => if e.unary i l < st.1 then (e.unary i l, Function.update st.2 i l)
          else st) (e.realMax, labels)).1
    · rw [if_pos hlt]
      refine ⟨fun j hj => ?_, Or.inr ?_⟩
      · simp only []
        rw [Function.update_noteq hj]
        exact ihf j hj
      · simp only [Function.update_same]
        rcases ihc with ⟨ha, _, hb⟩ | ⟨_, hmax, hb, hmin, _⟩
        · rw [hb] at hlt
          refine ⟨Nat.lt_succ_self m, hlt, trivial, fun l hl => ?_, fun l hl => ?_⟩
          · rcases Nat.lt_succ_iff_lt_or_eq.mp hl with h | h
            · have := ha l h; omega
            · subst h; exact le_refl _
          · have := ha l hl; omega
        · rw [hb] at hlt
          refine ⟨Nat.lt_succ_self m, by omega, trivial, fun l hl => ?_, fun l hl => ?_⟩
          · rcases Nat.lt_succ_iff_lt_or_eq.mp hl with h | h
            · have := hmin l h; omega
            · subst h; exact le_refl _
          · have := hmin l hl; omega
    · rw [if_neg hlt]
      refine ⟨ihf, ?_⟩
      rcases ihc with ⟨ha, hl, hb⟩ | ⟨hL, hmax, hb, hmin, hfirst⟩
      · refine Or.inl ⟨fun l hl' => ?_, hl, hb⟩
        rcases Nat.lt_succ_iff_lt_or_eq.mp hl' with h | h
        · exact ha l h
        · subst h; rw [hb] at hlt; exact hlt
      · refine Or.inr ⟨by omega, hmax, hb, fun l hl' => ?_, hfirst⟩
        rcases Nat.lt_succ_iff_lt_or_eq.mp hl' with h | h
        · exact hmin l h
        · subst h; rw [hb] at hlt; omega

theorem InitialLabeling_var_label (e : MLE) (nl i : Nat) (labels : Nat → Nat) :
    InitialLabelOf e nl i (labels i) ((InitialLabeling_var e nl i labels).2 i) := by
  rcases (InitialLabeling_var_spec e nl i labels).2 with ⟨ha, hl, _⟩ | ⟨hL, hmax, _, hmin, hf⟩
  · exact Or.inl ⟨ha, hl⟩
  · exact Or.inr ⟨hL, hmax, hmin, hf⟩

theorem InitialLabeling_fold_spec (e : MLE) (nl : Nat) (labels : Nat → Nat) (n : Nat) :
    ∀ i, (i < n → InitialLabelOf e nl i (labels i)
        ((List.range n).foldl (fun labels i => (InitialLabeling_var e nl i labels).2)
          labels i)) ∧
      (n ≤ i → (List.range n).foldl (fun labels i => (InitialLabeling_var e nl i labels).2)
          labels i = labels i) := by
  induction n with
  | zero => intro i; exact ⟨fun h => by omega, fun _ => rfl⟩
  | succ n ih =>
    intro i
    rw [List.range_succ, List.foldl_append]
    simp only [List.foldl_cons, List.foldl_nil]
    constructor
    · intro hi
      by_cases h : i = n
      · subst h
        have := InitialLabeling_var_label e nl i
          ((List.range i).foldl (fun labels i => (InitialLabeling_var e nl i labels).2) labels)
        rw [(ih i).2 (le_refl i)] at this
        exact this
      · rw [(InitialLabeling_var_spec e nl n _).1 i h]
        exact (ih i).1 (by omega)
    · intro hi
      rw [(InitialLabeling_var_spec e nl n _).1 i (by omega)]
      exact (ih i).2 (by omega)

theorem InitialLabeling_spec (s : SoSPD) (i : Nat) :
    (i < s.m_energy.numVars →
      InitialLabelOf s.m_energy s.m_num_labels i (s.m_labels i) ((InitialLabeling s).m_labels i))
    ∧ (s.m_energy.numVars ≤ i → (InitialLabeling s).m_labels i = s.m_labels i) :=
  InitialLabeling_fold_spec s.m_energy s.m_num_labels s.m_labels s.m_energy.numVars i

/-- C11. Initial labeling: for every well-formed energy model (`numLabels >= 1`) and every
variable `i`, on an orchestrator whose label of `i` is the 0 of the constructor (or whose
variable `i` has a unary cost below the largest value of `REAL`), after `InitialLabeling`
the label `L` of `i` is a label of the model with `unary(i, L) <= unary(i, l)` for every
label `l` and `unary(i, l) > unary(i, L)` for every label `l < L`: the lowest-index
minimizer is chosen. -/
theorem C11_initial_labeling (s : SoSPD) (hwf : s.m_energy.WF)
    (hnl : s.m_num_labels = s.m_energy.numLabels) (i : Nat) (hi : i < s.m_energy.numVars)
    (h0 : s.m_labels i = 0 ∨
      ∃ l < s.m_energy.numLabels, s.m_energy.unary i l < s.m_energy.realMax) :
    (InitialLabeling s).m_labels i < s.m_energy.numLabels ∧
      (∀ l < s.m_energy.numLabels,
        s.m_energy.unary i ((InitialLabeling s).m_labels i) ≤ s.m_energy.unary i l) ∧
      ∀ l < (InitialLabeling s).m_labels i,
        s.m_energy.unary i ((InitialLabeling s).m_labels i) < s.m_energy.unary i l := by
  obtain ⟨h1, _, h3⟩ := hwf
  rcases (InitialLabeling_spec s i).1 hi with ⟨ha, hl⟩ | ⟨hL, _, hmin, hf⟩
  · rw [hnl] at ha
    have h0 : s.m_labels i = 0 := by
      rcases h0 with h | ⟨l, hl1, hl2⟩
      · exact h
      · exact absurd hl2 (ha l hl1)
    rw [hl, h0]
    refine ⟨by omega, fun l hl' => ?_, fun l hl' => by omega⟩
    have a1 := ha 0 (by omega)
    have a2 := h3 i hi 0 (by omega)
    have a3 := ha l hl'
    omega
  · rw [hnl] at hL hmin
    exact ⟨hL, hmin, hf⟩

theorem C11_initial_labeling_witness :
    (SoSPD.new exampleEnergy).m_energy.WF ∧
    (SoSPD.new exampleEnergy).m_num_labels = (SoSPD.new exampleEnergy).m_energy.numLabels ∧
    1 < (SoSPD.new exampleEnergy).m_energy.numVars ∧
    ((SoSPD.new exampleEnergy).m_labels 1 = 0 ∨
      ∃ l < (SoSPD.new exampleEnergy).m_energy.numLabels,
        (SoSPD.new exampleEnergy).m_energy.unary 1 l
          < (SoSPD.new exampleEnergy).m_energy.realMax) ∧
    ((InitialLabeling (SoSPD.new exampleEnergy)).m_labels 1
        < (SoSPD.new exampleEnergy).m_energy.numLabels ∧
      (∀ l < (SoSPD.new exampleEnergy).m_energy.numLabels,
        (SoSPD.new exampleEnergy).m_energy.unary 1
            ((InitialLabeling (SoSPD.new exampleEnergy)).m_labels 1)
          ≤ (SoSPD.new exampleEnergy).m_energy.unary 1 l) ∧
      ∀ l < (InitialLabeling (SoSPD.new exampleEnergy)).m_labels 1,
        (SoSPD.new exampleEnergy).m_energy.unary 1
            ((InitialLabeling (SoSPD.new exampleEnergy)).m_labels 1)
          < (SoSPD.new exampleEnergy).m_energy.unary 1 l) :=
  ⟨exampleEnergy_WF, rfl, by decide, Or.inl rfl,
    C11_initial_labeling (SoSPD.new exampleEnergy) exampleEnergy_WF rfl 1 (by decide)
      (Or.inl rfl)⟩

/-! ## `HeightAlphaProposal` -/

theorem foldl_add_pos (d : Nat → Int) (xs : List Nat) (c : Int) :
    xs.foldl (fun cap i => if d i > 0 then cap + d i else cap) c
      = c + (xs.map (fun i => max 0 (d i))).sum := by
  induction xs generalizing c with
  | nil => simp
  | cons x xs ih =>
    simp only [List.foldl_cons, List.map_cons, List.sum_cons]
    rw [ih]
    by_cases h : d x > 0
    · rw [if_pos h, max_eq_right (le_of_lt h)]; ring
    · rw [if_neg h, max_eq_left (not_lt.mp h)]; ring

theorem s_capacity_eq_sum (s : SoSPD) (l : Nat) :
    s_capacity s l = ((List.range s.m_energy.numVars).map
      (fun i => max 0 (s.Height i (s.m_labels i) - s.Height i l))).sum := by
  unfold s_capacity
  have := foldl_add_pos (fun i => s.Height i (s.m_labels i) - s.Height i l)
    (List.range s.m_energy.numVars) 0
  simp only [zero_add] at this
  exact this

theorem sum_map_max_nonneg (d : Nat → Int) (xs : List Nat) :
    0 ≤ (xs.map (fun i => max 0 (d i))).sum := by
  induction xs with
  | nil => simp
  | cons x xs ih =>
    simp only [List.map_cons, List.sum_cons]
    have := le_max_left 0 (d x)
    omega

theorem s_capacity_nonneg (s : SoSPD) (l : Nat) : 0 ≤ s_capacity s l := by
  rw [s_capacity_eq_sum]
  exact sum_map_max_nonneg _ _

theorem bestAlpha_fold_spec (cap : Nat → Int) (m : Nat) :
    (∀ l < m, cap l ≤ ((List.range m).foldl
        (fun (st : Int × Nat) l => if cap l > st.1 then (cap l, l) else st) (0, 0)).1) ∧
    ((((List.range m).foldl
          (fun (st : Int × Nat) l => if cap l > st.1 then (cap l, l) else st) (0, 0)).1 = 0 ∧
        ((List.range m).foldl
          (fun (st : Int × Nat) l => if cap l > st.1 then (cap l, l) else st) (0, 0)).2 = 0) ∨
      (((List.range m).foldl
          (fun (st : Int × Nat) l => if cap l > st.1 then (cap l, l) else st) (0, 0)).2 < m ∧
        ((List.range m).foldl
          (fun (st : Int × Nat) l => if cap l > st.1 then (cap l, l) else st) (0, 0)).1
          = cap ((List.range m).foldl
            (fun (st : Int × Nat) l => if cap l > st.1 then (cap l, l) else st) (0, 0)).2 ∧
        0 < ((List.range m).foldl
          (fun (st : Int × Nat) l => if cap l > st.1 then (cap l, l) else st) (0, 0)).1 ∧
        ∀ l < ((List.range m).foldl
            (fun (st : Int × Nat) l => if cap l > st.1 then (cap l, l) else st) (0, 0)).2,
          cap l < ((List.range m).foldl
            (fun (st : Int × Nat) l => if cap l > st.1 then (cap l, l) else st) (0, 0)).1)) := by
  induction m with
  | zero => exact ⟨fun l hl => by omega, Or.inl ⟨rfl, rfl⟩⟩
  | succ m ih =>
    rw [List.range_succ, List.foldl_append]
    simp only [List.foldl_cons, List.foldl_nil]
    generalize (List.range m).foldl
      (fun (st : Int × Nat) l => if cap l > st.1 then (cap l, l) else st) (0, 0) = st at ih
    obtain ⟨hle, hc⟩ := ih
    by_cases h : cap m > st.1
    · rw [if_pos h]
      refine ⟨fun l hl => ?_, Or.inr ⟨Nat.lt_succ_self m, rfl, ?_, fun l hl => ?_⟩⟩
      · show cap l ≤ cap m
        rcases Nat.lt_succ_iff_lt_or_eq.mp hl with h1 | h1
        · have := hle l h1; omega
        · subst h1; exact le_refl _
      · show 0 < cap m
        rcases hc with ⟨h0, _⟩ | ⟨_, _, hpos, _⟩ <;> omega
      · show cap l < cap m
        have : l < m := hl
        have := hle l this
        omega
    · rw [if_neg h]
      refine ⟨fun l hl => ?_, ?_⟩
      · rcases Nat.lt_succ_iff_lt_or_eq.mp hl with h1 | h1
        · exact hle l h1
        · subst h1; omega
      · rcases hc with h0 | ⟨h1, h2, h3, h4⟩
        · exact Or.inl h0
        · exact Or.inr ⟨by omega, h2, h3, h4⟩

theorem bestHeightAlpha_spec (s : SoSPD) :
    (1 ≤ s.m_num_labels → (bestHeightAlpha s).2 < s.m_num_labels) ∧
    (∀ l < s.m_num_labels, s_capacity s l ≤ s_capacity s (bestHeightAlpha s).2) ∧
    (∀ l < (bestHeightAlpha s).2, s_capacity s l < s_capacity s (bestHeightAlpha s).2) ∧
    ((∀ l < s.m_num_labels, s_capacity s l ≤ 0) → (bestHeightAlpha s).2 = 0) := by
  obtain ⟨hle, hc⟩ := bestAlpha_fold_spec (s_capacity s) s.m_num_labels
  change ∀ l < s.m_num_labels, s_capacity s l ≤ (bestHeightAlpha s).1 at hle
  change ((bestHeightAlpha s).1 = 0 ∧ (bestHeightAlpha s).2 = 0) ∨
    ((bestHeightAlpha s).2 < s.m_num_labels ∧
      (bestHeightAlpha s).1 = s_capacity s (bestHeightAlpha s).2 ∧
      0 < (bestHeightAlpha s).1 ∧
      ∀ l < (bestHeightAlpha s).2, s_capacity s l < (bestHeightAlpha s).1) at hc
  rcases hc with ⟨h0, ha⟩ | ⟨h1, h2, h3, h4⟩
  · rw [ha]
    refine ⟨fun h => by omega, fun l hl => ?_, fun l hl => by omega, fun _ => rfl⟩
    have := hle l hl
    have := s_capacity_nonneg s 0
    omega
  · refine ⟨fun _ => h1, fun l hl => ?_, fun l hl => ?_, fun hz => ?_⟩
    · have := hle l hl; omega
    · have := h4 l hl; omega
    · have := hz _ h1; omega

/-- C12. Height-alpha proposal: `s_capacity(l)` is the sum over all variables `i` of
`max(0, Height(i, currentLabel(i)) - Height(i, l))`, and `HeightAlphaProposal` sets every
entry of the fusion labeling to one label `alpha` (a label of the model when there is at
least one label) with `s_capacity(alpha) >= s_capacity(l)` for every label `l` and
`s_capacity(l) < s_capacity(alpha)` for every `l < alpha`; `alpha = 0` when no label has
positive capacity.  The current labeling, the duals and the heights are not written. -/
theorem C12_height_alpha_proposal (s : SoSPD) :
    (∀ l, s_capacity s l = ((List.range s.m_energy.numVars).map
      (fun i => max 0 (s.Height i (s.m_labels i) - s.Height i l))).sum) ∧
    ∃ alpha,
      (∀ i < s.m_energy.numVars, (HeightAlphaProposal s).m_fusion_labels i = alpha) ∧
      (1 ≤ s.m_num_labels → alpha < s.m_num_labels) ∧
      (∀ l < s.m_num_labels, s_capacity s l ≤ s_capacity s alpha) ∧
      (∀ l < alpha, s_capacity s l < s_capacity s alpha) ∧
      ((∀ l < s.m_num_labels, s_capacity s l ≤ 0) → alpha = 0) ∧
      (HeightAlphaProposal s).m_labels = s.m_labels ∧
      (HeightAlphaProposal s).m_dual = s.m_dual ∧
      (HeightAlphaProposal s).m_heights = s.m_heights := by
  refine ⟨s_capacity_eq_sum s, (bestHeightAlpha s).2, fun i hi => ?_, ?_⟩
  · show fillRange s.m_energy.numVars (bestHeightAlpha s).2 s.m_fusion_labels i = _
    rw [fillRange_apply, if_pos hi]
  · obtain ⟨h1, h2, h3, h4⟩ := bestHeightAlpha_spec s
    exact ⟨h1, h2, h3, h4, rfl, rfl, rfl⟩

/-! ## The clique-size checks -/

theorem SetupGraph_clique_error_iff (ci : Nat) (c : Clique) (crf : Flow) :
    SetupGraph_clique ci c crf = .error .cliqueTooLarge ↔ 32 ≤ c.size := by
  unfold SetupGraph_clique
  by_cases h : c.size < 32
  · simp only [if_neg (not_not.mpr h)]
    constructor
    · intro h'; cases h'
    · intro h'; omega
  · rw [if_pos h]
    exact ⟨fun _ => by omega, fun _ => rfl⟩

theorem InitialDual_clique_error_iff (ci : Nat) (c : Clique) (s : SoSPD) :
    InitialDual_clique ci c s = .error .cliqueTooLarge ↔ 32 ≤ c.size := by
  unfold InitialDual_clique
  by_cases h : c.size < 32
  · simp only [if_neg (not_not.mpr h)]
    constructor
    · intro h'
      split_ifs at h' <;> cases h'
    · intro h'; omega
  · rw [if_pos h]
    exact ⟨fun _ => by omega, fun _ => rfl⟩

theorem PreEditDual_clique_error_iff (s : SoSPD) (ci : Nat) (c : Clique) (crf : Flow) :
    PreEditDual_clique s ci c crf = .error .cliqueTooLarge ↔ 32 ≤ c.size := by
  unfold PreEditDual_clique
  by_cases h : c.size < 32
  · simp only [if_neg (not_not.mpr h)]
    constructor
    · intro h'
      split_ifs at h' <;> cases h'
    · intro h'; omega
  · rw [if_pos h]
    exact ⟨fun _ => by omega, fun _ => rfl⟩

theorem PostEditDual_clique_error_iff (ci : Nat) (c : Clique) (s : SoSPD) :
    PostEditDual_clique ci c s = .error .cliqueTooLarge ↔ 32 ≤ c.size := by
  unfold PostEditDual_clique
  by_cases h : c.size < 32
  · simp only [if_neg (not_not.mpr h)]
    constructor
    · intro h'
      split_ifs at h' <;> cases h'
    · intro h'; omega
  · rw [if_pos h]
    exact ⟨fun _ => by omega, fun _ => rfl⟩

theorem SetupGraph_clique_cases (ci : Nat) (c : Clique) (crf : Flow) :
    (c.size < 32 ∧ ∃ crf1, SetupGraph_clique ci c crf = .ok crf1) ∨
      (32 ≤ c.size ∧ SetupGraph_clique ci c crf = .error .cliqueTooLarge) := by
  unfold SetupGraph_clique
  by_cases h : c.size < 32
  · simp only [if_neg (not_not.mpr h)]
    exact Or.inl ⟨h, _, rfl⟩
  · rw [if_pos h]
    exact Or.inr ⟨by omega, rfl⟩

theorem SetupGraph_loop_too_large (cs : List Clique) (i : Nat) (crf : Flow)
    (h : ∃ c ∈ cs, 32 ≤ c.size) :
    forCliques SetupGraph_clique cs i crf = .error .cliqueTooLarge := by
  induction cs generalizing i crf with
  | nil => obtain ⟨c, hc, _⟩ := h; cases hc
  | cons c cs ih =>
    unfold forCliques
    rcases SetupGraph_clique_cases i c crf with ⟨hlt, crf1, h1⟩ | ⟨_, h1⟩
    · rw [h1]
      apply ih
      obtain ⟨c1, hc1, hsz⟩ := h
      rcases List.mem_cons.mp hc1 with he | hm
      · subst he; omega
      · exact ⟨c1, hm, hsz⟩
    · rw [h1]

theorem SetupGraph_too_large (s : SoSPD) (h : ∃ c ∈ s.m_energy.cliques, 32 ≤ c.size) :
    SetupGraph s = .error .cliqueTooLarge := by
  unfold SetupGraph
  simp only []
  rw [SetupGraph_loop_too_large _ _ _ h]

theorem Solve_too_large (oracle : FlowOracle) (niters : Nat) (s : SoSPD) (h0 : s.m_iter = 0)
    (h : ∃ c ∈ s.m_energy.cliques, 32 ≤ c.size) :
    Solve oracle niters s = .error .cliqueTooLarge := by
  unfold Solve SolveCount Solve_init
  rw [if_pos h0, SetupGraph_too_large s h]

theorem wideClique_size (k : Nat) : (wideClique k).size = k := by
  simp [wideClique, Clique.size]

/-- C19. Clique-size limit enforced: for every orchestrator that has not yet completed an
iteration (`m_iter = 0`, as on the first `Solve` call) whose energy model contains a clique
of size greater than 32, `Solve` fails the clique-size precondition check of `SetupGraph`
for every flow oracle and every iteration budget, and so does not proceed with a truncated
clique. -/
theorem C19_clique_size_limit_enforced (oracle : FlowOracle) (niters : Nat) (s : SoSPD)
    (h0 : s.m_iter = 0) (h : ∃ c ∈ s.m_energy.cliques, 32 < c.size) :
    SetupGraph s = .error .cliqueTooLarge ∧
      Solve oracle niters s = .error .cliqueTooLarge := by
  obtain ⟨c, hc, hsz⟩ := h
  exact ⟨SetupGraph_too_large s ⟨c, hc, by omega⟩,
    Solve_too_large oracle niters s h0 ⟨c, hc, by omega⟩⟩

theorem C19_clique_size_limit_enforced_witness :
    (SoSPD.new (wideEnergy 33)).m_iter = 0 ∧
    (∃ c ∈ (SoSPD.new (wideEnergy 33)).m_energy.cliques, 32 < c.size) ∧
    SetupGraph (SoSPD.new (wideEnergy 33)) = .error .cliqueTooLarge ∧
    Solve stayOracle 1 (SoSPD.new (wideEnergy 33)) = .error .cliqueTooLarge :=
  ⟨rfl, ⟨wideClique 33, List.mem_singleton.mpr rfl, by rw [wideClique_size]; decide⟩,
    C19_clique_size_limit_enforced stayOracle 1 (SoSPD.new (wideEnergy 33)) rfl
      ⟨wideClique 33, List.mem_singleton.mpr rfl, by rw [wideClique_size]; decide⟩⟩

/-- C20 (counterexample). A clique of exactly 32 members is rejected: on `wideClique 32` the
clique-size check of each of `SetupGraph`, `InitialDual`, `PreEditDual` and `PostEditDual`
fails, and the first `Solve` call on a model with this clique fails. -/
theorem C20_clique_of_32_rejected :
    (wideClique 32).size = 32 ∧
    SetupGraph_clique 0 (wideClique 32) Flow.empty = .error .cliqueTooLarge ∧
    InitialDual_clique 0 (wideClique 32) (SoSPD.new (wideEnergy 32))
      = .error .cliqueTooLarge ∧
    PreEditDual_clique (SoSPD.new (wideEnergy 32)) 0 (wideClique 32) Flow.empty
      = .error .cliqueTooLarge ∧
    PostEditDual_clique 0 (wideClique 32) (SoSPD.new (wideEnergy 32))
      = .error .cliqueTooLarge ∧
    Solve stayOracle 1 (SoSPD.new (wideEnergy 32)) = .error .cliqueTooLarge :=
  ⟨wideClique_size 32,
    (SetupGraph_clique_error_iff _ _ _).mpr (le_of_eq (wideClique_size 32).symm),
    (InitialDual_clique_error_iff _ _ _).mpr (le_of_eq (wideClique_size 32).symm),
    (PreEditDual_clique_error_iff _ _ _ _).mpr (le_of_eq (wideClique_size 32).symm),
    (PostEditDual_clique_error_iff _ _ _).mpr (le_of_eq (wideClique_size 32).symm),
    Solve_too_large stayOracle 1 (SoSPD.new (wideEnergy 32)) rfl
      ⟨wideClique 32, List.mem_singleton.mpr rfl, le_of_eq (wideClique_size 32).symm⟩⟩

/-- C20 (amended). The clique-size precondition checks in `SetupGraph`, `InitialDual`,
`PreEditDual` and `PostEditDual` reject a clique exactly when its size is 32 or more: for
every clique of size `k < 32` (in particular `1 <= k <= 31`) none of the four checks fails,
and for every clique of size `k >= 32` (in particular `k = 32`) each of them fails. -/
theorem C20_clique_size_check (c : Clique) (ci : Nat) (crf : Flow) (s : SoSPD) :
    (SetupGraph_clique ci c crf = .error .cliqueTooLarge ↔ 32 ≤ c.size) ∧
    (InitialDual_clique ci c s = .error .cliqueTooLarge ↔ 32 ≤ c.size) ∧
    (PreEditDual_clique s ci c crf = .error .cliqueTooLarge ↔ 32 ≤ c.size) ∧
    (PostEditDual_clique ci c s = .error .cliqueTooLarge ↔ 32 ≤ c.size) :=
  ⟨SetupGraph_clique_error_iff ci c crf, InitialDual_clique_error_iff ci c s,
    PreEditDual_clique_error_iff s ci c crf, PostEditDual_clique_error_iff ci c s⟩

/-! ## Repeated `Solve` calls while `m_iter` is 0 -/

/-- C17 (failing run). On a fresh orchestrator for `exampleEnergy` (two variables, one
clique), `Solve(0)` returns with `m_iter` still 0 and a flow graph of 2 nodes and 1 clique;
a second `Solve(0)` runs `SetupGraph` again and leaves a flow graph of 4 nodes and 2
cliques for the one clique of the energy model; a following `Solve(1)` then fails the
assertion `ibfs_cliques.size() == m_energy->cliques().size()` of `PreEditDual`. -/
theorem C17_setup_runs_again_while_m_iter_is_zero :
    observe (Solve stayOracle 0 (SoSPD.new exampleEnergy))
        (fun s => (s.m_iter, s.m_ibfs.numNodes, s.m_ibfs.cliques.length)) = some (0, 2, 1) ∧
      observe (SolveThen stayOracle 0 0 (SoSPD.new exampleEnergy))
        (fun s => (s.m_iter, s.m_ibfs.numNodes, s.m_ibfs.cliques.length,
          s.m_energy.cliques.length)) = some (0, 4, 2, 1) ∧
      faultOf (match SolveThen stayOracle 0 0 (SoSPD.new exampleEnergy) with
        | .ok s => Solve stayOracle 1 s
        | .error f => .error f) = some Fault.cliqueCountMismatch := by
  refine ⟨by decide!, by decide!, by decide!⟩

/-- C18 (failing run). On a fresh orchestrator for `exampleEnergy` with the default
height-alpha strategy and the oracle `exampleOracle`, the single call `Solve(1)` succeeds
(one iteration, labels `(0, 0)`, `m_iter = 1`), whereas `Solve(0)` followed by `Solve(1)`
fails the assertion `ibfs_cliques.size() == m_energy->cliques().size()` of `PreEditDual`,
because the second call runs the setup again. -/
theorem C18_solve_zero_then_one_fails :
    observe (Solve exampleOracle (0 + 1) (SoSPD.new exampleEnergy))
        (fun s => (s.m_labels 0, s.m_labels 1, s.m_iter)) = some (0, 0, 1) ∧
      faultOf (SolveThen exampleOracle 0 1 (SoSPD.new exampleEnergy))
        = some Fault.cliqueCountMismatch := by
  refine ⟨by decide!, by decide!⟩

/-! ## Running the initialization block again -/

theorem InitialLabelOf_idem (e : MLE) (nl i x L1 L2 : Nat)
    (h1 : InitialLabelOf e nl i x L1) (h2 : InitialLabelOf e nl i L1 L2) : L2 = L1 := by
  rcases h2 with ⟨_, h⟩ | ⟨hL2, hmax2, hmin2, hf2⟩
  · exact h
  · rcases h1 with ⟨ha, _⟩ | ⟨hL1, _, hmin1, hf1⟩
    · exact absurd hmax2 (ha L2 hL2)
    · rcases Nat.lt_trichotomy L1 L2 with h | h | h
      · have := hf2 L1 h
        have := hmin1 L2 hL2
        omega
      · exact h.symm
      · have := hf1 L2 h
        have := hmin2 L1 hL1
        omega

theorem InitialLabeling_fold_idem (e : MLE) (nl : Nat) (labels : Nat → Nat) (n : Nat) :
    (List.range n).foldl (fun labels i => (InitialLabeling_var e nl i labels).2)
        ((List.range n).foldl (fun labels i => (InitialLabeling_var e nl i labels).2) labels)
      = (List.range n).foldl (fun labels i => (InitialLabeling_var e nl i labels).2) labels := by
  funext i
  by_cases hi : i < n
  · exact InitialLabelOf_idem e nl i (labels i) _ _
      ((InitialLabeling_fold_spec e nl labels n i).1 hi)
      ((InitialLabeling_fold_spec e nl _ n i).1 hi)
  · exact (InitialLabeling_fold_spec e nl _ n i).2 (by omega)

theorem InitialLabeling_again (a b : SoSPD) (he : b.m_energy = a.m_energy)
    (hn : b.m_num_labels = a.m_num_labels) (hl : b.m_labels = (InitialLabeling a).m_labels) :
    (InitialLabeling b).m_labels = b.m_labels := by
  show (List.range b.m_energy.numVars).foldl
    (fun labels i => (InitialLabeling_var b.m_energy b.m_num_labels i labels).2) b.m_labels
      = b.m_labels
  rw [hl, he, hn]
  exact InitialLabeling_fold_idem a.m_energy a.m_num_labels a.m_labels a.m_energy.numVars

theorem SetupGraph_loop_ok (cs : List Clique) (i : Nat) (crf : Flow)
    (h : ∀ c ∈ cs, c.size < 32) : ∃ crf', forCliques SetupGraph_clique cs i crf = .ok crf' := by
  induction cs generalizing i crf with
  | nil => exact ⟨crf, rfl⟩
  | cons c cs ih =>
    unfold forCliques
    rcases SetupGraph_clique_cases i c crf with ⟨_, crf1, h1⟩ | ⟨hge, _⟩
    · rw [h1]
      exact ih (i + 1) crf1 (fun c' hc' => h c' (List.mem_cons_of_mem _ hc'))
    · have := h c (List.mem_cons_self _ _)
      omega

theorem SetupGraph_loop_sizes (cs : List Clique) (i : Nat) (crf crf' : Flow)
    (h : forCliques SetupGraph_clique cs i crf = .ok crf') : ∀ c ∈ cs, c.size < 32 := by
  intro c hc
  by_contra hn
  rw [SetupGraph_loop_too_large cs i crf ⟨c, hc, by omega⟩] at h
  cases h

theorem SetupGraph_ok_of_energy (s t sg : SoSPD) (h : SetupGraph s = .ok sg)
    (he : t.m_energy = s.m_energy) : ∃ X, SetupGraph t = .ok { t with m_ibfs := X } := by
  unfold SetupGraph at h ⊢
  simp only [] at h ⊢
  cases hl : forCliques SetupGraph_clique s.m_energy.cliques 0
      (s.m_ibfs.AddNode s.m_energy.numVars) with
  | error e => rw [hl] at h; simp at h
  | ok crf =>
    have hsz := SetupGraph_loop_sizes _ _ _ _ hl
    rw [← he] at hsz
    obtain ⟨crf', h'⟩ := SetupGraph_loop_ok t.m_energy.cliques 0
      (t.m_ibfs.AddNode t.m_energy.numVars) hsz
    rw [h']
    exact ⟨crf', rfl⟩

theorem InitialDual_members_congr (x y : SoSPD) (c : Clique) (energy : Int)
    (init : (Nat → Int) × (Nat → Int)) (hl : x.m_labels = y.m_labels)
    (hn : x.m_num_labels = y.m_num_labels) :
    InitialDual_members x c energy init = InitialDual_members y c energy init := by
  unfold InitialDual_members
  rw [hl, hn]

theorem InitialDual_clique_congr (ci : Nat) (c : Clique) (x y x' : SoSPD)
    (hl : x.m_labels = y.m_labels) (hn : x.m_num_labels = y.m_num_labels)
    (hd : x.m_dual = y.m_dual) (hh : x.m_heights = y.m_heights)
    (h : InitialDual_clique ci c x = .ok x') :
    InitialDual_clique ci c y
      = .ok { y with m_dual := x'.m_dual, m_heights := x'.m_heights } := by
  unfold InitialDual_clique at h ⊢
  simp only [] at h ⊢
  rw [← hl, ← hd, ← hh, ← InitialDual_members_congr x y c _ _ hl hn]
  split_ifs at h ⊢
  simp only [Except.ok.injEq] at h
  subst h
  rfl

theorem InitialDual_loop_congr (cs : List Clique) (i : Nat) (x y x' : SoSPD)
    (hl : x.m_labels = y.m_labels) (hn : x.m_num_labels = y.m_num_labels)
    (hd : x.m_dual = y.m_dual) (hh : x.m_heights = y.m_heights)
    (h : forCliques InitialDual_clique cs i x = .ok x') :
    forCliques InitialDual_clique cs i y
      = .ok { y with m_dual := x'.m_dual, m_heights := x'.m_heights } := by
  induction cs generalizing i x y with
  | nil =>
    simp only [forCliques, Except.ok.injEq] at h
    subst h
    simp only [forCliques]
    rw [hd, hh]
  | cons c cs ih =>
    simp only [forCliques] at h ⊢
    cases hs : InitialDual_clique i c x with
    | error e => rw [hs] at h; simp at h
    | ok x1 =>
      rw [hs] at h
      rw [InitialDual_clique_congr i c x y x1 hl hn hd hh hs]
      obtain ⟨_, f2, _, f4⟩ := InitialDual_clique_frame i c x x1 hs
      exact ih (i + 1) x1 { y with m_dual := x1.m_dual, m_heights := x1.m_heights }
        (f2.trans hl) (f4.trans hn) rfl rfl h

theorem InitialDual_congr (a b s2 : SoSPD) (he : b.m_energy = a.m_energy)
    (hn : b.m_num_labels = a.m_num_labels) (hl : b.m_labels = a.m_labels)
    (h : InitialDual a = .ok s2) :
    InitialDual b = .ok { b with m_dual := s2.m_dual, m_heights := s2.m_heights } := by
  unfold InitialDual at h ⊢
  simp only [] at h ⊢
  have hc : b.m_energy.cliques = a.m_energy.cliques := by rw [he]
  rw [hc]
  exact InitialDual_loop_congr a.m_energy.cliques 0
    { a with m_heights := initialHeights a.m_energy a.m_num_labels, m_dual := fun _ _ => 0 }
    { b with m_heights := initialHeights b.m_energy b.m_num_labels, m_dual := fun _ _ => 0 }
    s2 hl.symm hn.symm rfl (by show initialHeights _ _ = initialHeights _ _; rw [he, hn]) h

theorem SoSPD_eq_of_members (a b : SoSPD) (h1 : a.m_energy = b.m_energy)
    (h2 : a.m_ibfs = b.m_ibfs) (h3 : a.m_num_labels = b.m_num_labels)
    (h4 : a.m_labels = b.m_labels) (h5 : a.m_fusion_labels = b.m_fusion_labels)
    (h6 : a.m_node_clique_list = b.m_node_clique_list) (h7 : a.m_dual = b.m_dual)
    (h8 : a.m_heights = b.m_heights)
    (h9 : a.m_expansion_submodular = b.m_expansion_submodular)
    (h10 : a.m_lower_bound = b.m_lower_bound) (h11 : a.m_iter = b.m_iter)
    (h12 : a.m_pc = b.m_pc) : a = b := by
  cases a
  cases b
  simp only [SoSPD.mk.injEq]
  exact ⟨h1, h2, h3, h4, h5, h6, h7, h8, h9, h10, h11, h12⟩

theorem Solve_init_again (s0 s1 s : SoSPD) (h0 : s0.m_iter = 0) (h1 : Solve_init s0 = .ok s1)
    (hi : s.m_iter = 0) (he : s.m_energy = s1.m_energy)
    (hn : s.m_num_labels = s1.m_num_labels) (hl : s.m_labels = s1.m_labels)
    (hd : s.m_dual = s1.m_dual) (hh : s.m_heights = s1.m_heights) :
    ∃ X Y, Solve_init s = .ok { s with m_ibfs := X, m_node_clique_list := Y } := by
  unfold Solve_init at h1 ⊢
  rw [if_pos h0] at h1
  rw [if_pos hi]
  cases hg : SetupGraph s0 with
  | error e => rw [hg] at h1; simp at h1
  | ok sg =>
    rw [hg] at h1
    simp only [] at h1
    cases hdual : InitialDual (InitialLabeling sg) with
    | error e => rw [hdual] at h1; simp at h1
    | ok s2 =>
      rw [hdual] at h1
      simp only [Except.ok.injEq] at h1
      subst h1
      obtain ⟨_, _, g3, g4⟩ := SetupGraph_frame s0 sg hg
      obtain ⟨_, d2, d3, d4⟩ := InitialDual_frame _ s2 hdual
      have he1 : s.m_energy = sg.m_energy := he.trans d3
      have hn1 : s.m_num_labels = sg.m_num_labels := hn.trans d4
      have hl1 : s.m_labels = (InitialLabeling sg).m_labels := hl.trans d2
      obtain ⟨X, hX⟩ := SetupGraph_ok_of_energy s0 s sg hg (he1.trans g3)
      rw [hX]
      simp only []
      have hlab : (InitialLabeling { s with m_ibfs := X }).m_labels = s.m_labels :=
        InitialLabeling_again sg { s with m_ibfs := X } he1 hn1 hl1
      rw [InitialDual_congr (InitialLabeling sg) (InitialLabeling { s with m_ibfs := X }) s2
        he1 hn1 (hlab.trans hl1) hdual]
      refine ⟨X, eachClique InitialNodeCliqueList_clique s.m_energy.cliques 0 (fun _ => []),
        congrArg Except.ok ?_⟩
      exact SoSPD_eq_of_members _ _ rfl rfl rfl hlab rfl rfl hd.symm hh.symm rfl rfl rfl rfl

theorem Solve_loop_zero (oracle : FlowOracle) (budget : Nat) (t t' : SoSPD)
    (h : Solve_loop oracle budget t = .ok (t', 0)) :
    t' = t ∨ t' = (InitialFusionLabeling t).1 := by
  cases budget with
  | zero =>
    simp only [Solve_loop, Except.ok.injEq, Prod.mk.injEq] at h
    exact Or.inl h.1.symm
  | succ budget =>
    simp only [Solve_loop] at h
    by_cases hflag : (InitialFusionLabeling t).2 = true
    swap
    · rw [if_pos hflag] at h
      simp only [Except.ok.injEq, Prod.mk.injEq] at h
      exact Or.inr h.1.symm
    · rw [if_neg (not_not.mpr hflag)] at h
      cases hit : Solve_iteration oracle (InitialFusionLabeling t).1 with
      | error e => rw [hit] at h; simp at h
      | ok s1 =>
        rw [hit] at h
        simp only [] at h
        cases hrec : Solve_loop oracle budget s1 with
        | error e => rw [hrec] at h; simp at h
        | ok r =>
          obtain ⟨s2, m⟩ := r
          rw [hrec] at h
          simp only [Except.ok.injEq, Prod.mk.injEq] at h
          omega

theorem Solve_loop_break (oracle : FlowOracle) (budget : Nat) (t0 s : SoSPD) (n : Nat)
    (h : Solve_loop oracle budget t0 = .ok (s, n)) (hn : n < budget) :
    ∃ t, s = (InitialFusionLabeling t).1 ∧ (InitialFusionLabeling t).2 = false := by
  induction budget generalizing t0 s n with
  | zero => omega
  | succ budget ih =>
    simp only [Solve_loop] at h
    by_cases hflag : (InitialFusionLabeling t0).2 = true
    swap
    · rw [if_pos hflag] at h
      simp only [Except.ok.injEq, Prod.mk.injEq] at h
      exact ⟨t0, h.1.symm, Bool.eq_false_iff.mpr hflag⟩
    · rw [if_neg (not_not.mpr hflag)] at h
      cases hit : Solve_iteration oracle (InitialFusionLabeling t0).1 with
      | error e => rw [hit] at h; simp at h
      | ok s1 =>
        rw [hit] at h
        simp only [] at h
        cases hrec : Solve_loop oracle budget s1 with
        | error e => rw [hrec] at h; simp at h
        | ok r =>
          obtain ⟨s2, m⟩ := r
          rw [hrec] at h
          simp only [Except.ok.injEq, Prod.mk.injEq] at h
          obtain ⟨rfl, rfl⟩ := h
          exact ih s1 s2 m hrec (by omega)

/-- After a `Solve` call has returned, the initialization block of `Solve` leaves every
member of the orchestrator except the flow graph and the node-clique list as it is: it
is skipped when `m_iter` is not 0, and otherwise computes the same labeling, duals and
heights again. -/
theorem Solve_init_after_Solve (oracle0 : FlowOracle) (n0 : Nat) (s0 s : SoSPD)
    (h : Solve oracle0 n0 s0 = .ok s) :
    ∃ X Y, Solve_init s = .ok { s with m_ibfs := X, m_node_clique_list := Y } := by
  by_cases hi : s.m_iter = 0
  swap
  · refine ⟨s.m_ibfs, s.m_node_clique_list, ?_⟩
    unfold Solve_init
    rw [if_neg hi]
  · unfold Solve SolveCount at h
    cases hinit : Solve_init s0 with
    | error e => rw [hinit] at h; simp at h
    | ok s1 =>
      rw [hinit] at h
      simp only [] at h
      cases hloop : Solve_loop oracle0 n0 s1 with
      | error e => rw [hloop] at h; simp at h
      | ok r =>
        obtain ⟨s2, n⟩ := r
        rw [hloop] at h
        simp only [Except.ok.injEq] at h
        subst h
        obtain ⟨_, hc⟩ := Solve_loop_count oracle0 n0 s1 s2 n hloop
        obtain ⟨hf, _, _⟩ := Solve_init_frame s0 s1 hinit
        have hn0 : n = 0 := by omega
        have h00 : s0.m_iter = 0 := by omega
        subst hn0
        rcases Solve_loop_zero oracle0 n0 s1 s2 hloop with h2 | h2
        · subst h2
          exact Solve_init_again s0 s2 s2 h00 hinit hi rfl rfl rfl rfl rfl
        · subst h2
          exact Solve_init_again s0 s1 _ h00 hinit hi rfl rfl rfl rfl rfl

/-- When the clamped proposal equals the current labeling at every variable and the
initialization block leaves the state as it is (up to the flow graph and the node-clique
list), `Solve` returns one state, whatever the flow oracle is, with the labeling, duals,
heights and iteration counter unchanged. -/
theorem Solve_of_stop (s : SoSPD) (niters : Nat)
    (hst : ∃ X Y, Solve_init s = .ok { s with m_ibfs := X, m_node_clique_list := Y })
    (hflag : (InitialFusionLabeling s).2 = false) :
    ∃ s', (∀ oracle, Solve oracle niters s = .ok s') ∧ s'.m_labels = s.m_labels ∧
      s'.m_dual = s.m_dual ∧ s'.m_heights = s.m_heights ∧ s'.m_iter = s.m_iter := by
  obtain ⟨X, Y, hinit⟩ := hst
  have hflag2 : (InitialFusionLabeling { s with m_ibfs := X, m_node_clique_list := Y }).2
      = false := hflag
  cases niters with
  | zero =>
    refine ⟨{ s with m_ibfs := X, m_node_clique_list := Y }, fun oracle => ?_,
      rfl, rfl, rfl, rfl⟩
    unfold Solve SolveCount
    rw [hinit]
    rfl
  | succ budget =>
    refine ⟨(InitialFusionLabeling { s with m_ibfs := X, m_node_clique_list := Y }).1,
      fun oracle => ?_, rfl, rfl, rfl, rfl⟩
    unfold Solve SolveCount
    rw [hinit]
    simp only [Solve_loop]
    rw [if_pos (by rw [hflag2]; decide)]

/-! ## Calling `Solve` again -/

theorem InitialFusionLabeling_flag_false (s : SoSPD)
    (h : ∀ i < s.m_energy.numVars,
      (InitialFusionLabeling s).1.m_fusion_labels i = s.m_labels i) :
    (InitialFusionLabeling s).2 = false := by
  by_contra hne
  obtain ⟨i, hi, hd⟩ := (InitialFusionLabeling_flag s).mp (Bool.eq_true_of_not_eq_false hne)
  have := h i hi
  rw [InitialFusionLabeling_fusion, if_pos hi] at this
  exact hd this.symm

theorem proposal_after_InitialFusionLabeling (t : SoSPD)
    (hpc : t.m_pc = ProposalCallback.alpha ∨ t.m_pc = ProposalCallback.heightAlpha)
    (i : Nat) (hi : i < t.m_energy.numVars) :
    proposal (InitialFusionLabeling t).1 i = proposal t i := by
  have hpc1 : (InitialFusionLabeling t).1.m_pc = t.m_pc := rfl
  rcases hpc with h | h
  · simp only [proposal, hpc1, h]
    congr 1
    show fillRange _ _ _ i = fillRange _ _ _ i
    have hi1 : i < (InitialFusionLabeling t).1.m_energy.numVars := hi
    rw [fillRange_apply, fillRange_apply, if_pos hi, if_pos hi1]
    rfl
  · simp only [proposal, hpc1, h]
    congr 1
    show fillRange _ _ _ i = fillRange _ _ _ i
    have hi1 : i < (InitialFusionLabeling t).1.m_energy.numVars := hi
    rw [fillRange_apply, fillRange_apply, if_pos hi, if_pos hi1]
    rfl

theorem InitialFusionLabeling_again (t : SoSPD)
    (hpc : t.m_pc = ProposalCallback.alpha ∨ t.m_pc = ProposalCallback.heightAlpha)
    (hflag : (InitialFusionLabeling t).2 = false) :
    (InitialFusionLabeling (InitialFusionLabeling t).1).2 = false := by
  by_contra hne
  obtain ⟨i, hi, hd⟩ := (InitialFusionLabeling_flag _).mp (Bool.eq_true_of_not_eq_false hne)
  have hi1 : i < t.m_energy.numVars := hi
  rw [proposal_after_InitialFusionLabeling t hpc i hi1] at hd
  apply hd
  by_contra hd1
  have : (InitialFusionLabeling t).2 = true :=
    (InitialFusionLabeling_flag t).mpr ⟨i, hi1, hd1⟩
  rw [hflag] at this
  cases this

/-- C15. Stop on identical proposal: for every state `s` that an earlier `Solve` call
returned (an initialized state) in which the clamped proposal, as `InitialFusionLabeling`
stores it, equals the current labeling at every variable, and for every iteration budget,
`Solve` returns one and the same state whatever the flow oracle is (the oracle is not
consulted), and in it the current labeling, every dual table, the height table and the
iteration counter are those of `s`. -/
theorem C15_stop_on_identical_proposal (oracle0 : FlowOracle) (n0 : Nat) (s0 s : SoSPD)
    (hinit : Solve oracle0 n0 s0 = .ok s)
    (hsame : ∀ i < s.m_energy.numVars,
      (InitialFusionLabeling s).1.m_fusion_labels i = s.m_labels i)
    (niters : Nat) :
    ∃ s', (∀ oracle, Solve oracle niters s = .ok s') ∧ s'.m_labels = s.m_labels ∧
      s'.m_dual = s.m_dual ∧ s'.m_heights = s.m_heights ∧ s'.m_iter = s.m_iter :=
  Solve_of_stop s niters (Solve_init_after_Solve oracle0 n0 s0 s hinit)
    (InitialFusionLabeling_flag_false s hsame)

theorem C15_stop_on_identical_proposal_witness :
    ∃ s, Solve stayOracle 3 (SoSPD.new exampleEnergy3) = .ok s ∧
      (∀ i < s.m_energy.numVars,
        (InitialFusionLabeling s).1.m_fusion_labels i = s.m_labels i) ∧
      ∃ s', (∀ oracle, Solve oracle 2 s = .ok s') ∧ s'.m_labels = s.m_labels ∧
        s'.m_dual = s.m_dual ∧ s'.m_heights = s.m_heights ∧ s'.m_iter = s.m_iter := by
  have hrun : observe (Solve stayOracle 3 (SoSPD.new exampleEnergy3))
      (fun s => decide (∀ i < s.m_energy.numVars,
        (InitialFusionLabeling s).1.m_fusion_labels i = s.m_labels i)) = some true := by
    decide!
  obtain ⟨s, hs, hd⟩ := observe_eq_some hrun
  have hsame := of_decide_eq_true hd
  exact ⟨s, hs, hsame, C15_stop_on_identical_proposal stayOracle 3 _ s hs hsame 2⟩

/-- C16. Idempotence of extra `Solve` calls: when a call `Solve(n0)` has returned by
convergence, that is after `n < n0` iterations (the loop was left because the clamped
proposal equalled the current labeling), and the orchestrator uses a shipped proposal
strategy (cyclic alpha or height alpha), then a further `Solve` call, for every flow oracle
and iteration budget, returns and leaves the current labeling and all dual tables (and the
heights and the iteration counter) equal to their values before that call. -/
theorem C16_idempotent_after_convergence (oracle0 : FlowOracle) (n0 : Nat) (s0 s : SoSPD)
    (n : Nat) (hrun : SolveCount oracle0 n0 s0 = .ok (s, n)) (hconv : n < n0)
    (hpc : s.m_pc = ProposalCallback.alpha ∨ s.m_pc = ProposalCallback.heightAlpha)
    (oracle : FlowOracle) (niters : Nat) :
    ∃ s', Solve oracle niters s = .ok s' ∧ s'.m_labels = s.m_labels ∧
      s'.m_dual = s.m_dual ∧ s'.m_heights = s.m_heights ∧ s'.m_iter = s.m_iter := by
  have hsolve : Solve oracle0 n0 s0 = .ok s := by
    unfold Solve
    rw [hrun]
  have hbreak : ∃ t, s = (InitialFusionLabeling t).1 ∧ (InitialFusionLabeling t).2 = false := by
    unfold SolveCount at hrun
    cases hi : Solve_init s0 with
    | error e => rw [hi] at hrun; simp at hrun
    | ok s1 =>
      rw [hi] at hrun
      exact Solve_loop_break oracle0 n0 s1 s n hrun hconv
  obtain ⟨t, ht, hflag⟩ := hbreak
  subst ht
  obtain ⟨s', hs', h1, h2, h3, h4⟩ := Solve_of_stop _ niters
    (Solve_init_after_Solve oracle0 n0 s0 _ hsolve) (InitialFusionLabeling_again t hpc hflag)
  exact ⟨s', hs' oracle, h1, h2, h3, h4⟩

theorem C16_idempotent_after_convergence_witness :
    ∃ s, SolveCount exampleOracle 2 (SoSPD.new exampleEnergy) = .ok (s, 1) ∧ 1 < 2 ∧
      (s.m_pc = ProposalCallback.alpha ∨ s.m_pc = ProposalCallback.heightAlpha) ∧
      ∃ s', Solve stayOracle 5 s = .ok s' ∧ s'.m_labels = s.m_labels ∧
        s'.m_dual = s.m_dual ∧ s'.m_heights = s.m_heights ∧ s'.m_iter = s.m_iter := by
  have hrun : observe (SolveCount exampleOracle 2 (SoSPD.new exampleEnergy))
      (fun r => (r.2, match r.1.m_pc with
        | ProposalCallback.heightAlpha => true
        | ProposalCallback.alpha => true
        | ProposalCallback.custom _ => false)) = some (1, true) := by decide!
  obtain ⟨⟨s, n⟩, hr, hf⟩ := observe_eq_some hrun
  simp only [Prod.mk.injEq] at hf
  obtain ⟨hn, hb⟩ := hf
  subst hn
  have hpc : s.m_pc = ProposalCallback.alpha ∨ s.m_pc = ProposalCallback.heightAlpha := by
    cases h : s.m_pc with
    | heightAlpha => exact Or.inr rfl
    | alpha => exact Or.inl rfl
    | custom f => rw [h] at hb; simp at hb
  exact ⟨s, hr, by decide, hpc,
    C16_idempotent_after_convergence exampleOracle 2 _ s 1 hr (by decide) hpc stayOracle 5⟩

/-! ## `GetLabel`, the primal merge and the binary unary terms -/

/-- C23 (what the code does). On a freshly constructed orchestrator, before any `Solve`
call, `GetLabel(i)` returns the 0 that the constructor wrote to `m_labels`, not the `-1`
that the documentation comment of `GetLabel` announces. -/
theorem C23_GetLabel_before_Solve_returns_zero (energy : MLE) (i : Nat) :
    (SoSPD.new energy).GetLabel i = 0 ∧ (SoSPD.new energy).GetLabel i ≠ -1 := by
  constructor
  · rfl
  · show ((0 : Nat) : Int) ≠ -1
    decide

theorem UpdatePrimalDual_flag_fold (label : Nat → Int) (L F : Nat → Nat) (m : Nat) :
    ((List.range m).foldl
        (fun (st : Bool × (Nat → Nat)) i =>
          if label i = 1 then
            ((if st.2 i ≠ F i then true else st.1), Function.update st.2 i (F i))
          else st)
        (false, L)).1 = true ↔ ∃ i < m, label i = 1 ∧ L i ≠ F i := by
  induction m with
  | zero =>
    constructor
    · intro h; cases h
    · rintro ⟨i, hi, _⟩; omega
  | succ m ih =>
    rw [List.range_succ, List.foldl_append]
    simp only [List.foldl_cons, List.foldl_nil]
    have h2 := UpdatePrimalDual_labels_fold label L F m
    have hm : ((List.range m).foldl
        (fun (st : Bool × (Nat → Nat)) i =>
          if label i = 1 then
            ((if st.2 i ≠ F i then true else st.1), Function.update st.2 i (F i))
          else st)
        (false, L)).2 m = L m := by
      rw [h2]
      simp
    by_cases hl : label m = 1
    · rw [if_pos hl]
      simp only []
      rw [hm]
      by_cases hne : L m ≠ F m
      · rw [if_pos hne]
        exact ⟨fun _ => ⟨m, Nat.lt_succ_self m, hl, hne⟩, fun _ => rfl⟩
      · rw [if_neg hne, ih]
        constructor
        · rintro ⟨i, hi, h⟩
          exact ⟨i, by omega, h⟩
        · rintro ⟨i, hi, h1, h3⟩
          rcases Nat.lt_succ_iff_lt_or_eq.mp hi with h | h
          · exact ⟨i, h, h1, h3⟩
          · subst h
            exact absurd h3 hne
    · rw [if_neg hl, ih]
      constructor
      · rintro ⟨i, hi, h⟩
        exact ⟨i, by omega, h⟩
      · rintro ⟨i, hi, h1, h3⟩
        rcases Nat.lt_succ_iff_lt_or_eq.mp hi with h | h
        · exact ⟨i, h, h1, h3⟩
        · subst h
          exact absurd h1 hl

theorem UpdatePrimalDual_flag (oracle : FlowOracle) (s : SoSPD) :
    (UpdatePrimalDual oracle s).2 = true ↔
      ∃ i < s.m_energy.numVars, (oracle (SetupAlphaEnergy s s.m_ibfs)).label i = 1 ∧
        s.m_labels i ≠ s.m_fusion_labels i := by
  unfold UpdatePrimalDual UpdatePrimalDual_labels
  simp only []
  exact UpdatePrimalDual_flag_fold _ _ _ _

/-- C28. Primal merge: for every state and every flow-oracle result, after
`UpdatePrimalDual` the current label of each variable `i` is its fusion label when the
oracle's label for `i` is 1 and its previous current label otherwise (entries beyond the
variables are not written), and `UpdatePrimalDual` returns true if and only if the current
label of at least one variable differs from its value before the call. -/
theorem C28_primal_merge (oracle : FlowOracle) (s : SoSPD) :
    (∀ i < s.m_energy.numVars,
      (UpdatePrimalDual oracle s).1.m_labels i =
        if (oracle (SetupAlphaEnergy s s.m_ibfs)).label i = 1 then s.m_fusion_labels i
        else s.m_labels i) ∧
    (∀ i, s.m_energy.numVars ≤ i → (UpdatePrimalDual oracle s).1.m_labels i = s.m_labels i) ∧
    ((UpdatePrimalDual oracle s).2 = true ↔
      ∃ i < s.m_energy.numVars, (UpdatePrimalDual oracle s).1.m_labels i ≠ s.m_labels i) := by
  refine ⟨fun i hi => ?_, fun i hi => ?_, ?_⟩
  · rw [UpdatePrimalDual_m_labels]
    by_cases hl : (oracle (SetupAlphaEnergy s s.m_ibfs)).label i = 1
    · rw [if_pos ⟨hi, hl⟩, if_pos hl]
    · rw [if_neg (fun h => hl h.2), if_neg hl]
  · rw [UpdatePrimalDual_m_labels, if_neg (fun h => by omega)]
  · rw [UpdatePrimalDual_flag]
    constructor
    · rintro ⟨i, hi, hl, hne⟩
      refine ⟨i, hi, ?_⟩
      rw [UpdatePrimalDual_m_labels, if_pos ⟨hi, hl⟩]
      exact fun h => hne h.symm
    · rintro ⟨i, hi, hne⟩
      rw [UpdatePrimalDual_m_labels] at hne
      by_cases hl : (oracle (SetupAlphaEnergy s s.m_ibfs)).label i = 1
      · rw [if_pos ⟨hi, hl⟩] at hne
        exact ⟨i, hi, hl, fun h => hne h.symm⟩
      · rw [if_neg (fun h => hl h.2)] at hne
        exact absurd rfl hne

/-- C30. Binary unary terms: `SetupAlphaEnergy` leaves exactly one unary term per variable,
in the order of the variables; the term `(E0, E1)` of variable `i` has `E0 >= 0`,
`E1 >= 0`, `min(E0, E1) = 0` and `E0 - E1 = d`, where `d` is
`ComputeHeightDiff(i, currentLabel(i), fusedLabel(i))`; a variable whose current label
equals its fused label gets `(0, 0)`. -/
theorem C30_binary_unary_terms (s : SoSPD) (crf : Flow) :
    (SetupAlphaEnergy s crf).unaries.map (fun t => t.1) = List.range s.m_energy.numVars ∧
    ∀ i < s.m_energy.numVars, ∃ E0 E1 : Int,
      (SetupAlphaEnergy s crf).unaries[i]? = some (i, E0, E1) ∧ 0 ≤ E0 ∧ 0 ≤ E1 ∧
      min E0 E1 = 0 ∧
      E0 - E1 = ComputeHeightDiff s i (s.m_labels i) (s.m_fusion_labels i) ∧
      (s.m_labels i = s.m_fusion_labels i → E0 = 0 ∧ E1 = 0) := by
  rw [(SetupAlphaEnergy_spec s crf).1]
  constructor
  · rw [List.map_map]
    conv_rhs => rw [← List.map_id (List.range s.m_energy.numVars)]
    apply List.map_congr_left
    intro i _
    show (if _ then _ else _ : Nat × Int × Int).1 = i
    split_ifs <;> rfl
  · intro i hi
    have hzero : s.m_labels i = s.m_fusion_labels i →
        ComputeHeightDiff s i (s.m_labels i) (s.m_fusion_labels i) = 0 := by
      intro h
      rw [ComputeHeightDiff_eq, ← h]
      simp
    by_cases hd : ComputeHeightDiff s i (s.m_labels i) (s.m_fusion_labels i) > 0
    · refine ⟨ComputeHeightDiff s i (s.m_labels i) (s.m_fusion_labels i), 0, ?_, by omega,
        le_refl 0, min_eq_right (by omega), by omega, fun h => ?_⟩
      · rw [List.getElem?_map, List.getElem?_range hi]
        simp only [Option.map_some']
        rw [if_pos hd]
      · have := hzero h
        omega
    · refine ⟨0, -ComputeHeightDiff s i (s.m_labels i) (s.m_fusion_labels i), ?_, le_refl 0,
        by omega, min_eq_left (by omega), by omega, fun h => ?_⟩
      · rw [List.getElem?_map, List.getElem?_range hi]
        simp only [Option.map_some']
        rw [if_neg hd]
      · have := hzero h
        omega

/-! ## The dual update of `UpdatePrimalDual` -/

theorem foldl_snd_eq {α β ι : Type} (step : α × β → ι → α × β) (step2 : β → ι → β)
    (h : ∀ st i, (step st i).2 = step2 st.2 i) (l : List ι) (st : α × β) :
    (l.foldl step st).2 = l.foldl step2 st.2 := by
  induction l generalizing st with
  | nil => rfl
  | cons x xs ih => simp only [List.foldl_cons]; rw [ih, h]

theorem foldl_update_add {α : Type} (idx : α → Nat) (w : α → Int) (l : List α)
    (h : Nat → Int) (x : Nat) :
    (l.foldl (fun g a => Function.update g (idx a) (g (idx a) + w a)) h) x
      = h x + (l.map (fun a => if idx a = x then w a else 0)).sum := by
  induction l generalizing h with
  | nil => simp
  | cons a l ih =>
    simp only [List.foldl_cons, List.map_cons, List.sum_cons]
    rw [ih]
    by_cases hx : idx a = x
    · rw [if_pos hx, ← hx, Function.update_same]
      ring
    · rw [if_neg hx, Function.update_noteq (fun h' => hx h'.symm)]
      ring

theorem foldl_update_table (i : Nat) (idx : Nat → Nat) (w : Nat → Int) (m : Nat)
    (D : Nat → Nat → Int) :
    (List.range m).foldl
        (fun (D : Nat → Nat → Int) j => Function.update D i
          (Function.update (D i) (idx j) (D i (idx j) + w j))) D
      = Function.update D i
        ((List.range m).foldl (fun g j => Function.update g (idx j) (g (idx j) + w j)) (D i)) := by
  induction m with
  | zero => simp
  | succ m ih =>
    rw [List.range_succ, List.foldl_append, List.foldl_append]
    simp only [List.foldl_cons, List.foldl_nil]
    rw [ih]
    simp only [Function.update_same, Function.update_idem]

theorem UpdatePrimalDual_clique_fst (s : SoSPD) (crf : Flow) (i : Nat) (c : Clique)
    (st : (Nat → Nat → Int) × (Nat → Int)) :
    (UpdatePrimalDual_clique s crf i c st).1 = Function.update st.1 i
      ((List.range (crf.cliques.getD i default).alphaCi.length).foldl
        (fun g j => Function.update g
          (j * s.m_num_labels + s.m_fusion_labels (c.nodes.getD j 0))
          (g (j * s.m_num_labels + s.m_fusion_labels (c.nodes.getD j 0))
            + (crf.cliques.getD i default).alphaCi.getD j 0)) (st.1 i)) := by
  unfold UpdatePrimalDual_clique
  simp only []
  rw [foldl_fst_eq _
    (fun (D : Nat → Nat → Int) j => Function.update D i
      (Function.update (D i) (j * s.m_num_labels + s.m_fusion_labels (c.nodes.getD j 0))
        (D i (j * s.m_num_labels + s.m_fusion_labels (c.nodes.getD j 0))
          + (crf.cliques.getD i default).alphaCi.getD j 0)))
    (fun _ _ => rfl)]
  exact foldl_update_table i
    (fun j => j * s.m_num_labels + s.m_fusion_labels (c.nodes.getD j 0))
    (fun j => (crf.cliques.getD i default).alphaCi.getD j 0) _ st.1

theorem UpdatePrimalDual_clique_snd (s : SoSPD) (crf : Flow) (i : Nat) (c : Clique)
    (st : (Nat → Nat → Int) × (Nat → Int)) :
    (UpdatePrimalDual_clique s crf i c st).2 =
      (List.range (crf.cliques.getD i default).alphaCi.length).foldl
        (fun h j => Function.update h
          (c.nodes.getD j 0 * s.m_num_labels + s.m_fusion_labels (c.nodes.getD j 0))
          (h (c.nodes.getD j 0 * s.m_num_labels + s.m_fusion_labels (c.nodes.getD j 0))
            + (crf.cliques.getD i default).alphaCi.getD j 0)) st.2 := by
  unfold UpdatePrimalDual_clique
  simp only []
  rw [foldl_snd_eq _
    (fun (h : Nat → Int) j => Function.update h
      (c.nodes.getD j 0 * s.m_num_labels + s.m_fusion_labels (c.nodes.getD j 0))
      (h (c.nodes.getD j 0 * s.m_num_labels + s.m_fusion_labels (c.nodes.getD j 0))
        + (crf.cliques.getD i default).alphaCi.getD j 0))
    (fun _ _ => rfl)]

theorem UpdatePrimalDual_loop_fst (s : SoSPD) (crf : Flow) (cs : List Clique) (i0 : Nat)
    (st : (Nat → Nat → Int) × (Nat → Int)) :
    (∀ j, j < i0 → (eachClique (UpdatePrimalDual_clique s crf) cs i0 st).1 j = st.1 j) ∧
    ∀ p c, cs[p]? = some c →
      (eachClique (UpdatePrimalDual_clique s crf) cs i0 st).1 (i0 + p) =
        (List.range (crf.cliques.getD (i0 + p) default).alphaCi.length).foldl
          (fun g j => Function.update g
            (j * s.m_num_labels + s.m_fusion_labels (c.nodes.getD j 0))
            (g (j * s.m_num_labels + s.m_fusion_labels (c.nodes.getD j 0))
              + (crf.cliques.getD (i0 + p) default).alphaCi.getD j 0)) (st.1 (i0 + p)) := by
  induction cs generalizing i0 st with
  | nil =>
    refine ⟨fun j _ => rfl, fun p c h => ?_⟩
    simp at h
  | cons c0 cs ih =>
    simp only [eachClique]
    obtain ⟨ih1, ih2⟩ := ih (i0 + 1) (UpdatePrimalDual_clique s crf i0 c0 st)
    refine ⟨fun j hj => ?_, fun p c h => ?_⟩
    · rw [ih1 j (by omega), UpdatePrimalDual_clique_fst,
        Function.update_noteq (by omega)]
    · cases p with
      | zero =>
        simp only [List.getElem?_cons_zero, Option.some.injEq] at h
        subst h
        simp only [Nat.add_zero]
        rw [ih1 i0 (by omega), UpdatePrimalDual_clique_fst, Function.update_same]
      | succ p =>
        simp only [List.getElem?_cons_succ] at h
        have := ih2 p c h
        rw [show i0 + 1 + p = i0 + (p + 1) by omega] at this
        rw [this, UpdatePrimalDual_clique_fst, Function.update_noteq (by omega)]

theorem UpdatePrimalDual_loop_snd (s : SoSPD) (crf : Flow) (cs : List Clique) (i0 : Nat)
    (st : (Nat → Nat → Int) × (Nat → Int)) (x : Nat) :
    (eachClique (UpdatePrimalDual_clique s crf) cs i0 st).2 x = st.2 x +
      ((List.range cs.length).map (fun q =>
        ((List.range (crf.cliques.getD (i0 + q) default).alphaCi.length).map (fun j =>
          if (cs.getD q default).nodes.getD j 0 * s.m_num_labels
              + s.m_fusion_labels ((cs.getD q default).nodes.getD j 0) = x
            then (crf.cliques.getD (i0 + q) default).alphaCi.getD j 0 else 0)).sum)).sum := by
  induction cs generalizing i0 st with
  | nil => simp [eachClique]
  | cons c cs ih =>
    simp only [eachClique, List.length_cons]
    rw [ih (i0 + 1), sum_range_shift, UpdatePrimalDual_clique_snd,
      foldl_update_add (fun j => c.nodes.getD j 0 * s.m_num_labels
        + s.m_fusion_labels (c.nodes.getD j 0))
        (fun j => (crf.cliques.getD i0 default).alphaCi.getD j 0)]
    simp only [List.getD_cons_zero, List.getD_cons_succ, Nat.add_zero]
    have : ∀ q, i0 + 1 + q = i0 + (q + 1) := fun q => by omega
    simp only [this]
    ring

theorem fusion_index_ne (s : SoSPD) (c : Clique)
    (hl : ∀ v ∈ c.nodes, s.m_fusion_labels v < s.m_num_labels) (i i' : Nat)
    (hi : i < c.size) (hi' : i' < c.size) (hne : i' ≠ i) :
    i' * s.m_num_labels + s.m_fusion_labels (c.nodes.getD i' 0)
      ≠ i * s.m_num_labels + s.m_fusion_labels (c.nodes.getD i 0) :=
  member_index_ne { s with m_labels := s.m_fusion_labels } c hl i i' hi hi' hne

/-- C29. Dual growth and its frame: when the fusion labels of the clique members are labels
of the model and the flow-potential vector `phi` of every clique has the clique's length
`k`, then after `UpdatePrimalDual`, for every clique `c` and member position `j < k`,
`dual(c, j, fusedLabel(node_j))` is its previous value plus `phi[j]`, every dual entry
`(c, j, l)` with `l` different from the fused label of `node_j` is unchanged, and every
height entry `Height(v, l)` has grown by the sum of the `phi[j]` over all pairs (clique,
position `j`) whose node is `v` and whose fused label is `l`: each potential is added to the
height entry of its member's fused label. -/
theorem C29_dual_growth_and_frame (oracle : FlowOracle) (s : SoSPD)
    (hfus : ∀ c ∈ s.m_energy.cliques, ∀ v ∈ c.nodes, s.m_fusion_labels v < s.m_num_labels)
    (hphi : ∀ ci c, s.m_energy.cliques[ci]? = some c →
      (flowPotentials oracle s ci).length = c.size) :
    (∀ ci c, s.m_energy.cliques[ci]? = some c →
      (∀ j < c.size,
        (UpdatePrimalDual oracle s).1.dualVariable ci j (s.m_fusion_labels (c.nodes.getD j 0))
          = s.dualVariable ci j (s.m_fusion_labels (c.nodes.getD j 0))
            + (flowPotentials oracle s ci).getD j 0) ∧
      (∀ j < c.size, ∀ l < s.m_num_labels, l ≠ s.m_fusion_labels (c.nodes.getD j 0) →
        (UpdatePrimalDual oracle s).1.dualVariable ci j l = s.dualVariable ci j l)) ∧
    ∀ v l, l < s.m_num_labels →
      (UpdatePrimalDual oracle s).1.Height v l = s.Height v l +
        ((List.range s.m_energy.cliques.length).map (fun q =>
          ((List.range (s.m_energy.cliques.getD q default).size).map (fun j =>
            if (s.m_energy.cliques.getD q default).nodes.getD j 0 = v ∧
                s.m_fusion_labels v = l
              then (flowPotentials oracle s q).getD j 0 else 0)).sum)).sum := by
  constructor
  · intro ci c hc
    have hmem := mem_of_getElem?_eq hc
    have hd : (UpdatePrimalDual oracle s).1.m_dual ci =
        (List.range (flowPotentials oracle s ci).length).foldl
          (fun g j => Function.update g
            (j * s.m_num_labels + s.m_fusion_labels (c.nodes.getD j 0))
            ((fun j (x : Int) => x + (flowPotentials oracle s ci).getD j 0) j
              (g (j * s.m_num_labels + s.m_fusion_labels (c.nodes.getD j 0)))))
          (s.m_dual ci) := by
      have := (UpdatePrimalDual_loop_fst s ((SetupAlphaEnergy s s.m_ibfs).Solve oracle)
        s.m_energy.cliques 0 (s.m_dual, s.m_heights)).2 ci c hc
      rw [Nat.zero_add] at this
      exact this
    rw [hphi ci c hc] at hd
    constructor
    · intro j hj
      show (UpdatePrimalDual oracle s).1.m_dual ci
          (j * s.m_num_labels + s.m_fusion_labels (c.nodes.getD j 0)) = s.m_dual ci _ + _
      rw [hd]
      exact foldl_modify_at
        (fun j => j * s.m_num_labels + s.m_fusion_labels (c.nodes.getD j 0))
        (fun j (x : Int) => x + (flowPotentials oracle s ci).getD j 0) (s.m_dual ci)
        c.size j hj
        (fun i' hi' hne => fusion_index_ne s c (hfus c hmem) j i' hj hi' hne)
    · intro j hj l hl hne
      show (UpdatePrimalDual oracle s).1.m_dual ci (j * s.m_num_labels + l) = s.m_dual ci _
      rw [hd]
      refine foldl_modify_other
        (fun j => j * s.m_num_labels + s.m_fusion_labels (c.nodes.getD j 0))
        (fun j (x : Int) => x + (flowPotentials oracle s ci).getD j 0) (s.m_dual ci)
        c.size _ (fun i hi heq0 => ?_)
      have heq : i * s.m_num_labels + s.m_fusion_labels (c.nodes.getD i 0)
          = j * s.m_num_labels + l := heq0
      have hfi := hfus c hmem _ (getD_mem_of_lt c.nodes i hi)
      have := flat_index_inj s.m_num_labels i j _ _ hfi hl heq
      subst this
      omega
  · intro v l hl
    show (UpdatePrimalDual oracle s).1.m_heights (v * s.m_num_labels + l)
      = s.m_heights _ + _
    have := UpdatePrimalDual_loop_snd s ((SetupAlphaEnergy s s.m_ibfs).Solve oracle)
      s.m_energy.cliques 0 (s.m_dual, s.m_heights) (v * s.m_num_labels + l)
    refine this.trans ?_
    congr 1
    congr 1
    apply List.map_congr_left
    intro q hq
    have hq' : q < s.m_energy.cliques.length := List.mem_range.mp hq
    have hcq := getElem?_of_lt_length s.m_energy.cliques q hq'
    have hlen := hphi q _ hcq
    rw [Nat.zero_add]
    show ((List.range (flowPotentials oracle s q).length).map _).sum = _
    rw [hlen]
    congr 1
    apply List.map_congr_left
    intro j hj
    have hj' : j < (s.m_energy.cliques.getD q default).size := List.mem_range.mp hj
    have hfj := hfus _ (mem_of_getElem?_eq hcq) _
      (getD_mem_of_lt (s.m_energy.cliques.getD q default).nodes j hj')
    show (if _ then (flowPotentials oracle s q).getD j 0 else 0) = _
    by_cases hcond : (s.m_energy.cliques.getD q default).nodes.getD j 0 = v ∧
        s.m_fusion_labels v = l
    · rw [if_pos hcond, if_pos (by rw [hcond.1, hcond.2])]
    · rw [if_neg hcond, if_neg]
      intro heq
      apply hcond
      have h1 := flat_index_inj s.m_num_labels _ v _ _ hfj hl heq
      refine ⟨h1, ?_⟩
      rw [h1] at heq
      omega

theorem exampleProposedState_energy : exampleProposedState.m_energy = exampleEnergy := by
  have hrun : observe (Solve_init (SoSPD.new exampleEnergy)) (fun _ => ()) = some () := by
    decide
  obtain ⟨s0, hs0, _⟩ := observe_eq_some hrun
  have h0 : exampleInitState = s0 := okOr_eq hs0
  unfold exampleProposedState
  rw [h0]
  exact (Solve_init_frame _ s0 hs0).2.1

theorem C29_dual_growth_and_frame_witness :
    (∀ c ∈ exampleProposedState.m_energy.cliques, ∀ v ∈ c.nodes,
      exampleProposedState.m_fusion_labels v < exampleProposedState.m_num_labels) ∧
    (∀ ci c, exampleProposedState.m_energy.cliques[ci]? = some c →
      (flowPotentials examplePhiOracle exampleProposedState ci).length = c.size) ∧
    (UpdatePrimalDual examplePhiOracle exampleProposedState).1.dualVariable 0 1
        (exampleProposedState.m_fusion_labels ((pottsClique 10).nodes.getD 1 0))
      = exampleProposedState.dualVariable 0 1
          (exampleProposedState.m_fusion_labels ((pottsClique 10).nodes.getD 1 0))
        + (flowPotentials examplePhiOracle exampleProposedState 0).getD 1 0 := by
  have hen := exampleProposedState_energy
  have hfus : ∀ c ∈ exampleProposedState.m_energy.cliques, ∀ v ∈ c.nodes,
      exampleProposedState.m_fusion_labels v < exampleProposedState.m_num_labels := by
    intro c hc
    rw [hen] at hc
    simp only [exampleEnergy, List.mem_singleton] at hc
    subst hc
    decide!
  have hphi : ∀ ci c, exampleProposedState.m_energy.cliques[ci]? = some c →
      (flowPotentials examplePhiOracle exampleProposedState ci).length = c.size := by
    intro ci c h
    rw [hen] at h
    obtain ⟨rfl, rfl⟩ := exampleEnergy_clique_at h
    decide!
  have hc0 : exampleProposedState.m_energy.cliques[0]? = some (pottsClique 10) := by
    rw [hen]
    rfl
  exact ⟨hfus, hphi,
    ((C29_dual_growth_and_frame examplePhiOracle exampleProposedState hfus hphi).1 0
      (pottsClique 10) hc0).1 1 (by decide)⟩

/-! ## Which assertions end `InitialDual`, `PreEditDual` and `PostEditDual` -/

theorem forCliques_error_iff {σ : Type} (step : Nat → Clique → σ → Except Fault σ)
    (cs : List Clique) (i0 : Nat) (s : σ) (f : Fault) :
    forCliques step cs i0 s = .error f ↔
      ∃ p c s', cs[p]? = some c ∧ forCliques step (cs.take p) i0 s = .ok s' ∧
        step (i0 + p) c s' = .error f := by
  induction cs generalizing i0 s with
  | nil =>
    constructor
    · intro h
      simp [forCliques] at h
    · rintro ⟨p, c, s', h, _⟩
      simp at h
  | cons c0 cs ih =>
    cases hs : step i0 c0 s with
    | error e =>
      constructor
      · intro h
        simp only [forCliques, hs] at h
        exact ⟨0, c0, s, List.getElem?_cons_zero, rfl, by rw [Nat.add_zero, hs, h]⟩
      · rintro ⟨p, c, s', hpc, hrun, hstep⟩
        cases p with
        | zero =>
          simp only [List.getElem?_cons_zero, Option.some.injEq] at hpc
          subst hpc
          simp only [List.take_zero, forCliques, Except.ok.injEq] at hrun
          subst hrun
          rw [Nat.add_zero] at hstep
          simp only [forCliques, hs]
          rw [← hstep, hs]
        | succ p =>
          simp only [List.take_succ_cons, forCliques, hs] at hrun
          cases hrun
    | ok s1 =>
      have hfc : forCliques step (c0 :: cs) i0 s = forCliques step cs (i0 + 1) s1 := by
        simp only [forCliques, hs]
      rw [hfc, ih]
      constructor
      · rintro ⟨p, c, s', hpc, hrun, hstep⟩
        refine ⟨p + 1, c, s', by simpa using hpc, ?_, ?_⟩
        · simp only [List.take_succ_cons, forCliques, hs]
          exact hrun
        · rw [show i0 + (p + 1) = i0 + 1 + p by omega]
          exact hstep
      · rintro ⟨p, c, s', hpc, hrun, hstep⟩
        cases p with
        | zero =>
          simp only [List.getElem?_cons_zero, Option.some.injEq] at hpc
          subst hpc
          simp only [List.take_zero, forCliques, Except.ok.injEq] at hrun
          subst hrun
          rw [Nat.add_zero, hs] at hstep
          cases hstep
        | succ p =>
          simp only [List.getElem?_cons_succ] at hpc
          simp only [List.take_succ_cons, forCliques, hs] at hrun
          refine ⟨p, c, s', hpc, hrun, ?_⟩
          rw [show i0 + 1 + p = i0 + (p + 1) by omega]
          exact hstep

theorem PostEditDual_clique_error (ci : Nat) (c : Clique) (s : SoSPD) (f : Fault)
    (h1 : 1 ≤ c.size) (h2 : c.size < 32) :
    PostEditDual_clique ci c s = .error f ↔
      (0 < correction s ci c ∧ f = Fault.positiveCorrection) := by
  unfold PostEditDual_clique
  simp only []
  rw [if_neg (not_not.mpr h2)]
  by_cases hc : correction s ci c ≤ 0
  · rw [if_neg (not_not.mpr hc), if_neg (by omega)]
    constructor
    · intro h; cases h
    · rintro ⟨h, _⟩; omega
  · rw [if_pos hc]
    constructor
    · intro h
      simp only [Except.error.injEq] at h
      exact ⟨by omega, h.symm⟩
    · rintro ⟨_, h⟩
      rw [h]

theorem PostEditDual_clique_ok_iff (ci : Nat) (c : Clique) (s : SoSPD) :
    (∃ s', PostEditDual_clique ci c s = .ok s') ↔
      (1 ≤ c.size ∧ c.size < 32 ∧ correction s ci c ≤ 0) := by
  constructor
  · rintro ⟨s', h⟩
    unfold PostEditDual_clique at h
    simp only [] at h
    split_ifs at h with a1 a2 a3
    exact ⟨by omega, by omega, by omega⟩
  · rintro ⟨h1, h2, h3⟩
    exact ⟨_, PostEditDual_clique_ok ci c s h1 h2 h3⟩

theorem PreEditDual_clique_ok_iff (s : SoSPD) (ci : Nat) (c : Clique) (crf : Flow) :
    (∃ crf', PreEditDual_clique s ci c crf = .ok crf') ↔
      (c.size < 32 ∧ c.size = (crf.cliques.getD ci default).nodes.length ∧
        (crf.cliques.getD ci default).tableSize = 1 <<< c.size ∧
        residualTable s ci c (crf.cliques.getD ci default).energyTable 0 = 0) := by
  unfold PreEditDual_clique
  simp only []
  constructor
  · rintro ⟨crf', h⟩
    split_ifs at h with a1 a2 a3 a4
    exact ⟨by omega, a2, a3, a4⟩
  · rintro ⟨h1, h2, h3, h4⟩
    rw [if_neg (not_not.mpr h1), if_neg (not_not.mpr h2), if_neg (not_not.mpr h3),
      if_neg (not_not.mpr h4)]
    exact ⟨_, rfl⟩

theorem InitialDual_clique_neg (ci : Nat) (c : Clique) (s : SoSPD)
    (hneg : c.energy (c.nodes.map s.m_labels) < 0) :
    (∃ f, InitialDual_clique ci c s = .error f) ∧
      (c.size < 32 → InitialDual_clique ci c s = .error .negativeEnergy) := by
  unfold InitialDual_clique
  simp only []
  by_cases h : c.size < 32
  · rw [if_neg (not_not.mpr h), if_pos (by omega)]
    exact ⟨⟨_, rfl⟩, fun _ => rfl⟩
  · rw [if_pos h]
    exact ⟨⟨_, rfl⟩, fun h' => absurd h' h⟩

theorem InitialDual_loop_neg (cs : List Clique) (i0 : Nat) (s : SoSPD)
    (hneg : ∃ c ∈ cs, c.energy (c.nodes.map s.m_labels) < 0) :
    (∃ f, forCliques InitialDual_clique cs i0 s = .error f) ∧
      ((∀ c ∈ cs, 1 ≤ c.size ∧ c.size < 32) →
        forCliques InitialDual_clique cs i0 s = .error .negativeEnergy) := by
  induction cs generalizing i0 s with
  | nil =>
    obtain ⟨c, hc, _⟩ := hneg
    cases hc
  | cons c0 cs ih =>
    simp only [forCliques]
    cases hs : InitialDual_clique i0 c0 s with
    | error e =>
      refine ⟨⟨e, rfl⟩, fun hk => ?_⟩
      have hk0 := hk c0 (List.mem_cons_self _ _)
      by_cases hn : c0.energy (c0.nodes.map s.m_labels) < 0
      · rw [(InitialDual_clique_neg i0 c0 s hn).2 hk0.2] at hs
        rw [← hs]
      · rw [InitialDual_clique_ok i0 c0 s hk0.1 hk0.2 (by omega)] at hs
        cases hs
    | ok s1 =>
      have hlab : s1.m_labels = s.m_labels := (InitialDual_clique_frame i0 c0 s s1 hs).2.1
      have hneg1 : ∃ c ∈ cs, c.energy (c.nodes.map s1.m_labels) < 0 := by
        obtain ⟨c, hc, hn⟩ := hneg
        rcases List.mem_cons.mp hc with h | h
        · subst h
          obtain ⟨⟨f, hf⟩, _⟩ := InitialDual_clique_neg i0 c s hn
          rw [hf] at hs
          cases hs
        · exact ⟨c, h, by rw [hlab]; exact hn⟩
      obtain ⟨a, b⟩ := ih (i0 + 1) s1 hneg1
      exact ⟨a, fun hk => b (fun c hc => hk c (List.mem_cons_of_mem _ hc))⟩

theorem InitialDual_neg (s : SoSPD)
    (hneg : ∃ c ∈ s.m_energy.cliques, c.energy (c.nodes.map s.m_labels) < 0) :
    (∃ f, InitialDual s = .error f) ∧
      ((∀ c ∈ s.m_energy.cliques, 1 ≤ c.size ∧ c.size < 32) →
        InitialDual s = .error .negativeEnergy) :=
  InitialDual_loop_neg s.m_energy.cliques 0
    { s with m_heights := initialHeights s.m_energy s.m_num_labels, m_dual := fun _ _ => 0 }
    hneg

theorem Solve_neg (oracle : FlowOracle) (niters : Nat) (s : SoSPD) (h0 : s.m_iter = 0)
    (hneg : ∃ c ∈ s.m_energy.cliques,
      c.energy (c.nodes.map (InitialLabeling s).m_labels) < 0) :
    (∃ f, Solve oracle niters s = .error f) ∧
      ((∀ c ∈ s.m_energy.cliques, 1 ≤ c.size ∧ c.size < 32) →
        Solve oracle niters s = .error .negativeEnergy) := by
  unfold Solve SolveCount Solve_init
  rw [if_pos h0]
  cases hg : SetupGraph s with
  | error e =>
    refine ⟨⟨e, rfl⟩, fun hk => ?_⟩
    unfold SetupGraph at hg
    simp only [] at hg
    obtain ⟨crf', h'⟩ := SetupGraph_loop_ok s.m_energy.cliques 0
      (s.m_ibfs.AddNode s.m_energy.numVars) (fun c hc => (hk c hc).2)
    rw [h'] at hg
    cases hg
  | ok sg =>
    simp only []
    obtain ⟨_, g2, g3, _⟩ := SetupGraph_frame s sg hg
    have hl : (InitialLabeling sg).m_labels = (InitialLabeling s).m_labels := by
      unfold SetupGraph at hg
      simp only [] at hg
      cases hl : forCliques SetupGraph_clique s.m_energy.cliques 0
          (s.m_ibfs.AddNode s.m_energy.numVars) with
      | error e => rw [hl] at hg; cases hg
      | ok crf =>
        rw [hl] at hg
        simp only [Except.ok.injEq] at hg
        subst hg
        rfl
    have hneg' : ∃ c ∈ (InitialLabeling sg).m_energy.cliques,
        c.energy (c.nodes.map (InitialLabeling sg).m_labels) < 0 := by
      obtain ⟨c, hc, hn⟩ := hneg
      refine ⟨c, ?_, by rw [hl]; exact hn⟩
      show c ∈ sg.m_energy.cliques
      rw [g3]
      exact hc
    obtain ⟨⟨f, hf⟩, hb⟩ := InitialDual_neg (InitialLabeling sg) hneg'
    refine ⟨⟨f, by rw [hf]⟩, fun hk => ?_⟩
    rw [hb (fun c hc => hk c (by
      have : c ∈ sg.m_energy.cliques := hc
      rw [g3] at this
      exact this))]

/-- C22. Positive correction is fatal: for every state in which all cliques have size
`1 <= k < 32`, `PostEditDual` fails if and only if there is a clique such that, in the state
in which `PostEditDual` reaches it (after the cliques before it have been repaired), its
`energy(current label tuple) - sum_i dual(clique, i, currentLabel(node_i))` is positive;
the failure is then the assertion `correction <= 0`. -/
theorem C22_positive_correction_fatal (s : SoSPD)
    (hk : ∀ c ∈ s.m_energy.cliques, 1 ≤ c.size ∧ c.size < 32) :
    ((∃ f, PostEditDual s = .error f) ↔
      ∃ ci c s', s.m_energy.cliques[ci]? = some c ∧
        forCliques PostEditDual_clique (s.m_energy.cliques.take ci) 0 s = .ok s' ∧
        0 < c.energy (c.nodes.map s'.m_labels) -
          ((List.range c.size).map
            (fun i => s'.dualVariable ci i (s'.m_labels (c.nodes.getD i 0)))).sum) ∧
    ∀ f, PostEditDual s = .error f → f = Fault.positiveCorrection := by
  have key : ∀ f, PostEditDual s = .error f ↔
      ∃ ci c s', s.m_energy.cliques[ci]? = some c ∧
        forCliques PostEditDual_clique (s.m_energy.cliques.take ci) 0 s = .ok s' ∧
        (0 < correction s' ci c ∧ f = Fault.positiveCorrection) := by
    intro f
    unfold PostEditDual
    rw [forCliques_error_iff]
    constructor
    · rintro ⟨p, c, s', hpc, hrun, hstep⟩
      have hm := hk c (mem_of_getElem?_eq hpc)
      rw [Nat.zero_add] at hstep
      exact ⟨p, c, s', hpc, hrun, (PostEditDual_clique_error p c s' f hm.1 hm.2).mp hstep⟩
    · rintro ⟨p, c, s', hpc, hrun, hstep⟩
      have hm := hk c (mem_of_getElem?_eq hpc)
      refine ⟨p, c, s', hpc, hrun, ?_⟩
      rw [Nat.zero_add]
      exact (PostEditDual_clique_error p c s' f hm.1 hm.2).mpr hstep
  constructor
  · constructor
    · rintro ⟨f, hf⟩
      obtain ⟨ci, c, s', h1, h2, h3, _⟩ := (key f).mp hf
      exact ⟨ci, c, s', h1, h2, h3⟩
    · rintro ⟨ci, c, s', h1, h2, h3⟩
      exact ⟨Fault.positiveCorrection, (key _).mpr ⟨ci, c, s', h1, h2, h3, rfl⟩⟩
  · intro f hf
    obtain ⟨_, _, _, _, _, _, h⟩ := (key f).mp hf
    exact h

theorem C22_positive_correction_fatal_witness :
    (∀ c ∈ examplePositiveState.m_energy.cliques, 1 ≤ c.size ∧ c.size < 32) ∧
    faultOf (PostEditDual examplePositiveState) = some Fault.positiveCorrection ∧
    ((∃ f, PostEditDual examplePositiveState = .error f) ↔
      ∃ ci c s', examplePositiveState.m_energy.cliques[ci]? = some c ∧
        forCliques PostEditDual_clique (examplePositiveState.m_energy.cliques.take ci) 0
          examplePositiveState = .ok s' ∧
        0 < c.energy (c.nodes.map s'.m_labels) -
          ((List.range c.size).map
            (fun i => s'.dualVariable ci i (s'.m_labels (c.nodes.getD i 0)))).sum) ∧
    ∀ f, PostEditDual examplePositiveState = .error f → f = Fault.positiveCorrection :=
  ⟨exampleEnergy_sizes, by decide,
    C22_positive_correction_fatal examplePositiveState exampleEnergy_sizes⟩

/-! ## Negative clique energies -/

/-- C21 (counterexample). On `exampleNegEnergy2` with cyclic alpha proposals, the clique's
energy is 0 at the initial labeling `(1, 1)` and `-1` at `(0, 1)`.  `PreEditDual` evaluates
the energy `-1` for the table entries of the masks 1 and 2, and, after the oracle has
switched variable 0, `PostEditDual` evaluates the energy `-1` at the new labeling `(0, 1)`;
none of them aborts: `Solve(1)` returns with `m_iter = 1`, the labeling `(0, 1)`, the
table entries `-1` in the flow graph and a dual variable `-1`. -/
theorem C21_negative_energy_not_fatal_after_setup :
    (pottsClique (-1)).energy [0, 1] = -1 ∧
    observe (Solve switchZeroOracle 1 (SoSPD.new exampleNegEnergy2).SetAlphaExpansion)
      (fun s => (s.m_iter, s.m_labels 0, s.m_labels 1,
        (s.m_ibfs.cliques.getD 0 default).energyTable 1,
        (s.m_ibfs.cliques.getD 0 default).energyTable 2,
        s.dualVariable 0 1 1)) = some (1, 0, 1, -1, -1, -1) := by
  refine ⟨by decide, by decide!⟩

/-- C21 (amended). A negative clique energy at the initial labeling is fatal: when the
setup block runs (`m_iter = 0`) and some clique has a negative energy at the labeling that
`InitialLabeling` computes, `Solve` fails, for every oracle and budget, and when all
cliques have size `1 <= k < 32` it fails `InitialDual`'s assertion `energy >= 0`.
`PreEditDual` and `PostEditDual` do not test the sign of the energies they evaluate: the
loop body of `PostEditDual` succeeds exactly when `1 <= k < 32` and `correction <= 0`, and
the loop body of `PreEditDual` succeeds exactly when `k < 32`, the clique of the flow graph
has `k` nodes and a table of `2^k` entries, and the entry of the all-zero mask is 0 after
the subtraction. -/
theorem C21_negative_energy_fatal_in_InitialDual (oracle : FlowOracle) (niters : Nat)
    (s : SoSPD) (h0 : s.m_iter = 0)
    (hneg : ∃ c ∈ s.m_energy.cliques,
      c.energy (c.nodes.map (InitialLabeling s).m_labels) < 0) :
    (∃ f, Solve oracle niters s = .error f) ∧
    ((∀ c ∈ s.m_energy.cliques, 1 ≤ c.size ∧ c.size < 32) →
      Solve oracle niters s = .error .negativeEnergy) ∧
    (∀ ci c t, (∃ t', PostEditDual_clique ci c t = .ok t') ↔
      (1 ≤ c.size ∧ c.size < 32 ∧ correction t ci c ≤ 0)) ∧
    (∀ ci c t crf, (∃ crf', PreEditDual_clique t ci c crf = .ok crf') ↔
      (c.size < 32 ∧ c.size = (crf.cliques.getD ci default).nodes.length ∧
        (crf.cliques.getD ci default).tableSize = 1 <<< c.size ∧
        residualTable t ci c (crf.cliques.getD ci default).energyTable 0 = 0)) :=
  ⟨(Solve_neg oracle niters s h0 hneg).1, (Solve_neg oracle niters s h0 hneg).2,
    fun ci c t => PostEditDual_clique_ok_iff ci c t,
    fun ci c t crf => PreEditDual_clique_ok_iff t ci c crf⟩

theorem C21_negative_energy_fatal_in_InitialDual_witness :
    (SoSPD.new exampleNegEnergy).m_iter = 0 ∧
    (∃ c ∈ (SoSPD.new exampleNegEnergy).m_energy.cliques,
      c.energy (c.nodes.map (InitialLabeling (SoSPD.new exampleNegEnergy)).m_labels) < 0) ∧
    Solve stayOracle 1 (SoSPD.new exampleNegEnergy) = .error .negativeEnergy := by
  have hneg : ∃ c ∈ (SoSPD.new exampleNegEnergy).m_energy.cliques,
      c.energy (c.nodes.map (InitialLabeling (SoSPD.new exampleNegEnergy)).m_labels) < 0 :=
    ⟨pottsClique (-10), List.mem_singleton.mpr rfl, by decide⟩
  have hk : ∀ c ∈ (SoSPD.new exampleNegEnergy).m_energy.cliques, 1 ≤ c.size ∧ c.size < 32 := by
    intro c hc
    have : c = pottsClique (-10) := List.mem_singleton.mp hc
    subst this
    decide
  exact ⟨rfl, hneg,
    (C21_negative_energy_fatal_in_InitialDual stayOracle 1 (SoSPD.new exampleNegEnergy) rfl
      hneg).2.1 hk⟩

/-! ## `AutoBuffer::push_back` -/

theorem AutoBuffer_store_get {TVal : Type} (b : AutoBuffer TVal) (i j : Nat) (o : TVal) :
    (b.store i o).get j = if j = i then some o else b.get j := by
  unfold AutoBuffer.store AutoBuffer.get AutoBuffer.m_pBufferPtr
  cases hd : b.m_pBufferPtr_dynamic with
  | true =>
    simp only [if_true, Option.getD_some, hd]
    by_cases hj : j = i
    · subst hj; simp
    · rw [Function.update_noteq hj, if_neg hj]
  | false =>
    simp only [Bool.false_eq_true, if_false, hd]
    by_cases hj : j = i
    · subst hj; simp
    · rw [Function.update_noteq hj, if_neg hj]

theorem AutoBuffer_reserve_spec {TVal : Type} (b : AutoBuffer TVal) (nReqSize : Nat) :
    (b.reserve nReqSize).m_nUsedBufferSize = b.m_nUsedBufferSize ∧
    (b.reserve nReqSize).m_nBufferSize = max b.m_nBufferSize nReqSize ∧
    ∀ i < b.m_nUsedBufferSize, (b.reserve nReqSize).get i = b.get i := by
  unfold AutoBuffer.reserve
  by_cases h1 : nReqSize < b.m_nBufferSize
  · rw [if_pos h1]
    exact ⟨rfl, (max_eq_left (by omega)).symm, fun _ _ => rfl⟩
  · rw [if_neg h1]
    by_cases h2 : nReqSize > b.m_nBufferSize
    · rw [if_pos h2]
      refine ⟨rfl, ?_, fun i hi => ?_⟩
      · show nReqSize = max b.m_nBufferSize nReqSize
        exact (max_eq_right (by omega)).symm
      simp only [AutoBuffer.get, AutoBuffer.m_pBufferPtr, if_true, Option.getD_some]
      rw [if_pos hi]
    · rw [if_neg h2]
      exact ⟨rfl, (max_eq_left (by omega)).symm, fun _ _ => rfl⟩

/-- What `push_back` does whenever its second debug assertion is not in the way: with
`size() = n <= capacity()` and a capacity of at least 1, and when the debug assertions are
compiled out, or the buffer is not full, or its capacity is at least 2, `push_back(o)`
returns with `size() = n + 1`, element `n` equal to `o`, the elements `0..n-1` unchanged
and `capacity() >= n + 1`, the capacity being doubled when the buffer was full and
unchanged otherwise. -/
theorem AutoBuffer_push_back_appends {TVal : Type} (dbg : Bool) (b : AutoBuffer TVal)
    (o : TVal) (hn : b.size ≤ b.capacity) (hcap : 1 ≤ b.capacity)
    (hok : dbg = false ∨ b.size < b.capacity ∨ 2 ≤ b.capacity) :
    ∃ b', b.push_back dbg o = .ok b' ∧ b'.size = b.size + 1 ∧ b'.get b.size = some o ∧
      (∀ i < b.size, b'.get i = b.get i) ∧ b.size + 1 ≤ b'.capacity ∧
      b'.capacity = if b.size = b.capacity then 2 * b.capacity else b.capacity := by
  unfold AutoBuffer.size AutoBuffer.capacity at *
  unfold AutoBuffer.push_back
  rw [if_neg (fun h => h.2 hn)]
  by_cases hfull : b.m_nUsedBufferSize = b.m_nBufferSize
  · rw [if_pos hfull]
    obtain ⟨r1, r2, r3⟩ := AutoBuffer_reserve_spec b (b.m_nBufferSize * 2)
    have r2' : (b.reserve (b.m_nBufferSize * 2)).m_nBufferSize = b.m_nBufferSize * 2 := by
      rw [r2]
      exact max_eq_right (by omega)
    simp only []
    rw [if_neg (by
      rintro ⟨hd, hb⟩
      rw [r1, r2'] at hb
      rcases hok with h | h | h
      · rw [h] at hd; cases hd
      · omega
      · omega)]
    refine ⟨_, rfl, ?_, ?_, ?_, ?_, ?_⟩
    · show (b.reserve (b.m_nBufferSize * 2)).m_nUsedBufferSize + 1 = _
      rw [r1]
    · show ((b.reserve (b.m_nBufferSize * 2)).store _ o).get _ = _
      rw [AutoBuffer_store_get, r1, if_pos rfl]
    · intro i hi
      show ((b.reserve (b.m_nBufferSize * 2)).store _ o).get _ = _
      rw [AutoBuffer_store_get, r1, if_neg (by omega), r3 i hi]
    · show _ ≤ ((b.reserve (b.m_nBufferSize * 2)).store _ o).m_nBufferSize
      have : ((b.reserve (b.m_nBufferSize * 2)).store
          (b.reserve (b.m_nBufferSize * 2)).m_nUsedBufferSize o).m_nBufferSize
          = (b.reserve (b.m_nBufferSize * 2)).m_nBufferSize := by
        unfold AutoBuffer.store
        split_ifs <;> rfl
      rw [this, r2']
      omega
    · rw [if_pos hfull]
      show ((b.reserve (b.m_nBufferSize * 2)).store _ o).m_nBufferSize = _
      have : ((b.reserve (b.m_nBufferSize * 2)).store
          (b.reserve (b.m_nBufferSize * 2)).m_nUsedBufferSize o).m_nBufferSize
          = (b.reserve (b.m_nBufferSize * 2)).m_nBufferSize := by
        unfold AutoBuffer.store
        split_ifs <;> rfl
      rw [this, r2']
      omega
  · rw [if_neg hfull]
    have hsz : (b.store b.m_nUsedBufferSize o).m_nBufferSize = b.m_nBufferSize := by
      unfold AutoBuffer.store
      split_ifs <;> rfl
    refine ⟨_, rfl, rfl, ?_, ?_, ?_, ?_⟩
    · show (b.store _ o).get _ = _
      rw [AutoBuffer_store_get, if_pos rfl]
    · intro i hi
      show (b.store _ o).get _ = _
      rw [AutoBuffer_store_get, if_neg (by omega)]
    · show _ ≤ (b.store _ o).m_nBufferSize
      rw [hsz]
      omega
    · rw [if_neg hfull]
      exact hsz

/-- C27 (failing run). An `AutoBuffer` with a static buffer of one element
(`nStaticSize = 1`) that holds one element is full (`size() = capacity() = 1`).  With the
debug assertions compiled in, `push_back(7)` doubles the capacity to 2 and then fails
`lvDbgAssert(m_nBufferSize>m_nUsedBufferSize+1)`, which reads `2 > 1 + 1`; nothing is
appended.  With the assertions compiled out the same call appends: size 2, capacity 2,
element 1 equal to 7. -/
theorem C27_push_back_on_full_buffer_of_one :
    (AutoBuffer.new Nat 1 1).size = 1 ∧ (AutoBuffer.new Nat 1 1).capacity = 1 ∧
    bufferFaultOf ((AutoBuffer.new Nat 1 1).push_back true 7)
      = some BufferFault.capacityNotAboveSizePlusOne ∧
    observeBuffer ((AutoBuffer.new Nat 1 1).push_back false 7)
      (fun b => (b.size, b.capacity, b.get 1)) = some (2, 2, some 7) := by
  refine ⟨by decide, by decide, by decide, by decide⟩

/-! ## `LowerBound` -/

theorem forEachE_ok_of_invariant {ι σ : Type} (P : σ → Prop)
    (step : ι → σ → Except Fault σ) (xs : List ι)
    (h : ∀ x ∈ xs, ∀ st, P st → ∃ st', step x st = .ok st' ∧ P st') (st : σ) (h0 : P st) :
    ∃ st', forEachE step xs st = .ok st' ∧ P st' := by
  induction xs generalizing st with
  | nil => exact ⟨st, rfl, h0⟩
  | cons x xs ih =>
    obtain ⟨st1, h1, hp1⟩ := h x (List.mem_cons_self _ _) st h0
    simp only [forEachE, h1]
    exact ih (fun y hy => h y (List.mem_cons_of_mem _ hy)) st1 hp1

theorem forEachE_invariant {ι σ : Type} (P : σ → Prop)
    (step : ι → σ → Except Fault σ) (xs : List ι)
    (h : ∀ x ∈ xs, ∀ st st', P st → step x st = .ok st' → P st') (st st' : σ) (h0 : P st)
    (hrun : forEachE step xs st = .ok st') : P st' := by
  induction xs generalizing st with
  | nil =>
    simp only [forEachE, Except.ok.injEq] at hrun
    rw [← hrun]
    exact h0
  | cons x xs ih =>
    simp only [forEachE] at hrun
    cases hs : step x st with
    | error e => rw [hs] at hrun; cases hrun
    | ok st1 =>
      rw [hs] at hrun
      exact ih (fun y hy => h y (List.mem_cons_of_mem _ hy)) st1
        (h x (List.mem_cons_self _ _) st st1 h0 hs) hrun

theorem find?_some_spec {α : Type} (p : α → Bool) (l : List α) (a : α)
    (h : l.find? p = some a) : p a = true ∧ a ∈ l :=
  ⟨List.find?_some h, List.mem_of_find?_eq_some h⟩

theorem Tight_congr (s s' : SoSPD) (ci : Nat) (c : Clique) (hlab : s'.m_labels = s.m_labels)
    (hnl : s'.m_num_labels = s.m_num_labels) (hd : s'.m_dual ci = s.m_dual ci) :
    Tight s' ci c ↔ Tight s ci c := by
  unfold Tight SoSPD.dualVariable
  rw [hlab, hnl, hd]

theorem Tight_triple (s : SoSPD) (ci : Nat) (c : Clique) (h3 : c.size = 3)
    (ht : Tight s ci c) :
    s.m_dual ci (0 * s.m_num_labels + s.m_labels (c.nodes.getD 0 0))
      + s.m_dual ci (1 * s.m_num_labels + s.m_labels (c.nodes.getD 1 0))
      + s.m_dual ci (2 * s.m_num_labels + s.m_labels (c.nodes.getD 2 0))
    = c.energy [s.m_labels (c.nodes.getD 0 0), s.m_labels (c.nodes.getD 1 0),
        s.m_labels (c.nodes.getD 2 0)] := by
  unfold Tight SoSPD.dualVariable at ht
  obtain ⟨a, b, d, hn⟩ := List.length_eq_three.mp h3
  rw [h3, hn] at ht
  rw [hn]
  simp only [List.range_succ, List.range_zero, List.nil_append, List.cons_append,
    List.map_cons, List.map_nil, List.sum_cons, List.sum_nil, List.getD_cons_zero,
    List.getD_cons_succ] at ht ⊢
  rw [← ht]
  ring

/-- The entries of a clique's dual table at the current labels of its three members, as far
as those labels are labels of the model, are the ones of the table `orig`. -/
theorem LowerBound_triple_ok (s : SoSPD) (c : Clique) (orig : Nat → Int)
    (ht : orig (0 * s.m_num_labels + s.m_labels (c.nodes.getD 0 0))
      + orig (1 * s.m_num_labels + s.m_labels (c.nodes.getD 1 0))
      + orig (2 * s.m_num_labels + s.m_labels (c.nodes.getD 2 0))
      = c.energy [s.m_labels (c.nodes.getD 0 0), s.m_labels (c.nodes.getD 1 0),
        s.m_labels (c.nodes.getD 2 0)])
    (b0 b1 b2 : Nat) (hb0 : b0 < s.m_num_labels) (hb1 : b1 < s.m_num_labels)
    (hb2 : b2 < s.m_num_labels) (st : (Nat → Int) × (Nat → Int))
    (hP : ∀ i < 3, s.m_labels (c.nodes.getD i 0) < s.m_num_labels →
      st.1 (i * s.m_num_labels + s.m_labels (c.nodes.getD i 0))
        = orig (i * s.m_num_labels + s.m_labels (c.nodes.getD i 0))) :
    ∃ st', LowerBound_triple s c [b0, b1, b2] st = .ok st' ∧
      ∀ i < 3, s.m_labels (c.nodes.getD i 0) < s.m_num_labels →
        st'.1 (i * s.m_num_labels + s.m_labels (c.nodes.getD i 0))
          = orig (i * s.m_num_labels + s.m_labels (c.nodes.getD i 0)) := by
  have hb : ∀ i < 3, [b0, b1, b2].getD i 0 < s.m_num_labels := by
    intro i hi
    rcases (by omega : i = 0 ∨ i = 1 ∨ i = 2) with h | h | h <;> subst h <;> simpa
  unfold LowerBound_triple
  simp only []
  by_cases he : c.energy [b0, b1, b2] = 0
  · rw [if_pos he]
    cases hf : (List.range 3).find?
        (fun i => decide ([b0, b1, b2].getD i 0 ≠ s.m_labels (c.nodes.getD i 0))) with
    | some i =>
      simp only []
      have hsp := find?_some_spec
        (fun i => decide ([b0, b1, b2].getD i 0 ≠ s.m_labels (c.nodes.getD i 0)))
        (List.range 3) i hf
      have hi : i < 3 := List.mem_range.mp hsp.2
      have hp : decide ([b0, b1, b2].getD i 0 ≠ s.m_labels (c.nodes.getD i 0)) = true :=
        hsp.1
      have hne : [b0, b1, b2].getD i 0 ≠ s.m_labels (c.nodes.getD i 0) :=
        of_decide_eq_true hp
      refine ⟨_, rfl, fun i' hi' hl' => ?_⟩
      simp only []
      rw [Function.update_noteq]
      · exact hP i' hi' hl'
      · intro heq
        have := flat_index_inj s.m_num_labels i' i _ _ hl' (hb i hi) heq
        subst this
        apply hne
        omega
    | none =>
      simp only []
      have hall := List.find?_eq_none.mp hf
      have h0 : b0 = s.m_labels (c.nodes.getD 0 0) := by
        have := hall 0 (List.mem_range.mpr (by omega))
        simpa using this
      have h1 : b1 = s.m_labels (c.nodes.getD 1 0) := by
        have := hall 1 (List.mem_range.mpr (by omega))
        simpa using this
      have h2 : b2 = s.m_labels (c.nodes.getD 2 0) := by
        have := hall 2 (List.mem_range.mpr (by omega))
        simpa using this
      have e0 := hP 0 (by omega) (h0 ▸ hb0)
      have e1 := hP 1 (by omega) (h1 ▸ hb1)
      have e2 := hP 2 (by omega) (h2 ▸ hb2)
      rw [if_neg]
      · exact ⟨st, rfl, hP⟩
      · rw [not_not]
        simp only [List.getD_cons_zero, List.getD_cons_succ]
        rw [h0, h1, h2, e0, e1, e2, ht]
  · rw [if_neg he]
    exact ⟨st, rfl, hP⟩

theorem LowerBound_labels_ok (s : SoSPD) (c : Clique) (orig : Nat → Int)
    (ht : orig (0 * s.m_num_labels + s.m_labels (c.nodes.getD 0 0))
      + orig (1 * s.m_num_labels + s.m_labels (c.nodes.getD 1 0))
      + orig (2 * s.m_num_labels + s.m_labels (c.nodes.getD 2 0))
      = c.energy [s.m_labels (c.nodes.getD 0 0), s.m_labels (c.nodes.getD 1 0),
        s.m_labels (c.nodes.getD 2 0)])
    (st : (Nat → Int) × (Nat → Int))
    (hP : ∀ i < 3, s.m_labels (c.nodes.getD i 0) < s.m_num_labels →
      st.1 (i * s.m_num_labels + s.m_labels (c.nodes.getD i 0))
        = orig (i * s.m_num_labels + s.m_labels (c.nodes.getD i 0))) :
    ∃ st', LowerBound_labels s c st = .ok st' ∧
      ∀ i < 3, s.m_labels (c.nodes.getD i 0) < s.m_num_labels →
        st'.1 (i * s.m_num_labels + s.m_labels (c.nodes.getD i 0))
          = orig (i * s.m_num_labels + s.m_labels (c.nodes.getD i 0)) := by
  unfold LowerBound_labels
  refine forEachE_ok_of_invariant
    (fun st => ∀ i < 3, s.m_labels (c.nodes.getD i 0) < s.m_num_labels →
      st.1 (i * s.m_num_labels + s.m_labels (c.nodes.getD i 0))
        = orig (i * s.m_num_labels + s.m_labels (c.nodes.getD i 0)))
    _ _ (fun b0 hb0 st0 hP0 => ?_) st hP
  refine forEachE_ok_of_invariant
    (fun st => ∀ i < 3, s.m_labels (c.nodes.getD i 0) < s.m_num_labels →
      st.1 (i * s.m_num_labels + s.m_labels (c.nodes.getD i 0))
        = orig (i * s.m_num_labels + s.m_labels (c.nodes.getD i 0)))
    _ _ (fun b1 hb1 st1 hP1 => ?_) st0 hP0
  refine forEachE_ok_of_invariant
    (fun st => ∀ i < 3, s.m_labels (c.nodes.getD i 0) < s.m_num_labels →
      st.1 (i * s.m_num_labels + s.m_labels (c.nodes.getD i 0))
        = orig (i * s.m_num_labels + s.m_labels (c.nodes.getD i 0)))
    _ _ (fun b2 hb2 st2 hP2 => ?_) st1 hP1
  exact LowerBound_triple_ok s c orig ht b0 b1 b2 (List.mem_range.mp hb0)
    (List.mem_range.mp hb1) (List.mem_range.mp hb2) st2 hP2

theorem LowerBound_clique_ok (ci : Nat) (c : Clique) (s : SoSPD) (h3 : c.size = 3)
    (ht : Tight s ci c) :
    ∃ s', LowerBound_clique ci c s = .ok s' ∧ s'.m_labels = s.m_labels ∧
      s'.m_num_labels = s.m_num_labels ∧ s'.m_energy = s.m_energy ∧
      (∀ j, j ≠ ci → s'.m_dual j = s.m_dual j) ∧
      ∀ i < 3, s.m_labels (c.nodes.getD i 0) < s.m_num_labels →
        s'.m_dual ci (i * s.m_num_labels + s.m_labels (c.nodes.getD i 0))
          = s.m_dual ci (i * s.m_num_labels + s.m_labels (c.nodes.getD i 0)) := by
  obtain ⟨r, hr, hP⟩ := LowerBound_labels_ok s c (s.m_dual ci) (Tight_triple s ci c h3 ht)
    (s.m_dual ci, s.m_heights) (fun _ _ _ => rfl)
  unfold LowerBound_clique
  simp only []
  rw [if_neg (not_not.mpr h3), hr]
  refine ⟨_, rfl, rfl, rfl, rfl, fun j hj => ?_, fun i hi hl => ?_⟩
  · show Function.update s.m_dual ci r.1 j = _
    rw [Function.update_noteq hj]
  · show Function.update s.m_dual ci r.1 ci _ = _
    rw [Function.update_same]
    exact hP i hi hl

theorem LowerBound_clique_not_triple (ci : Nat) (c : Clique) (s : SoSPD) (h3 : c.size ≠ 3) :
    LowerBound_clique ci c s = .error .cliqueNotTriple := by
  unfold LowerBound_clique
  simp only []
  rw [if_pos h3]

theorem LowerBound_loop (cs : List Clique) (i0 : Nat) (s : SoSPD)
    (ht : ∀ p c, cs[p]? = some c → Tight s (i0 + p) c) :
    ((∃ c ∈ cs, c.size ≠ 3) → forCliques LowerBound_clique cs i0 s = .error .cliqueNotTriple) ∧
    ((∀ c ∈ cs, c.size = 3) → ∃ s', forCliques LowerBound_clique cs i0 s = .ok s') := by
  induction cs generalizing i0 s with
  | nil =>
    refine ⟨?_, fun _ => ⟨s, rfl⟩⟩
    rintro ⟨c, hc, _⟩
    cases hc
  | cons c0 cs ih =>
    by_cases h3 : c0.size = 3
    · have ht0 : Tight s i0 c0 := by
        have := ht 0 c0 List.getElem?_cons_zero
        rw [Nat.add_zero] at this
        exact this
      obtain ⟨s1, hs1, hl, hn, _, hd, _⟩ := LowerBound_clique_ok i0 c0 s h3 ht0
      have ht1 : ∀ p c, cs[p]? = some c → Tight s1 (i0 + 1 + p) c := by
        intro p c hpc
        have := ht (p + 1) c (by simpa using hpc)
        rw [show i0 + (p + 1) = i0 + 1 + p by omega] at this
        exact (Tight_congr s s1 _ c hl hn (hd _ (by omega))).mpr this
      obtain ⟨a, b⟩ := ih (i0 + 1) s1 ht1
      simp only [forCliques, hs1]
      refine ⟨?_, fun hall => b (fun c hc => hall c (List.mem_cons_of_mem _ hc))⟩
      rintro ⟨c, hc, hne⟩
      rcases List.mem_cons.mp hc with h | h
      · subst h
        exact absurd h3 hne
      · exact a ⟨c, h, hne⟩
    · simp only [forCliques, LowerBound_clique_not_triple i0 c0 s h3]
      exact ⟨fun _ => trivial, fun hall => absurd (hall c0 (List.mem_cons_self _ _)) h3⟩

/-- C26. LowerBound is restricted to 3-cliques: for every state in which the tightness
invariant holds for every clique, `LowerBound` fails if and only if the energy model
contains a clique whose size is not exactly 3, and the failure is then the assertion
`k == 3`: such a clique is rejected, not skipped. -/
theorem C26_LowerBound_three_cliques_only (s : SoSPD)
    (ht : ∀ ci c, s.m_energy.cliques[ci]? = some c → Tight s ci c) :
    ((∃ f, LowerBound s = .error f) ↔ ∃ c ∈ s.m_energy.cliques, c.size ≠ 3) ∧
    ∀ f, LowerBound s = .error f → f = Fault.cliqueNotTriple := by
  obtain ⟨a, b⟩ := LowerBound_loop s.m_energy.cliques 0 s (fun p c h => by
    rw [Nat.zero_add]
    exact ht p c h)
  have hcases : (∃ c ∈ s.m_energy.cliques, c.size ≠ 3) ∨ ∀ c ∈ s.m_energy.cliques, c.size = 3 := by
    by_cases h : ∃ c ∈ s.m_energy.cliques, c.size ≠ 3
    · exact Or.inl h
    · refine Or.inr (fun c hc => ?_)
      by_contra hne
      exact h ⟨c, hc, hne⟩
  unfold LowerBound
  rcases hcases with h | h
  · rw [a h]
    refine ⟨⟨fun _ => h, fun _ => ⟨_, rfl⟩⟩, fun f hf => ?_⟩
    simp only [Except.error.injEq] at hf
    exact hf.symm
  · obtain ⟨s', hs'⟩ := b h
    rw [hs']
    refine ⟨⟨?_, ?_⟩, fun f hf => ?_⟩
    · rintro ⟨f, hf⟩
      cases hf
    · rintro ⟨c, hc, hne⟩
      exact absurd (h c hc) hne
    · cases hf

theorem C26_LowerBound_three_cliques_only_witness :
    (∀ ci c, (SoSPD.new exampleEnergy).m_energy.cliques[ci]? = some c →
      Tight (SoSPD.new exampleEnergy) ci c) ∧
    (∃ c ∈ (SoSPD.new exampleEnergy).m_energy.cliques, c.size ≠ 3) ∧
    ∃ f, LowerBound (SoSPD.new exampleEnergy) = .error f := by
  have ht : ∀ ci c, (SoSPD.new exampleEnergy).m_energy.cliques[ci]? = some c →
      Tight (SoSPD.new exampleEnergy) ci c := by
    intro ci c h
    obtain ⟨rfl, rfl⟩ := exampleEnergy_clique_at h
    unfold Tight
    decide
  have hne : ∃ c ∈ (SoSPD.new exampleEnergy).m_energy.cliques, c.size ≠ 3 :=
    ⟨pottsClique 10, List.mem_singleton.mpr rfl, by decide⟩
  exact ⟨ht, hne,
    (C26_LowerBound_three_cliques_only (SoSPD.new exampleEnergy) ht).1.mpr hne⟩

/-! ## Height consistency -/

theorem sum_range_ite_eq (a : Nat → Int) (n v : Nat) (hv : v < n) :
    ((List.range n).map (fun i => if i = v then a i else 0)).sum = a v := by
  have h := sum_range_update_add (fun _ => 0) (a v) n v hv
  have hmap : (List.range n).map (fun i => if i = v then a i else 0)
      = (List.range n).map (fun i => if i = v then (fun _ => (0 : Int)) i + a v
          else (fun _ => (0 : Int)) i) := by
    apply List.map_congr_left
    intro i _
    by_cases hi : i = v
    · rw [if_pos hi, if_pos hi, hi]
      simp
    · rw [if_neg hi, if_neg hi]
  rw [hmap, h]
  simp

theorem sum_map_ite_const {α : Type} (l : List α) (c : Prop) [Decidable c] (g : α → Int) :
    (l.map (fun p => if c then g p else 0)).sum = if c then (l.map g).sum else 0 := by
  by_cases h : c
  · simp [h]
  · simp [h]

theorem nodeCliqueList_sum_at (g : Nat → Nat → Int) (n : Nat) (cs : List Clique)
    (hc : ∀ c ∈ cs, ∀ v ∈ c.nodes, v < n) (v : Nat) (hv : v < n) :
    ((eachClique InitialNodeCliqueList_clique cs 0 (fun _ => []) v).map
        (fun (p : Nat × Nat) => g p.1 p.2)).sum
      = ((List.range cs.length).map (fun q =>
          ((List.range (cs.getD q default).size).map (fun j =>
            if (cs.getD q default).nodes.getD j 0 = v then g q j else 0)).sum)).sum := by
  have h := nodeCliqueList_sum (fun i ci j => if i = v then g ci j else 0) n cs 0
    (fun _ => []) hc
  simp only [List.map_nil, List.sum_nil, Nat.zero_add] at h
  have hz : ((List.range n).map (fun _ => (0 : Int))).sum = 0 := by simp
  rw [hz, zero_add] at h
  rw [← h]
  have hmap : (List.range n).map (fun i =>
        ((eachClique InitialNodeCliqueList_clique cs 0 (fun _ => []) i).map
          (fun (p : Nat × Nat) => if i = v then g p.1 p.2 else 0)).sum)
      = (List.range n).map (fun i => if i = v then
          (fun i => ((eachClique InitialNodeCliqueList_clique cs 0 (fun _ => []) i).map
            (fun (p : Nat × Nat) => g p.1 p.2)).sum) i else 0) := by
    apply List.map_congr_left
    intro i _
    exact sum_map_ite_const _ (i = v) (fun (p : Nat × Nat) => g p.1 p.2)
  rw [hmap, sum_range_ite_eq _ n v hv]

theorem ComputeHeight_eq (s : SoSPD) (i x : Nat) :
    ComputeHeight s i x = s.m_energy.unary i x +
      ((s.m_node_clique_list i).map (fun p => s.dualVariable p.1 p.2 x)).sum := by
  unfold ComputeHeight
  exact foldl_add_eq_sum (fun (p : Nat × Nat) => s.dualVariable p.1 p.2 x) _ _

theorem ComputeHeight_eq_dualSumAt (s : SoSPD)
    (hnodes : ∀ c ∈ s.m_energy.cliques, ∀ v ∈ c.nodes, v < s.m_energy.numVars)
    (hncl : s.m_node_clique_list =
      eachClique InitialNodeCliqueList_clique s.m_energy.cliques 0 (fun _ => []))
    (v l : Nat) (hv : v < s.m_energy.numVars) :
    ComputeHeight s v l = s.m_energy.unary v l
      + dualSumAt s.m_energy s.m_num_labels s.m_dual v l := by
  rw [ComputeHeight_eq, hncl]
  congr 1
  exact nodeCliqueList_sum_at (fun q j => s.m_dual q (j * s.m_num_labels + l))
    s.m_energy.numVars s.m_energy.cliques hnodes v hv

theorem HeightsConsistent_iff (s : SoSPD)
    (hnodes : ∀ c ∈ s.m_energy.cliques, ∀ v ∈ c.nodes, v < s.m_energy.numVars)
    (hncl : s.m_node_clique_list =
      eachClique InitialNodeCliqueList_clique s.m_energy.cliques 0 (fun _ => [])) :
    HeightsConsistent s ↔ HeightsMatch s.m_energy s.m_num_labels s.m_dual s.m_heights := by
  unfold HeightsConsistent HeightsMatch
  constructor
  · intro h v hv l hl
    rw [← ComputeHeight_eq_dualSumAt s hnodes hncl v l hv]
    exact h v hv l hl
  · intro h v hv l hl
    rw [ComputeHeight_eq_dualSumAt s hnodes hncl v l hv]
    exact h v hv l hl

/-- Adding the same amount to the dual variable of a member position at a label and to the
height of that member's node at that label keeps the heights matched. -/
theorem HeightsMatch_paired_update (e : MLE) (nl : Nat) (dual : Nat → Nat → Int)
    (heights : Nat → Int) (ci : Nat) (c : Clique) (hc : e.cliques[ci]? = some c)
    (j0 l0 : Nat) (hj0 : j0 < c.size) (hl0 : l0 < nl) (d : Int)
    (h : HeightsMatch e nl dual heights) :
    HeightsMatch e nl
      (Function.update dual ci
        (Function.update (dual ci) (j0 * nl + l0) (dual ci (j0 * nl + l0) + d)))
      (Function.update heights (c.nodes.getD j0 0 * nl + l0)
        (heights (c.nodes.getD j0 0 * nl + l0) + d)) := by
  intro v hv l hl
  have hci : ci < e.cliques.length := by
    by_contra hge
    rw [List.getElem?_eq_none (by omega)] at hc
    cases hc
  have hgetD : e.cliques.getD ci default = c := by
    rw [List.getD_eq_getElem?_getD, hc]
    rfl
  have hheight : Function.update heights (c.nodes.getD j0 0 * nl + l0)
      (heights (c.nodes.getD j0 0 * nl + l0) + d) (v * nl + l)
      = heights (v * nl + l) + (if c.nodes.getD j0 0 = v ∧ l = l0 then d else 0) := by
    by_cases hcond : c.nodes.getD j0 0 = v ∧ l = l0
    · rw [if_pos hcond, hcond.1, hcond.2, Function.update_same]
    · rw [if_neg hcond, Function.update_noteq, add_zero]
      intro heq
      apply hcond
      have h1 := flat_index_inj nl v (c.nodes.getD j0 0) l l0 hl hl0 heq
      refine ⟨h1.symm, ?_⟩
      rw [h1] at heq
      omega
  have hsum : dualSumAt e nl
      (Function.update dual ci
        (Function.update (dual ci) (j0 * nl + l0) (dual ci (j0 * nl + l0) + d))) v l
      = dualSumAt e nl dual v l + (if c.nodes.getD j0 0 = v ∧ l = l0 then d else 0) := by
    unfold dualSumAt
    rw [← sum_range_update_add _ _ _ ci hci]
    congr 1
    apply List.map_congr_left
    intro q _
    by_cases hq : q = ci
    · rw [if_pos hq, hq, hgetD, Function.update_same]
      rw [← sum_range_update_add _ _ _ j0 hj0]
      congr 1
      apply List.map_congr_left
      intro j _
      by_cases hj : j = j0
      · rw [if_pos hj, hj]
        by_cases hnode : c.nodes.getD j0 0 = v
        · rw [if_pos hnode, if_pos hnode]
          by_cases hll : l = l0
          · rw [if_pos ⟨hnode, hll⟩, hll, Function.update_same]
          · rw [if_neg (fun h' => hll h'.2), Function.update_noteq (by omega), add_zero]
        · rw [if_neg hnode, if_neg hnode, if_neg (fun h' => hnode h'.1), add_zero]
      · rw [if_neg hj]
        by_cases hnode : c.nodes.getD j 0 = v
        · rw [if_pos hnode, if_pos hnode, Function.update_noteq
            (fun heq => hj (flat_index_inj nl j j0 l l0 hl hl0 heq))]
        · rw [if_neg hnode, if_neg hnode]
    · rw [if_neg hq, Function.update_noteq hq]
  rw [hheight, hsum, h v hv l hl]
  ring

theorem HeightsMatch_congr_heights (e : MLE) (nl : Nat) (dual : Nat → Nat → Int)
    (heights heights' : Nat → Int) (hh : heights' = heights)
    (h : HeightsMatch e nl dual heights) : HeightsMatch e nl dual heights' := by
  rw [hh]
  exact h

/-! ### The updates of the iteration keep the heights matched -/

theorem eachClique_invariant {σ : Type} (P : σ → Prop) (step : Nat → Clique → σ → σ)
    (cs : List Clique) (i0 : Nat)
    (h : ∀ p c st, cs[p]? = some c → P st → P (step (i0 + p) c st)) (st : σ) (h0 : P st) :
    P (eachClique step cs i0 st) := by
  induction cs generalizing i0 st with
  | nil => exact h0
  | cons c cs ih =>
    simp only [eachClique]
    refine ih (i0 + 1) (fun p c' st' hpc hP => ?_) _ ?_
    · have := h (p + 1) c' st' (by simpa using hpc) hP
      rw [show i0 + (p + 1) = i0 + 1 + p by omega] at this
      exact this
    · have := h 0 c st List.getElem?_cons_zero h0
      rw [Nat.add_zero] at this
      exact this

theorem forCliques_invariant {σ : Type} (P : Nat → σ → Prop)
    (step : Nat → Clique → σ → Except Fault σ) (cs : List Clique) (i0 : Nat)
    (h : ∀ p c st st', cs[p]? = some c → P (i0 + p) st → step (i0 + p) c st = .ok st' →
      P (i0 + p + 1) st')
    (st st' : σ) (h0 : P i0 st) (hrun : forCliques step cs i0 st = .ok st') :
    P (i0 + cs.length) st' := by
  induction cs generalizing i0 st with
  | nil =>
    simp only [forCliques, Except.ok.injEq] at hrun
    rw [← hrun]
    exact h0
  | cons c cs ih =>
    simp only [forCliques] at hrun
    cases hs : step i0 c st with
    | error e => rw [hs] at hrun; cases hrun
    | ok st1 =>
      rw [hs] at hrun
      have h1 : P (i0 + 1) st1 := by
        have := h 0 c st st1 List.getElem?_cons_zero h0 hs
        exact this
      have := ih (i0 + 1) (fun p c' x x' hpc hP hx => by
        have := h (p + 1) c' x x' (by simpa using hpc)
          (by rw [show i0 + (p + 1) = i0 + 1 + p by omega]; exact hP)
          (by rw [show i0 + (p + 1) = i0 + 1 + p by omega]; exact hx)
        rw [show i0 + (p + 1) + 1 = i0 + 1 + p + 1 by omega] at this
        exact this) st1 h1 hrun
      rw [List.length_cons, show i0 + (cs.length + 1) = i0 + 1 + cs.length by omega]
      exact this

theorem UpdatePrimalDual_clique_HeightsMatch (s : SoSPD) (crf : Flow) (i : Nat) (c : Clique)
    (hc : s.m_energy.cliques[i]? = some c)
    (hlen : (crf.cliques.getD i default).alphaCi.length ≤ c.size)
    (hfus : ∀ v ∈ c.nodes, s.m_fusion_labels v < s.m_num_labels)
    (st : (Nat → Nat → Int) × (Nat → Int))
    (h : HeightsMatch s.m_energy s.m_num_labels st.1 st.2) :
    HeightsMatch s.m_energy s.m_num_labels (UpdatePrimalDual_clique s crf i c st).1
      (UpdatePrimalDual_clique s crf i c st).2 := by
  unfold UpdatePrimalDual_clique
  simp only []
  refine foldl_invariant
    (fun st : (Nat → Nat → Int) × (Nat → Int) =>
      HeightsMatch s.m_energy s.m_num_labels st.1 st.2) _ _ (fun st j hj hst => ?_) st h
  have hj' : j < c.size := by
    have := List.mem_range.mp hj
    omega
  exact HeightsMatch_paired_update s.m_energy s.m_num_labels st.1 st.2 i c hc j
    (s.m_fusion_labels (c.nodes.getD j 0)) hj'
    (hfus _ (getD_mem_of_lt c.nodes j hj')) _ hst

theorem UpdatePrimalDual_HeightsMatch (oracle : FlowOracle) (s : SoSPD)
    (hfus : ∀ c ∈ s.m_energy.cliques, ∀ v ∈ c.nodes, s.m_fusion_labels v < s.m_num_labels)
    (hphi : ∀ ci c, s.m_energy.cliques[ci]? = some c →
      (flowPotentials oracle s ci).length = c.size)
    (h : HeightsMatch s.m_energy s.m_num_labels s.m_dual s.m_heights) :
    HeightsMatch s.m_energy s.m_num_labels (UpdatePrimalDual oracle s).1.m_dual
      (UpdatePrimalDual oracle s).1.m_heights := by
  show HeightsMatch s.m_energy s.m_num_labels
    (eachClique (UpdatePrimalDual_clique s ((SetupAlphaEnergy s s.m_ibfs).Solve oracle))
      s.m_energy.cliques 0 (s.m_dual, s.m_heights)).1
    (eachClique (UpdatePrimalDual_clique s ((SetupAlphaEnergy s s.m_ibfs).Solve oracle))
      s.m_energy.cliques 0 (s.m_dual, s.m_heights)).2
  refine eachClique_invariant
    (fun st : (Nat → Nat → Int) × (Nat → Int) =>
      HeightsMatch s.m_energy s.m_num_labels st.1 st.2) _ _ 0 (fun p c st hpc hst => ?_) _ h
  rw [Nat.zero_add]
  exact UpdatePrimalDual_clique_HeightsMatch s _ p c hpc (le_of_eq (hphi p c hpc))
    (hfus c (mem_of_getElem?_eq hpc)) st hst

theorem PostEditDual_members_HeightsMatch (s : SoSPD) (ci : Nat) (c : Clique)
    (hc : s.m_energy.cliques[ci]? = some c)
    (hl : ∀ v ∈ c.nodes, s.m_labels v < s.m_num_labels) (corr : Int)
    (h : HeightsMatch s.m_energy s.m_num_labels s.m_dual s.m_heights) :
    HeightsMatch s.m_energy s.m_num_labels
      (Function.update s.m_dual ci
        (PostEditDual_members s c corr (s.m_dual ci, s.m_heights)).1)
      (PostEditDual_members s c corr (s.m_dual ci, s.m_heights)).2 := by
  unfold PostEditDual_members
  refine foldl_invariant
    (fun st : (Nat → Int) × (Nat → Int) =>
      HeightsMatch s.m_energy s.m_num_labels (Function.update s.m_dual ci st.1) st.2)
    _ _ (fun st i hi hst => ?_) _ ?_
  · have hi' : i < c.size := List.mem_range.mp hi
    have hlab := hl _ (getD_mem_of_lt c.nodes i hi')
    have := HeightsMatch_paired_update s.m_energy s.m_num_labels
      (Function.update s.m_dual ci st.1) st.2 ci c hc i (s.m_labels (c.nodes.getD i 0)) hi'
      hlab (postIncrement corr c.size i) hst
    simp only [Function.update_same, Function.update_idem] at this
    simp only [Function.update_same, Function.update_idem]
    have hval : st.2 (c.nodes.getD i 0 * s.m_num_labels + s.m_labels (c.nodes.getD i 0))
        - st.1 (i * s.m_num_labels + s.m_labels (c.nodes.getD i 0))
        + (st.1 (i * s.m_num_labels + s.m_labels (c.nodes.getD i 0))
          + postIncrement corr c.size i)
        = st.2 (c.nodes.getD i 0 * s.m_num_labels + s.m_labels (c.nodes.getD i 0))
          + postIncrement corr c.size i := by ring
    rw [hval]
    exact this
  · show HeightsMatch s.m_energy s.m_num_labels (Function.update s.m_dual ci (s.m_dual ci))
      s.m_heights
    rw [Function.update_eq_self]
    exact h

theorem PostEditDual_clique_HeightsMatch (ci : Nat) (c : Clique) (s s' : SoSPD)
    (hc : s.m_energy.cliques[ci]? = some c)
    (hl : ∀ v ∈ c.nodes, s.m_labels v < s.m_num_labels)
    (h : HeightsMatch s.m_energy s.m_num_labels s.m_dual s.m_heights)
    (hrun : PostEditDual_clique ci c s = .ok s') :
    HeightsMatch s.m_energy s.m_num_labels s'.m_dual s'.m_heights := by
  unfold PostEditDual_clique at hrun
  simp only [] at hrun
  split_ifs at hrun
  simp only [Except.ok.injEq] at hrun
  subst hrun
  exact PostEditDual_members_HeightsMatch s ci c hc hl _ h

theorem PostEditDual_HeightsMatch (s s' : SoSPD)
    (hl : ∀ c ∈ s.m_energy.cliques, ∀ v ∈ c.nodes, s.m_labels v < s.m_num_labels)
    (h : HeightsMatch s.m_energy s.m_num_labels s.m_dual s.m_heights)
    (hrun : PostEditDual s = .ok s') :
    HeightsMatch s.m_energy s.m_num_labels s'.m_dual s'.m_heights := by
  unfold PostEditDual at hrun
  have := forCliques_invariant
    (fun _ (st : SoSPD) => st.m_energy = s.m_energy ∧ st.m_num_labels = s.m_num_labels ∧
      st.m_labels = s.m_labels ∧
      HeightsMatch s.m_energy s.m_num_labels st.m_dual st.m_heights)
    PostEditDual_clique s.m_energy.cliques 0
    (fun p c st st' hpc hP hstep => by
      obtain ⟨e1, e2, e3, e4⟩ := hP
      rw [Nat.zero_add] at hstep
      obtain ⟨_, f2, _, f4, f5, _⟩ := PostEditDual_clique_frame p c st st' hstep
      refine ⟨f4.trans e1, f5.trans e2, f2.trans e3, ?_⟩
      have := PostEditDual_clique_HeightsMatch p c st st' (by rw [e1]; exact hpc)
        (by rw [e3, e2]; exact hl c (mem_of_getElem?_eq hpc))
        (by rw [e1, e2]; exact e4) hstep
      rw [e1, e2] at this
      exact this)
    s s' ⟨rfl, rfl, rfl, h⟩ hrun
  exact this.2.2.2

/-! ### `LowerBound` and `InitialDual` keep the heights matched -/

theorem LowerBound_triple_HeightsMatch (s : SoSPD) (ci : Nat) (c : Clique)
    (hc : s.m_energy.cliques[ci]? = some c) (h3 : c.size = 3) (b0 b1 b2 : Nat)
    (hb0 : b0 < s.m_num_labels) (hb1 : b1 < s.m_num_labels) (hb2 : b2 < s.m_num_labels)
    (D : Nat → Nat → Int) (x x' : (Nat → Int) × (Nat → Int))
    (h : HeightsMatch s.m_energy s.m_num_labels (Function.update D ci x.1) x.2)
    (hrun : LowerBound_triple s c [b0, b1, b2] x = .ok x') :
    HeightsMatch s.m_energy s.m_num_labels (Function.update D ci x'.1) x'.2 := by
  have hb : ∀ i < 3, [b0, b1, b2].getD i 0 < s.m_num_labels := by
    intro i hi
    rcases (by omega : i = 0 ∨ i = 1 ∨ i = 2) with h | h | h <;> subst h <;> simpa
  unfold LowerBound_triple at hrun
  simp only [] at hrun
  by_cases he : c.energy [b0, b1, b2] = 0
  · rw [if_pos he] at hrun
    cases hf : (List.range 3).find?
        (fun i => decide ([b0, b1, b2].getD i 0 ≠ s.m_labels (c.nodes.getD i 0))) with
    | some i =>
      rw [hf] at hrun
      simp only [Except.ok.injEq] at hrun
      subst hrun
      have hi : i < 3 := List.mem_range.mp (find?_some_spec _ _ _ hf).2
      have := HeightsMatch_paired_update s.m_energy s.m_num_labels
        (Function.update D ci x.1) x.2 ci c hc i ([b0, b1, b2].getD i 0) (by omega)
        (hb i hi)
        (-(x.1 (0 * s.m_num_labels + [b0, b1, b2].getD 0 0)
          + x.1 (1 * s.m_num_labels + [b0, b1, b2].getD 1 0)
          + x.1 (2 * s.m_num_labels + [b0, b1, b2].getD 2 0) - c.energy [b0, b1, b2])) h
      simp only [Function.update_same, Function.update_idem] at this
      simp only [sub_eq_add_neg] at this ⊢
      exact this
    | none =>
      rw [hf] at hrun
      simp only [] at hrun
      split_ifs at hrun
      simp only [Except.ok.injEq] at hrun
      subst hrun
      exact h
  · rw [if_neg he] at hrun
    simp only [Except.ok.injEq] at hrun
    subst hrun
    exact h

theorem LowerBound_labels_HeightsMatch (s : SoSPD) (ci : Nat) (c : Clique)
    (hc : s.m_energy.cliques[ci]? = some c) (h3 : c.size = 3)
    (D : Nat → Nat → Int) (x x' : (Nat → Int) × (Nat → Int))
    (h : HeightsMatch s.m_energy s.m_num_labels (Function.update D ci x.1) x.2)
    (hrun : LowerBound_labels s c x = .ok x') :
    HeightsMatch s.m_energy s.m_num_labels (Function.update D ci x'.1) x'.2 := by
  unfold LowerBound_labels at hrun
  refine forEachE_invariant
    (fun x => HeightsMatch s.m_energy s.m_num_labels (Function.update D ci x.1) x.2)
    _ _ (fun b0 hb0 y0 y0' hy0 hrun0 => ?_) x x' h hrun
  refine forEachE_invariant
    (fun x => HeightsMatch s.m_energy s.m_num_labels (Function.update D ci x.1) x.2)
    _ _ (fun b1 hb1 y1 y1' hy1 hrun1 => ?_) y0 y0' hy0 hrun0
  refine forEachE_invariant
    (fun x => HeightsMatch s.m_energy s.m_num_labels (Function.update D ci x.1) x.2)
    _ _ (fun b2 hb2 y2 y2' hy2 hrun2 => ?_) y1 y1' hy1 hrun1
  exact LowerBound_triple_HeightsMatch s ci c hc h3 b0 b1 b2 (List.mem_range.mp hb0)
    (List.mem_range.mp hb1) (List.mem_range.mp hb2) D y2 y2' hy2 hrun2

theorem LowerBound_clique_frame (ci : Nat) (c : Clique) (s s' : SoSPD)
    (h : LowerBound_clique ci c s = .ok s') :
    c.size = 3 ∧ s'.m_labels = s.m_labels ∧ s'.m_energy = s.m_energy ∧
      s'.m_num_labels = s.m_num_labels ∧
      s'.m_node_clique_list = s.m_node_clique_list ∧
      ∃ r, LowerBound_labels s c (s.m_dual ci, s.m_heights) = .ok r ∧
        s'.m_dual = Function.update s.m_dual ci r.1 ∧ s'.m_heights = r.2 := by
  unfold LowerBound_clique at h
  simp only [] at h
  by_cases h3 : c.size = 3
  · rw [if_neg (not_not.mpr h3)] at h
    cases hr : LowerBound_labels s c (s.m_dual ci, s.m_heights) with
    | error e => rw [hr] at h; cases h
    | ok r =>
      rw [hr] at h
      simp only [Except.ok.injEq] at h
      subst h
      exact ⟨h3, rfl, rfl, rfl, rfl, r, rfl, rfl, rfl⟩
  · rw [if_pos h3] at h
    cases h

theorem LowerBound_HeightsMatch (s s' : SoSPD)
    (h : HeightsMatch s.m_energy s.m_num_labels s.m_dual s.m_heights)
    (hrun : LowerBound s = .ok s') :
    s'.m_energy = s.m_energy ∧ s'.m_num_labels = s.m_num_labels ∧
      s'.m_labels = s.m_labels ∧ s'.m_node_clique_list = s.m_node_clique_list ∧
      HeightsMatch s.m_energy s.m_num_labels s'.m_dual s'.m_heights := by
  unfold LowerBound at hrun
  exact forCliques_invariant
    (fun _ (st : SoSPD) => st.m_energy = s.m_energy ∧ st.m_num_labels = s.m_num_labels ∧
      st.m_labels = s.m_labels ∧ st.m_node_clique_list = s.m_node_clique_list ∧
      HeightsMatch s.m_energy s.m_num_labels st.m_dual st.m_heights)
    LowerBound_clique s.m_energy.cliques 0
    (fun p c st st' hpc hP hstep => by
      obtain ⟨e1, e2, e3, e4, e5⟩ := hP
      rw [Nat.zero_add] at hstep
      obtain ⟨h3, f1, f2, f3, f4, r, hr, hd, hh⟩ := LowerBound_clique_frame p c st st' hstep
      refine ⟨f2.trans e1, f3.trans e2, f1.trans e3, f4.trans e4, ?_⟩
      rw [hd, hh]
      have := LowerBound_labels_HeightsMatch st p c (by rw [e1]; exact hpc) h3 st.m_dual
        (st.m_dual p, st.m_heights) r
        (by
          show HeightsMatch st.m_energy st.m_num_labels
            (Function.update st.m_dual p (st.m_dual p)) st.m_heights
          rw [Function.update_eq_self, e1, e2]
          exact e5) hr
      rw [e1, e2] at this
      exact this)
    s s' ⟨rfl, rfl, rfl, rfl, h⟩ hrun

theorem foldl_range_invariant {β : Type} (P : Nat → β → Prop) (f : β → Nat → β) (n : Nat)
    (h : ∀ m b, m < n → P m b → P (m + 1) (f b m)) (b0 : β) (h0 : P 0 b0) :
    P n ((List.range n).foldl f b0) := by
  have key : ∀ k, k ≤ n → P k ((List.range k).foldl f b0) := by
    intro k
    induction k with
    | zero => intro _; exact h0
    | succ k ih =>
      intro hk
      rw [List.range_succ, List.foldl_append]
      simp only [List.foldl_cons, List.foldl_nil]
      exact h k _ (by omega) (ih (by omega))
  exact key n (le_refl n)

theorem initialHeights_at (e : MLE) (nl v l : Nat) (hv : v < e.numVars) (hl : l < nl) :
    initialHeights e nl (v * nl + l) = e.unary v l := by
  unfold initialHeights
  have key := foldl_range_invariant
    (fun m (h : Nat → Int) => ∀ v < m, ∀ l < nl, h (v * nl + l) = e.unary v l)
    (fun h i => (List.range nl).foldl
      (fun h l => Function.update h (i * nl + l) (e.unary i l)) h)
    e.numVars
    (fun m h _ hP v' hv' l' hl' => by
      by_cases hvm : v' = m
      · subst hvm
        exact foldl_modify_at (fun l => v' * nl + l) (fun l _ => e.unary v' l) h nl l' hl'
          (fun i' _ hne heq => by
            have heq' : v' * nl + i' = v' * nl + l' := heq
            exact hne (by omega))
      · have hother := foldl_modify_other (fun l => m * nl + l) (fun l _ => e.unary m l) h
          nl (v' * nl + l') (fun i hi heq => by
            have heq' : m * nl + i = v' * nl + l' := heq
            exact hvm (flat_index_inj nl m v' i l' hi hl' heq').symm)
        exact hother.trans (hP v' (Nat.lt_of_le_of_ne (Nat.lt_succ_iff.mp hv') hvm) l' hl'))
    (fun _ => 0) (by intro v hv; exact absurd hv (Nat.not_lt_zero v))
  exact key v hv l hl

theorem dualSumAt_zero (e : MLE) (nl v l : Nat) :
    dualSumAt e nl (fun _ _ => 0) v l = 0 := by
  unfold dualSumAt
  simp

theorem InitialDual_members_HeightsMatch (s : SoSPD) (ci : Nat) (c : Clique)
    (hc : s.m_energy.cliques[ci]? = some c)
    (hl : ∀ v ∈ c.nodes, s.m_labels v < s.m_num_labels) (energy : Int)
    (hz : s.m_dual ci = fun _ => 0)
    (h : HeightsMatch s.m_energy s.m_num_labels s.m_dual s.m_heights) :
    HeightsMatch s.m_energy s.m_num_labels
      (Function.update s.m_dual ci
        (InitialDual_members s c energy (fun _ => 0, s.m_heights)).1)
      (InitialDual_members s c energy (fun _ => 0, s.m_heights)).2 := by
  unfold InitialDual_members
  have key := foldl_range_invariant
    (fun m (st : (Nat → Int) × (Nat → Int)) =>
      HeightsMatch s.m_energy s.m_num_labels (Function.update s.m_dual ci st.1) st.2 ∧
      ∀ i, m ≤ i → i < c.size → st.1 (i * s.m_num_labels + s.m_labels (c.nodes.getD i 0)) = 0)
    (fun st i =>
      (Function.update st.1 (i * s.m_num_labels + s.m_labels (c.nodes.getD i 0))
          (initialShare energy c.size i),
        Function.update st.2 (c.nodes.getD i 0 * s.m_num_labels + s.m_labels (c.nodes.getD i 0))
          (st.2 (c.nodes.getD i 0 * s.m_num_labels + s.m_labels (c.nodes.getD i 0))
            + initialShare energy c.size i)))
    c.size
    (fun m st hm hP => by
      obtain ⟨hmatch, hzero⟩ := hP
      have hlab := hl _ (getD_mem_of_lt c.nodes m hm)
      constructor
      · have := HeightsMatch_paired_update s.m_energy s.m_num_labels
          (Function.update s.m_dual ci st.1) st.2 ci c hc m (s.m_labels (c.nodes.getD m 0)) hm
          hlab (initialShare energy c.size m) hmatch
        simp only [Function.update_same, Function.update_idem] at this
        rw [hzero m (le_refl m) hm, zero_add] at this
        exact this
      · intro i hmi hi
        show Function.update st.1 _ _ _ = 0
        rw [Function.update_noteq (member_index_ne s c hl m i hm hi (by omega))]
        exact hzero i (by omega) hi)
    (fun _ => 0, s.m_heights)
    ⟨by
      show HeightsMatch s.m_energy s.m_num_labels (Function.update s.m_dual ci (fun _ => 0))
        s.m_heights
      rw [← hz, Function.update_eq_self]
      exact h, fun _ _ _ => rfl⟩
  exact key.1

theorem InitialDual_clique_HeightsMatch (ci : Nat) (c : Clique) (s s' : SoSPD)
    (hc : s.m_energy.cliques[ci]? = some c)
    (hl : ∀ v ∈ c.nodes, s.m_labels v < s.m_num_labels)
    (hz : ∀ j, ci ≤ j → s.m_dual j = fun _ => 0)
    (h : HeightsMatch s.m_energy s.m_num_labels s.m_dual s.m_heights)
    (hrun : InitialDual_clique ci c s = .ok s') :
    HeightsMatch s.m_energy s.m_num_labels s'.m_dual s'.m_heights ∧
      ∀ j, ci + 1 ≤ j → s'.m_dual j = fun _ => 0 := by
  unfold InitialDual_clique at hrun
  simp only [] at hrun
  split_ifs at hrun
  simp only [Except.ok.injEq] at hrun
  subst hrun
  refine ⟨InitialDual_members_HeightsMatch s ci c hc hl _ (hz ci (le_refl ci)) h,
    fun j hj => ?_⟩
  show Function.update s.m_dual ci _ j = _
  rw [Function.update_noteq (by omega)]
  exact hz j (by omega)

theorem InitialDual_HeightsMatch (s s' : SoSPD)
    (hl : ∀ c ∈ s.m_energy.cliques, ∀ v ∈ c.nodes, s.m_labels v < s.m_num_labels)
    (hrun : InitialDual s = .ok s') :
    HeightsMatch s.m_energy s.m_num_labels s'.m_dual s'.m_heights := by
  unfold InitialDual at hrun
  simp only [] at hrun
  have := forCliques_invariant
    (fun ci (st : SoSPD) => st.m_energy = s.m_energy ∧ st.m_num_labels = s.m_num_labels ∧
      st.m_labels = s.m_labels ∧
      HeightsMatch s.m_energy s.m_num_labels st.m_dual st.m_heights ∧
      ∀ j, ci ≤ j → st.m_dual j = fun _ => 0)
    InitialDual_clique s.m_energy.cliques 0
    (fun p c st st' hpc hP hstep => by
      obtain ⟨e1, e2, e3, e4, e5⟩ := hP
      obtain ⟨_, f2, f3, f4⟩ := InitialDual_clique_frame (0 + p) c st st' hstep
      have := InitialDual_clique_HeightsMatch (0 + p) c st st'
        (by rw [e1, Nat.zero_add]; exact hpc)
        (by rw [e3, e2]; exact hl c (mem_of_getElem?_eq hpc)) e5
        (by rw [e1, e2]; exact e4) hstep
      rw [e1, e2] at this
      exact ⟨f3.trans e1, f4.trans e2, f2.trans e3, this.1, this.2⟩)
    { s with m_heights := initialHeights s.m_energy s.m_num_labels, m_dual := fun _ _ => 0 }
    s' ⟨rfl, rfl, rfl, fun v hv l hl' => by
      show initialHeights s.m_energy s.m_num_labels (v * s.m_num_labels + l) = _
      rw [initialHeights_at s.m_energy s.m_num_labels v l hv hl', dualSumAt_zero, add_zero],
      fun _ _ => rfl⟩ hrun
  exact this.2.2.2.1

/-! ### Height consistency through the run -/

theorem ComputeHeightDiff_eq_sub (s : SoSPD) (i l1 l2 : Nat) :
    ComputeHeightDiff s i l1 l2 = ComputeHeight s i l1 - ComputeHeight s i l2 := by
  rw [ComputeHeightDiff_eq, ComputeHeight_eq, ComputeHeight_eq, sum_map_sub]
  ring

theorem InitialDual_HeightsConsistent (s s1 : SoSPD) (hv : s.Valid)
    (hrun : InitialDual s = .ok s1) : HeightsConsistent (InitialNodeCliqueList s1) := by
  obtain ⟨_, _, f3, f4⟩ := InitialDual_frame s s1 hrun
  have hm := InitialDual_HeightsMatch s s1
    (fun c hc v hvn => Valid_node_label_lt hv hc hvn) hrun
  rw [HeightsConsistent_iff (InitialNodeCliqueList s1)
    (by
      show ∀ c ∈ s1.m_energy.cliques, ∀ v ∈ c.nodes, v < s1.m_energy.numVars
      rw [f3]
      exact hv.1.2.1) rfl]
  show HeightsMatch s1.m_energy s1.m_num_labels s1.m_dual s1.m_heights
  rw [f3, f4]
  exact hm

theorem UpdatePrimalDual_HeightsConsistent (oracle : FlowOracle) (s : SoSPD)
    (hwf : s.m_energy.WF) (hncl : NodeCliqueListBuilt s) (h : HeightsConsistent s)
    (hfus : ∀ c ∈ s.m_energy.cliques, ∀ v ∈ c.nodes, s.m_fusion_labels v < s.m_num_labels)
    (hphi : ∀ ci c, s.m_energy.cliques[ci]? = some c →
      (flowPotentials oracle s ci).length = c.size) :
    HeightsConsistent (UpdatePrimalDual oracle s).1 := by
  rw [HeightsConsistent_iff _ hwf.2.1 hncl] at h
  rw [HeightsConsistent_iff (UpdatePrimalDual oracle s).1 hwf.2.1 hncl]
  exact UpdatePrimalDual_HeightsMatch oracle s hfus hphi h

theorem PostEditDual_HeightsConsistent (s s' : SoSPD) (hv : s.Valid)
    (hncl : NodeCliqueListBuilt s) (h : HeightsConsistent s)
    (hrun : PostEditDual s = .ok s') : HeightsConsistent s' := by
  rw [HeightsConsistent_iff _ hv.1.2.1 hncl] at h
  obtain ⟨_, _, _, f4, f5, f6, _⟩ := PostEditDual_frame s s' hrun
  have hm := PostEditDual_HeightsMatch s s'
    (fun c hc v hvn => Valid_node_label_lt hv hc hvn) h hrun
  rw [HeightsConsistent_iff s' (by rw [f4]; exact hv.1.2.1)
    (by unfold NodeCliqueListBuilt at hncl; rw [f6, f4]; exact hncl), f4, f5]
  exact hm

theorem LowerBound_HeightsConsistent (s s' : SoSPD) (hwf : s.m_energy.WF)
    (hncl : NodeCliqueListBuilt s) (h : HeightsConsistent s)
    (hrun : LowerBound s = .ok s') : HeightsConsistent s' := by
  rw [HeightsConsistent_iff _ hwf.2.1 hncl] at h
  obtain ⟨f1, f2, _, f4, hm⟩ := LowerBound_HeightsMatch s s' h hrun
  rw [HeightsConsistent_iff s' (by rw [f1]; exact hwf.2.1)
    (by unfold NodeCliqueListBuilt at hncl; rw [f4, f1]; exact hncl), f1, f2]
  exact hm

theorem Solve_init_HeightsConsistent (s s' : SoSPD) (hv : s.Valid) (h0 : s.m_iter = 0)
    (h : Solve_init s = .ok s') : HeightsConsistent s' := by
  unfold Solve_init at h
  rw [if_pos h0] at h
  cases hg : SetupGraph s with
  | error e => rw [hg] at h; cases h
  | ok sg =>
    rw [hg] at h
    simp only [] at h
    cases hd : InitialDual (InitialLabeling sg) with
    | error e => rw [hd] at h; cases h
    | ok s2 =>
      rw [hd] at h
      simp only [Except.ok.injEq] at h
      subst h
      obtain ⟨_, g2, g3, g4⟩ := SetupGraph_frame s sg hg
      have hvg : sg.Valid := by
        unfold SoSPD.Valid LabelsInRange
        rw [g3, g4, g2]
        exact hv
      exact InitialDual_HeightsConsistent _ s2 (Valid_InitialLabeling hvg) hd

/-- C24. Height consistency.  The stored heights agree with `ComputeHeight`, that is
`Height(i, l)` is `unary(i, l)` plus the sum over the (clique, position) pairs in the
node-clique list of `i` of `dual(clique, position, l)`, for every variable `i` and label
`l` of the model: after `InitialDual` and `InitialNodeCliqueList` on a valid state; and, on
a state with a well-formed model and the node-clique list built by
`InitialNodeCliqueList` where it holds before, after `UpdatePrimalDual` (fusion labels of
the clique members in range, flow-potential vectors of length `k` per clique), after
`PostEditDual` (current labels in range) and after `LowerBound`.  Where it holds,
`ComputeHeightDiff(i, l1, l2) = Height(i, l1) - Height(i, l2)`. -/
theorem C24_height_consistency :
    (∀ s s1 : SoSPD, s.Valid → InitialDual s = .ok s1 →
      HeightsConsistent (InitialNodeCliqueList s1)) ∧
    (∀ (oracle : FlowOracle) (s : SoSPD), s.m_energy.WF → NodeCliqueListBuilt s →
      HeightsConsistent s →
      (∀ c ∈ s.m_energy.cliques, ∀ v ∈ c.nodes, s.m_fusion_labels v < s.m_num_labels) →
      (∀ ci c, s.m_energy.cliques[ci]? = some c →
        (flowPotentials oracle s ci).length = c.size) →
      HeightsConsistent (UpdatePrimalDual oracle s).1) ∧
    (∀ s s' : SoSPD, s.Valid → NodeCliqueListBuilt s → HeightsConsistent s →
      PostEditDual s = .ok s' → HeightsConsistent s') ∧
    (∀ s s' : SoSPD, s.m_energy.WF → NodeCliqueListBuilt s → HeightsConsistent s →
      LowerBound s = .ok s' → HeightsConsistent s') ∧
    (∀ s : SoSPD, HeightsConsistent s → ∀ i < s.m_energy.numVars,
      ∀ l1 < s.m_num_labels, ∀ l2 < s.m_num_labels,
        s.Height i l1 = ComputeHeight s i l1 ∧
        ComputeHeightDiff s i l1 l2 = s.Height i l1 - s.Height i l2) := by
  refine ⟨InitialDual_HeightsConsistent,
    fun oracle s hwf hncl h hfus hphi =>
      UpdatePrimalDual_HeightsConsistent oracle s hwf hncl h hfus hphi,
    fun s s' hv hncl h hrun => PostEditDual_HeightsConsistent s s' hv hncl h hrun,
    fun s s' hwf hncl h hrun => LowerBound_HeightsConsistent s s' hwf hncl h hrun,
    fun s h i hi l1 hl1 l2 hl2 => ⟨h i hi l1 hl1, ?_⟩⟩
  rw [ComputeHeightDiff_eq_sub, h i hi l1 hl1, h i hi l2 hl2]

theorem tripleEnergy_WF : tripleEnergy.WF := by
  refine ⟨by decide, ?_, ?_⟩
  · intro c hc v hv
    simp only [tripleEnergy, List.mem_singleton] at hc
    subst hc
    simp only [tripleClique, List.mem_cons, List.mem_singleton] at hv
    rcases hv with rfl | rfl | rfl | hv
    · decide
    · decide
    · decide
    · simp at hv
  · decide

theorem exampleProposedState_HeightsConsistent : HeightsConsistent exampleProposedState := by
  have hrun : observe (Solve_init (SoSPD.new exampleEnergy)) (fun _ => ()) = some () := by
    decide
  obtain ⟨s0, hs0, _⟩ := observe_eq_some hrun
  have h0 : exampleInitState = s0 := okOr_eq hs0
  unfold exampleProposedState
  rw [h0]
  exact Solve_init_HeightsConsistent (SoSPD.new exampleEnergy) s0 exampleEnergy_new_Valid
    rfl hs0

theorem exampleProposedState_Valid : exampleProposedState.Valid := by
  refine ⟨exampleProposedState_Consistent.1, by decide!, ?_⟩
  unfold LabelsInRange
  decide!

theorem tripleInitState_spec :
    tripleInitState.m_energy.WF ∧ NodeCliqueListBuilt tripleInitState ∧
      HeightsConsistent tripleInitState := by
  have hrun : observe (Solve_init (SoSPD.new tripleEnergy)) (fun _ => ()) = some () := by
    decide!
  obtain ⟨s0, hs0, _⟩ := observe_eq_some hrun
  have h0 : tripleInitState = s0 := okOr_eq hs0
  rw [h0]
  have hc := Solve_init_Consistent (SoSPD.new tripleEnergy) s0 tripleEnergy_WF rfl rfl hs0
  exact ⟨hc.1, hc.2.1,
    Solve_init_HeightsConsistent (SoSPD.new tripleEnergy) s0
      ⟨tripleEnergy_WF, rfl, fun _ _ => Nat.zero_lt_two⟩ rfl hs0⟩

theorem C24_height_consistency_witness :
    (∃ s1, InitialDual (InitialLabeling (SoSPD.new exampleEnergy)) = .ok s1 ∧
      HeightsConsistent (InitialNodeCliqueList s1)) ∧
    HeightsConsistent (UpdatePrimalDual examplePhiOracle exampleProposedState).1 ∧
    (∃ s2, PostEditDual exampleProposedState = .ok s2 ∧ HeightsConsistent s2) ∧
    (∃ s3, LowerBound tripleInitState = .ok s3 ∧ HeightsConsistent s3) ∧
    ComputeHeightDiff exampleProposedState 0 0 1
      = exampleProposedState.Height 0 0 - exampleProposedState.Height 0 1 := by
  have hen := exampleProposedState_energy
  have hcons := exampleProposedState_Consistent
  have hhc := exampleProposedState_HeightsConsistent
  have hfus : ∀ c ∈ exampleProposedState.m_energy.cliques, ∀ v ∈ c.nodes,
      exampleProposedState.m_fusion_labels v < exampleProposedState.m_num_labels := by
    intro c hc
    rw [hen] at hc
    simp only [exampleEnergy, List.mem_singleton] at hc
    subst hc
    decide!
  have hphi : ∀ ci c, exampleProposedState.m_energy.cliques[ci]? = some c →
      (flowPotentials examplePhiOracle exampleProposedState ci).length = c.size := by
    intro ci c h
    rw [hen] at h
    obtain ⟨rfl, rfl⟩ := exampleEnergy_clique_at h
    decide!
  have hrunA : observe (InitialDual (InitialLabeling (SoSPD.new exampleEnergy)))
      (fun _ => ()) = some () := by decide!
  obtain ⟨s1, hs1, _⟩ := observe_eq_some hrunA
  have hrunC : observe (PostEditDual exampleProposedState) (fun _ => ()) = some () := by
    decide!
  obtain ⟨s2, hs2, _⟩ := observe_eq_some hrunC
  have hrunD : observe (LowerBound tripleInitState) (fun _ => ()) = some () := by
    decide!
  obtain ⟨s3, hs3, _⟩ := observe_eq_some hrunD
  obtain ⟨hwf3, hncl3, hhc3⟩ := tripleInitState_spec
  exact ⟨⟨s1, hs1, C24_height_consistency.1 _ s1
      (Valid_InitialLabeling exampleEnergy_new_Valid) hs1⟩,
    C24_height_consistency.2.1 examplePhiOracle exampleProposedState hcons.1 hcons.2.1 hhc
      hfus hphi,
    ⟨s2, hs2, C24_height_consistency.2.2.1 exampleProposedState s2
      exampleProposedState_Valid hcons.2.1 hhc hs2⟩,
    ⟨s3, hs3, C24_height_consistency.2.2.2.1 tripleInitState s3 hwf3 hncl3 hhc3 hs3⟩,
    (C24_height_consistency.2.2.2.2 exampleProposedState hhc 0 (by decide!) 0 (by decide!)
      1 (by decide!)).2⟩

/-! ### The convergence scenario -/

theorem InitialDual_m_pc (s s' : SoSPD) (h : InitialDual s = .ok s') : s'.m_pc = s.m_pc := by
  unfold InitialDual at h
  exact forCliques_frame (fun s => s.m_pc) _
    (fun i c s s' h => by
      unfold InitialDual_clique at h
      simp only [] at h
      split_ifs at h
      simp only [Except.ok.injEq] at h
      subst h
      rfl) _ _ _ _ h

theorem Solve_init_labels (s s' : SoSPD) (h0 : s.m_iter = 0) (h : Solve_init s = .ok s') :
    s'.m_labels = (InitialLabeling s).m_labels ∧ s'.m_pc = s.m_pc := by
  unfold Solve_init at h
  rw [if_pos h0] at h
  cases hg : SetupGraph s with
  | error e => rw [hg] at h; cases h
  | ok sg =>
    rw [hg] at h
    simp only [] at h
    cases hd : InitialDual (InitialLabeling sg) with
    | error e => rw [hd] at h; cases h
    | ok s2 =>
      rw [hd] at h
      simp only [Except.ok.injEq] at h
      subst h
      have hsg : (InitialLabeling sg).m_labels = (InitialLabeling s).m_labels ∧
          sg.m_pc = s.m_pc := by
        unfold SetupGraph at hg
        simp only [] at hg
        cases hl : forCliques SetupGraph_clique s.m_energy.cliques 0
            (s.m_ibfs.AddNode s.m_energy.numVars) with
        | error e => rw [hl] at hg; cases hg
        | ok crf =>
          rw [hl] at hg
          simp only [Except.ok.injEq] at hg
          subst hg
          exact ⟨rfl, rfl⟩
      refine ⟨?_, ?_⟩
      · show s2.m_labels = _
        rw [(InitialDual_frame _ s2 hd).2.1, hsg.1]
      · show s2.m_pc = _
        rw [InitialDual_m_pc _ s2 hd]
        exact hsg.2

theorem Solve_iteration_pre (oracle : FlowOracle) (s s' : SoSPD)
    (hit : Solve_iteration oracle s = .ok s') : ∃ s1, PreEditDual s = .ok s1 := by
  unfold Solve_iteration at hit
  cases hp : PreEditDual s with
  | error e => rw [hp] at hit; cases hit
  | ok s1 => exact ⟨s1, rfl⟩

theorem Solve_iteration_min (oracle : FlowOracle) (s s1 s' : SoSPD)
    (hc : s.Consistent) (hpre : PreEditDual s = .ok s1)
    (hit : Solve_iteration oracle s = .ok s')
    (hmin : (SetupAlphaEnergy s1 s1.m_ibfs).IsMinCut
      (binaryLabels (oracle (SetupAlphaEnergy s1 s1.m_ibfs)))) :
    (∀ i < s.m_energy.numVars, s'.m_labels i
      = fusedLabels s (binaryLabels (oracle (SetupAlphaEnergy s1 s1.m_ibfs))) i) ∧
    ∀ y : Nat → Bool,
      s.m_energy.ComputeEnergy s'.m_labels ≤ s.m_energy.ComputeEnergy (fusedLabels s y) := by
  obtain ⟨K, hK⟩ := binary_objective s s1 hc hpre
  obtain ⟨a1, a2, _, _, _, a6, _⟩ := PreEditDual_spec s s1 hpre
  unfold Solve_iteration at hit
  rw [hpre] at hit
  simp only [] at hit
  cases hq : PostEditDual (UpdatePrimalDual oracle s1).1 with
  | error e => rw [hq] at hit; cases hit
  | ok s2 =>
    rw [hq] at hit
    simp only [Except.ok.injEq] at hit
    subst hit
    obtain ⟨_, b2, _, b4, _⟩ := PostEditDual_frame _ s2 hq
    have hlab : ∀ i < s.m_energy.numVars, s2.m_labels i
        = fusedLabels s (binaryLabels (oracle (SetupAlphaEnergy s1 s1.m_ibfs))) i := by
      intro i hi
      rw [b2, UpdatePrimalDual_m_labels, a6, a1, a2]
      unfold fusedLabels binaryLabels
      by_cases hl : (oracle (SetupAlphaEnergy s1 s1.m_ibfs)).label i = 1
      · rw [if_pos ⟨hi, hl⟩]
        simp [hl]
      · rw [if_neg (fun h => hl h.2)]
        simp [hl]
    refine ⟨hlab, fun y => ?_⟩
    show s.m_energy.ComputeEnergy s2.m_labels ≤ _
    rw [ComputeEnergy_congr _ hc.1 s2.m_labels _ hlab]
    have hle := hmin y
    rw [hK, hK] at hle
    omega

theorem proposal_const (t : SoSPD)
    (hpc : t.m_pc = ProposalCallback.alpha ∨ t.m_pc = ProposalCallback.heightAlpha) :
    ∃ a : Nat, (t.m_pc = ProposalCallback.alpha → a = t.m_iter % t.m_num_labels) ∧
      ∀ i < t.m_energy.numVars, proposal t i = (a : Int) := by
  rcases hpc with h | h
  · refine ⟨t.m_iter % t.m_num_labels, fun _ => rfl, fun i hi => ?_⟩
    unfold proposal
    rw [h]
    show ((fillRange t.m_energy.numVars (t.m_iter % t.m_num_labels) t.m_fusion_labels i : Nat)
      : Int) = _
    rw [fillRange_apply, if_pos hi]
  · refine ⟨(bestHeightAlpha t).2, fun h2 => ?_, fun i hi => ?_⟩
    · rw [h] at h2
      cases h2
    · unfold proposal
      rw [h]
      show ((fillRange t.m_energy.numVars (bestHeightAlpha t).2 t.m_fusion_labels i : Nat)
        : Int) = _
      rw [fillRange_apply, if_pos hi]

theorem fusion_const (t : SoSPD) (hnl : 1 ≤ t.m_num_labels)
    (hpc : t.m_pc = ProposalCallback.alpha ∨ t.m_pc = ProposalCallback.heightAlpha) :
    ∃ f : Nat, f < t.m_num_labels ∧
      (t.m_pc = ProposalCallback.alpha → f = t.m_iter % t.m_num_labels) ∧
      (∀ i < t.m_energy.numVars, (InitialFusionLabeling t).1.m_fusion_labels i = f) ∧
      ((∃ i < t.m_energy.numVars, t.m_labels i ≠ f) → (InitialFusionLabeling t).2 = true) := by
  obtain ⟨a, ha, hprop⟩ := proposal_const t hpc
  have hr := clampLabel_range t.m_num_labels hnl (a : Int)
  refine ⟨(clampLabel t.m_num_labels (a : Int)).toNat, by omega, fun h => ?_, fun i hi => ?_,
    fun hex => ?_⟩
  · have hlt : t.m_iter % t.m_num_labels < t.m_num_labels := Nat.mod_lt _ (by omega)
    have ha2 := ha h
    have hc := (clampLabel_cases t.m_num_labels hnl (a : Int)).1 (by omega) (by omega)
    rw [hc, ← ha2]
    exact Int.toNat_ofNat a
  · rw [InitialFusionLabeling_fusion, if_pos hi, hprop i hi]
  · obtain ⟨i, hi, hne⟩ := hex
    rw [InitialFusionLabeling_flag]
    refine ⟨i, hi, ?_⟩
    rw [hprop i hi]
    exact hne

theorem Solve_loop_step (e : MLE) (pc : ProposalCallback) (oracle : FlowOracle)
    (t t1 : SoSPD)
    (hpc : pc = ProposalCallback.alpha ∨ pc = ProposalCallback.heightAlpha)
    (hr : RunState e pc t) (hnl : 1 ≤ e.numLabels)
    (hexact : ∀ s s1 : SoSPD, s.Consistent → s.m_energy = e → PreEditDual s = .ok s1 →
      (SetupAlphaEnergy s1 s1.m_ibfs).IsMinCut
        (binaryLabels (oracle (SetupAlphaEnergy s1 s1.m_ibfs))))
    (hit : Solve_iteration oracle (InitialFusionLabeling t).1 = .ok t1) :
    RunState e pc t1 ∧ t1.m_iter = t.m_iter + 1 ∧
      ∃ f : Nat, f < e.numLabels ∧
        (pc = ProposalCallback.alpha → f = t.m_iter % e.numLabels) ∧
        (∀ i < e.numVars, t1.m_labels i = t.m_labels i ∨ t1.m_labels i = f) ∧
        e.ComputeEnergy t1.m_labels ≤ e.ComputeEnergy t.m_labels ∧
        e.ComputeEnergy t1.m_labels ≤ e.ComputeEnergy (fun _ => f) := by
  obtain ⟨hc, hen, hnum, hpct, hrange⟩ := hr
  have hc1 : (InitialFusionLabeling t).1.Consistent := InitialFusionLabeling_Consistent t hc
  have hen1 : (InitialFusionLabeling t).1.m_energy = e := hen
  obtain ⟨s1, hpre⟩ := Solve_iteration_pre oracle _ t1 hit
  have hmin := hexact _ s1 hc1 hen1 hpre
  obtain ⟨hlab, hE⟩ := Solve_iteration_min oracle _ s1 t1 hc1 hpre hit hmin
  obtain ⟨g1, g2, g3, g4⟩ := Solve_iteration_frame oracle _ t1 hit
  have hnl1 : 1 ≤ t.m_num_labels := by rw [hnum]; exact hnl
  obtain ⟨f, hf1, hf2, hf3, _⟩ := fusion_const t hnl1 (by rw [hpct]; exact hpc)
  rw [hen1] at hlab hE
  have hlab2 : ∀ i < e.numVars, t1.m_labels i = t.m_labels i ∨ t1.m_labels i = f := by
    intro i hi
    rw [hlab i hi]
    unfold fusedLabels
    split_ifs
    · exact Or.inr (hf3 i (by rw [hen]; exact hi))
    · exact Or.inl rfl
  have hwf : e.WF := by rw [← hen]; exact hc.1
  refine ⟨⟨Solve_iteration_Consistent oracle _ t1 hc1 hit, g2.trans hen1, ?_, ?_, ?_⟩,
    g1, f, by rw [← hnum]; exact hf1, fun h => ?_, hlab2, ?_, ?_⟩
  · rw [g3]
    exact hnum
  · rw [g4]
    exact hpct
  · intro i hi
    have hi2 : i < e.numVars := by
      rw [g2] at hi
      rw [← hen1]
      exact hi
    rw [g3]
    show t1.m_labels i < t.m_num_labels
    rcases hlab2 i hi2 with h | h
    · rw [h]
      exact hrange i (by rw [hen]; exact hi2)
    · rw [h]
      exact hf1
  · rw [← hnum]
    exact hf2 (by rw [hpct]; exact h)
  · have h0 := hE (fun _ => false)
    rw [fusedLabels_false] at h0
    exact h0
  · have h1 := hE (fun _ => true)
    rw [ComputeEnergy_congr e hwf
      (fusedLabels (InitialFusionLabeling t).1 (fun _ => true)) (fun _ => f)
      (fun i hi => by
        unfold fusedLabels
        rw [if_pos rfl]
        exact hf3 i (by rw [hen]; exact hi))] at h1
    exact h1

theorem Solve_loop_mono (e : MLE) (pc : ProposalCallback) (oracle : FlowOracle)
    (hpc : pc = ProposalCallback.alpha ∨ pc = ProposalCallback.heightAlpha)
    (hnl : 1 ≤ e.numLabels)
    (hexact : ∀ s s1 : SoSPD, s.Consistent → s.m_energy = e → PreEditDual s = .ok s1 →
      (SetupAlphaEnergy s1 s1.m_ibfs).IsMinCut
        (binaryLabels (oracle (SetupAlphaEnergy s1 s1.m_ibfs))))
    (budget : Nat) (t s' : SoSPD) (n : Nat) (hr : RunState e pc t)
    (h : Solve_loop oracle budget t = .ok (s', n)) :
    RunState e pc s' ∧ e.ComputeEnergy s'.m_labels ≤ e.ComputeEnergy t.m_labels := by
  induction budget generalizing t s' n with
  | zero =>
    simp only [Solve_loop, Except.ok.injEq, Prod.mk.injEq] at h
    obtain ⟨rfl, rfl⟩ := h
    exact ⟨hr, le_refl _⟩
  | succ budget ih =>
    simp only [Solve_loop] at h
    by_cases hflag : (InitialFusionLabeling t).2 = true
    swap
    · rw [if_pos hflag] at h
      simp only [Except.ok.injEq, Prod.mk.injEq] at h
      obtain ⟨rfl, rfl⟩ := h
      exact ⟨⟨InitialFusionLabeling_Consistent t hr.1, hr.2.1, hr.2.2.1, hr.2.2.2.1,
        hr.2.2.2.2⟩, le_refl _⟩
    · rw [if_neg (not_not.mpr hflag)] at h
      cases hit : Solve_iteration oracle (InitialFusionLabeling t).1 with
      | error e => rw [hit] at h; simp at h
      | ok t1 =>
        rw [hit] at h
        simp only [] at h
        cases hrec : Solve_loop oracle budget t1 with
        | error e => rw [hrec] at h; simp at h
        | ok r =>
          obtain ⟨s2, m⟩ := r
          rw [hrec] at h
          simp only [Except.ok.injEq, Prod.mk.injEq] at h
          obtain ⟨rfl, rfl⟩ := h
          obtain ⟨hr1, _, f, _, _, _, hE, _⟩ :=
            Solve_loop_step e pc oracle t t1 hpc hr hnl hexact hit
          obtain ⟨hr2, hE2⟩ := ih t1 s2 m hr1 hrec
          exact ⟨hr2, le_trans hE2 hE⟩

theorem Solve_loop_stop_const (oracle : FlowOracle) (budget : Nat) (t s' : SoSPD) (n : Nat)
    (hpc : t.m_pc = ProposalCallback.alpha ∨ t.m_pc = ProposalCallback.heightAlpha)
    (hnl : 1 ≤ t.m_num_labels)
    (h : Solve_loop oracle budget t = .ok (s', n)) (hlt : n < budget) :
    ∀ i < s'.m_energy.numVars, ∀ j < s'.m_energy.numVars, s'.m_labels i = s'.m_labels j := by
  induction budget generalizing t s' n with
  | zero => omega
  | succ budget ih =>
    simp only [Solve_loop] at h
    by_cases hflag : (InitialFusionLabeling t).2 = true
    swap
    · rw [if_pos hflag] at h
      simp only [Except.ok.injEq, Prod.mk.injEq] at h
      obtain ⟨rfl, rfl⟩ := h
      obtain ⟨f, _, _, hf, _⟩ := fusion_const t hnl hpc
      have hstop := InitialFusionLabeling_false t (Bool.eq_false_iff.mpr hflag)
      intro i hi j hj
      rw [hstop i hi, hstop j hj, hf i hi, hf j hj]
    · rw [if_neg (not_not.mpr hflag)] at h
      cases hit : Solve_iteration oracle (InitialFusionLabeling t).1 with
      | error e => rw [hit] at h; simp at h
      | ok t1 =>
        rw [hit] at h
        simp only [] at h
        cases hrec : Solve_loop oracle budget t1 with
        | error e => rw [hrec] at h; simp at h
        | ok r =>
          obtain ⟨s2, m⟩ := r
          rw [hrec] at h
          simp only [Except.ok.injEq, Prod.mk.injEq] at h
          obtain ⟨rfl, rfl⟩ := h
          obtain ⟨_, _, g3, g4⟩ := Solve_iteration_frame oracle _ t1 hit
          exact ih t1 s2 m (by rw [g4]; exact hpc) (by rw [g3]; exact hnl) hrec (by omega)

theorem Solve_loop_succ_of_flag (oracle : FlowOracle) (budget : Nat) (t s' : SoSPD) (k : Nat)
    (hflag : (InitialFusionLabeling t).2 = true)
    (h : Solve_loop oracle (budget + 1) t = .ok (s', k)) :
    ∃ t1 k1, Solve_iteration oracle (InitialFusionLabeling t).1 = .ok t1 ∧
      Solve_loop oracle budget t1 = .ok (s', k1) ∧ k = k1 + 1 := by
  simp only [Solve_loop] at h
  rw [if_neg (not_not.mpr hflag)] at h
  cases hit : Solve_iteration oracle (InitialFusionLabeling t).1 with
  | error e => rw [hit] at h; simp at h
  | ok t1 =>
    rw [hit] at h
    simp only [] at h
    cases hrec : Solve_loop oracle budget t1 with
    | error e => rw [hrec] at h; simp at h
    | ok r =>
      obtain ⟨s2, m⟩ := r
      rw [hrec] at h
      simp only [Except.ok.injEq, Prod.mk.injEq] at h
      obtain ⟨rfl, rfl⟩ := h
      exact ⟨t1, m, rfl, hrec, rfl⟩

theorem scenarioEnergy_ComputeEnergy (u : Nat → Nat → Int) (C M : Int) (x : Nat → Nat) :
    (scenarioEnergy u C M).ComputeEnergy x
      = u 0 (x 0) + u 1 (x 1) + (if x 0 = x 1 then 0 else C) := by
  simp [MLE.ComputeEnergy, scenarioEnergy, pottsClique, List.range_succ]

theorem scenarioEnergy_WF (u : Nat → Nat → Int) (C M : Int)
    (hmax : ∀ i < 2, ∀ l < 2, u i l ≤ M) : (scenarioEnergy u C M).WF := by
  refine ⟨show 1 ≤ 2 by decide, ?_, hmax⟩
  intro c hc v hv
  simp only [scenarioEnergy, List.mem_singleton] at hc
  subst hc
  simp only [pottsClique, List.mem_cons, List.mem_singleton] at hv
  rcases hv with rfl | rfl | hv
  · exact show 0 < 2 by decide
  · exact show 1 < 2 by decide
  · simp at hv

theorem scenario_initial_labels (u : Nat → Nat → Int) (C M : Int) (pc : ProposalCallback)
    (hfav : (u 0 0 < u 0 1 ∧ u 1 1 < u 1 0) ∨ (u 0 1 < u 0 0 ∧ u 1 0 < u 1 1))
    (hmax : ∀ i < 2, ∀ l < 2, u i l ≤ M) :
    ∃ a b : Nat, a + b = 1 ∧ u 0 a < u 0 b ∧ u 1 b < u 1 a ∧
      (InitialLabeling ((SoSPD.new (scenarioEnergy u C M)).SetProposalCallback pc)).m_labels 0
        = a ∧
      (InitialLabeling ((SoSPD.new (scenarioEnergy u C M)).SetProposalCallback pc)).m_labels 1
        = b := by
  have h0 := (InitialLabeling_spec
    ((SoSPD.new (scenarioEnergy u C M)).SetProposalCallback pc) 0).1 (show 0 < 2 by decide)
  have h1 := (InitialLabeling_spec
    ((SoSPD.new (scenarioEnergy u C M)).SetProposalCallback pc) 1).1 (show 1 < 2 by decide)
  generalize (InitialLabeling
    ((SoSPD.new (scenarioEnergy u C M)).SetProposalCallback pc)).m_labels 0 = L0 at h0 ⊢
  generalize (InitialLabeling
    ((SoSPD.new (scenarioEnergy u C M)).SetProposalCallback pc)).m_labels 1 = L1 at h1 ⊢
  have m00 := hmax 0 (by decide) 0 (by decide)
  have m01 := hmax 0 (by decide) 1 (by decide)
  have m10 := hmax 1 (by decide) 0 (by decide)
  have m11 := hmax 1 (by decide) 1 (by decide)
  unfold InitialLabelOf at h0 h1
  have e0 : ((SoSPD.new (scenarioEnergy u C M)).SetProposalCallback pc).m_energy.unary = u :=
    rfl
  have e1 : ((SoSPD.new (scenarioEnergy u C M)).SetProposalCallback pc).m_energy.realMax = M :=
    rfl
  have e2 : ((SoSPD.new (scenarioEnergy u C M)).SetProposalCallback pc).m_num_labels = 2 := rfl
  rw [e0, e1, e2] at h0 h1
  rcases hfav with ⟨f0, f1⟩ | ⟨f0, f1⟩
  · refine ⟨0, 1, rfl, f0, f1, ?_, ?_⟩
    · rcases h0 with ⟨hno, _⟩ | ⟨hl, _, hmin, _⟩
      · exact absurd (lt_of_lt_of_le f0 m01) (hno 0 (by decide))
      · have := hmin 0 (by decide)
        rcases Nat.lt_succ_iff_lt_or_eq.mp hl with h | h
        · omega
        · subst h
          omega
    · rcases h1 with ⟨hno, _⟩ | ⟨hl, _, hmin, _⟩
      · exact absurd (lt_of_lt_of_le f1 m10) (hno 1 (by decide))
      · have := hmin 1 (by decide)
        rcases Nat.lt_succ_iff_lt_or_eq.mp hl with h | h
        · have : L1 = 0 := by omega
          subst this
          omega
        · exact h
  · refine ⟨1, 0, rfl, f0, f1, ?_, ?_⟩
    · rcases h0 with ⟨hno, _⟩ | ⟨hl, _, hmin, _⟩
      · exact absurd (lt_of_lt_of_le f0 m00) (hno 1 (by decide))
      · have := hmin 1 (by decide)
        rcases Nat.lt_succ_iff_lt_or_eq.mp hl with h | h
        · have : L0 = 0 := by omega
          subst this
          omega
        · exact h
    · rcases h1 with ⟨hno, _⟩ | ⟨hl, _, hmin, _⟩
      · exact absurd (lt_of_lt_of_le f1 m11) (hno 0 (by decide))
      · have := hmin 0 (by decide)
        rcases Nat.lt_succ_iff_lt_or_eq.mp hl with h | h
        · omega
        · subst h
          omega

theorem foldl_best_le (g : Bool × Bool → Int) (p : Bool × Bool) :
    g ([(true, false), (false, true), (true, true)].foldl
      (fun (b q : Bool × Bool) => if g q < g b then q else b) (false, false)) ≤ g p := by
  simp only [List.foldl]
  obtain ⟨p1, p2⟩ := p
  by_cases h1 : g (true, false) < g (false, false)
  · rw [if_pos h1]
    by_cases h2 : g (false, true) < g (true, false)
    · rw [if_pos h2]
      by_cases h3 : g (true, true) < g (false, true)
      · rw [if_pos h3]
        cases p1 <;> cases p2 <;> omega
      · rw [if_neg h3]
        cases p1 <;> cases p2 <;> omega
    · rw [if_neg h2]
      by_cases h3 : g (true, true) < g (true, false)
      · rw [if_pos h3]
        cases p1 <;> cases p2 <;> omega
      · rw [if_neg h3]
        cases p1 <;> cases p2 <;> omega
  · rw [if_neg h1]
    by_cases h2 : g (false, true) < g (false, false)
    · rw [if_pos h2]
      by_cases h3 : g (true, true) < g (false, true)
      · rw [if_pos h3]
        cases p1 <;> cases p2 <;> omega
      · rw [if_neg h3]
        cases p1 <;> cases p2 <;> omega
    · rw [if_neg h2]
      by_cases h3 : g (true, true) < g (false, false)
      · rw [if_pos h3]
        cases p1 <;> cases p2 <;> omega
      · rw [if_neg h3]
        cases p1 <;> cases p2 <;> omega

theorem bruteBest2_le (crf : Flow) (p : Bool × Bool) :
    crf.ComputeEnergy (pairLabeling (bruteBest2 crf)) ≤ crf.ComputeEnergy (pairLabeling p) :=
  foldl_best_le (fun q => crf.ComputeEnergy (pairLabeling q)) p

theorem binaryLabels_bruteOracle2 (crf : Flow) :
    binaryLabels (bruteOracle2 crf) = pairLabeling (bruteBest2 crf) := by
  funext i
  unfold binaryLabels bruteOracle2
  cases h : pairLabeling (bruteBest2 crf) i <;> simp [h]

theorem bruteOracle2_exact (s s1 : SoSPD) (hc : s.Consistent) (hn : s.m_energy.numVars = 2)
    (hpre : PreEditDual s = .ok s1) :
    (SetupAlphaEnergy s1 s1.m_ibfs).IsMinCut
      (binaryLabels (bruteOracle2 (SetupAlphaEnergy s1 s1.m_ibfs))) := by
  intro y
  obtain ⟨K, hK⟩ := binary_objective s s1 hc hpre
  rw [binaryLabels_bruteOracle2]
  have hle := bruteBest2_le (SetupAlphaEnergy s1 s1.m_ibfs) (y 0, y 1)
  have hy : (SetupAlphaEnergy s1 s1.m_ibfs).ComputeEnergy (pairLabeling (y 0, y 1))
      = (SetupAlphaEnergy s1 s1.m_ibfs).ComputeEnergy y := by
    rw [hK, hK]
    congr 1
    apply ComputeEnergy_congr _ hc.1
    intro i hi
    rw [hn] at hi
    unfold fusedLabels pairLabeling
    rcases Nat.lt_succ_iff_lt_or_eq.mp hi with h | h
    · have h0 : i = 0 := by omega
      subst h0
      rfl
    · subst h
      rfl
  rw [hy] at hle
  exact hle

/-- C25, counterexample. With the exact flow result `bruteOracle2` (the first binary
labeling of least objective, flow potentials 0):
on `exampleEnergy2` (unary costs `(0, 100)` and `(100, 0)`, `C = 10`; the total energies of
the labelings `(0, 1)`, `(0, 0)`, `(1, 1)`, `(1, 0)` are 10, 100, 100 and 210) `Solve` does
not stop by convergence: with the default best-height proposal and with cyclic
alpha-expansion, `Solve(4)` completes 4 iterations and `Solve(7)` completes 7, each time
leaving the labeling `(0, 1)` of least total energy 10; the loop is ended by the budget.
On `exampleEnergy4` (unary costs `(0, 7)` and `(20, 0)`, `C = 10`; total energies 10, 20, 7
and 37) with the default best-height proposal, label 1 is never proposed: `Solve(5)`
completes 5 iterations and `Solve(9)` completes 9, each time leaving the labeling `(0, 1)`
of total energy 10, while the labeling `(1, 1)` has total energy 7; neither convergence nor
the minimum is reached. -/
theorem C25_budget_exhausted_on_scenario :
    exampleEnergy2 = scenarioEnergy exampleEnergy2.unary 10 1000 ∧
    observe (SolveCount bruteOracle2 4 (SoSPD.new exampleEnergy2))
        (fun r => (r.2, r.1.m_labels 0, r.1.m_labels 1,
          r.1.m_energy.ComputeEnergy r.1.m_labels)) = some (4, 0, 1, 10) ∧
    observe (SolveCount bruteOracle2 7 (SoSPD.new exampleEnergy2))
        (fun r => (r.2, r.1.m_labels 0, r.1.m_labels 1,
          r.1.m_energy.ComputeEnergy r.1.m_labels)) = some (7, 0, 1, 10) ∧
    observe (SolveCount bruteOracle2 4 (SoSPD.new exampleEnergy2).SetAlphaExpansion)
        (fun r => (r.2, r.1.m_labels 0, r.1.m_labels 1,
          r.1.m_energy.ComputeEnergy r.1.m_labels)) = some (4, 0, 1, 10) ∧
    observe (SolveCount bruteOracle2 7 (SoSPD.new exampleEnergy2).SetAlphaExpansion)
        (fun r => (r.2, r.1.m_labels 0, r.1.m_labels 1,
          r.1.m_energy.ComputeEnergy r.1.m_labels)) = some (7, 0, 1, 10) ∧
    (exampleEnergy4.unary 0 0 < exampleEnergy4.unary 0 1 ∧
      exampleEnergy4.unary 1 1 < exampleEnergy4.unary 1 0) ∧
    (exampleEnergy4.ComputeEnergy (fun i => i), exampleEnergy4.ComputeEnergy (fun _ => 0),
      exampleEnergy4.ComputeEnergy (fun _ => 1), exampleEnergy4.ComputeEnergy (fun i => 1 - i))
      = (10, 20, 7, 37) ∧
    observe (SolveCount bruteOracle2 5 (SoSPD.new exampleEnergy4))
        (fun r => (r.2, r.1.m_labels 0, r.1.m_labels 1,
          r.1.m_energy.ComputeEnergy r.1.m_labels)) = some (5, 0, 1, 10) ∧
    observe (SolveCount bruteOracle2 9 (SoSPD.new exampleEnergy4))
        (fun r => (r.2, r.1.m_labels 0, r.1.m_labels 1,
          r.1.m_energy.ComputeEnergy r.1.m_labels)) = some (9, 0, 1, 10) := by
  refine ⟨rfl, ?_, ?_, ?_, ?_, ⟨by decide, by decide⟩, by decide, ?_, ?_⟩ <;> decide!

theorem scenario_init (u : Nat → Nat → Int) (C M : Int)
    (pc : ProposalCallback) (oracle : FlowOracle) (n k : Nat) (s' : SoSPD)
    (hfav : (u 0 0 < u 0 1 ∧ u 1 1 < u 1 0) ∨ (u 0 1 < u 0 0 ∧ u 1 0 < u 1 1))
    (hmax : ∀ i < 2, ∀ l < 2, u i l ≤ M)
    (hrun : SolveCount oracle n
      ((SoSPD.new (scenarioEnergy u C M)).SetProposalCallback pc) = .ok (s', k)) :
    ∃ (sI : SoSPD) (a b : Nat), Solve_loop oracle n sI = .ok (s', k) ∧
      RunState (scenarioEnergy u C M) pc sI ∧ sI.m_iter = 0 ∧
      a + b = 1 ∧ u 0 a < u 0 b ∧ u 1 b < u 1 a ∧ sI.m_labels 0 = a ∧ sI.m_labels 1 = b ∧
      (InitialLabeling ((SoSPD.new (scenarioEnergy u C M)).SetProposalCallback pc)).m_labels 0
        = a ∧
      (InitialLabeling ((SoSPD.new (scenarioEnergy u C M)).SetProposalCallback pc)).m_labels 1
        = b := by
  have hwf := scenarioEnergy_WF u C M hmax
  unfold SolveCount at hrun
  cases hi : Solve_init ((SoSPD.new (scenarioEnergy u C M)).SetProposalCallback pc) with
  | error f => rw [hi] at hrun; cases hrun
  | ok sI =>
    rw [hi] at hrun
    simp only [] at hrun
    obtain ⟨i1, i2, i3⟩ := Solve_init_frame _ sI hi
    obtain ⟨i4, i5⟩ := Solve_init_labels _ sI rfl hi
    have hcI := Solve_init_Consistent _ sI hwf rfl rfl hi
    obtain ⟨a, b, hab, hua, hub, hla, hlb⟩ := scenario_initial_labels u C M pc hfav hmax
    have hI0 : sI.m_labels 0 = a := by rw [i4]; exact hla
    have hI1 : sI.m_labels 1 = b := by rw [i4]; exact hlb
    have hen : sI.m_energy = scenarioEnergy u C M := i2
    have hnum : sI.m_num_labels = 2 := i3
    refine ⟨sI, a, b, hrun, ⟨hcI, hen, hnum, i5, ?_⟩, i1, hab, hua, hub, hI0, hI1, hla, hlb⟩
    intro i hi2
    rw [hen] at hi2
    rw [hnum]
    rcases Nat.lt_succ_iff_lt_or_eq.mp (show i < 2 from hi2) with h | h
    · have h0 : i = 0 := by omega
      subst h0
      omega
    · subst h
      omega

theorem scenario_general (u : Nat → Nat → Int) (C M : Int)
    (pc : ProposalCallback) (oracle : FlowOracle) (n k : Nat) (s' : SoSPD)
    (hfav : (u 0 0 < u 0 1 ∧ u 1 1 < u 1 0) ∨ (u 0 1 < u 0 0 ∧ u 1 0 < u 1 1))
    (hmax : ∀ i < 2, ∀ l < 2, u i l ≤ M)
    (hpc : pc = ProposalCallback.alpha ∨ pc = ProposalCallback.heightAlpha)
    (hexact : ∀ s s1 : SoSPD, s.Consistent → s.m_energy = scenarioEnergy u C M →
      PreEditDual s = .ok s1 →
      (SetupAlphaEnergy s1 s1.m_ibfs).IsMinCut
        (binaryLabels (oracle (SetupAlphaEnergy s1 s1.m_ibfs))))
    (hrun : SolveCount oracle n
      ((SoSPD.new (scenarioEnergy u C M)).SetProposalCallback pc) = .ok (s', k)) :
    k ≤ n ∧ (k < n → s'.m_labels 0 = s'.m_labels 1) ∧
    s'.m_labels 0 < 2 ∧ s'.m_labels 1 < 2 ∧
    (scenarioEnergy u C M).ComputeEnergy s'.m_labels
      ≤ (scenarioEnergy u C M).ComputeEnergy
        (InitialLabeling ((SoSPD.new (scenarioEnergy u C M)).SetProposalCallback pc)).m_labels ∧
    ((∀ l < 2, ∃ x : Nat → Nat, x 0 < 2 ∧ x 1 < 2 ∧
        (scenarioEnergy u C M).ComputeEnergy x
          < (scenarioEnergy u C M).ComputeEnergy (fun _ => l)) →
      k = n ∧ ∀ x : Nat → Nat, x 0 < 2 → x 1 < 2 →
        (scenarioEnergy u C M).ComputeEnergy s'.m_labels
          ≤ (scenarioEnergy u C M).ComputeEnergy x) := by
  have hwf := scenarioEnergy_WF u C M hmax
  have hnl : 1 ≤ (scenarioEnergy u C M).numLabels := hwf.1
  obtain ⟨sI, a, b, hloop, hrI, _, hab, hua, hub, hI0, hI1, hla, hlb⟩ :=
    scenario_init u C M pc oracle n k s' hfav hmax hrun
  obtain ⟨c1, _⟩ := Solve_loop_count oracle n sI s' k hloop
  have hen' : s'.m_energy = scenarioEnergy u C M :=
    (Solve_loop_energy oracle n sI s' k hloop).trans hrI.2.1
  obtain ⟨hr', hE'⟩ := Solve_loop_mono (scenarioEnergy u C M) pc oracle hpc hnl hexact
    n sI s' k hrI hloop
  have hrange := hr'.2.2.2.2
  have hs0 : s'.m_labels 0 < 2 := by
    have := hrange 0 (by rw [hen']; exact Nat.zero_lt_two)
    rw [hr'.2.2.1] at this
    exact this
  have hs1 : s'.m_labels 1 < 2 := by
    have := hrange 1 (by rw [hen']; exact Nat.one_lt_two)
    rw [hr'.2.2.1] at this
    exact this
  have hstop : k < n → s'.m_labels 0 = s'.m_labels 1 := fun hlt =>
    Solve_loop_stop_const oracle n sI s' k (by rw [hrI.2.2.2.1]; exact hpc)
      (by rw [hrI.2.2.1]; exact hnl) hloop hlt 0 (by rw [hen']; exact Nat.zero_lt_two)
      1 (by rw [hen']; exact Nat.one_lt_two)
  have hne : ¬ a = b := by omega
  rw [scenarioEnergy_ComputeEnergy, scenarioEnergy_ComputeEnergy, hI0, hI1,
    if_neg hne] at hE'
  refine ⟨c1, hstop, hs0, hs1, ?_, fun hno => ?_⟩
  · rw [scenarioEnergy_ComputeEnergy, scenarioEnergy_ComputeEnergy, hla, hlb, if_neg hne]
    exact hE'
  · obtain ⟨x, hx0, hx1, hxlt⟩ := hno 0 Nat.zero_lt_two
    obtain ⟨y, hy0, hy1, hylt⟩ := hno 1 Nat.one_lt_two
    rw [scenarioEnergy_ComputeEnergy, scenarioEnergy_ComputeEnergy] at hxlt hylt
    simp only [if_true] at hxlt hylt
    have hac : (a = 0 ∧ b = 1) ∨ (a = 1 ∧ b = 0) := by omega
    have hx0c : x 0 = 0 ∨ x 0 = 1 := by omega
    have hx1c : x 1 = 0 ∨ x 1 = 1 := by omega
    have hy0c : y 0 = 0 ∨ y 0 = 1 := by omega
    have hy1c : y 1 = 0 ∨ y 1 = 1 := by omega
    have hbest : u 0 a + u 1 b + C < u 0 0 + u 1 0 ∧ u 0 a + u 1 b + C < u 0 1 + u 1 1 := by
      rcases hac with ⟨rfl, rfl⟩ | ⟨rfl, rfl⟩ <;>
        rcases hx0c with h0 | h0 <;> rcases hx1c with h1 | h1 <;>
        rcases hy0c with g0 | g0 <;> rcases hy1c with g1 | g1 <;>
        rw [h0, h1] at hxlt <;> rw [g0, g1] at hylt <;>
        simp only [if_true, Nat.zero_ne_one, Nat.one_ne_zero, if_false,
          OfNat.zero_ne_ofNat, OfNat.ofNat_ne_zero] at hxlt hylt <;>
        constructor <;> omega
    constructor
    · by_contra hkn
      have heq := hstop (by omega)
      rw [← heq] at hE'
      simp only [if_true] at hE'
      have hsc : s'.m_labels 0 = 0 ∨ s'.m_labels 0 = 1 := by omega
      rcases hsc with h | h <;> rw [h] at hE' <;> omega
    · intro z hz0 hz1
      rw [scenarioEnergy_ComputeEnergy, scenarioEnergy_ComputeEnergy]
      have hz0c : z 0 = 0 ∨ z 0 = 1 := by omega
      have hz1c : z 1 = 0 ∨ z 1 = 1 := by omega
      rcases hac with ⟨rfl, rfl⟩ | ⟨rfl, rfl⟩ <;>
        rcases hz0c with h0 | h0 <;> rcases hz1c with h1 | h1 <;>
        rw [h0, h1] <;> simp only [if_true, Nat.zero_ne_one, Nat.one_ne_zero, if_false,
          OfNat.zero_ne_ofNat, OfNat.ofNat_ne_zero] <;> omega

theorem scenario_alpha (u : Nat → Nat → Int) (C M : Int)
    (oracle : FlowOracle) (n k : Nat) (s' : SoSPD)
    (hfav : (u 0 0 < u 0 1 ∧ u 1 1 < u 1 0) ∨ (u 0 1 < u 0 0 ∧ u 1 0 < u 1 1))
    (hmax : ∀ i < 2, ∀ l < 2, u i l ≤ M)
    (hexact : ∀ s s1 : SoSPD, s.Consistent → s.m_energy = scenarioEnergy u C M →
      PreEditDual s = .ok s1 →
      (SetupAlphaEnergy s1 s1.m_ibfs).IsMinCut
        (binaryLabels (oracle (SetupAlphaEnergy s1 s1.m_ibfs))))
    (hn2 : 2 ≤ n)
    (hrun : SolveCount oracle n
      ((SoSPD.new (scenarioEnergy u C M)).SetProposalCallback ProposalCallback.alpha)
        = .ok (s', k)) :
    2 ≤ k ∧ ∀ x : Nat → Nat, x 0 < 2 → x 1 < 2 →
      (scenarioEnergy u C M).ComputeEnergy s'.m_labels
        ≤ (scenarioEnergy u C M).ComputeEnergy x := by
  have hwf := scenarioEnergy_WF u C M hmax
  have hnl : 1 ≤ (scenarioEnergy u C M).numLabels := hwf.1
  have hpc : ProposalCallback.alpha = ProposalCallback.alpha ∨
      ProposalCallback.alpha = ProposalCallback.heightAlpha := Or.inl rfl
  obtain ⟨sI, a, b, hloop, hrI, hiter, hab, hua, hub, hI0, hI1, _, _⟩ :=
    scenario_init u C M ProposalCallback.alpha oracle n k s' hfav hmax hrun
  have hen : sI.m_energy = scenarioEnergy u C M := hrI.2.1
  have hnum : sI.m_num_labels = 2 := hrI.2.2.1
  have hpcI : sI.m_pc = ProposalCallback.alpha := hrI.2.2.2.1
  obtain ⟨m, rfl⟩ : ∃ m, n = m + 2 := ⟨n - 2, by omega⟩
  -- first iteration: the proposal is label 0
  obtain ⟨f1, _, hf1a, _, hflag1⟩ := fusion_const sI (by rw [hnum]; decide)
    (by rw [hpcI]; exact hpc)
  have hf1 : f1 = 0 := by
    rw [hf1a hpcI, hiter]
    rfl
  have hfl1 : (InitialFusionLabeling sI).2 = true := by
    apply hflag1
    rw [hen, hf1]
    by_cases ha : a = 0
    · exact ⟨1, Nat.one_lt_two, by rw [hI1]; omega⟩
    · exact ⟨0, Nat.zero_lt_two, by rw [hI0]; exact ha⟩
  obtain ⟨t1, k1, hit1, hloop1, hk1⟩ :=
    Solve_loop_succ_of_flag oracle (m + 1) sI s' k hfl1 hloop
  obtain ⟨hr1, hiter1, g1, _, hg1a, hg1l, hE1, hE1c⟩ :=
    Solve_loop_step (scenarioEnergy u C M) ProposalCallback.alpha oracle sI t1 hpc hrI hnl
      hexact hit1
  have hg1 : g1 = 0 := by
    rw [hg1a rfl, hiter]
    rfl
  subst hg1
  have h10 := hg1l 0 Nat.zero_lt_two
  have h11 := hg1l 1 Nat.one_lt_two
  rw [hI0] at h10
  rw [hI1] at h11
  -- second iteration: the proposal is label 1
  obtain ⟨f2, _, hf2a, _, hflag2⟩ := fusion_const t1 (by rw [hr1.2.2.1]; exact hnl)
    (by rw [hr1.2.2.2.1]; exact hpc)
  have hnum1 : t1.m_num_labels = 2 := hr1.2.2.1
  have hf2 : f2 = 1 := by
    rw [hf2a hr1.2.2.2.1, hiter1, hiter, hnum1]
  have hfl2 : (InitialFusionLabeling t1).2 = true := by
    apply hflag2
    rw [hr1.2.1, hf2]
    by_cases ha : a = 0
    · exact ⟨0, Nat.zero_lt_two, by omega⟩
    · exact ⟨1, Nat.one_lt_two, by omega⟩
  obtain ⟨t2, k2, hit2, hloop2, hk2⟩ :=
    Solve_loop_succ_of_flag oracle m t1 s' k1 hfl2 hloop1
  obtain ⟨hr2, _, g2, _, hg2a, _, hE2, hE2c⟩ :=
    Solve_loop_step (scenarioEnergy u C M) ProposalCallback.alpha oracle t1 t2 hpc hr1 hnl
      hexact hit2
  have hg2 : g2 = 1 := by
    rw [hg2a rfl, hiter1, hiter]
    rfl
  subst hg2
  -- the remaining iterations do not increase the energy
  obtain ⟨hr', hE'⟩ := Solve_loop_mono (scenarioEnergy u C M) ProposalCallback.alpha oracle
    hpc hnl hexact m t2 s' k2 hr2 hloop2
  rw [scenarioEnergy_ComputeEnergy] at hE' hE2 hE2c hE1 hE1c
  rw [scenarioEnergy_ComputeEnergy] at hE' hE2 hE2c hE1 hE1c
  rw [hI0, hI1] at hE1
  simp only [if_true] at hE1c hE2c
  have hne : ¬ a = b := by omega
  rw [if_neg hne] at hE1
  refine ⟨by omega, fun x hx0 hx1 => ?_⟩
  rw [scenarioEnergy_ComputeEnergy, scenarioEnergy_ComputeEnergy]
  have hx0c : x 0 = 0 ∨ x 0 = 1 := by omega
  have hx1c : x 1 = 0 ∨ x 1 = 1 := by omega
  have hac : (a = 0 ∧ b = 1) ∨ (a = 1 ∧ b = 0) := by omega
  rcases hac with ⟨rfl, rfl⟩ | ⟨rfl, rfl⟩ <;>
    rcases hx0c with h0 | h0 <;> rcases hx1c with h1 | h1 <;>
    rw [h0, h1] <;> simp only [if_true, Nat.zero_ne_one, Nat.one_ne_zero, if_false,
      OfNat.zero_ne_ofNat, OfNat.ofNat_ne_zero] <;> omega

/-- C25 (amended). On the scenario energy (two variables, two labels, one clique costing 0
on agreement and `C` on disagreement, unary costs that strictly favour different labels,
none above the largest value of `REAL`), with a flow oracle that returns a minimum cut of
every binary problem the run constructs and either of the two shipped proposal strategies,
a call `Solve(n)` on a fresh orchestrator that returns after `k` iterations has `k <= n`;
it stopped before the budget was exhausted (`k < n`) only if both variables hold the same
label; the final labels are labels of the model; the final labeling has at most the total
energy of the labeling computed by `InitialLabeling`; and when no labeling with equal
labels attains the least total energy of the 4 labelings, the budget is exhausted
(`k = n`) and the final labeling has that least total energy.  With cyclic
alpha-expansion and `n >= 2`, at least two iterations are completed and the final labeling
has the least total energy of the 4 labelings in every case. -/
theorem C25_scenario_minimum_and_stop (u : Nat → Nat → Int) (C M : Int)
    (pc : ProposalCallback) (oracle : FlowOracle) (n k : Nat) (s' : SoSPD)
    (hfav : (u 0 0 < u 0 1 ∧ u 1 1 < u 1 0) ∨ (u 0 1 < u 0 0 ∧ u 1 0 < u 1 1))
    (hmax : ∀ i < 2, ∀ l < 2, u i l ≤ M)
    (hpc : pc = ProposalCallback.alpha ∨ pc = ProposalCallback.heightAlpha)
    (hexact : ∀ s s1 : SoSPD, s.Consistent → s.m_energy = scenarioEnergy u C M →
      PreEditDual s = .ok s1 →
      (SetupAlphaEnergy s1 s1.m_ibfs).IsMinCut
        (binaryLabels (oracle (SetupAlphaEnergy s1 s1.m_ibfs))))
    (hrun : SolveCount oracle n
      ((SoSPD.new (scenarioEnergy u C M)).SetProposalCallback pc) = .ok (s', k)) :
    k ≤ n ∧ (k < n → s'.m_labels 0 = s'.m_labels 1) ∧
    s'.m_labels 0 < 2 ∧ s'.m_labels 1 < 2 ∧
    (scenarioEnergy u C M).ComputeEnergy s'.m_labels
      ≤ (scenarioEnergy u C M).ComputeEnergy
        (InitialLabeling ((SoSPD.new (scenarioEnergy u C M)).SetProposalCallback pc)).m_labels ∧
    ((∀ l < 2, ∃ x : Nat → Nat, x 0 < 2 ∧ x 1 < 2 ∧
        (scenarioEnergy u C M).ComputeEnergy x
          < (scenarioEnergy u C M).ComputeEnergy (fun _ => l)) →
      k = n ∧ ∀ x : Nat → Nat, x 0 < 2 → x 1 < 2 →
        (scenarioEnergy u C M).ComputeEnergy s'.m_labels
          ≤ (scenarioEnergy u C M).ComputeEnergy x) ∧
    (pc = ProposalCallback.alpha → 2 ≤ n →
      2 ≤ k ∧ ∀ x : Nat → Nat, x 0 < 2 → x 1 < 2 →
        (scenarioEnergy u C M).ComputeEnergy s'.m_labels
          ≤ (scenarioEnergy u C M).ComputeEnergy x) := by
  obtain ⟨g1, g2, g3, g4, g5, g6⟩ :=
    scenario_general u C M pc oracle n k s' hfav hmax hpc hexact hrun
  refine ⟨g1, g2, g3, g4, g5, g6, fun hal hn2 => ?_⟩
  subst hal
  exact scenario_alpha u C M oracle n k s' hfav hmax hexact hn2 hrun

theorem C25_scenario_minimum_and_stop_witness :
    ((exampleEnergy.unary 0 0 < exampleEnergy.unary 0 1 ∧
        exampleEnergy.unary 1 1 < exampleEnergy.unary 1 0) ∨
      (exampleEnergy.unary 0 1 < exampleEnergy.unary 0 0 ∧
        exampleEnergy.unary 1 0 < exampleEnergy.unary 1 1)) ∧
    (∀ i < 2, ∀ l < 2, exampleEnergy.unary i l ≤ 1000) ∧
    (∃ s', SolveCount bruteOracle2 5
        ((SoSPD.new (scenarioEnergy exampleEnergy.unary 10 1000)).SetProposalCallback
          ProposalCallback.alpha) = .ok (s', 2) ∧
      s'.m_labels 0 = s'.m_labels 1 ∧
      ∀ x : Nat → Nat, x 0 < 2 → x 1 < 2 →
        (scenarioEnergy exampleEnergy.unary 10 1000).ComputeEnergy s'.m_labels
          ≤ (scenarioEnergy exampleEnergy.unary 10 1000).ComputeEnergy x) ∧
    (∀ l < 2, ∃ x : Nat → Nat, x 0 < 2 ∧ x 1 < 2 ∧
      (scenarioEnergy exampleEnergy2.unary 10 1000).ComputeEnergy x
        < (scenarioEnergy exampleEnergy2.unary 10 1000).ComputeEnergy (fun _ => l)) ∧
    ∃ s' k, SolveCount bruteOracle2 4
        ((SoSPD.new (scenarioEnergy exampleEnergy2.unary 10 1000)).SetProposalCallback
          ProposalCallback.heightAlpha) = .ok (s', k) ∧
      k = 4 ∧
      ∀ x : Nat → Nat, x 0 < 2 → x 1 < 2 →
        (scenarioEnergy exampleEnergy2.unary 10 1000).ComputeEnergy s'.m_labels
          ≤ (scenarioEnergy exampleEnergy2.unary 10 1000).ComputeEnergy x := by
  have hfav : (exampleEnergy.unary 0 0 < exampleEnergy.unary 0 1 ∧
        exampleEnergy.unary 1 1 < exampleEnergy.unary 1 0) ∨
      (exampleEnergy.unary 0 1 < exampleEnergy.unary 0 0 ∧
        exampleEnergy.unary 1 0 < exampleEnergy.unary 1 1) := Or.inl ⟨by decide, by decide⟩
  have hmax : ∀ i < 2, ∀ l < 2, exampleEnergy.unary i l ≤ 1000 := by decide
  have hrun : observe (SolveCount bruteOracle2 5
      ((SoSPD.new (scenarioEnergy exampleEnergy.unary 10 1000)).SetProposalCallback
        ProposalCallback.alpha)) (fun r => r.2) = some 2 := by decide!
  obtain ⟨⟨s', k⟩, hr, hk⟩ := observe_eq_some hrun
  simp only [] at hk
  subst hk
  have h := C25_scenario_minimum_and_stop exampleEnergy.unary 10 1000 ProposalCallback.alpha
    bruteOracle2 5 2 s' hfav hmax (Or.inl rfl)
    (fun s s1 hc he hpre => bruteOracle2_exact s s1 hc (by rw [he]; rfl) hpre) hr
  have hno : ∀ l < 2, ∃ x : Nat → Nat, x 0 < 2 ∧ x 1 < 2 ∧
      (scenarioEnergy exampleEnergy2.unary 10 1000).ComputeEnergy x
        < (scenarioEnergy exampleEnergy2.unary 10 1000).ComputeEnergy (fun _ => l) := by
    intro l hl
    refine ⟨fun i => i, Nat.zero_lt_two, Nat.one_lt_two, ?_⟩
    rcases (by omega : l = 0 ∨ l = 1) with h0 | h0 <;> subst h0 <;> decide
  have hrun2 : observe (SolveCount bruteOracle2 4
      ((SoSPD.new (scenarioEnergy exampleEnergy2.unary 10 1000)).SetProposalCallback
        ProposalCallback.heightAlpha)) (fun _ => ()) = some () := by decide!
  obtain ⟨⟨s2, k2⟩, hr2, _⟩ := observe_eq_some hrun2
  have h2 := C25_scenario_minimum_and_stop exampleEnergy2.unary 10 1000
    ProposalCallback.heightAlpha bruteOracle2 4 k2 s2
    (Or.inl ⟨by decide, by decide⟩) (by decide) (Or.inr rfl)
    (fun s s1 hc he hpre => bruteOracle2_exact s s1 hc (by rw [he]; rfl) hpre) hr2
  exact ⟨hfav, hmax, ⟨s', hr, h.2.1 (by decide), (h.2.2.2.2.2.2 rfl (by decide)).2⟩, hno,
    s2, k2, hr2, (h2.2.2.2.2.2.1 hno).1, (h2.2.2.2.2.2.1 hno).2⟩

/-- With the default best-height proposal the label proposed depends on the heights, and so
on the flow potentials the oracle returns.  On unary costs `(0, 7)` and `(20, 0)` with
`C = 10` and the exact flow result `bruteOracle2`, whose flow potentials are all 0, label 1
is never proposed: `Solve(5)` completes 5 iterations and leaves the labeling `(0, 1)` of
total energy 10, while the labeling `(1, 1)` has total energy 7; with cyclic
alpha-expansion the same run ends in `(1, 1)` after 3 iterations. -/
theorem scenario_height_alpha_with_zero_potentials :
    observe (SolveCount bruteOracle2 5
        (SoSPD.new (scenarioEnergy
          (fun i l => if i = 0 then (if l = 0 then 0 else 7) else (if l = 0 then 20 else 0))
          10 1000)))
      (fun r => (r.2, r.1.m_labels 0, r.1.m_labels 1,
        r.1.m_energy.ComputeEnergy r.1.m_labels, r.1.m_energy.ComputeEnergy (fun _ => 1)))
      = some (5, 0, 1, 10, 7) ∧
    observe (SolveCount bruteOracle2 5
        (SoSPD.new (scenarioEnergy
          (fun i l => if i = 0 then (if l = 0 then 0 else 7) else (if l = 0 then 20 else 0))
          10 1000)).SetAlphaExpansion)
      (fun r => (r.2, r.1.m_labels 0, r.1.m_labels 1,
        r.1.m_energy.ComputeEnergy r.1.m_labels)) = some (3, 1, 1, 7) := by
  refine ⟨?_, ?_⟩ <;> decide!

/-! ## Division by the clique size -/

theorem InitialDual_clique_div_zero_iff (ci : Nat) (c : Clique) (s : SoSPD) :
    InitialDual_clique ci c s = .error .divisionByZero ↔
      (c.size = 0 ∧ 0 ≤ c.energy (c.nodes.map s.m_labels)) := by
  unfold InitialDual_clique
  simp only []
  by_cases h1 : c.size < 32
  · rw [if_neg (not_not.mpr h1)]
    by_cases h2 : 0 ≤ c.energy (c.nodes.map s.m_labels)
    · rw [if_neg (not_not.mpr h2)]
      by_cases h3 : c.size = 0
      · rw [if_pos h3]
        exact ⟨fun _ => ⟨h3, h2⟩, fun _ => rfl⟩
      · rw [if_neg h3]
        constructor
        · intro h; cases h
        · rintro ⟨h, _⟩; exact absurd h h3
    · rw [if_pos h2]
      constructor
      · intro h; cases h
      · rintro ⟨_, h⟩; exact absurd h h2
  · rw [if_pos h1]
    constructor
    · intro h; cases h
    · rintro ⟨h, _⟩; omega

theorem PostEditDual_clique_div_zero_iff (ci : Nat) (c : Clique) (s : SoSPD) :
    PostEditDual_clique ci c s = .error .divisionByZero ↔
      (c.size = 0 ∧ correction s ci c ≤ 0) := by
  unfold PostEditDual_clique
  simp only []
  by_cases h1 : c.size < 32
  · rw [if_neg (not_not.mpr h1)]
    by_cases h2 : correction s ci c ≤ 0
    · rw [if_neg (not_not.mpr h2)]
      by_cases h3 : c.size = 0
      · rw [if_pos h3]
        exact ⟨fun _ => ⟨h3, h2⟩, fun _ => rfl⟩
      · rw [if_neg h3]
        constructor
        · intro h; cases h
        · rintro ⟨h, _⟩; exact absurd h h3
    · rw [if_pos h2]
      constructor
      · intro h; cases h
      · rintro ⟨_, h⟩; exact absurd h h2
  · rw [if_pos h1]
    constructor
    · intro h; cases h
    · rintro ⟨h, _⟩; omega

/-- C39 (what the code does). The size check `ASSERT(k < 32)` lets a clique of size 0
through, and the division by `k` that follows is then a division by zero: `InitialDual`
reaches `energy / k` with `k = 0` exactly when the clique has no members and its energy is
not negative, and `PostEditDual` reaches `correction / k` with `k = 0` exactly when the
clique has no members and the correction is not positive.  On `emptyCliqueEnergy`, whose
one clique has no members, the size checks of `SetupGraph` and `InitialDual` pass and
`Solve` ends in the division by zero of `InitialDual`. -/
theorem C39_size_check_admits_zero_divisor :
    (∀ ci c s, InitialDual_clique ci c s = .error .divisionByZero ↔
      (c.size = 0 ∧ 0 ≤ c.energy (c.nodes.map s.m_labels))) ∧
    (∀ ci c s, PostEditDual_clique ci c s = .error .divisionByZero ↔
      (c.size = 0 ∧ correction s ci c ≤ 0)) ∧
    (wideClique 0).size = 0 ∧ (wideClique 0).size < 32 ∧
    observe (SetupGraph (SoSPD.new emptyCliqueEnergy)) (fun s => s.m_ibfs.cliques.length)
      = some 1 ∧
    faultOf (InitialDual (InitialLabeling (SoSPD.new emptyCliqueEnergy)))
      = some Fault.divisionByZero ∧
    faultOf (PostEditDual (SoSPD.new emptyCliqueEnergy)) = some Fault.divisionByZero ∧
    faultOf (Solve stayOracle 1 (SoSPD.new emptyCliqueEnergy))
      = some Fault.divisionByZero := by
  refine ⟨InitialDual_clique_div_zero_iff, PostEditDual_clique_div_zero_iff, by decide,
    by decide, by decide, by decide, by decide, by decide⟩

/-! ## The capacity assertion of `AutoBuffer::push_back` -/

/-- C40 (what the code does). For a full buffer (`size() == capacity()`, capacity at least
1), after `reserve(m_nBufferSize*2)` the assertion `m_nBufferSize > m_nUsedBufferSize + 1`
of `push_back` holds if and only if the capacity was at least 2.  A default-constructed
`AutoBuffer` with `nStaticSize = 1` has size 0 and capacity 1; the first `push_back` fills
it (size 1, capacity 1), and with the debug assertions compiled in the second `push_back`
fails that assertion. -/
theorem C40_capacity_assertion_needs_capacity_two :
    (∀ b : AutoBuffer Nat, b.size = b.capacity → 1 ≤ b.capacity →
      ((b.reserve (b.m_nBufferSize * 2)).m_nBufferSize
          > (b.reserve (b.m_nBufferSize * 2)).m_nUsedBufferSize + 1 ↔ 2 ≤ b.capacity)) ∧
    (∀ b : AutoBuffer Nat, ∀ o : Nat, b.size = b.capacity → 1 ≤ b.capacity →
      (b.push_back true o = .error .capacityNotAboveSizePlusOne ↔ b.capacity = 1)) ∧
    ((AutoBuffer.new Nat 1 0).size, (AutoBuffer.new Nat 1 0).capacity) = (0, 1) ∧
    observeBuffer ((AutoBuffer.new Nat 1 0).push_back true 5)
      (fun b => (b.size, b.capacity, b.get 0,
        bufferFaultOf (b.push_back true 6))) =
      some (1, 1, some 5, some BufferFault.capacityNotAboveSizePlusOne) := by
  have key : ∀ b : AutoBuffer Nat, b.size = b.capacity → 1 ≤ b.capacity →
      ((b.reserve (b.m_nBufferSize * 2)).m_nBufferSize
          > (b.reserve (b.m_nBufferSize * 2)).m_nUsedBufferSize + 1 ↔ 2 ≤ b.capacity) := by
    intro b hfull hcap
    obtain ⟨r1, r2, _⟩ := AutoBuffer_reserve_spec b (b.m_nBufferSize * 2)
    unfold AutoBuffer.size AutoBuffer.capacity at *
    rw [r1, r2, max_eq_right (by omega)]
    omega
  refine ⟨key, ?_, by decide, by decide⟩
  intro b o hfull hcap
  have hk := key b hfull hcap
  unfold AutoBuffer.size AutoBuffer.capacity at *
  unfold AutoBuffer.push_back
  rw [if_neg (fun h => h.2 (le_of_eq hfull)), if_pos hfull]
  by_cases h2 : 2 ≤ b.m_nBufferSize
  · rw [if_neg (fun h => h.2 (hk.mpr h2))]
    constructor
    · intro h; cases h
    · intro h; omega
  · rw [if_pos ⟨rfl, fun h => h2 (hk.mp h)⟩]
    exact ⟨fun _ => by omega, fun _ => rfl⟩

/-! ## `PreEditDual`: the fixed-variable flags and the tightness check -/

theorem resizeFlags_length (v : List Bool) (n : Nat) : (resizeFlags v n).length = n := by
  unfold resizeFlags
  rw [List.length_append, List.length_take, List.length_replicate]
  omega

theorem foldl_set_spec (g : Nat → Bool) (m : Nat) (v : List Bool) :
    ((List.range m).foldl (fun fixedVars i => fixedVars.set i (g i)) v).length = v.length ∧
    ∀ i < v.length,
      ((List.range m).foldl (fun fixedVars i => fixedVars.set i (g i)) v)[i]? =
        if i < m then some (g i) else v[i]? := by
  induction m with
  | zero =>
    refine ⟨rfl, fun i _ => ?_⟩
    rw [if_neg (Nat.not_lt_zero i)]
    rfl
  | succ m ih =>
    rw [List.range_succ, List.foldl_append]
    simp only [List.foldl_cons, List.foldl_nil]
    refine ⟨by rw [List.length_set]; exact ih.1, fun i hi => ?_⟩
    by_cases h : i = m
    · subst h
      rw [if_pos (Nat.lt_succ_self i), List.getElem?_set_self (by rw [ih.1]; exact hi)]
    · rw [List.getElem?_set_ne (fun h2 => h h2.symm), ih.2 i hi]
      by_cases h2 : i < m
      · rw [if_pos h2, if_pos (by omega)]
      · rw [if_neg h2, if_neg (by omega)]

theorem fixedVarsOf_spec (s : SoSPD) :
    (fixedVarsOf s).length = s.m_energy.numVars ∧
    ∀ i < s.m_energy.numVars,
      (fixedVarsOf s)[i]? = some (decide (s.m_labels i = s.m_fusion_labels i)) := by
  unfold fixedVarsOf
  obtain ⟨h1, h2⟩ := foldl_set_spec (fun i => decide (s.m_labels i = s.m_fusion_labels i))
    s.m_energy.numVars (resizeFlags s.m_ibfs.fixedVars s.m_energy.numVars)
  rw [resizeFlags_length] at h1 h2
  refine ⟨h1, fun i hi => ?_⟩
  rw [h2 i hi, if_pos hi]

theorem PreEditDual_fixedVars (s s' : SoSPD) (h : PreEditDual s = .ok s') :
    s'.m_ibfs.fixedVars = fixedVarsOf s := by
  unfold PreEditDual at h
  simp only [] at h
  split_ifs at h with hcount
  cases hloop : forCliques (PreEditDual_clique s) s.m_energy.cliques 0
      { s.m_ibfs with fixedVars := fixedVarsOf s } with
  | error f => rw [hloop] at h; simp at h
  | ok crf' =>
    rw [hloop] at h
    simp only [Except.ok.injEq] at h
    subst h
    exact forCliques_frame (fun crf : Flow => crf.fixedVars) _
      (fun i c crf crf1 hstep => by
        rw [(PreEditDual_clique_ok s i c crf crf1 hstep).2.2]
        rfl) _ _ _ _ hloop

/-- C32. Fixed-variable flags: when `PreEditDual` returns, the vector `fixedVars` of the
flow object has length `numVars` and, for every variable `i` (member of a clique or not),
`fixedVars[i]` is true if and only if the current label of `i` equals its fused label;
the labels themselves are unchanged by the call. -/
theorem C32_fixed_variable_flags (s s' : SoSPD) (h : PreEditDual s = .ok s') :
    s'.m_ibfs.fixedVars.length = s.m_energy.numVars ∧
    (∀ i < s.m_energy.numVars, ∃ b : Bool, s'.m_ibfs.fixedVars[i]? = some b ∧
      (b = true ↔ s.m_labels i = s.m_fusion_labels i)) ∧
    s'.m_labels = s.m_labels ∧ s'.m_fusion_labels = s.m_fusion_labels ∧
    s'.m_energy = s.m_energy := by
  obtain ⟨a1, a2, _, _, _, a6, _⟩ := PreEditDual_spec s s' h
  rw [PreEditDual_fixedVars s s' h]
  obtain ⟨h1, h2⟩ := fixedVarsOf_spec s
  refine ⟨h1, fun i hi => ⟨_, h2 i hi, ?_⟩, a1, a2, a6⟩
  exact decide_eq_true_iff

theorem C32_fixed_variable_flags_witness :
    ∃ s', PreEditDual exampleProposedState = .ok s' ∧
      s'.m_ibfs.fixedVars.length = exampleProposedState.m_energy.numVars ∧
      s'.m_ibfs.fixedVars = [true, false] ∧
      exampleProposedState.m_labels 0 = exampleProposedState.m_fusion_labels 0 ∧
      exampleProposedState.m_labels 1 ≠ exampleProposedState.m_fusion_labels 1 := by
  have hrun : observe (PreEditDual exampleProposedState) (fun s => s.m_ibfs.fixedVars)
      = some [true, false] := by decide!
  obtain ⟨s', hs', hf⟩ := observe_eq_some hrun
  exact ⟨s', hs', (C32_fixed_variable_flags exampleProposedState s' hs').1, hf,
    by decide!, by decide!⟩

theorem residual_zero_iff_Tight (s : SoSPD) (ci : Nat) (c : Clique) (table : Nat → Int)
    (hk : c.size < 32) : residualTable s ci c table 0 = 0 ↔ Tight s ci c := by
  rw [residualTable_apply s ci c table hk 0 (Nat.two_pow_pos _), mixedLabels_zero]
  unfold Tight
  have h1 : ((List.range c.size).map (fun i => if Nat.testBit 0 i
      then s.dualVariable ci i (s.m_fusion_labels (c.nodes.getD i 0)) else 0)).sum = 0 := by
    apply List.sum_eq_zero
    intro x hx
    obtain ⟨i, _, rfl⟩ := List.mem_map.mp hx
    rw [Nat.zero_testBit]
    rfl
  have h2 : ((List.range c.size).map (fun i => if Nat.testBit 0 i then 0
      else s.dualVariable ci i (s.m_labels (c.nodes.getD i 0)))).sum
      = ((List.range c.size).map
        (fun i => s.dualVariable ci i (s.m_labels (c.nodes.getD i 0)))).sum := by
    congr 1
    apply List.map_congr_left
    intro i _
    rw [Nat.zero_testBit]
    rfl
  rw [h1, h2]
  constructor <;> intro h <;> omega

theorem setEnergyTable_getD (crf : Flow) (ci : Nat) (t : Nat → Int) (j : Nat) :
    ((crf.setEnergyTable ci t).cliques.getD j default).nodes
        = (crf.cliques.getD j default).nodes ∧
      ((crf.setEnergyTable ci t).cliques.getD j default).tableSize
        = (crf.cliques.getD j default).tableSize := by
  unfold Flow.setEnergyTable
  simp only []
  by_cases hj : ci = j
  · subst hj
    by_cases hlt : ci < crf.cliques.length
    · rw [getD_set_self _ _ _ hlt]
      exact ⟨rfl, rfl⟩
    · rw [List.set_eq_of_length_le (by omega)]
      exact ⟨rfl, rfl⟩
  · rw [getD_set_ne _ _ _ _ hj]
    exact ⟨rfl, rfl⟩

theorem PreEditDual_loop_ok_iff (s : SoSPD) (cs : List Clique) (i0 : Nat) (crf : Flow)
    (hm : ∀ p c, cs[p]? = some c → c.size < 32 ∧
      c.size = (crf.cliques.getD (i0 + p) default).nodes.length ∧
      (crf.cliques.getD (i0 + p) default).tableSize = 1 <<< c.size) :
    (∃ crf', forCliques (PreEditDual_clique s) cs i0 crf = .ok crf') ↔
      ∀ p c, cs[p]? = some c → Tight s (i0 + p) c := by
  induction cs generalizing i0 crf with
  | nil =>
    refine ⟨fun _ p c h => ?_, fun _ => ⟨crf, rfl⟩⟩
    simp at h
  | cons c0 cs ih =>
    obtain ⟨m1, m2, m3⟩ := hm 0 c0 List.getElem?_cons_zero
    rw [Nat.add_zero] at m2 m3
    simp only [forCliques]
    by_cases ht : Tight s i0 c0
    · have hres := (residual_zero_iff_Tight s i0 c0
        (crf.cliques.getD i0 default).energyTable m1).mpr ht
      obtain ⟨crf1, hstep⟩ := (PreEditDual_clique_ok_iff s i0 c0 crf).mpr ⟨m1, m2, m3, hres⟩
      rw [hstep]
      simp only []
      have hcrf1 := (PreEditDual_clique_ok s i0 c0 crf crf1 hstep).2.2
      have hm1 : ∀ p c, cs[p]? = some c → c.size < 32 ∧
          c.size = (crf1.cliques.getD (i0 + 1 + p) default).nodes.length ∧
          (crf1.cliques.getD (i0 + 1 + p) default).tableSize = 1 <<< c.size := by
        intro p c hpc
        obtain ⟨n1, n2, n3⟩ := hm (p + 1) c (by simpa using hpc)
        rw [hcrf1]
        obtain ⟨e1, e2⟩ := setEnergyTable_getD crf i0
          (residualTable s i0 c0 (crf.cliques.getD i0 default).energyTable) (i0 + 1 + p)
        rw [e1, e2, show i0 + 1 + p = i0 + (p + 1) by omega]
        exact ⟨n1, n2, n3⟩
      rw [ih (i0 + 1) crf1 hm1]
      constructor
      · intro h p c hpc
        cases p with
        | zero =>
          simp only [List.getElem?_cons_zero, Option.some.injEq] at hpc
          subst hpc
          exact ht
        | succ p =>
          have := h p c (by simpa using hpc)
          rw [show i0 + 1 + p = i0 + (p + 1) by omega] at this
          exact this
      · intro h p c hpc
        have := h (p + 1) c (by simpa using hpc)
        rw [show i0 + (p + 1) = i0 + 1 + p by omega] at this
        exact this
    · have hno : ¬ ∃ crf', PreEditDual_clique s i0 c0 crf = .ok crf' := by
        intro hex
        exact ht ((residual_zero_iff_Tight s i0 c0 _ m1).mp
          ((PreEditDual_clique_ok_iff s i0 c0 crf).mp hex).2.2.2)
      constructor
      · rintro ⟨crf', h⟩
        cases hstep : PreEditDual_clique s i0 c0 crf with
        | error f => rw [hstep] at h; cases h
        | ok crf1 => exact absurd ⟨crf1, hstep⟩ hno
      · intro h
        exact absurd (h 0 c0 List.getElem?_cons_zero) ht

/-- C31. Tightness check in `PreEditDual`: on a state whose flow graph mirrors the cliques
of the energy model (same count; per clique `k < 32`, `k` nodes and a table of `2^k`
entries), the entry of the all-zero mask of a clique's table after the subtraction is 0 if
and only if the clique satisfies the tightness invariant (the dual variables of its members
at their current labels sum to its energy at the current labeling), the loop body of
`PreEditDual` succeeds on the clique if and only if it does, and `PreEditDual` succeeds if
and only if every clique satisfies the tightness invariant. -/
theorem C31_tightness_check (s : SoSPD)
    (hcount : s.m_ibfs.cliques.length = s.m_energy.cliques.length)
    (hmirror : ∀ ci c, s.m_energy.cliques[ci]? = some c → c.size < 32 ∧
      c.size = (s.m_ibfs.cliques.getD ci default).nodes.length ∧
      (s.m_ibfs.cliques.getD ci default).tableSize = 1 <<< c.size) :
    (∀ ci c, s.m_energy.cliques[ci]? = some c →
      (residualTable s ci c (s.m_ibfs.cliques.getD ci default).energyTable 0 = 0
        ↔ Tight s ci c) ∧
      ((∃ crf', PreEditDual_clique s ci c s.m_ibfs = .ok crf') ↔ Tight s ci c)) ∧
    ((∃ s', PreEditDual s = .ok s') ↔
      ∀ ci c, s.m_energy.cliques[ci]? = some c → Tight s ci c) := by
  constructor
  · intro ci c hc
    obtain ⟨m1, m2, m3⟩ := hmirror ci c hc
    have hres := residual_zero_iff_Tight s ci c
      (s.m_ibfs.cliques.getD ci default).energyTable m1
    refine ⟨hres, ?_⟩
    rw [PreEditDual_clique_ok_iff, ← hres]
    exact ⟨fun h => h.2.2.2, fun h => ⟨m1, m2, m3, h⟩⟩
  · have hloop := PreEditDual_loop_ok_iff s s.m_energy.cliques 0
      { s.m_ibfs with fixedVars := fixedVarsOf s }
      (fun p c hpc => by
        rw [Nat.zero_add]
        exact hmirror p c hpc)
    simp only [Nat.zero_add] at hloop
    rw [← hloop]
    unfold PreEditDual
    simp only []
    rw [if_neg (not_not.mpr hcount)]
    constructor
    · rintro ⟨s', h⟩
      cases hl : forCliques (PreEditDual_clique s) s.m_energy.cliques 0
          { s.m_ibfs with fixedVars := fixedVarsOf s } with
      | error f => rw [hl] at h; cases h
      | ok crf' => exact ⟨crf', rfl⟩
    · rintro ⟨crf', h⟩
      rw [h]
      exact ⟨_, rfl⟩

theorem C31_tightness_check_witness :
    exampleProposedState.m_ibfs.cliques.length = exampleProposedState.m_energy.cliques.length ∧
    (∀ ci c, exampleProposedState.m_energy.cliques[ci]? = some c → c.size < 32 ∧
      c.size = (exampleProposedState.m_ibfs.cliques.getD ci default).nodes.length ∧
      (exampleProposedState.m_ibfs.cliques.getD ci default).tableSize = 1 <<< c.size) ∧
    (∃ s', PreEditDual exampleProposedState = .ok s') ∧
    ∀ ci c, exampleProposedState.m_energy.cliques[ci]? = some c →
      Tight exampleProposedState ci c := by
  have hen := exampleProposedState_energy
  have hcount : exampleProposedState.m_ibfs.cliques.length
      = exampleProposedState.m_energy.cliques.length := by decide!
  have hmirror : ∀ ci c, exampleProposedState.m_energy.cliques[ci]? = some c →
      c.size < 32 ∧
      c.size = (exampleProposedState.m_ibfs.cliques.getD ci default).nodes.length ∧
      (exampleProposedState.m_ibfs.cliques.getD ci default).tableSize = 1 <<< c.size := by
    intro ci c h
    rw [hen] at h
    obtain ⟨rfl, rfl⟩ := exampleEnergy_clique_at h
    decide!
  have hrun : observe (PreEditDual exampleProposedState) (fun _ => ()) = some () := by
    decide!
  obtain ⟨s', hs', _⟩ := observe_eq_some hrun
  exact ⟨hcount, hmirror, ⟨s', hs'⟩,
    (C31_tightness_check exampleProposedState hcount hmirror).2.mp ⟨s', hs'⟩⟩

/-! ## Gray-code enumeration -/

theorem grayCode_inj (k a b : Nat) (ha : a < 2 ^ k) (hb : b < 2 ^ k)
    (h : grayCode a = grayCode b) : a = b := by
  have key : ∀ n i, k ≤ i + n → a.testBit i = b.testBit i := by
    intro n
    induction n with
    | zero =>
      intro i hi
      have hle : 2 ^ k ≤ 2 ^ i := Nat.pow_le_pow_right (by decide) (by omega)
      rw [Nat.testBit_lt_two_pow (lt_of_lt_of_le ha hle),
        Nat.testBit_lt_two_pow (lt_of_lt_of_le hb hle)]
    | succ n ih =>
      intro i hi
      have h1 := ih (i + 1) (by omega)
      have h2 : (grayCode a).testBit i = (grayCode b).testBit i := by rw [h]
      rw [testBit_grayCode, testBit_grayCode, h1] at h2
      revert h2
      cases a.testBit i <;> cases b.testBit i <;> cases b.testBit (i + 1) <;> simp
  exact Nat.eq_of_testBit_eq (fun i => key k i (by omega))

theorem grayCode_zero : grayCode 0 = 0 := by decide

theorem grayWrites_eq_map (n : Nat) : grayWrites n = (List.range (n + 1)).map grayCode := by
  unfold grayWrites
  rw [List.range_succ_eq_map, List.map_cons, List.map_map, grayCode_zero]
  rfl

theorem grayWrites_perm (k : Nat) : (grayWrites (2 ^ k - 1)).Perm (List.range (2 ^ k)) := by
  have hpos : 0 < 2 ^ k := Nat.two_pow_pos k
  rw [grayWrites_eq_map, show 2 ^ k - 1 + 1 = 2 ^ k by omega]
  apply List.Subperm.perm_of_length_le
  · apply List.subperm_of_subset
    · apply List.Nodup.map_on _ (List.nodup_range _)
      intro x hx y hy hxy
      exact grayCode_inj k x y (List.mem_range.mp hx) (List.mem_range.mp hy) hxy
    · intro m hm
      obtain ⟨a, ha, rfl⟩ := List.mem_map.mp hm
      exact List.mem_range.mpr (grayCode_lt k a (List.mem_range.mp ha))
  · rw [List.length_map]

theorem grayLoop_trace (c : Clique) (cur fus : List Nat) (table : Nat → Int) (steps : Nat) :
    ∃ vals : List Int, vals.length = (grayWrites steps).length ∧
      (∀ v ∈ vals, ∃ buf, v = c.energy buf) ∧
      (grayLoop c cur fus table steps).energy_table =
        ((grayWrites steps).zip vals).foldl (fun t p => Function.update t p.1 p.2) table := by
  induction steps with
  | zero =>
    refine ⟨[c.energy cur], rfl, ?_, rfl⟩
    intro v hv
    exact ⟨cur, List.mem_singleton.mp hv⟩
  | succ n ih =>
    obtain ⟨vals, hlen, hval, htab⟩ := ih
    have hstep : grayLoop c cur fus table (n + 1)
        = grayStep c cur fus (n + 1) (grayLoop c cur fus table n) := by
      unfold grayLoop
      rw [List.range_succ, List.foldl_append]
      rfl
    have hw : grayWrites (n + 1) = grayWrites n ++ [grayCode (n + 1)] := by
      unfold grayWrites
      rw [List.range_succ, List.map_append]
      rfl
    refine ⟨vals ++ [c.energy (grayStep c cur fus (n + 1) (grayLoop c cur fus table n)).label_buf],
      ?_, ?_, ?_⟩
    · rw [hw, List.length_append, List.length_append, hlen]
      rfl
    · intro v hv
      rcases List.mem_append.mp hv with h | h
      · exact hval v h
      · exact ⟨_, List.mem_singleton.mp h⟩
    · rw [hstep, hw, List.zip_append hlen.symm, List.foldl_append, ← htab]
      rfl

/-- C33. Gray-code enumeration: for every `k < 32` and every `a` with `1 <= a < 2^k`,
`gray(a) = a ^ (a >> 1)` differs from `gray(a - 1)` in exactly one bit, whose index is the
count of trailing zeros of the difference and is less than `k`; the map `a -> gray(a)` is a
bijection on `[0, 2^k)`.  Consequently, for a clique of size `k`, the block of `PreEditDual`
that fills the table performs `2^k` writes, each storing the result of one call of the
clique energy, and the written indices are a permutation of `0, ..., 2^k - 1`: every table
entry is written exactly once. -/
theorem C33_gray_code_enumeration (k : Nat) (hk : k < 32) :
    (∀ a, 1 ≤ a → a < 2 ^ k → ∃ j < k,
      grayCode a ^^^ grayCode (a - 1) = 2 ^ j ∧
      builtin_ctz (grayCode a ^^^ grayCode (a - 1)) = j ∧
      ∀ i, ((grayCode a).testBit i ≠ (grayCode (a - 1)).testBit i ↔ i = j)) ∧
    (∀ a < 2 ^ k, grayCode a < 2 ^ k) ∧
    (∀ a < 2 ^ k, ∀ b < 2 ^ k, grayCode a = grayCode b → a = b) ∧
    (∀ m < 2 ^ k, ∃ a < 2 ^ k, grayCode a = m) ∧
    (∀ (c : Clique) (cur fus : List Nat) (table : Nat → Int), c.size = k →
      (grayWrites ((1 <<< c.size) - 1)).Perm (List.range (2 ^ k)) ∧
      ∃ vals : List Int, vals.length = 2 ^ k ∧ (∀ v ∈ vals, ∃ buf, v = c.energy buf) ∧
        grayTable c cur fus table =
          ((grayWrites ((1 <<< c.size) - 1)).zip vals).foldl
            (fun t p => Function.update t p.1 p.2) table) := by
  refine ⟨fun a ha hlt => ?_, fun a ha => grayCode_lt k a ha,
    fun a ha b hb h => grayCode_inj k a b ha hb h, fun m hm => grayCode_surj k m hm,
    fun c cur fus table hc => ?_⟩
  · obtain ⟨j, hj, hx⟩ := grayCode_xor_pred k a ha hlt
    refine ⟨j, hj, hx, ?_, fun i => ?_⟩
    · rw [hx]
      exact builtin_ctz_two_pow j (by omega)
    · have hbit : (grayCode a ^^^ grayCode (a - 1)).testBit i = decide (j = i) := by
        rw [hx, Nat.testBit_two_pow]
      rw [Nat.testBit_xor] at hbit
      by_cases hij : j = i
      · subst hij
        simp only [decide_True] at hbit
        refine ⟨fun _ => rfl, fun _ => ?_⟩
        revert hbit
        cases (grayCode a).testBit j <;> cases (grayCode (a - 1)).testBit j <;> simp
      · simp only [hij, decide_False] at hbit
        refine ⟨fun h => ?_, fun h => absurd h.symm hij⟩
        exfalso
        revert hbit h
        cases (grayCode a).testBit i <;> cases (grayCode (a - 1)).testBit i <;> simp
  · have hpos : 0 < 2 ^ k := Nat.two_pow_pos k
    rw [Nat.one_shiftLeft, hc]
    refine ⟨grayWrites_perm k, ?_⟩
    obtain ⟨vals, hlen, hval, htab⟩ := grayLoop_trace c cur fus table (2 ^ k - 1)
    refine ⟨vals, ?_, hval, ?_⟩
    · rw [hlen, grayWrites_eq_map, List.length_map, List.length_range]
      omega
    · unfold grayTable
      rw [Nat.one_shiftLeft, hc]
      exact htab

theorem C33_gray_code_enumeration_witness :
    grayWrites ((1 <<< (pottsClique 10).size) - 1) = [0, 1, 3, 2] ∧
    (grayWrites ((1 <<< (pottsClique 10).size) - 1)).Perm (List.range (2 ^ 2)) ∧
    ∃ j < 2, grayCode 2 ^^^ grayCode (2 - 1) = 2 ^ j ∧
      builtin_ctz (grayCode 2 ^^^ grayCode (2 - 1)) = j :=
  ⟨by decide,
    ((C33_gray_code_enumeration 2 (by decide)).2.2.2.2 (pottsClique 10) [0, 1] [1, 1]
      (fun _ => 0) rfl).1,
    by
      obtain ⟨j, hj, h1, h2, _⟩ := (C33_gray_code_enumeration 2 (by decide)).1 2 (by decide)
        (by decide)
      exact ⟨j, hj, h1, h2⟩⟩

/-! ## The node-clique adjacency list -/

theorem nodeCliqueList_clique_closed (ci : Nat) (nodes : List Nat) (m : Nat)
    (ncl : Nat → List (Nat × Nat)) (v : Nat) :
    (List.range m).foldl
        (fun ncl i => Function.update ncl (nodes.getD i 0) (ncl (nodes.getD i 0) ++ [(ci, i)]))
        ncl v
      = ncl v ++ ((List.range m).filter (fun p => decide (nodes.getD p 0 = v))).map
          (fun p => (ci, p)) := by
  induction m with
  | zero => simp
  | succ m ih =>
    rw [List.range_succ, List.foldl_append, List.filter_append, List.map_append]
    simp only [List.foldl_cons, List.foldl_nil]
    by_cases h : nodes.getD m 0 = v
    · subst h
      rw [Function.update_same, ih]
      simp only [List.filter, decide_True, List.map_cons, List.map_nil, List.append_assoc]
    · rw [Function.update_noteq (fun h2 => h h2.symm), ih]
      simp only [List.filter, h, decide_False, List.map_nil, List.append_nil]

theorem eachClique_adjacency (cs : List Clique) (i0 : Nat) (ncl : Nat → List (Nat × Nat))
    (v : Nat) :
    eachClique InitialNodeCliqueList_clique cs i0 ncl v = ncl v ++ adjacencyOf cs i0 v := by
  induction cs generalizing i0 ncl with
  | nil => simp [eachClique, adjacencyOf]
  | cons c cs ih =>
    simp only [eachClique, adjacencyOf]
    rw [ih]
    unfold InitialNodeCliqueList_clique
    rw [nodeCliqueList_clique_closed, List.append_assoc]

theorem adjacencyOf_mem (cs : List Clique) (i0 v ci p : Nat) :
    (ci, p) ∈ adjacencyOf cs i0 v ↔
      i0 ≤ ci ∧ ∃ c, cs[ci - i0]? = some c ∧ c.nodes[p]? = some v := by
  induction cs generalizing i0 with
  | nil => simp [adjacencyOf]
  | cons c0 cs ih =>
    simp only [adjacencyOf, List.mem_append, List.mem_map, List.mem_filter, List.mem_range,
      decide_eq_true_eq, Prod.mk.injEq]
    rw [ih]
    constructor
    · rintro (⟨q, ⟨hq, hnode⟩, rfl, rfl⟩ | ⟨hle, c, hc, hnode⟩)
      · refine ⟨le_refl _, c0, by simp, ?_⟩
        unfold Clique.size at hq
        rw [List.getElem?_eq_getElem hq, ← hnode, List.getD_eq_getElem _ _ hq]
      · refine ⟨by omega, c, ?_, hnode⟩
        rw [show ci - i0 = (ci - (i0 + 1)) + 1 by omega]
        simpa using hc
    · rintro ⟨hle, c, hc, hnode⟩
      by_cases heq : ci = i0
      · subst heq
        left
        simp only [Nat.sub_self, List.getElem?_cons_zero, Option.some.injEq] at hc
        subst hc
        obtain ⟨hp, hget⟩ := List.getElem?_eq_some_iff.mp hnode
        refine ⟨p, ⟨hp, ?_⟩, rfl, rfl⟩
        rw [List.getD_eq_getElem _ _ hp, hget]
      · right
        refine ⟨by omega, c, ?_, hnode⟩
        rw [show ci - i0 = (ci - (i0 + 1)) + 1 by omega] at hc
        simpa using hc

theorem adjacencyOf_pairwise (cs : List Clique) (i0 v : Nat) :
    (adjacencyOf cs i0 v).Pairwise (fun a b => a.1 < b.1 ∨ (a.1 = b.1 ∧ a.2 < b.2)) := by
  induction cs generalizing i0 with
  | nil => exact List.Pairwise.nil
  | cons c0 cs ih =>
    simp only [adjacencyOf]
    rw [List.pairwise_append]
    refine ⟨?_, ih (i0 + 1), ?_⟩
    · rw [List.pairwise_map]
      exact List.Pairwise.imp (fun h => Or.inr ⟨rfl, h⟩)
        (List.Pairwise.filter _ (List.pairwise_lt_range _))
    · intro a ha b hb
      obtain ⟨q, _, rfl⟩ := List.mem_map.mp ha
      obtain ⟨b1, b2⟩ := b
      have := ((adjacencyOf_mem cs (i0 + 1) v b1 b2).mp hb).1
      exact Or.inl (by show i0 < b1; omega)

theorem sum_range_indicator (x n : Nat) :
    ((List.range n).map (fun v => if x = v then 1 else 0)).sum = if x < n then 1 else 0 := by
  induction n with
  | zero => simp
  | succ n ih =>
    rw [List.range_succ, List.map_append, List.sum_append, ih]
    simp only [List.map_cons, List.map_nil, List.sum_cons, List.sum_nil, Nat.add_zero]
    by_cases h1 : x < n
    · rw [if_pos h1, if_neg (by omega), if_pos (by omega)]
    · rw [if_neg h1]
      by_cases h2 : x = n
      · rw [if_pos h2, if_pos (by omega)]
      · rw [if_neg h2, if_neg (by omega)]

theorem sum_map_add_nat {α : Type} (l : List α) (f g : α → Nat) :
    (l.map (fun x => f x + g x)).sum = (l.map f).sum + (l.map g).sum := by
  induction l with
  | nil => rfl
  | cons x xs ih =>
    simp only [List.map_cons, List.sum_cons, ih]
    omega

theorem filter_positions_count (nodes : List Nat) (n m : Nat)
    (h : ∀ p < m, nodes.getD p 0 < n) :
    ((List.range n).map (fun v =>
      ((List.range m).filter (fun p => decide (nodes.getD p 0 = v))).length)).sum = m := by
  induction m with
  | zero => simp
  | succ m ih =>
    have hstep : ∀ v, ((List.range (m + 1)).filter
        (fun p => decide (nodes.getD p 0 = v))).length
        = ((List.range m).filter (fun p => decide (nodes.getD p 0 = v))).length
          + (if nodes.getD m 0 = v then 1 else 0) := by
      intro v
      rw [List.range_succ, List.filter_append, List.length_append]
      by_cases hv : nodes.getD m 0 = v
      · rw [if_pos hv]
        simp only [List.filter, hv, decide_True, List.length_cons, List.length_nil]
      · rw [if_neg hv]
        simp only [List.filter, hv, decide_False, List.length_nil]
    simp only [hstep]
    rw [sum_map_add_nat, ih (fun p hp => h p (by omega)), sum_range_indicator,
      if_pos (h m (Nat.lt_succ_self m))]

theorem adjacencyOf_count (cs : List Clique) (i0 n : Nat)
    (h : ∀ c ∈ cs, ∀ v ∈ c.nodes, v < n) :
    ((List.range n).map (fun v => (adjacencyOf cs i0 v).length)).sum
      = (cs.map Clique.size).sum := by
  induction cs generalizing i0 with
  | nil => simp [adjacencyOf]
  | cons c0 cs ih =>
    simp only [adjacencyOf, List.length_append, List.length_map, List.map_cons, List.sum_cons]
    rw [sum_map_add_nat, ih (i0 + 1) (fun c hc => h c (List.mem_cons_of_mem _ hc)),
      filter_positions_count c0.nodes n c0.size (fun p hp =>
        h c0 (List.mem_cons_self _ _) _ (getD_mem_of_lt c0.nodes p hp))]

/-- C34. Node-clique adjacency: after `InitialNodeCliqueList`, for every variable `v`,
clique index `c` and member position `p`, the pair `(c, p)` occurs in the list of `v` if and
only if the `p`-th node of clique `c` is `v`; no pair occurs twice in a list; the pairs of
each list are ordered by increasing clique index and then increasing position; and, when
every clique node is a variable of the model, the lists of the variables hold as many pairs
in total as the sum of all clique sizes. -/
theorem C34_node_clique_adjacency (s : SoSPD) :
    (∀ v ci p, (ci, p) ∈ (InitialNodeCliqueList s).m_node_clique_list v ↔
      ∃ c, s.m_energy.cliques[ci]? = some c ∧ c.nodes[p]? = some v) ∧
    (∀ v, ((InitialNodeCliqueList s).m_node_clique_list v).Nodup) ∧
    (∀ v, ((InitialNodeCliqueList s).m_node_clique_list v).Pairwise
      (fun a b => a.1 < b.1 ∨ (a.1 = b.1 ∧ a.2 < b.2))) ∧
    ((∀ c ∈ s.m_energy.cliques, ∀ v ∈ c.nodes, v < s.m_energy.numVars) →
      ((List.range s.m_energy.numVars).map
        (fun v => ((InitialNodeCliqueList s).m_node_clique_list v).length)).sum
      = (s.m_energy.cliques.map Clique.size).sum) := by
  have hL : ∀ v, (InitialNodeCliqueList s).m_node_clique_list v
      = adjacencyOf s.m_energy.cliques 0 v := by
    intro v
    show eachClique InitialNodeCliqueList_clique s.m_energy.cliques 0 (fun _ => []) v = _
    rw [eachClique_adjacency]
    rfl
  refine ⟨fun v ci p => ?_, fun v => ?_, fun v => ?_, fun hn => ?_⟩
  · rw [hL, adjacencyOf_mem]
    simp
  · rw [hL]
    exact List.Pairwise.imp (fun {a b} h heq => by
      subst heq
      rcases h with h | ⟨_, h⟩ <;> omega) (adjacencyOf_pairwise _ 0 v)
  · rw [hL]
    exact adjacencyOf_pairwise _ 0 v
  · simp only [hL]
    exact adjacencyOf_count _ 0 _ hn

theorem C34_node_clique_adjacency_witness :
    (InitialNodeCliqueList (SoSPD.new tripleEnergy)).m_node_clique_list 1 = [(0, 1)] ∧
    ((0, 1) ∈ (InitialNodeCliqueList (SoSPD.new tripleEnergy)).m_node_clique_list 1 ↔
      ∃ c, tripleEnergy.cliques[0]? = some c ∧ c.nodes[1]? = some 1) ∧
    ((List.range 3).map
      (fun v => ((InitialNodeCliqueList (SoSPD.new tripleEnergy)).m_node_clique_list v).length)).sum
      = (tripleEnergy.cliques.map Clique.size).sum :=
  ⟨by decide, (C34_node_clique_adjacency (SoSPD.new tripleEnergy)).1 1 0 1,
    (C34_node_clique_adjacency (SoSPD.new tripleEnergy)).2.2.2 tripleEnergy_WF.2.1⟩

/-! ## A second `PostEditDual` -/

theorem PostEditDual_run_conditions (cs : List Clique) (i0 : Nat) (t t' : SoSPD)
    (hrun : forCliques PostEditDual_clique cs i0 t = .ok t') :
    ∀ p c, cs[p]? = some c →
      1 ≤ c.size ∧ c.size < 32 ∧ correction t (i0 + p) c ≤ 0 := by
  induction cs generalizing i0 t with
  | nil =>
    intro p c h
    simp at h
  | cons c0 cs ih =>
    simp only [forCliques] at hrun
    cases hstep : PostEditDual_clique i0 c0 t with
    | error f => rw [hstep] at hrun; cases hrun
    | ok t1 =>
      rw [hstep] at hrun
      simp only [] at hrun
      obtain ⟨k1, k2, k3⟩ := (PostEditDual_clique_ok_iff i0 c0 t).mp ⟨t1, hstep⟩
      intro p c hpc
      cases p with
      | zero =>
        simp only [List.getElem?_cons_zero, Option.some.injEq] at hpc
        subst hpc
        exact ⟨k1, k2, k3⟩
      | succ p =>
        obtain ⟨r1, r2, r3⟩ := ih (i0 + 1) t1 hrun p c (by simpa using hpc)
        refine ⟨r1, r2, ?_⟩
        have ht1 := PostEditDual_clique_ok i0 c0 t k1 k2 k3
        rw [hstep] at ht1
        simp only [Except.ok.injEq] at ht1
        have hcong := correction_congr t t1 (i0 + 1 + p) c (by rw [ht1]) (by rw [ht1])
          (by
            rw [ht1]
            show Function.update t.m_dual i0 _ (i0 + 1 + p) = _
            rw [Function.update_noteq (by omega)])
        rw [hcong, show i0 + 1 + p = i0 + (p + 1) by omega] at r3
        exact r3

theorem PostEditDual_Tight_after (s s1 : SoSPD) (hv : s.Valid)
    (hrun : PostEditDual s = .ok s1) :
    s1.m_labels = s.m_labels ∧ s1.m_num_labels = s.m_num_labels ∧ s1.m_energy = s.m_energy ∧
    (∀ c ∈ s.m_energy.cliques, 1 ≤ c.size ∧ c.size < 32) ∧
    ∀ ci c, s.m_energy.cliques[ci]? = some c → Tight s1 ci c := by
  have hcond := PostEditDual_run_conditions s.m_energy.cliques 0 s s1 hrun
  have hk : ∀ c ∈ s.m_energy.cliques, 1 ≤ c.size ∧ c.size < 32 := by
    intro c hc
    obtain ⟨p, hp⟩ := List.getElem?_of_mem hc
    exact ⟨(hcond p c hp).1, (hcond p c hp).2.1⟩
  have hc : ∀ ci c, s.m_energy.cliques[ci]? = some c → correction s ci c ≤ 0 := by
    intro ci c h
    have := (hcond ci c h).2.2
    rw [Nat.zero_add] at this
    exact this
  obtain ⟨s', hs', hlab, hnl, hen, hpost⟩ := PostEditDual_spec s hv hk hc
  rw [hrun] at hs'
  simp only [Except.ok.injEq] at hs'
  subst hs'
  refine ⟨hlab, hnl, hen, hk, fun ci c hc' => ?_⟩
  have hmem : c ∈ s.m_energy.cliques := mem_of_getElem?_eq hc'
  refine Tight_of_shares s1 ci c _ (by rw [hlab])
    (fun i => s.m_dual ci (i * s.m_num_labels + s.m_labels (c.nodes.getD i 0))
      + postIncrement (correction s ci c) c.size i) ?_ ?_
  · rw [List.sum_map_add, sum_postIncrement _ _ (hk c hmem).1 (hc ci c hc')]
    unfold correction lambdaSum SoSPD.dualVariable
    ring
  · intro i hi
    rw [hlab, hnl]
    exact (hpost ci c hc').1 i hi

theorem postIncrement_zero (k i : Nat) : postIncrement 0 k i = 0 := by
  unfold postIncrement postAvgRemainder
  simp

theorem PostEditDual_members_zero (s : SoSPD) (c : Clique)
    (st : (Nat → Int) × (Nat → Int)) : PostEditDual_members s c 0 st = st := by
  unfold PostEditDual_members
  have hstep : ∀ (x : (Nat → Int) × (Nat → Int)) (i : Nat),
      ((Function.update x.1 (i * s.m_num_labels + s.m_labels (c.nodes.getD i 0))
          (x.1 (i * s.m_num_labels + s.m_labels (c.nodes.getD i 0))
            + postIncrement 0 c.size i),
        Function.update
          (Function.update x.2 (c.nodes.getD i 0 * s.m_num_labels + s.m_labels (c.nodes.getD i 0))
            (x.2 (c.nodes.getD i 0 * s.m_num_labels + s.m_labels (c.nodes.getD i 0))
              - x.1 (i * s.m_num_labels + s.m_labels (c.nodes.getD i 0))))
          (c.nodes.getD i 0 * s.m_num_labels + s.m_labels (c.nodes.getD i 0))
          ((Function.update x.2
              (c.nodes.getD i 0 * s.m_num_labels + s.m_labels (c.nodes.getD i 0))
              (x.2 (c.nodes.getD i 0 * s.m_num_labels + s.m_labels (c.nodes.getD i 0))
                - x.1 (i * s.m_num_labels + s.m_labels (c.nodes.getD i 0))))
              (c.nodes.getD i 0 * s.m_num_labels + s.m_labels (c.nodes.getD i 0))
            + (x.1 (i * s.m_num_labels + s.m_labels (c.nodes.getD i 0))
              + postIncrement 0 c.size i))) : (Nat → Int) × (Nat → Int)) = x := by
    intro x i
    rw [postIncrement_zero, Function.update_same, Function.update_idem]
    apply Prod.ext
    · show Function.update x.1 _ _ = x.1
      rw [add_zero, Function.update_eq_self]
    · show Function.update x.2 _ _ = x.2
      rw [add_zero, sub_add_cancel, Function.update_eq_self]
  induction (List.range c.size) generalizing st with
  | nil => rfl
  | cons i l ih =>
    rw [List.foldl_cons]
    simp only []
    rw [hstep st i]
    exact ih st

theorem PostEditDual_clique_fixed (ci : Nat) (c : Clique) (t : SoSPD) (h1 : 1 ≤ c.size)
    (h2 : c.size < 32) (hc : correction t ci c = 0) : PostEditDual_clique ci c t = .ok t := by
  rw [PostEditDual_clique_ok ci c t h1 h2 (le_of_eq hc), hc, PostEditDual_members_zero]
  simp only [Function.update_eq_self]

theorem PostEditDual_loop_fixed (cs : List Clique) (i0 : Nat) (t : SoSPD)
    (h : ∀ p c, cs[p]? = some c → 1 ≤ c.size ∧ c.size < 32 ∧ correction t (i0 + p) c = 0) :
    forCliques PostEditDual_clique cs i0 t = .ok t := by
  induction cs generalizing i0 with
  | nil => rfl
  | cons c0 cs ih =>
    simp only [forCliques]
    obtain ⟨k1, k2, k3⟩ := h 0 c0 List.getElem?_cons_zero
    rw [PostEditDual_clique_fixed i0 c0 t k1 k2 k3]
    simp only []
    apply ih
    intro p c hpc
    have := h (p + 1) c (by simpa using hpc)
    rw [show i0 + (p + 1) = i0 + 1 + p by omega] at this
    exact this

theorem correction_eq_zero_of_Tight (t : SoSPD) (ci : Nat) (c : Clique) (ht : Tight t ci c) :
    correction t ci c = 0 := by
  unfold Tight at ht
  unfold correction lambdaSum
  rw [ht]
  exact sub_self _

/-- C35. `PostEditDual` is idempotent: on a state with current labels in range on which
`PostEditDual` succeeds, every clique has correction 0 in the resulting state, and a second
`PostEditDual` succeeds and returns that state unchanged; in particular every dual table
and the height table are exactly as the first application left them. -/
theorem C35_PostEditDual_idempotent (s s1 : SoSPD) (hv : s.Valid)
    (hrun : PostEditDual s = .ok s1) :
    (∀ ci c, s1.m_energy.cliques[ci]? = some c →
      correction s1 ci c = 0 ∧ ∀ i, postIncrement (correction s1 ci c) c.size i = 0) ∧
    PostEditDual s1 = .ok s1 ∧
    ∃ s2, PostEditDual s1 = .ok s2 ∧ s2.m_dual = s1.m_dual ∧ s2.m_heights = s1.m_heights := by
  obtain ⟨_, _, hen, hk, ht⟩ := PostEditDual_Tight_after s s1 hv hrun
  have hzero : ∀ ci c, s1.m_energy.cliques[ci]? = some c → correction s1 ci c = 0 := by
    intro ci c h
    rw [hen] at h
    exact correction_eq_zero_of_Tight s1 ci c (ht ci c h)
  have hfix : PostEditDual s1 = .ok s1 := by
    unfold PostEditDual
    apply PostEditDual_loop_fixed
    intro p c hpc
    have hmem : c ∈ s.m_energy.cliques := by
      rw [← hen]
      exact mem_of_getElem?_eq hpc
    rw [Nat.zero_add]
    exact ⟨(hk c hmem).1, (hk c hmem).2, hzero p c hpc⟩
  refine ⟨fun ci c h => ⟨hzero ci c h, fun i => ?_⟩, hfix, s1, hfix, rfl, rfl⟩
  rw [hzero ci c h]
  exact postIncrement_zero _ _

theorem C35_PostEditDual_idempotent_witness :
    exampleDriftState.Valid ∧
    ∃ s1, PostEditDual exampleDriftState = .ok s1 ∧ PostEditDual s1 = .ok s1 ∧
      (s1.dualVariable 0 0 0, s1.dualVariable 0 1 0) = (3, -3) := by
  have hrun : observe (PostEditDual exampleDriftState)
      (fun s1 => (s1.dualVariable 0 0 0, s1.dualVariable 0 1 0)) = some (3, -3) := by decide!
  obtain ⟨s1, hs1, hd⟩ := observe_eq_some hrun
  exact ⟨exampleDriftState_Valid, s1, hs1,
    (C35_PostEditDual_idempotent exampleDriftState s1 exampleDriftState_Valid hs1).2.1, hd⟩

/-! ## Labels stay in range -/

theorem Solve_init_fusion (s s' : SoSPD) (h : Solve_init s = .ok s') :
    s'.m_fusion_labels = s.m_fusion_labels := by
  unfold Solve_init at h
  split_ifs at h with h0
  · cases hg : SetupGraph s with
    | error e => rw [hg] at h; cases h
    | ok sg =>
      rw [hg] at h
      simp only [] at h
      cases hd : InitialDual (InitialLabeling sg) with
      | error e => rw [hd] at h; cases h
      | ok s2 =>
        rw [hd] at h
        simp only [Except.ok.injEq] at h
        subst h
        have hsg : sg.m_fusion_labels = s.m_fusion_labels := by
          unfold SetupGraph at hg
          simp only [] at hg
          cases hl : forCliques SetupGraph_clique s.m_energy.cliques 0
              (s.m_ibfs.AddNode s.m_energy.numVars) with
          | error e => rw [hl] at hg; cases hg
          | ok crf =>
            rw [hl] at hg
            simp only [Except.ok.injEq] at hg
            subst hg
            rfl
        have hd2 : s2.m_fusion_labels = (InitialLabeling sg).m_fusion_labels := by
          unfold InitialDual at hd
          exact forCliques_frame (fun s => s.m_fusion_labels) _
            (fun i c s s' h => by
              unfold InitialDual_clique at h
              simp only [] at h
              split_ifs at h
              simp only [Except.ok.injEq] at h
              subst h
              rfl) _ _ _ _ hd
        show s2.m_fusion_labels = _
        rw [hd2]
        exact hsg
  · simp only [Except.ok.injEq] at h
    subst h
    rfl

theorem Solve_iteration_labels (oracle : FlowOracle) (s s' : SoSPD)
    (hit : Solve_iteration oracle s = .ok s') :
    (∀ i, s'.m_labels i = s.m_labels i ∨ s'.m_labels i = s.m_fusion_labels i) ∧
      s'.m_fusion_labels = s.m_fusion_labels := by
  unfold Solve_iteration at hit
  cases hp : PreEditDual s with
  | error e => rw [hp] at hit; cases hit
  | ok s1 =>
    rw [hp] at hit
    simp only [] at hit
    cases hq : PostEditDual (UpdatePrimalDual oracle s1).1 with
    | error e => rw [hq] at hit; cases hit
    | ok s2 =>
      rw [hq] at hit
      simp only [Except.ok.injEq] at hit
      subst hit
      obtain ⟨a1, a2, _⟩ := PreEditDual_spec s s1 hp
      obtain ⟨_, b2, b3, _⟩ := PostEditDual_frame _ s2 hq
      refine ⟨fun i => ?_, ?_⟩
      · show s2.m_labels i = _ ∨ s2.m_labels i = _
        rw [b2, UpdatePrimalDual_m_labels, a1, a2]
        split_ifs
        · exact Or.inr rfl
        · exact Or.inl rfl
      · show s2.m_fusion_labels = _
        rw [b3]
        exact a2

theorem Solve_loop_range (e : MLE) (hnl : 1 ≤ e.numLabels) (oracle : FlowOracle)
    (budget : Nat) (t s' : SoSPD) (n : Nat)
    (hen : t.m_energy = e) (hnum : t.m_num_labels = e.numLabels)
    (hr : ∀ i < e.numVars, t.m_labels i < e.numLabels ∧ t.m_fusion_labels i < e.numLabels)
    (h : Solve_loop oracle budget t = .ok (s', n)) :
    s'.m_energy = e ∧ s'.m_num_labels = e.numLabels ∧
      ∀ i < e.numVars, s'.m_labels i < e.numLabels ∧ s'.m_fusion_labels i < e.numLabels := by
  have hfusAll : ∀ t : SoSPD, t.m_energy = e → t.m_num_labels = e.numLabels →
      ∀ i < e.numVars, (InitialFusionLabeling t).1.m_fusion_labels i < e.numLabels := by
    intro t hen hnum i hi
    rw [InitialFusionLabeling_fusion, if_pos (by rw [hen]; exact hi), hnum]
    have := clampLabel_range e.numLabels hnl (proposal t i)
    omega
  induction budget generalizing t s' n with
  | zero =>
    simp only [Solve_loop, Except.ok.injEq, Prod.mk.injEq] at h
    obtain ⟨rfl, rfl⟩ := h
    exact ⟨hen, hnum, hr⟩
  | succ budget ih =>
    simp only [Solve_loop] at h
    by_cases hflag : (InitialFusionLabeling t).2 = true
    swap
    · rw [if_pos hflag] at h
      simp only [Except.ok.injEq, Prod.mk.injEq] at h
      obtain ⟨rfl, rfl⟩ := h
      exact ⟨hen, hnum, fun i hi => ⟨(hr i hi).1, hfusAll t hen hnum i hi⟩⟩
    · rw [if_neg (not_not.mpr hflag)] at h
      cases hit : Solve_iteration oracle (InitialFusionLabeling t).1 with
      | error e => rw [hit] at h; simp at h
      | ok t1 =>
        rw [hit] at h
        simp only [] at h
        cases hrec : Solve_loop oracle budget t1 with
        | error e => rw [hrec] at h; simp at h
        | ok r =>
          obtain ⟨s2, m⟩ := r
          rw [hrec] at h
          simp only [Except.ok.injEq, Prod.mk.injEq] at h
          obtain ⟨rfl, rfl⟩ := h
          obtain ⟨_, g2, g3, _⟩ := Solve_iteration_frame oracle _ t1 hit
          obtain ⟨l1, l2⟩ := Solve_iteration_labels oracle _ t1 hit
          have hen1 : t1.m_energy = e := g2.trans hen
          have hnum1 : t1.m_num_labels = e.numLabels := g3.trans hnum
          have hfus := hfusAll t hen hnum
          have hr1 : ∀ i < e.numVars,
              t1.m_labels i < e.numLabels ∧ t1.m_fusion_labels i < e.numLabels := by
            intro i hi
            rw [l2]
            refine ⟨?_, hfus i hi⟩
            rcases l1 i with h1 | h1
            · rw [h1]
              exact (hr i hi).1
            · rw [h1]
              exact hfus i hi
          exact ih t1 s2 m hen1 hnum1 hr1 hrec

/-- C36. Labels stay in range: for every energy model with `numLabels >= 1`, every
proposal callback (the shipped ones or a custom one, whatever labels it writes), every
flow oracle and every budget, when `Solve` returns on a fresh orchestrator (after the
initialization alone when the budget is 0, after the last completed iteration otherwise),
the current label and the fusion label of every variable lie in `[0, numLabels)`; so for
every clique whose nodes are variables of the model and every member position `j < k`, the
dual-table indices `j * numLabels + l` at the member's current and fusion labels are less
than `k * numLabels`. -/
theorem C36_labels_stay_in_range (e : MLE) (pc : ProposalCallback) (oracle : FlowOracle)
    (niters n : Nat) (s' : SoSPD) (hnl : 1 ≤ e.numLabels)
    (hrun : SolveCount oracle niters ((SoSPD.new e).SetProposalCallback pc) = .ok (s', n)) :
    s'.m_energy = e ∧ s'.m_num_labels = e.numLabels ∧
    (∀ i < e.numVars, s'.m_labels i < e.numLabels ∧ s'.m_fusion_labels i < e.numLabels) ∧
    ∀ c ∈ e.cliques, (∀ v ∈ c.nodes, v < e.numVars) → ∀ j < c.size,
      j * e.numLabels + s'.m_labels (c.nodes.getD j 0) < c.size * e.numLabels ∧
      j * e.numLabels + s'.m_fusion_labels (c.nodes.getD j 0) < c.size * e.numLabels := by
  unfold SolveCount at hrun
  cases hi : Solve_init ((SoSPD.new e).SetProposalCallback pc) with
  | error f => rw [hi] at hrun; cases hrun
  | ok sI =>
    rw [hi] at hrun
    simp only [] at hrun
    obtain ⟨_, i2, i3⟩ := Solve_init_frame _ sI hi
    obtain ⟨i4, _⟩ := Solve_init_labels _ sI rfl hi
    have i5 := Solve_init_fusion _ sI hi
    have hrI : ∀ i < e.numVars,
        sI.m_labels i < e.numLabels ∧ sI.m_fusion_labels i < e.numLabels := by
      intro i _
      rw [i4, i5]
      exact ⟨InitialLabeling_lt ((SoSPD.new e).SetProposalCallback pc) i hnl, hnl⟩
    obtain ⟨r1, r2, r3⟩ := Solve_loop_range e hnl oracle niters sI s' n i2 i3 hrI hrun
    refine ⟨r1, r2, r3, fun c _ hnodes j hj => ?_⟩
    have hv : c.nodes.getD j 0 < e.numVars := hnodes _ (getD_mem_of_lt c.nodes j hj)
    obtain ⟨q1, q2⟩ := r3 _ hv
    have hmul : (j + 1) * e.numLabels ≤ c.size * e.numLabels :=
      Nat.mul_le_mul_right _ hj
    rw [Nat.add_mul, Nat.one_mul] at hmul
    exact ⟨by omega, by omega⟩

theorem C36_labels_stay_in_range_witness :
    1 ≤ exampleEnergy.numLabels ∧
    ∃ s', SolveCount exampleOracle 2
        ((SoSPD.new exampleEnergy).SetProposalCallback
          (ProposalCallback.custom (fun _ _ _ i => if i = 0 then 7 else -3))) = .ok (s', 2) ∧
      (s'.m_labels 0, s'.m_labels 1, s'.m_fusion_labels 0, s'.m_fusion_labels 1)
        = (0, 0, 1, 0) ∧
      (∀ i < exampleEnergy.numVars,
        s'.m_labels i < exampleEnergy.numLabels ∧
        s'.m_fusion_labels i < exampleEnergy.numLabels) := by
  have hrun : observe (SolveCount exampleOracle 2
      ((SoSPD.new exampleEnergy).SetProposalCallback
        (ProposalCallback.custom (fun _ _ _ i => if i = 0 then 7 else -3))))
      (fun r => (r.2, r.1.m_labels 0, r.1.m_labels 1, r.1.m_fusion_labels 0,
        r.1.m_fusion_labels 1)) = some (2, 0, 0, 1, 0) := by decide!
  obtain ⟨⟨s', k⟩, hr, hk⟩ := observe_eq_some hrun
  simp only [Prod.mk.injEq] at hk
  obtain ⟨rfl, h1, h2, h3, h4⟩ := hk
  exact ⟨by decide, s', hr, by rw [h1, h2, h3, h4],
    (C36_labels_stay_in_range exampleEnergy
      (ProposalCallback.custom (fun _ _ _ i => if i = 0 then 7 else -3)) exampleOracle 2 2 s'
      (by decide) hr).2.2.1⟩

/-! ## `LowerBound`: frame and internal assertion -/

theorem triple_getD_lt (nl b0 b1 b2 : Nat) (hb0 : b0 < nl) (hb1 : b1 < nl) (hb2 : b2 < nl) :
    ∀ i < 3, [b0, b1, b2].getD i 0 < nl := by
  intro i hi
  rcases (by omega : i = 0 ∨ i = 1 ∨ i = 2) with h | h | h <;> subst h <;> simpa

theorem LowerBound_triple_frame (s : SoSPD) (c : Clique) (b0 b1 b2 : Nat)
    (hb0 : b0 < s.m_num_labels) (hb1 : b1 < s.m_num_labels) (hb2 : b2 < s.m_num_labels)
    (st st' : (Nat → Int) × (Nat → Int))
    (h : LowerBound_triple s c [b0, b1, b2] st = .ok st') :
    ∀ i < 3, s.m_labels (c.nodes.getD i 0) < s.m_num_labels →
      st'.1 (i * s.m_num_labels + s.m_labels (c.nodes.getD i 0))
        = st.1 (i * s.m_num_labels + s.m_labels (c.nodes.getD i 0)) := by
  have hb := triple_getD_lt s.m_num_labels b0 b1 b2 hb0 hb1 hb2
  unfold LowerBound_triple at h
  simp only [] at h
  by_cases he : c.energy [b0, b1, b2] = 0
  · rw [if_pos he] at h
    cases hf : (List.range 3).find?
        (fun i => decide ([b0, b1, b2].getD i 0 ≠ s.m_labels (c.nodes.getD i 0))) with
    | some i =>
      rw [hf] at h
      simp only [Except.ok.injEq] at h
      subst h
      have hsp := find?_some_spec
        (fun i => decide ([b0, b1, b2].getD i 0 ≠ s.m_labels (c.nodes.getD i 0)))
        (List.range 3) i hf
      have hi : i < 3 := List.mem_range.mp hsp.2
      have hne : [b0, b1, b2].getD i 0 ≠ s.m_labels (c.nodes.getD i 0) :=
        of_decide_eq_true hsp.1
      intro i' hi' hl'
      simp only []
      rw [Function.update_noteq]
      intro heq
      have := flat_index_inj s.m_num_labels i' i _ _ hl' (hb i hi) heq
      subst this
      apply hne
      omega
    | none =>
      rw [hf] at h
      simp only [] at h
      split_ifs at h
      simp only [Except.ok.injEq] at h
      subst h
      exact fun _ _ _ => rfl
  · rw [if_neg he] at h
    simp only [Except.ok.injEq] at h
    subst h
    exact fun _ _ _ => rfl

theorem LowerBound_labels_frame (s : SoSPD) (c : Clique)
    (st st' : (Nat → Int) × (Nat → Int)) (h : LowerBound_labels s c st = .ok st') :
    ∀ i < 3, s.m_labels (c.nodes.getD i 0) < s.m_num_labels →
      st'.1 (i * s.m_num_labels + s.m_labels (c.nodes.getD i 0))
        = st.1 (i * s.m_num_labels + s.m_labels (c.nodes.getD i 0)) := by
  unfold LowerBound_labels at h
  refine forEachE_invariant
    (fun x : (Nat → Int) × (Nat → Int) =>
      ∀ i < 3, s.m_labels (c.nodes.getD i 0) < s.m_num_labels →
        x.1 (i * s.m_num_labels + s.m_labels (c.nodes.getD i 0))
          = st.1 (i * s.m_num_labels + s.m_labels (c.nodes.getD i 0)))
    _ _ (fun b0 hb0 x0 x0' hP0 hr0 => ?_) st st' (fun _ _ _ => rfl) h
  refine forEachE_invariant
    (fun x : (Nat → Int) × (Nat → Int) =>
      ∀ i < 3, s.m_labels (c.nodes.getD i 0) < s.m_num_labels →
        x.1 (i * s.m_num_labels + s.m_labels (c.nodes.getD i 0))
          = st.1 (i * s.m_num_labels + s.m_labels (c.nodes.getD i 0)))
    _ _ (fun b1 hb1 x1 x1' hP1 hr1 => ?_) x0 x0' hP0 hr0
  refine forEachE_invariant
    (fun x : (Nat → Int) × (Nat → Int) =>
      ∀ i < 3, s.m_labels (c.nodes.getD i 0) < s.m_num_labels →
        x.1 (i * s.m_num_labels + s.m_labels (c.nodes.getD i 0))
          = st.1 (i * s.m_num_labels + s.m_labels (c.nodes.getD i 0)))
    _ _ (fun b2 hb2 x2 x2' hP2 hr2 => ?_) x1 x1' hP1 hr1
  intro i hi hl
  rw [LowerBound_triple_frame s c b0 b1 b2 (List.mem_range.mp hb0) (List.mem_range.mp hb1)
    (List.mem_range.mp hb2) x2 x2' hr2 i hi hl]
  exact hP2 i hi hl

theorem LowerBound_run_frame (cs : List Clique) (i0 : Nat) (s t t' : SoSPD)
    (hlab : t.m_labels = s.m_labels) (hnl : t.m_num_labels = s.m_num_labels)
    (hrun : forCliques LowerBound_clique cs i0 t = .ok t') :
    t'.m_labels = s.m_labels ∧ t'.m_num_labels = s.m_num_labels ∧
    (∀ c ∈ cs, c.size = 3) ∧
    (∀ q, q < i0 → t'.m_dual q = t.m_dual q) ∧
    ∀ p c, cs[p]? = some c → ∀ i < 3, s.m_labels (c.nodes.getD i 0) < s.m_num_labels →
      t'.m_dual (i0 + p) (i * s.m_num_labels + s.m_labels (c.nodes.getD i 0))
        = t.m_dual (i0 + p) (i * s.m_num_labels + s.m_labels (c.nodes.getD i 0)) := by
  induction cs generalizing i0 t with
  | nil =>
    simp only [forCliques, Except.ok.injEq] at hrun
    subst hrun
    refine ⟨hlab, hnl, fun c hc => ?_, fun _ _ => rfl, fun p c h => ?_⟩
    · cases hc
    · simp at h
  | cons c0 cs ih =>
    simp only [forCliques] at hrun
    cases hstep : LowerBound_clique i0 c0 t with
    | error f => rw [hstep] at hrun; cases hrun
    | ok t1 =>
      rw [hstep] at hrun
      simp only [] at hrun
      obtain ⟨k3, f1, _, f3, _, r, hr, hd, _⟩ := LowerBound_clique_frame i0 c0 t t1 hstep
      obtain ⟨a1, a2, a3, a4, a5⟩ := ih (i0 + 1) t1 (f1.trans hlab) (f3.trans hnl) hrun
      refine ⟨a1, a2, ?_, fun q hq => ?_, fun p c hpc i hi hl => ?_⟩
      · intro c hc
        rcases List.mem_cons.mp hc with h | h
        · subst h
          exact k3
        · exact a3 c h
      · rw [a4 q (by omega), hd, Function.update_noteq (by omega)]
      · cases p with
        | zero =>
          simp only [List.getElem?_cons_zero, Option.some.injEq] at hpc
          subst hpc
          rw [Nat.add_zero, a4 i0 (by omega), hd, Function.update_same]
          have hfr := LowerBound_labels_frame t c0 (t.m_dual i0, t.m_heights) r hr i hi
          rw [hlab, hnl] at hfr
          exact hfr hl
        | succ p =>
          have := a5 p c (by simpa using hpc) i hi hl
          rw [show i0 + 1 + p = i0 + (p + 1) by omega] at this
          rw [this, hd, Function.update_noteq (by omega)]

/-- C37. `LowerBound` preserves the primal solution and tightness: on a state where the
current labels of the clique members are labels of the model, when `LowerBound` returns
(all cliques then have size 3) the current labeling is unchanged, no dual entry
`(clique, i, l)` with `l` the current label of the clique's `i`-th node has been modified,
and so the tightness sum of every clique at the current labeling is the same as before and
the clique is tight afterwards if and only if it was before. -/
theorem C37_LowerBound_preserves_primal_and_tightness (s s' : SoSPD)
    (hl : ∀ c ∈ s.m_energy.cliques, ∀ v ∈ c.nodes, s.m_labels v < s.m_num_labels)
    (hrun : LowerBound s = .ok s') :
    (∀ c ∈ s.m_energy.cliques, c.size = 3) ∧
    s'.m_labels = s.m_labels ∧ s'.m_num_labels = s.m_num_labels ∧
    (∀ ci c, s.m_energy.cliques[ci]? = some c → ∀ i < c.size,
      s'.dualVariable ci i (s.m_labels (c.nodes.getD i 0))
        = s.dualVariable ci i (s.m_labels (c.nodes.getD i 0))) ∧
    (∀ ci c, s.m_energy.cliques[ci]? = some c →
      lambdaSum s' ci c = lambdaSum s ci c ∧ (Tight s' ci c ↔ Tight s ci c)) := by
  unfold LowerBound at hrun
  obtain ⟨a1, a2, a3, _, a5⟩ :=
    LowerBound_run_frame s.m_energy.cliques 0 s s s' rfl rfl hrun
  have hd : ∀ ci c, s.m_energy.cliques[ci]? = some c → ∀ i < c.size,
      s'.dualVariable ci i (s.m_labels (c.nodes.getD i 0))
        = s.dualVariable ci i (s.m_labels (c.nodes.getD i 0)) := by
    intro ci c hc i hi
    have hmem := mem_of_getElem?_eq hc
    have h3 := a3 c hmem
    have := a5 ci c hc i (by omega) (hl c hmem _ (getD_mem_of_lt c.nodes i hi))
    rw [Nat.zero_add] at this
    unfold SoSPD.dualVariable
    rw [a2]
    exact this
  have hsum : ∀ ci c, s.m_energy.cliques[ci]? = some c →
      lambdaSum s' ci c = lambdaSum s ci c := by
    intro ci c hc
    unfold lambdaSum
    congr 1
    apply List.map_congr_left
    intro i hi
    rw [a1]
    exact hd ci c hc i (List.mem_range.mp hi)
  refine ⟨a3, a1, a2, hd, fun ci c hc => ⟨hsum ci c hc, ?_⟩⟩
  have hs := hsum ci c hc
  unfold lambdaSum at hs
  unfold Tight
  rw [hs, a1]

theorem C37_LowerBound_preserves_primal_and_tightness_witness :
    (∀ c ∈ tripleShiftedState.m_energy.cliques, ∀ v ∈ c.nodes,
      tripleShiftedState.m_labels v < tripleShiftedState.m_num_labels) ∧
    tripleShiftedState.dualVariable 0 0 1 = 4 ∧
    ∃ s', LowerBound tripleShiftedState = .ok s' ∧ s'.dualVariable 0 0 1 = 0 ∧
      s'.m_labels = tripleShiftedState.m_labels ∧
      lambdaSum s' 0 tripleClique = lambdaSum tripleShiftedState 0 tripleClique := by
  have hl : ∀ c ∈ tripleShiftedState.m_energy.cliques, ∀ v ∈ c.nodes,
      tripleShiftedState.m_labels v < tripleShiftedState.m_num_labels :=
    fun _ _ _ _ => Nat.zero_lt_two
  have hrun : observe (LowerBound tripleShiftedState) (fun s' => s'.dualVariable 0 0 1)
      = some 0 := by decide!
  obtain ⟨s', hs', hd⟩ := observe_eq_some hrun
  have h := C37_LowerBound_preserves_primal_and_tightness tripleShiftedState s' hl hs'
  exact ⟨hl, by decide, s', hs', hd, h.2.1, (h.2.2.2.2 0 tripleClique rfl).1⟩

theorem LowerBound_triple_sum (s : SoSPD) (c : Clique) (orig : Nat → Int)
    (ht : orig (0 * s.m_num_labels + s.m_labels (c.nodes.getD 0 0))
      + orig (1 * s.m_num_labels + s.m_labels (c.nodes.getD 1 0))
      + orig (2 * s.m_num_labels + s.m_labels (c.nodes.getD 2 0))
      = c.energy [s.m_labels (c.nodes.getD 0 0), s.m_labels (c.nodes.getD 1 0),
        s.m_labels (c.nodes.getD 2 0)])
    (b0 b1 b2 : Nat) (hb0 : b0 < s.m_num_labels) (hb1 : b1 < s.m_num_labels)
    (hb2 : b2 < s.m_num_labels) (st : (Nat → Int) × (Nat → Int))
    (hP : ∀ i < 3, s.m_labels (c.nodes.getD i 0) < s.m_num_labels →
      st.1 (i * s.m_num_labels + s.m_labels (c.nodes.getD i 0))
        = orig (i * s.m_num_labels + s.m_labels (c.nodes.getD i 0)))
    (he : c.energy [b0, b1, b2] = 0) :
    ∃ st', LowerBound_triple s c [b0, b1, b2] st = .ok st' ∧
      st'.1 (0 * s.m_num_labels + b0) + st'.1 (1 * s.m_num_labels + b1)
        + st'.1 (2 * s.m_num_labels + b2) = c.energy [b0, b1, b2] := by
  obtain ⟨st', hst', _⟩ := LowerBound_triple_ok s c orig ht b0 b1 b2 hb0 hb1 hb2 st hP
  refine ⟨st', hst', ?_⟩
  unfold LowerBound_triple at hst'
  simp only [] at hst'
  rw [if_pos he] at hst'
  have hne : ∀ (i j : Nat) (x y : Nat), x < s.m_num_labels → y < s.m_num_labels → i ≠ j →
      j * s.m_num_labels + y ≠ i * s.m_num_labels + x := by
    intro i j x y hx hy hij heq
    exact hij (flat_index_inj s.m_num_labels j i y x hy hx heq).symm
  cases hf : (List.range 3).find?
      (fun i => decide ([b0, b1, b2].getD i 0 ≠ s.m_labels (c.nodes.getD i 0))) with
  | some i =>
    rw [hf] at hst'
    simp only [Except.ok.injEq] at hst'
    subst hst'
    have hi : i < 3 := List.mem_range.mp (find?_some_spec _ _ i hf).2
    simp only [List.getD_cons_zero, List.getD_cons_succ]
    rcases (by omega : i = 0 ∨ i = 1 ∨ i = 2) with h | h | h <;> subst h
    · simp only [List.getD_cons_zero]
      rw [Function.update_same, Function.update_noteq (hne 0 1 b0 b1 hb0 hb1 (by decide)),
        Function.update_noteq (hne 0 2 b0 b2 hb0 hb2 (by decide))]
      rw [he]
      ring
    · simp only [List.getD_cons_zero, List.getD_cons_succ]
      rw [Function.update_same, Function.update_noteq (hne 1 0 b1 b0 hb1 hb0 (by decide)),
        Function.update_noteq (hne 1 2 b1 b2 hb1 hb2 (by decide))]
      rw [he]
      ring
    · simp only [List.getD_cons_zero, List.getD_cons_succ]
      rw [Function.update_same, Function.update_noteq (hne 2 0 b2 b0 hb2 hb0 (by decide)),
        Function.update_noteq (hne 2 1 b2 b1 hb2 hb1 (by decide))]
      rw [he]
      ring
  | none =>
    rw [hf] at hst'
    simp only [] at hst'
    split_ifs at hst' with hsum
    simp only [Except.ok.injEq] at hst'
    subst hst'
    simp only [List.getD_cons_zero, List.getD_cons_succ] at hsum
    exact hsum

/-- C38. The internal assertion of `LowerBound` is valid under tightness: on a state whose
cliques all have size 3 and satisfy the tightness invariant at the current labeling,
`LowerBound` returns, so the assertion `dualSum == energy` fails for no label triple; and
for every clique and every zero-energy label triple, whatever the earlier rounds of the
loop did to the other entries of the table, the round of that triple returns and leaves the
three dual entries of the triple with sum equal to the energy 0 (after the adjustment when
the triple differs from the current labeling, at once when it equals it). -/
theorem C38_LowerBound_assertion_valid (s : SoSPD)
    (h3 : ∀ c ∈ s.m_energy.cliques, c.size = 3)
    (ht : ∀ ci c, s.m_energy.cliques[ci]? = some c → Tight s ci c) :
    (∃ s', LowerBound s = .ok s') ∧
    LowerBound s ≠ .error .dualSumMismatch ∧
    ∀ ci c, s.m_energy.cliques[ci]? = some c →
      ∀ b0 < s.m_num_labels, ∀ b1 < s.m_num_labels, ∀ b2 < s.m_num_labels,
      ∀ st : (Nat → Int) × (Nat → Int),
        (∀ i < 3, s.m_labels (c.nodes.getD i 0) < s.m_num_labels →
          st.1 (i * s.m_num_labels + s.m_labels (c.nodes.getD i 0))
            = s.m_dual ci (i * s.m_num_labels + s.m_labels (c.nodes.getD i 0))) →
        c.energy [b0, b1, b2] = 0 →
        ∃ st', LowerBound_triple s c [b0, b1, b2] st = .ok st' ∧
          st'.1 (0 * s.m_num_labels + b0) + st'.1 (1 * s.m_num_labels + b1)
            + st'.1 (2 * s.m_num_labels + b2) = 0 := by
  obtain ⟨s', hs'⟩ := (LowerBound_loop s.m_energy.cliques 0 s (fun p c h => by
    rw [Nat.zero_add]
    exact ht p c h)).2 h3
  refine ⟨⟨s', hs'⟩, ?_, fun ci c hc b0 hb0 b1 hb1 b2 hb2 st hP he => ?_⟩
  · unfold LowerBound
    rw [hs']
    intro h
    cases h
  · obtain ⟨st', h1, h2⟩ := LowerBound_triple_sum s c (s.m_dual ci)
      (Tight_triple s ci c (h3 c (mem_of_getElem?_eq hc)) (ht ci c hc))
      b0 b1 b2 hb0 hb1 hb2 st hP he
    exact ⟨st', h1, by rw [h2, he]⟩

theorem C38_LowerBound_assertion_valid_witness :
    (∀ c ∈ tripleShiftedState.m_energy.cliques, c.size = 3) ∧
    (∀ ci c, tripleShiftedState.m_energy.cliques[ci]? = some c →
      Tight tripleShiftedState ci c) ∧
    ∃ s', LowerBound tripleShiftedState = .ok s' := by
  have h3 : ∀ c ∈ tripleShiftedState.m_energy.cliques, c.size = 3 := by
    intro c hc
    have : c = tripleClique := List.mem_singleton.mp hc
    subst this
    rfl
  have ht : ∀ ci c, tripleShiftedState.m_energy.cliques[ci]? = some c →
      Tight tripleShiftedState ci c := by
    intro ci c h
    cases ci with
    | zero =>
      have hc : c = tripleClique := by
        have h' : (some tripleClique : Option Clique) = some c := h
        exact (Option.some.inj h').symm
      subst hc
      unfold Tight
      decide
    | succ n =>
      have h' : (none : Option Clique) = some c := h
      cases h'
  exact ⟨h3, ht, (C38_LowerBound_assertion_valid tripleShiftedState h3 ht).1⟩

end sospd
